import Mathlib

/-!
# Ariel evaluator: a shallow embedding of `eval/eval.go`, `eval/builtin.go`,
`object/object.go`, `object/state.go` and `ast/ast.go`

Conventions of the embedding.

* A Go interface value (`object.Object`, `ast.Statement`, `ast.Expression`) may be
  the nil interface; every embedded interface type has a `nil` constructor.
* A method call or type assertion on a nil interface, an index out of range,
  `make` with a negative length, an integer `%` by zero and a shift by a negative
  count are run-time panics of Go; they are the outcome `Res.panic`.
* `Eval` recurses through loops and calls, so it takes a fuel argument;
  `Res.timeout` is the outcome of running out of fuel.
* `*object.State` is a map that the evaluator updates in place; a function that
  takes `s *object.State` returns the updated store next to its result.
* `[]object.Object` is a slice: a handle on a backing array that index
  assignment updates in place. Handles are references into `World.cells`.
* `int64` is `Int` reduced by `wrap64`; `int` is taken to be 64 bits wide.
* `float64` is its IEEE-754 binary64 bit pattern (`F64`).
-/

namespace Ariel

/-! ## int64 -/

/-- Two's-complement reduction of an integer to the int64 range. -/
def wrap64 (x : Int) : Int := (x + 2 ^ 63) % 2 ^ 64 - 2 ^ 63

/-- The int64 range. -/
def isInt64 (x : Int) : Prop := -(2 ^ 63) ≤ x ∧ x < 2 ^ 63

instance (x : Int) : Decidable (isInt64 x) := by unfold isInt64; infer_instance

/-! ## float64 -/

/-- An IEEE-754 binary64 value, as its 64-bit pattern. -/
structure F64 where
  bits : Nat
deriving DecidableEq, Repr

namespace F64

def sign (x : F64) : Bool := x.bits / 2 ^ 63 % 2 == 1
def expo (x : F64) : Nat := x.bits / 2 ^ 52 % 2 ^ 11
def frac (x : F64) : Nat := x.bits % 2 ^ 52
def isNaN (x : F64) : Bool := x.expo == 2047 && x.frac != 0
def isInf (x : F64) : Bool := x.expo == 2047 && x.frac == 0
def isZero (x : F64) : Bool := x.expo == 0 && x.frac == 0

def signBit (neg : Bool) : Nat := if neg then 2 ^ 63 else 0
def zero (neg : Bool) : F64 := ⟨signBit neg⟩
def inf (neg : Bool) : F64 := ⟨signBit neg + 2047 * 2 ^ 52⟩
/-- The quiet NaN an arithmetic operation produces (its payload is not observable
in the language: a NaN compares unequal to everything and prints as `NaN`). -/
def nan : F64 := ⟨2047 * 2 ^ 52 + 2 ^ 51⟩

/-- Magnitude of a finite value. -/
def mag (x : F64) : ℚ :=
  if x.expo = 0 then (x.frac : ℚ) * (2 : ℚ) ^ (-1074 : Int)
  else ((2 ^ 52 + x.frac : Nat) : ℚ) * (2 : ℚ) ^ ((x.expo : Int) - 1075)

def toRat (x : F64) : ℚ := if x.sign then -x.mag else x.mag

/-- Round a non-negative rational to the nearest integer, ties to even. -/
def roundHalfEven (r : ℚ) : Nat :=
  let f := r.floor.toNat
  let d := r - f
  if d < 1 / 2 then f else if 1 / 2 < d then f + 1 else if f % 2 = 0 then f else f + 1

/-- Round a positive rational magnitude to binary64 (round to nearest, ties to
even; overflow gives infinity). -/
def ofMag (neg : Bool) (q : ℚ) : F64 :=
  let e : Int := Int.log 2 q
  let E : Int := max (e + 1023) 1
  let n := roundHalfEven (q * (2 : ℚ) ^ (1075 - E))
  let b := (E.toNat - 1) * 2 ^ 52 + n
  if 2047 * 2 ^ 52 ≤ b then inf neg else ⟨signBit neg + b⟩

/-- Round an exact result; `zneg` is the sign of an exact zero result. -/
def ofRat (q : ℚ) (zneg : Bool) : F64 :=
  if q = 0 then zero zneg else ofMag (decide (q < 0)) |q|

/-- The unary `-` of Go on a float64: the sign bit is flipped. -/
def neg (x : F64) : F64 := if x.sign then ⟨x.bits - 2 ^ 63⟩ else ⟨x.bits + 2 ^ 63⟩

/-- The function `math.Abs`: the sign bit is cleared. -/
def abs (x : F64) : F64 := ⟨x.bits % 2 ^ 63⟩

def add (x y : F64) : F64 :=
  if x.isNaN || y.isNaN then nan
  else if x.isInf then (if y.isInf && (x.sign != y.sign) then nan else x)
  else if y.isInf then y
  else ofRat (x.toRat + y.toRat) (x.sign && y.sign)

def sub (x y : F64) : F64 := add x (neg y)

def mul (x y : F64) : F64 :=
  if x.isNaN || y.isNaN then nan
  else if x.isInf || y.isInf then
    (if x.isZero || y.isZero then nan else inf (x.sign != y.sign))
  else if x.isZero || y.isZero then zero (x.sign != y.sign)
  else ofMag (x.sign != y.sign) (x.mag * y.mag)

def div (x y : F64) : F64 :=
  if x.isNaN || y.isNaN then nan
  else if x.isInf then (if y.isInf then nan else inf (x.sign != y.sign))
  else if y.isInf then zero (x.sign != y.sign)
  else if y.isZero then (if x.isZero then nan else inf (x.sign != y.sign))
  else if x.isZero then zero (x.sign != y.sign)
  else ofMag (x.sign != y.sign) (x.mag / y.mag)

/-- Order key of a value that is not a NaN: sign and magnitude bits. -/
def key (x : F64) : Int := if x.sign then -((x.bits % 2 ^ 63 : Nat) : Int) else (x.bits % 2 ^ 63 : Nat)

def eq (x y : F64) : Bool := !x.isNaN && !y.isNaN && decide (x.key = y.key)
def lt (x y : F64) : Bool := !x.isNaN && !y.isNaN && decide (x.key < y.key)
def le (x y : F64) : Bool := !x.isNaN && !y.isNaN && decide (x.key ≤ y.key)

def pad6 (n : Nat) : String :=
  let d := toString n
  String.mk (List.replicate (6 - d.length) '0') ++ d

/-- The rendering `fmt.Sprintf("%f", x)`. -/
def fmt (x : F64) : String :=
  if x.isNaN then "NaN"
  else if x.isInf then (if x.sign then "-Inf" else "+Inf")
  else
    let n := roundHalfEven (x.mag * 1000000)
    (if x.sign then "-" else "") ++ toString (n / 1000000) ++ "." ++ pad6 (n % 1000000)

end F64

/-! ## AST (`ast/ast.go`) -/

/-- The struct `ast.Param`; `ast.Type` and `ast.Identifier` are their one string field. -/
structure Param where
  type : String
  ident : String
  array : Bool
deriving DecidableEq, Repr

mutual
/-- The interface `ast.Expression`: its implementing structs, with their fields in
the order of the source, and the nil interface. -/
inductive Expr where
  | nil
  | PrefixExpr (op : String) (right : Expr)
  | InfixExpr (left : Expr) (op : String) (right : Expr)
  | Assign (ident : String) (value : Expr)
  | AssignExpr (ident : String) (op : String) (value : Expr)
  | Call (function : String) (arguments : List Expr) (void : Bool)
  | Identifier (name : String)
  | CharCon (value : String)
  | IntCon (value : Int)
  | FloatCon (value : F64)
  | StringCon (value : String)
  | Bool (value : Bool)
  | Array (elements : List Expr)
  | IndexExpr (ident : String) (index : Expr)
  | AssignIndexExpr (ident : String) (index : Expr) (value : Expr)
  | AssignExprIndexExpr (ident : String) (index : Expr) (op : String) (value : Expr)
/-- The interface `ast.Statement`, likewise. -/
inductive Stmt where
  | nil
  | FuncDecl (type : String) (ident : String) (parameters : List Param) (body : List Stmt)
  | VarDecl (type : String) (ident : String) (value : Expr) (initialized : Bool)
  | Block (statements : List Stmt)
  | While (condition : Expr) (body : Stmt)
  | For (init : Expr) (condition : Expr) (increment : Expr) (body : Stmt)
      (varDecl : Bool) (type : String) (ident : String) (value : Expr)
  | IfElse (condition : Expr) (consequence : Stmt) (alternative : Stmt) (hasAlternative : Bool)
  | Return (value : Expr) (void : Bool)
  | ExprStmt (expression : Expr)
end

/-- The interface `ast.Node` as `Eval` receives it. -/
inductive Node where
  | Program (statements : List Stmt)
  | stmt (s : Stmt)
  | expr (e : Expr)

/-! ## Objects (`object/object.go`) -/

inductive ObjectType where
  | ErrorObj | CharObj | IntObj | FloatObj | StringObj | BoolObj
  | ArrObj | ReturnObj | FuncDeclObj | BuiltInObj
deriving DecidableEq, Repr

/-- The three entries of the `builtins` table; a value stands for the Go closure. -/
inductive BuiltInFunc where
  | println | print | rand
deriving DecidableEq, Repr

/-- The interface `object.Object`. `Array.elements` is the slice handle: a
reference to a backing array in `World.cells`. The field `State *State` of
`object.FuncDecl` (a pointer to the declaring store, which no code reads) is
left out. -/
inductive Object where
  | nil
  | Error (message : String)
  | Char (value : String)
  | Int (value : Int)
  | Float (value : F64)
  | String (value : String)
  | Bool (value : Bool)
  | Array (elementType : String) (elements : Nat)
  | Return (value : Object)
  | FuncDecl (returnType : String) (ident : String) (parameters : List Param) (body : List Stmt)
  | BuiltIn (function : BuiltInFunc)

instance : Inhabited Object := ⟨Object.nil⟩

/-! ## Outcomes -/

/-- Outcome of a computation that may panic or run out of fuel. -/
inductive Res (α : Type) where
  | ok (a : α)
  | panic
  | timeout

namespace Res

def bind {α β : Type} (x : Res α) (f : α → Res β) : Res β :=
  match x with
  | ok a => f a
  | panic => panic
  | timeout => timeout

instance : Monad Res where
  pure := Res.ok
  bind := Res.bind

def isOk {α : Type} : Res α → Bool
  | ok _ => true
  | _ => false

def isPanic {α : Type} : Res α → Bool
  | panic => true
  | _ => false

end Res

/-- The method `Type()`; calling it on the nil interface panics. -/
def Object.Type : Object → Res ObjectType
  | Object.nil => Res.panic
  | Object.Error _ => Res.ok ObjectType.ErrorObj
  | Object.Char _ => Res.ok ObjectType.CharObj
  | Object.Int _ => Res.ok ObjectType.IntObj
  | Object.Float _ => Res.ok ObjectType.FloatObj
  | Object.String _ => Res.ok ObjectType.StringObj
  | Object.Bool _ => Res.ok ObjectType.BoolObj
  | Object.Array _ _ => Res.ok ObjectType.ArrObj
  | Object.Return _ => Res.ok ObjectType.ReturnObj
  | Object.FuncDecl _ _ _ _ => Res.ok ObjectType.FuncDeclObj
  | Object.BuiltIn _ => Res.ok ObjectType.BuiltInObj

def ObjString : Object → String
  | Object.Char _ => "char"
  | Object.Int _ => "int"
  | Object.Float _ => "float"
  | Object.String _ => "string"
  | Object.Bool _ => "bool"
  | Object.Array _ _ => "array"
  | Object.Return _ => "return"
  | Object.FuncDecl _ _ _ _ => "funcdecl"
  | Object.BuiltIn _ => "builtin"
  | _ => ""

/-! ## The store (`object/state.go`) -/

/-- The struct `object.State`: the map `store`, as an association list that holds
each key once. -/
structure State where
  store : List (String × Object)

def NewState : State := ⟨[]⟩

def NewCopiedState (s : State) : State := ⟨s.store⟩

def State.Get (s : State) (id : String) : Option Object := s.store.lookup id

/-- The map write `store[id] = val`. -/
def storeSet (id : String) (val : Object) : List (String × Object) → List (String × Object)
  | [] => [(id, val)]
  | (k, v) :: rest => if k = id then (id, val) :: rest else (k, v) :: storeSet id val rest

def State.Set (s : State) (id : String) (val : Object) : State := ⟨storeSet id val s.store⟩

/-- Every key of `s` is rebound to `t.store[key]`, the nil interface when `t` has
no such key. -/
def UpdateState (s t : State) : State :=
  ⟨s.store.map (fun kv => (kv.1, (t.Get kv.1).getD Object.nil))⟩

/-- The loop `for key, val := range t.store` of `CopyFunctions`; `val` is the
value of the map `t` at `key`. -/
def copyFunctionsLoop (t : State) : List (String × Object) → State → Res State
  | [], s => pure s
  | kv :: rest, s => do
    let val := (t.Get kv.1).getD Object.nil
    let ty ← val.Type
    if ty = ObjectType.FuncDeclObj then copyFunctionsLoop t rest (s.Set kv.1 val)
    else copyFunctionsLoop t rest s

/-- Every binding of `t` whose value has type `FuncDeclObj` is written to `s`. -/
def CopyFunctions (s t : State) : Res State := copyFunctionsLoop t t.store s

/-! ## The world outside the store -/

/-- What the evaluator takes from outside the source tree: the colour codes of
package `color`, the text filter `misc.Flounder`, the sequence of values that
`rand.Int63` returns, and the largest length for which the Go runtime grants
`make([]object.Object, n)`: beyond it `make` panics (`len out of range`) or the
runtime aborts for lack of memory. -/
structure Host where
  red : String
  reset : String
  flounder : String → String
  rand : Nat → Nat
  maxLen : Nat

/-- The backing arrays of all slices, the number of `rand.Int63` draws made, and
the text written to standard output. -/
structure World where
  cells : List (List Object)
  rng : Nat
  out : List String

def World.elems (w : World) (ref : Nat) : List Object := (w.cells.get? ref).getD []

/-- A fresh backing array (an empty slice, nil or not, is a handle on a fresh empty
backing array: nothing can be written to it). -/
def World.alloc (w : World) (es : List Object) : Nat × World :=
  (w.cells.length, { w with cells := w.cells ++ [es] })

/-- The element write `arr[idx] = val`. -/
def World.write (w : World) (ref idx : Nat) (val : Object) : World :=
  { w with cells := w.cells.set ref ((w.elems ref).set idx val) }

/-- Result of one evaluation: the returned object, the store as the evaluation
left it, and the world. -/
structure Out where
  val : Object
  s : State
  w : World

def errorObj (H : Host) (msg : String) : Object :=
  Object.Error (H.red ++ H.flounder ("error: " ++ msg) ++ H.reset)

def IsError : Object → Bool
  | Object.Error _ => true
  | _ => false

/-! ## Rendering and the built-in table (`object/object.go`, `eval/builtin.go`) -/

/-- The Go type `string` (named apart from the constructor `Object.String`). -/
abbrev GoString : Type := String

/-- The method `Eval()`: the display text of an object. Rendering an array renders
its elements, so the function takes fuel. -/
def Object.Eval (cells : List (List Object)) : Nat → Object → Res GoString
  | 0, _ => Res.timeout
  | fuel + 1, o =>
    match o with
    | Object.nil => Res.panic
    | Object.Error m => pure m
    | Object.Char v => pure v
    | Object.Int v => pure (toString v)
    | Object.Float v => pure v.fmt
    | Object.String v => pure v
    | Object.Bool v => pure (if v then "true" else "false")
    | Object.Array _ ref =>
      let es := (cells.get? ref).getD []
      if es.length > 0 then do
        let parts ← es.mapM (Object.Eval cells fuel)
        pure ("\x7b " ++ ", ".intercalate parts ++ " \x7d")
      else pure "\x7b\x7d"
    | Object.Return v => Object.Eval cells fuel v
    | Object.FuncDecl _ _ _ _ => pure "function"
    | Object.BuiltIn _ => pure "builtin"

/-- The map `builtins`. -/
def builtins (name : String) : Option BuiltInFunc :=
  if name = "println" then some BuiltInFunc.println
  else if name = "print" then some BuiltInFunc.print
  else if name = "rand" then some BuiltInFunc.rand
  else none

/-- The loop `for _, arg := range args { fmt.Print(arg.Eval()) }`. -/
def printArgs (fuel : Nat) : List Object → World → Res World
  | [], w => pure w
  | a :: rest, w => do
    let t ← a.Eval w.cells fuel
    printArgs fuel rest { w with out := w.out ++ [t] }

/-- Application of a built-in to its evaluated arguments. -/
def BuiltInFunc.call (H : Host) (fuel : Nat) (f : BuiltInFunc) (args : List Object)
    (w : World) : Res (Object × World) :=
  match f with
  | BuiltInFunc.println => do
    let w1 ← printArgs fuel args w
    pure (Object.nil, { w1 with out := w1.out ++ ["\n"] })
  | BuiltInFunc.print => do
    let w1 ← printArgs fuel args w
    pure (Object.nil, w1)
  | BuiltInFunc.rand =>
    if args.length ≠ 0 then pure (errorObj H "too many arguments to rand()", w)
    else pure (Object.Int (H.rand w.rng % 2 ^ 63), { w with rng := w.rng + 1 })

/-! ## The evaluator (`eval/eval.go`)

Every function that calls `Eval` takes it as the argument `ev` (the evaluator
with the fuel that is left); `Eval` below ties the knot. -/

def evalProgramLoop (ev : Node → State → World → Res Out) :
    List Stmt → Object → State → World → Res Out
  | [], result, s, w => pure ⟨result, s, w⟩
  | stmt :: rest, _, s, w => do
    let r ← ev (Node.stmt stmt) s w
    match r.val with
    | Object.Return v => pure ⟨v, r.s, r.w⟩
    | Object.Error _ => pure r
    | _ => evalProgramLoop ev rest r.val r.s r.w

def evalProgram (ev : Node → State → World → Res Out) (p : List Stmt) (s : State)
    (w : World) : Res Out :=
  evalProgramLoop ev p Object.nil s w

def evalFuncDecl (H : Host) (type ident : String) (parameters : List Param)
    (body : List Stmt) (s : State) (w : World) : Res Out :=
  if (s.Get ident).isSome then
    pure ⟨errorObj H (ident ++ " already declared"), s, w⟩
  else
    pure ⟨Object.nil, s.Set ident (Object.FuncDecl type ident parameters body), w⟩

/-- The scalar cases of the `switch vd.Type.Value` of `evalVarDecl`: the object
type each declared type requires. -/
def scalarTag (t : String) : Option ObjectType :=
  if t = "char" then some ObjectType.CharObj
  else if t = "int" then some ObjectType.IntObj
  else if t = "float" then some ObjectType.FloatObj
  else if t = "string" then some ObjectType.StringObj
  else if t = "bool" then some ObjectType.BoolObj
  else none

/-- The array cases of the same switch: the element type name stored in the array
and the object type required of its first element. -/
def arrayElem (t : String) : Option (String × ObjectType) :=
  if t = "chararr" then some ("char", ObjectType.CharObj)
  else if t = "intarr" then some ("int", ObjectType.IntObj)
  else if t = "floatarr" then some ("float", ObjectType.FloatObj)
  else if t = "stringarr" then some ("string", ObjectType.StringObj)
  else if t = "boolarr" then some ("bool", ObjectType.BoolObj)
  else none

/-- The value an uninitialized declaration stores, per required object type. -/
def zeroValue : ObjectType → Object
  | ObjectType.CharObj => Object.Char ""
  | ObjectType.IntObj => Object.Int 0
  | ObjectType.FloatObj => Object.Float (F64.zero false)
  | ObjectType.StringObj => Object.String ""
  | ObjectType.BoolObj => Object.Bool false
  | _ => Object.nil

def isHeterogeneousLoop (first : Object) : List Object → Res Bool
  | [] => pure true
  | element :: rest => do
    let te ← element.Type
    let t0 ← first.Type
    if te ≠ t0 then pure false else isHeterogeneousLoop first rest

/-- The function `isHeterogeneous`, on the elements of the array: true when all
elements have the type of the first one. -/
def isHeterogeneous (elements : List Object) : Res Bool :=
  match elements with
  | [] => pure true
  | first :: _ => isHeterogeneousLoop first elements

def evalVarDecl (H : Host) (ev : Node → State → World → Res Out) (type ident : String)
    (value : Expr) (initialized : Bool) (s : State) (w : World) : Res Out :=
  if (s.Get ident).isSome then
    pure ⟨errorObj H (ident ++ " already declared"), s, w⟩
  else if initialized then do
    let r ← ev (Node.expr value) s w
    if IsError r.val then pure r
    else
      match scalarTag type with
      | some tag => do
        let ty ← r.val.Type
        if ty ≠ tag then
          pure ⟨errorObj H ("mismatched types: " ++ type ++ " " ++ ident ++ " = "
            ++ ObjString r.val), r.s, r.w⟩
        else pure ⟨Object.nil, r.s.Set ident r.val, r.w⟩
      | none =>
        match arrayElem type with
        | some (el, tag) => do
          let r2 ← ev (Node.expr value) r.s r.w
          match r2.val with
          | Object.Array _ ref =>
            let elements := r2.w.elems ref
            let hom ← isHeterogeneous elements
            if !hom then
              pure ⟨errorObj H ("heterogeneous array typings: " ++ ident), r2.s, r2.w⟩
            else
              match elements with
              | [] => Res.panic
              | e0 :: _ => do
                let t0 ← e0.Type
                if t0 ≠ tag then
                  pure ⟨errorObj H ("illegal type in " ++ el ++ " array: " ++ ObjString e0),
                    r2.s, r2.w⟩
                else pure ⟨Object.nil, r2.s.Set ident (Object.Array el ref), r2.w⟩
          | _ => Res.panic
        | none =>
          pure ⟨errorObj H ("invalid declaration type: " ++ type ++ " " ++ ident ++ " = "
            ++ ObjString r.val), r.s, r.w⟩
  else
    match scalarTag type with
    | some tag => pure ⟨Object.nil, s.Set ident (zeroValue tag), w⟩
    | none =>
      match arrayElem type with
      | some (el, tag) => do
        let r ← ev (Node.expr value) s w
        if IsError r.val then pure r
        else do
          let ty ← r.val.Type
          if ty ≠ ObjectType.IntObj then
            pure ⟨errorObj H "array size must be integer", r.s, r.w⟩
          else
            match r.val with
            | Object.Int numElements =>
              if numElements < 0 ∨ numElements.toNat > H.maxLen then Res.panic
              else
                let a := r.w.alloc (List.replicate numElements.toNat (zeroValue tag))
                pure ⟨Object.nil, r.s.Set ident (Object.Array el a.1), a.2⟩
            | _ => Res.panic
      | none =>
        pure ⟨errorObj H ("invalid declaration type: " ++ type ++ " " ++ ident ++ " = "
          ++ ObjString Object.nil), s, w⟩

/-- The loop of `evalBlock` over the statements, run on the copy; `s` is the
store the block was entered with. -/
def evalBlockLoop (ev : Node → State → World → Res Out) (s : State) :
    List Stmt → Object → State → World → Res Out
  | [], result, copied, w => pure ⟨result, UpdateState s copied, w⟩
  | stmt :: rest, _, copied, w => do
    let r ← ev (Node.stmt stmt) copied w
    match r.val with
    | Object.Return _ => pure ⟨r.val, s, r.w⟩
    | Object.Error _ => pure ⟨r.val, s, r.w⟩
    | _ => evalBlockLoop ev s rest r.val r.s r.w

def evalBlock (ev : Node → State → World → Res Out) (b : List Stmt) (s : State)
    (w : World) : Res Out :=
  evalBlockLoop ev s b Object.nil (NewCopiedState s) w

/-- The loop `for cond.(object.Bool).Value { ... }` of `evalWhile`. The result of
the body is assigned to a variable declared inside the loop, so the function
variable `result` stays nil. -/
def evalWhileLoop (ev : Node → State → World → Res Out) (condition : Expr) (body : Stmt) :
    Nat → Object → State → World → Res Out
  | 0, _, _, _ => Res.timeout
  | n + 1, cond, s, w =>
    match cond with
    | Object.Bool true => do
      let r ← ev (Node.stmt body) s w
      match r.val with
      | Object.Return v => pure ⟨v, r.s, r.w⟩
      | Object.Error _ => pure r
      | _ => do
        let c ← ev (Node.expr condition) r.s r.w
        evalWhileLoop ev condition body n c.val c.s c.w
    | Object.Bool false => pure ⟨Object.nil, s, w⟩
    | _ => Res.panic

def evalWhile (H : Host) (ev : Node → State → World → Res Out) (fuel : Nat)
    (condition : Expr) (body : Stmt) (s : State) (w : World) : Res Out := do
  let c ← ev (Node.expr condition) s w
  if IsError c.val then pure c
  else do
    let ty ← c.val.Type
    if ty ≠ ObjectType.BoolObj then
      pure ⟨errorObj H ("improper while condition type: " ++ ObjString c.val), c.s, c.w⟩
    else evalWhileLoop ev condition body fuel c.val c.s c.w

/-- The loop of `evalFor`, run on the copy; `s` is the store the loop was entered
with. -/
def evalForLoop (ev : Node → State → World → Res Out) (condition increment : Expr)
    (body : Stmt) (s : State) : Nat → Object → State → World → Res Out
  | 0, _, _, _ => Res.timeout
  | n + 1, cond, copied, w =>
    match cond with
    | Object.Bool true => do
      let r ← ev (Node.stmt body) copied w
      match r.val with
      | Object.Return v => pure ⟨v, s, r.w⟩
      | Object.Error _ => pure ⟨r.val, s, r.w⟩
      | _ => do
        let i ← ev (Node.expr increment) r.s r.w
        if IsError i.val then pure ⟨i.val, s, i.w⟩
        else do
          let c ← ev (Node.expr condition) i.s i.w
          if IsError c.val then pure ⟨c.val, s, c.w⟩
          else evalForLoop ev condition increment body s n c.val c.s c.w
    | Object.Bool false => pure ⟨Object.nil, UpdateState s copied, w⟩
    | _ => Res.panic

def evalFor (H : Host) (ev : Node → State → World → Res Out) (fuel : Nat)
    (init condition increment : Expr) (body : Stmt) (varDecl : Bool) (type ident : String)
    (value : Expr) (s : State) (w : World) : Res Out := do
  let copied := NewCopiedState s
  let d ← if varDecl then ev (Node.stmt (Stmt.VarDecl type ident value true)) copied w
    else ev (Node.expr init) copied w
  if IsError d.val then pure ⟨d.val, s, d.w⟩
  else do
    let c ← ev (Node.expr condition) d.s d.w
    if IsError c.val then pure ⟨c.val, s, c.w⟩
    else do
      let ty ← c.val.Type
      if ty ≠ ObjectType.BoolObj then
        pure ⟨errorObj H ("improper for condition type: " ++ ObjString c.val), s, c.w⟩
      else evalForLoop ev condition increment body s fuel c.val c.s c.w

def evalIfElse (H : Host) (ev : Node → State → World → Res Out) (condition : Expr)
    (consequence alternative : Stmt) (hasAlternative : Bool) (s : State) (w : World) :
    Res Out := do
  let c ← ev (Node.expr condition) s w
  if IsError c.val then pure c
  else do
    let ty ← c.val.Type
    if ty ≠ ObjectType.BoolObj then
      pure ⟨errorObj H ("improper if condition type: " ++ ObjString c.val), c.s, c.w⟩
    else
      match c.val with
      | Object.Bool true => ev (Node.stmt consequence) c.s c.w
      | Object.Bool false =>
        if hasAlternative then ev (Node.stmt alternative) c.s c.w
        else pure ⟨Object.nil, c.s, c.w⟩
      | _ => Res.panic

def evalReturn (ev : Node → State → World → Res Out) (value : Expr) (void : Bool)
    (s : State) (w : World) : Res Out :=
  if !void then do
    let r ← ev (Node.expr value) s w
    if IsError r.val then pure r else pure ⟨Object.Return r.val, r.s, r.w⟩
  else pure ⟨Object.nil, s, w⟩

def evalExprStmt (ev : Node → State → World → Res Out) (expression : Expr) (s : State)
    (w : World) : Res Out :=
  ev (Node.expr expression) s w

/-! ### Operators -/

def evalNotOp (H : Host) (expr : Object) : Res Object := do
  let ty ← expr.Type
  if ty ≠ ObjectType.BoolObj then pure (errorObj H ("illegal operation: !" ++ ObjString expr))
  else
    match expr with
    | Object.Bool true => pure (Object.Bool false)
    | Object.Bool false => pure (Object.Bool true)
    | _ => Res.panic

def evalNegOp (H : Host) (expr : Object) : Object :=
  match expr with
  | Object.Int v => Object.Int (wrap64 (-v))
  | Object.Float v => Object.Float v.neg
  | _ => errorObj H ("illegal operation: -" ++ ObjString expr)

def evalPosOp (H : Host) (expr : Object) : Object :=
  match expr with
  | Object.Int v => Object.Int (if v < 0 then wrap64 (-v) else v)
  | Object.Float v => Object.Float v.abs
  | _ => errorObj H ("illegal operation: +" ++ ObjString expr)

def evalTildeOp (H : Host) (expr : Object) : Object :=
  match expr with
  | Object.Int v => Object.Int (-v - 1)
  | _ => errorObj H ("illegal operation: ~" ++ ObjString expr)

def evalPrefixExpr (H : Host) (ev : Node → State → World → Res Out) (op : String)
    (right : Expr) (s : State) (w : World) : Res Out := do
  let r ← ev (Node.expr right) s w
  if IsError r.val then pure r
  else if op = "!" then do
    let v ← evalNotOp H r.val
    pure ⟨v, r.s, r.w⟩
  else if op = "-" then pure ⟨evalNegOp H r.val, r.s, r.w⟩
  else if op = "+" then pure ⟨evalPosOp H r.val, r.s, r.w⟩
  else if op = "~" then pure ⟨evalTildeOp H r.val, r.s, r.w⟩
  else pure ⟨errorObj H ("unknown prefix operator: " ++ op), r.s, r.w⟩

/-- The message of the `default` case of the per-type infix routines. -/
def illegalOperator (H : Host) (l op r : String) : Object :=
  errorObj H ("illegal operator: " ++ l ++ " " ++ op ++ " " ++ r)

/-- Comparison of Go strings (byte-wise lexicographic). -/
def strLt (a b : String) : Bool := decide (a < b)

def evalInfixExprChar (H : Host) (op : String) (left right : String) : Object :=
  if op = "<" then Object.Bool (strLt left right)
  else if op = "<=" then Object.Bool (!strLt right left)
  else if op = "==" then Object.Bool (decide (left = right))
  else if op = "!=" then Object.Bool (!decide (left = right))
  else if op = ">=" then Object.Bool (!strLt left right)
  else if op = ">" then Object.Bool (strLt right left)
  else if op = "+" then Object.String (left ++ right)
  else illegalOperator H "char" op "char"

def evalInfixExprInt (H : Host) (op : String) (left right : Int) : Res Object :=
  if op = "<" then pure (Object.Bool (decide (left < right)))
  else if op = "<=" then pure (Object.Bool (decide (left ≤ right)))
  else if op = "==" then pure (Object.Bool (decide (left = right)))
  else if op = "!=" then pure (Object.Bool (!decide (left = right)))
  else if op = ">=" then pure (Object.Bool (decide (left ≥ right)))
  else if op = ">" then pure (Object.Bool (decide (left > right)))
  else if op = "+" then pure (Object.Int (wrap64 (left + right)))
  else if op = "-" then pure (Object.Int (wrap64 (left - right)))
  else if op = "*" then pure (Object.Int (wrap64 (left * right)))
  else if op = "/" then
    if right = 0 then pure (errorObj H "divide by zero error")
    else pure (Object.Int (wrap64 (Int.tdiv left right)))
  else if op = "%" then
    if right = 0 then Res.panic else pure (Object.Int (Int.tmod left right))
  else if op = "&" then pure (Object.Int (Int.land left right))
  else if op = "^" then pure (Object.Int (Int.xor left right))
  else if op = "|" then pure (Object.Int (Int.lor left right))
  else if op = "<<" then
    if right < 0 then Res.panic
    else if 64 ≤ right then pure (Object.Int 0)
    else pure (Object.Int (wrap64 (left * 2 ^ right.toNat)))
  else if op = ">>" then
    if right < 0 then Res.panic
    else if 64 ≤ right then pure (Object.Int (if left < 0 then -1 else 0))
    else pure (Object.Int (left / 2 ^ right.toNat))
  else pure (illegalOperator H "int" op "int")

def evalInfixExprFloat (H : Host) (op : String) (left right : F64) : Object :=
  if op = "<" then Object.Bool (left.lt right)
  else if op = "<=" then Object.Bool (left.le right)
  else if op = "==" then Object.Bool (left.eq right)
  else if op = "!=" then Object.Bool (!left.eq right)
  else if op = ">=" then Object.Bool (right.le left)
  else if op = ">" then Object.Bool (right.lt left)
  else if op = "+" then Object.Float (left.add right)
  else if op = "-" then Object.Float (left.sub right)
  else if op = "*" then Object.Float (left.mul right)
  else if op = "/" then
    if right.eq (F64.zero false) then errorObj H "divide by zero error"
    else Object.Float (left.div right)
  else illegalOperator H "float" op "float"

def evalInfixExprString (H : Host) (op : String) (left right : String) : Object :=
  if op = "<" then Object.Bool (strLt left right)
  else if op = "<=" then Object.Bool (!strLt right left)
  else if op = "==" then Object.Bool (decide (left = right))
  else if op = "!=" then Object.Bool (!decide (left = right))
  else if op = ">=" then Object.Bool (!strLt left right)
  else if op = ">" then Object.Bool (strLt right left)
  else if op = "+" then Object.String (left ++ right)
  else illegalOperator H "string" op "string"

def evalInfixExprBool (H : Host) (op : String) (left right : Bool) : Object :=
  if op = "==" then Object.Bool (left == right)
  else if op = "!=" then Object.Bool (left != right)
  else if op = "&&" then Object.Bool (left && right)
  else if op = "||" then Object.Bool (left || right)
  else illegalOperator H "bool" op "bool"

def evalInfixExpr (H : Host) (ev : Node → State → World → Res Out) (left : Expr)
    (op : String) (right : Expr) (s : State) (w : World) : Res Out := do
  let l ← ev (Node.expr left) s w
  if IsError l.val then pure l
  else do
    let r ← ev (Node.expr right) l.s l.w
    if IsError r.val then pure r
    else do
      let tl ← l.val.Type
      let tr ← r.val.Type
      if tl ≠ tr then
        pure ⟨errorObj H ("mismatched types: " ++ ObjString l.val ++ " " ++ op ++ " "
          ++ ObjString r.val), r.s, r.w⟩
      else
        match l.val, r.val with
        | Object.Char a, Object.Char b => pure ⟨evalInfixExprChar H op a b, r.s, r.w⟩
        | Object.Int a, Object.Int b => do
          let v ← evalInfixExprInt H op a b
          pure ⟨v, r.s, r.w⟩
        | Object.Float a, Object.Float b => pure ⟨evalInfixExprFloat H op a b, r.s, r.w⟩
        | Object.String a, Object.String b => pure ⟨evalInfixExprString H op a b, r.s, r.w⟩
        | Object.Bool a, Object.Bool b => pure ⟨evalInfixExprBool H op a b, r.s, r.w⟩
        | _, _ =>
          pure ⟨errorObj H ("invalid expression types: " ++ ObjString l.val ++ " " ++ op ++ " "
            ++ ObjString r.val), r.s, r.w⟩

/-! ### Identifiers, literals, assignment -/

def evalIdent (H : Host) (name : String) (s : State) : Object :=
  match s.Get name with
  | some val => val
  | none =>
    match builtins name with
    | some function => Object.BuiltIn function
    | none => errorObj H ("identifier " ++ name ++ " undeclared")

def evalAssign (H : Host) (ev : Node → State → World → Res Out) (ident : String)
    (value : Expr) (s : State) (w : World) : Res Out := do
  let i ← ev (Node.expr (Expr.Identifier ident)) s w
  if IsError i.val then pure i
  else do
    let v ← ev (Node.expr value) i.s i.w
    if IsError v.val then pure v
    else do
      let ti ← i.val.Type
      let tv ← v.val.Type
      if ti ≠ tv then
        pure ⟨errorObj H ("assignment type mismatch: " ++ ObjString i.val ++ " and "
          ++ ObjString v.val), v.s, v.w⟩
      else pure ⟨Object.nil, v.s.Set ident v.val, v.w⟩

/-- The switch of `evalAssignExpr` from a compound operator to its base operator. -/
def compoundOp (op : String) : Option String :=
  if op = "+=" then some "+"
  else if op = "-=" then some "-"
  else if op = "*=" then some "*"
  else if op = "/=" then some "/"
  else if op = "%=" then some "%"
  else if op = "&=" then some "&"
  else if op = "^=" then some "^"
  else if op = "|=" then some "|"
  else if op = "<<=" then some "<<"
  else if op = ">>=" then some ">>"
  else none

def evalAssignExpr (H : Host) (ev : Node → State → World → Res Out) (ident op : String)
    (value : Expr) (s : State) (w : World) : Res Out := do
  let i ← ev (Node.expr (Expr.Identifier ident)) s w
  if IsError i.val then pure i
  else do
    let v ← ev (Node.expr value) i.s i.w
    if IsError v.val then pure v
    else do
      let self := (v.s.Get ident).getD Object.nil
      let ts ← self.Type
      let tv ← v.val.Type
      if ts ≠ tv then
        pure ⟨errorObj H ("mismatched types: " ++ ObjString self ++ " " ++ op ++ " "
          ++ ObjString v.val), v.s, v.w⟩
      else
        match compoundOp op with
        | none => pure ⟨illegalOperator H (ObjString self) op (ObjString v.val), v.s, v.w⟩
        | some bop => do
          let newVal ←
            match self, v.val with
            | Object.Int a, Object.Int b => evalInfixExprInt H bop a b
            | Object.Float a, Object.Float b => pure (evalInfixExprFloat H bop a b)
            | Object.String a, Object.String b => pure (evalInfixExprString H bop a b)
            | _, _ =>
              pure (errorObj H ("illegal assignment: " ++ ObjString self ++ " " ++ op ++ " "
                ++ ObjString v.val))
          if IsError newVal then pure ⟨newVal, v.s, v.w⟩
          else pure ⟨Object.nil, v.s.Set ident newVal, v.w⟩

/-! ### Arrays and indexing -/

/-- The common head of the three index routines, up to the bounds check: the
result is either the object to return, or the array's element type, the slice
handle and the index. -/
def indexTarget (H : Host) (ev : Node → State → World → Res Out) (ident : String)
    (index : Expr) (s : State) (w : World) : Res (Out ⊕ (String × Nat × Nat × State × World)) :=
  let i := evalIdent H ident s
  if IsError i then pure (Sum.inl ⟨i, s, w⟩)
  else do
    let x ← ev (Node.expr index) s w
    if IsError x.val then pure (Sum.inl x)
    else do
      let tx ← x.val.Type
      if tx ≠ ObjectType.IntObj then
        pure (Sum.inl ⟨errorObj H ("illegal array index: " ++ ObjString x.val), x.s, x.w⟩)
      else
        match x.s.Get ident with
        | none => pure (Sum.inl ⟨errorObj H ("undeclared array: " ++ ident), x.s, x.w⟩)
        | some array => do
          let ta ← array.Type
          if ta ≠ ObjectType.ArrObj then
            pure (Sum.inl ⟨errorObj H (ident ++ " is not an array"), x.s, x.w⟩)
          else
            match x.val, array with
            | Object.Int idx, Object.Array elementType arr =>
              if idx < 0 ∨ idx ≥ (x.w.elems arr).length then
                pure (Sum.inl ⟨errorObj H ("array index out of bounds: " ++ ident ++ "["
                  ++ toString idx ++ "]"), x.s, x.w⟩)
              else pure (Sum.inr (elementType, arr, idx.toNat, x.s, x.w))
            | _, _ => Res.panic

def evalIndexExpr (H : Host) (ev : Node → State → World → Res Out) (ident : String)
    (index : Expr) (s : State) (w : World) : Res Out := do
  let t ← indexTarget H ev ident index s w
  match t with
  | Sum.inl out => pure out
  | Sum.inr (_, arr, idx, s1, w1) => pure ⟨(w1.elems arr).getD idx Object.nil, s1, w1⟩

def evalAssignIndexExpr (H : Host) (ev : Node → State → World → Res Out) (ident : String)
    (index value : Expr) (s : State) (w : World) : Res Out := do
  let t ← indexTarget H ev ident index s w
  match t with
  | Sum.inl out => pure out
  | Sum.inr (elementType, arr, idx, s1, w1) => do
    let v ← ev (Node.expr value) s1 w1
    if IsError v.val then pure v
    else do
      let old := (v.w.elems arr).getD idx Object.nil
      let te ← old.Type
      let tv ← v.val.Type
      if te ≠ tv then
        pure ⟨errorObj H ("assignment type mismatch: " ++ ObjString old ++ " and "
          ++ ObjString v.val), v.s, v.w⟩
      else
        pure ⟨Object.nil, v.s.Set ident (Object.Array elementType arr),
          v.w.write arr idx v.val⟩

/-- The switch of `evalAssignExprIndexExpr` on the operator; it also lets `=`
through. -/
def compoundIndexOp (op : String) : Option String :=
  if op = "=" then some "=" else compoundOp op

def evalAssignExprIndexExpr (H : Host) (ev : Node → State → World → Res Out)
    (ident : String) (index : Expr) (op : String) (value : Expr) (s : State) (w : World) :
    Res Out := do
  let t ← indexTarget H ev ident index s w
  match t with
  | Sum.inl out => pure out
  | Sum.inr (elementType, arr, idx, s1, w1) => do
    let v ← ev (Node.expr value) s1 w1
    if IsError v.val then pure v
    else do
      let old := (v.w.elems arr).getD idx Object.nil
      let te ← old.Type
      let tv ← v.val.Type
      if te ≠ tv then
        pure ⟨errorObj H ("assignment type mismatch: " ++ ObjString old ++ " and "
          ++ ObjString v.val), v.s, v.w⟩
      else
        match compoundIndexOp op with
        | none => pure ⟨illegalOperator H (ObjString old) op (ObjString v.val), v.s, v.w⟩
        | some bop => do
          let newVal ←
            if bop = "=" then (pure (Sum.inr v.val) : Res (Object ⊕ Object))
            else
              match old, v.val with
              | Object.Int a, Object.Int b => do
                let x ← evalInfixExprInt H bop a b
                pure (Sum.inr x)
              | Object.Float a, Object.Float b => pure (Sum.inr (evalInfixExprFloat H bop a b))
              | Object.String a, Object.String b =>
                pure (Sum.inr (evalInfixExprString H bop a b))
              | _, _ =>
                pure (Sum.inl (errorObj H ("illegal assignment: " ++ ObjString old ++ " "
                  ++ op ++ " " ++ ObjString v.val)))
          match newVal with
          | Sum.inl err => pure ⟨err, v.s, v.w⟩
          | Sum.inr nv =>
            pure ⟨Object.nil, v.s.Set ident (Object.Array elementType arr),
              v.w.write arr idx nv⟩

def evalExpressions (ev : Node → State → World → Res Out) :
    List Expr → List Object → State → World → Res (List Object × State × World)
  | [], result, s, w => pure (result, s, w)
  | arg :: rest, result, s, w => do
    let e ← ev (Node.expr arg) s w
    if IsError e.val then pure ([e.val], e.s, e.w)
    else evalExpressions ev rest (result ++ [e.val]) e.s e.w

/-- The test `len(xs) == 1 && IsError(xs[0])`. -/
def singleError : List Object → Option Object
  | [x] => if IsError x then some x else none
  | _ => none

def evalArray (ev : Node → State → World → Res Out) (elements : List Expr) (s : State)
    (w : World) : Res Out := do
  let (es, s1, w1) ← evalExpressions ev elements [] s w
  match singleError es with
  | some err => pure ⟨err, s1, w1⟩
  | none =>
    let a := w1.alloc es
    pure ⟨Object.Array "" a.1, s1, a.2⟩

def evalCharCon (value : String) : Object := Object.Char value
def evalIntCon (value : Int) : Object := Object.Int value
def evalFloatCon (value : F64) : Object := Object.Float value
def evalStringCon (value : String) : Object := Object.String value
def evalBool (value : Bool) : Object := Object.Bool value

/-! ### Calls -/

def mismatchedArg (H : Host) (i : Nat) : Object :=
  errorObj H ("mismatched types for argument " ++ toString (i + 1))

/-- The argument check loop of `evalCall`, from index `i` on: the error it
returns, if any. -/
def checkArgs (H : Host) : Nat → List Param → List Object → Res (Option Object)
  | _, [], _ => pure none
  | _, _ :: _, [] => Res.panic
  | i, p :: ps, a :: rest => do
    let ty ← a.Type
    if p.array then
      match a with
      | Object.Array elementType _ =>
        if elementType ≠ p.type then pure (some (mismatchedArg H i))
        else checkArgs H (i + 1) ps rest
      | _ => pure (some (errorObj H "passed non-array as array parameter"))
    else if ty = ObjectType.IntObj then
      if p.type ≠ "int" then pure (some (mismatchedArg H i)) else checkArgs H (i + 1) ps rest
    else if ty = ObjectType.FloatObj then
      if p.type ≠ "float" then pure (some (mismatchedArg H i)) else checkArgs H (i + 1) ps rest
    else if ty = ObjectType.StringObj then
      if p.type ≠ "string" then pure (some (mismatchedArg H i)) else checkArgs H (i + 1) ps rest
    else if ty = ObjectType.BoolObj then
      if p.type ≠ "bool" then pure (some (mismatchedArg H i)) else checkArgs H (i + 1) ps rest
    else pure (some (errorObj H ("illegal type for argument " ++ toString i)))

/-- The arity and argument checks of `evalCall` against the parameters of the
declaration. -/
def checkCall (H : Host) (function : String) (params : List Param) (args : List Object) :
    Res (Option Object) :=
  if args.length > params.length then
    pure (some (errorObj H ("too many arguments supplied to " ++ function ++ "()")))
  else if args.length < params.length then
    pure (some (errorObj H ("not enough arguments supplied to " ++ function ++ "()")))
  else checkArgs H 0 params args

/-- The loop `for i, param := range function.Parameters { callState.Set(param.Ident.Name, args[i]) }`. -/
def bindParams : List Param → List Object → State → Res State
  | [], _, callState => pure callState
  | _ :: _, [], _ => Res.panic
  | p :: ps, a :: rest, callState => bindParams ps rest (callState.Set p.ident a)

def evalCall (H : Host) (ev : Node → State → World → Res Out) (fuel : Nat)
    (function : String) (arguments : List Expr) (s : State) (w : World) : Res Out := do
  let f ← ev (Node.expr (Expr.Identifier function)) s w
  if IsError f.val then pure f
  else do
    let tf ← f.val.Type
    if tf ≠ ObjectType.BuiltInObj ∧ tf ≠ ObjectType.FuncDeclObj then
      pure ⟨errorObj H (function ++ " is not a declared or built-in function"), f.s, f.w⟩
    else do
      let (args, s1, w1) ← evalExpressions ev arguments [] f.s f.w
      match singleError args with
      | some err => pure ⟨err, s1, w1⟩
      | none => do
        let failed ←
          if tf = ObjectType.FuncDeclObj then
            match s1.Get function with
            | some (Object.FuncDecl _ _ params _) => checkCall H function params args
            | _ => Res.panic
          else pure none
        match failed with
        | some err => pure ⟨err, s1, w1⟩
        | none =>
          match f.val with
          | Object.FuncDecl _ _ parameters body => do
            let bound ← bindParams parameters args NewState
            let callState ← CopyFunctions bound s1
            let r ← ev (Node.stmt (Stmt.Block body)) callState w1
            match r.val with
            | Object.Return v => pure ⟨v, s1, r.w⟩
            | _ => pure ⟨r.val, s1, r.w⟩
          | Object.BuiltIn b => do
            let (v, w2) ← b.call H fuel args w1
            pure ⟨v, s1, w2⟩
          | _ => pure ⟨errorObj H ("not a function: " ++ function), s1, w1⟩

/-! ### Dispatch -/

/-- The function `Eval`: the type switch over the node. -/
def Eval (H : Host) : Nat → Node → State → World → Res Out
  | 0, _, _, _ => Res.timeout
  | fuel + 1, n, s, w =>
    match n with
    | Node.Program p => evalProgram (Eval H fuel) p s w
    | Node.stmt (Stmt.FuncDecl t i ps b) => evalFuncDecl H t i ps b s w
    | Node.stmt (Stmt.VarDecl t i v ini) => evalVarDecl H (Eval H fuel) t i v ini s w
    | Node.stmt (Stmt.Block b) => evalBlock (Eval H fuel) b s w
    | Node.stmt (Stmt.While c b) => evalWhile H (Eval H fuel) fuel c b s w
    | Node.stmt (Stmt.For i c inc b vd t id v) =>
      evalFor H (Eval H fuel) fuel i c inc b vd t id v s w
    | Node.stmt (Stmt.IfElse c a b h) => evalIfElse H (Eval H fuel) c a b h s w
    | Node.stmt (Stmt.Return v vd) => evalReturn (Eval H fuel) v vd s w
    | Node.stmt (Stmt.ExprStmt e) => evalExprStmt (Eval H fuel) e s w
    | Node.expr (Expr.PrefixExpr op r) => evalPrefixExpr H (Eval H fuel) op r s w
    | Node.expr (Expr.InfixExpr l op r) => evalInfixExpr H (Eval H fuel) l op r s w
    | Node.expr (Expr.Assign i v) => evalAssign H (Eval H fuel) i v s w
    | Node.expr (Expr.AssignExpr i op v) => evalAssignExpr H (Eval H fuel) i op v s w
    | Node.expr (Expr.IndexExpr i x) => evalIndexExpr H (Eval H fuel) i x s w
    | Node.expr (Expr.AssignIndexExpr i x v) => evalAssignIndexExpr H (Eval H fuel) i x v s w
    | Node.expr (Expr.AssignExprIndexExpr i x op v) =>
      evalAssignExprIndexExpr H (Eval H fuel) i x op v s w
    | Node.expr (Expr.Call f args _) => evalCall H (Eval H fuel) fuel f args s w
    | Node.expr (Expr.Array es) => evalArray (Eval H fuel) es s w
    | Node.expr (Expr.CharCon v) => pure ⟨evalCharCon v, s, w⟩
    | Node.expr (Expr.IntCon v) => pure ⟨evalIntCon v, s, w⟩
    | Node.expr (Expr.FloatCon v) => pure ⟨evalFloatCon v, s, w⟩
    | Node.expr (Expr.StringCon v) => pure ⟨evalStringCon v, s, w⟩
    | Node.expr (Expr.Bool v) => pure ⟨evalBool v, s, w⟩
    | Node.expr (Expr.Identifier name) => pure ⟨evalIdent H name s, s, w⟩
    | Node.stmt Stmt.nil => pure ⟨Object.nil, s, w⟩
    | Node.expr Expr.nil => pure ⟨Object.nil, s, w⟩

/-! ## Definitions used by the statements -/

/-- Every name bound in `s` is bound in `t`. -/
def Keeps (s t : State) : Prop := ∀ k, (s.Get k).isSome → (t.Get k).isSome

/-- The store that `indexTarget` hands on. -/
def targetState (t : Out ⊕ (String × Nat × Nat × State × World)) : State :=
  match t with
  | Sum.inl out => out.s
  | Sum.inr p => p.2.2.2.1

/-- An evaluator that never unbinds a name. -/
def EvKeeps (ev : Node → State → World → Res Out) : Prop :=
  ∀ n s w o, ev n s w = Res.ok o → Keeps s o.s

/-- A host for concrete runs: no colour codes, the identity as text filter, the
draws 0, 1, 2, ..., and arrays of up to 2^44 elements. -/
def sampleHost : Host := ⟨"", "", fun t => t, fun n => n, 2 ^ 44⟩

/-- The world before anything ran. -/
def emptyWorld : World := ⟨[], 0, []⟩

/-- A result that a block intercepts: a Return or an Error. -/
def isSignal : Object → Bool
  | Object.Return _ => true
  | Object.Error _ => true
  | _ => false

/-- The statements of a block, run one after the other on the working copy while
none of them yields a Return or an Error: the value of the last statement, the
working copy and the world when the last statement has finished; `none` when a
statement yields a Return or an Error or does not finish. -/
def blockRun (ev : Node → State → World → Res Out) :
    List Stmt → Object → State → World → Option Out
  | [], result, copied, w => some ⟨result, copied, w⟩
  | stmt :: rest, _, copied, w =>
    match ev (Node.stmt stmt) copied w with
    | Res.ok r => if isSignal r.val then none else blockRun ev rest r.val r.s r.w
    | _ => none

/-- The store after `int x = 1;`. -/
def storeX1 : State := ⟨[("x", Object.Int 1)]⟩

/-- The block `{ x = 2; int y = 9; }`. -/
def blockXY : List Stmt :=
  [Stmt.ExprStmt (Expr.Assign "x" (Expr.IntCon 2)),
   Stmt.VarDecl "int" "y" (Expr.IntCon 9) true]

/-- The five scalar declared types. -/
def scalarTypes : List String := ["char", "int", "float", "string", "bool"]

/-- The five array declared types. -/
def arrayTypes : List String := ["chararr", "intarr", "floatarr", "stringarr", "boolarr"]

/-- The fixed zero value of a scalar declared type, as the specification lists
them: the empty character, the integer 0, the float 0.0, the empty string, false. -/
def specZero (t : String) : Object :=
  if t = "char" then Object.Char ""
  else if t = "int" then Object.Int 0
  else if t = "float" then Object.Float ⟨0⟩
  else if t = "string" then Object.String ""
  else Object.Bool false

/-- The object is a `FuncDecl`. -/
def isFuncDecl : Object → Bool
  | Object.FuncDecl _ _ _ _ => true
  | _ => false

/-- The last step of a user function call: a Return is unwrapped. -/
def unwrapReturn : Object → Object
  | Object.Return v => v
  | o => o

/-- A store that binds no name to the nil interface. -/
def NoNil (s : State) : Prop := ∀ k, s.Get k ≠ some Object.nil

/-- The function `int f(int n) { return x; }`, which reads a name of its caller. -/
def readsX : Object :=
  Object.FuncDecl "int" "f" [⟨"int", "n", false⟩]
    [Stmt.Return (Expr.Identifier "x") false]

/-- The function `int g() { return 7; }`. -/
def returns7 : Object :=
  Object.FuncDecl "int" "g" [] [Stmt.Return (Expr.IntCon 7) false]

/-- A caller's store: the variable `x` and the functions `g` and `f`. -/
def storeXGF : State := ⟨[("x", Object.Int 5), ("g", returns7), ("f", readsX)]⟩

/-- An identifier or a literal. -/
def isIdentOrLit : Expr → Bool
  | Expr.Identifier _ => true
  | Expr.CharCon _ => true
  | Expr.IntCon _ => true
  | Expr.FloatCon _ => true
  | Expr.StringCon _ => true
  | Expr.Bool _ => true
  | _ => false

/-- The function `void f(int p[]) { p[0] = 9; }`. -/
def writesP : Stmt :=
  Stmt.FuncDecl "void" "f" [⟨"int", "p", true⟩]
    [Stmt.ExprStmt (Expr.AssignIndexExpr "p" (Expr.IntCon 0) (Expr.IntCon 9))]

/-- The program `intarr a = {1}; void f(int p[]) { p[0] = 9; }`. -/
def declsAF : List Stmt :=
  [Stmt.VarDecl "intarr" "a" (Expr.Array [Expr.IntCon 1]) true, writesP]

/-- The store that `declsAF` leaves: `a` is the array with handle 1. -/
def storeAF : State :=
  ⟨[("a", Object.Array "int" 1),
    ("f", Object.FuncDecl "void" "f" [⟨"int", "p", true⟩]
      [Stmt.ExprStmt (Expr.AssignIndexExpr "p" (Expr.IntCon 0) (Expr.IntCon 9))])]⟩

/-- The world that `declsAF` leaves: the initializer was evaluated twice, so there
are two backing arrays. -/
def worldAF : World := ⟨[[Object.Int 1], [Object.Int 1]], 0, []⟩

/-- The function `int f(int p[]) { p[0] = 9; return 0; }`. -/
def writesP0 : Object :=
  Object.FuncDecl "int" "f" [⟨"int", "p", true⟩]
    [Stmt.ExprStmt (Expr.AssignIndexExpr "p" (Expr.IntCon 0) (Expr.IntCon 9)),
     Stmt.Return (Expr.IntCon 0) false]

/-- A store in which `a` is the array with handle 1 and `f` is `writesP0`. -/
def storeAI : State := ⟨[("a", Object.Array "int" 1), ("f", writesP0)]⟩

/-- The index read `a[f(a)]`. -/
def readAfa : Expr := Expr.IndexExpr "a" (Expr.Call "f" [Expr.Identifier "a"] false)

/-- The function `int f(int p[]) { p[1] = 7; return 5; }`. -/
def writesP1 : Object :=
  Object.FuncDecl "int" "f" [⟨"int", "p", true⟩]
    [Stmt.ExprStmt (Expr.AssignIndexExpr "p" (Expr.IntCon 1) (Expr.IntCon 7)),
     Stmt.Return (Expr.IntCon 5) false]

/-- A store in which `a` is the array with handle 0 and `f` is `writesP1`. -/
def storeA2 : State := ⟨[("a", Object.Array "int" 0), ("f", writesP1)]⟩

/-- A world in which the array with handle 0 is `{1, 2}`. -/
def worldA2 : World := ⟨[[Object.Int 1, Object.Int 2]], 0, []⟩

/-- The index write `a[0] = f(a)`. -/
def writeAfa : Expr :=
  Expr.AssignIndexExpr "a" (Expr.IntCon 0) (Expr.Call "f" [Expr.Identifier "a"] false)

/-- The declaration `intarr c = {f(a), "x"};`. -/
def declCfa : Stmt :=
  Stmt.VarDecl "intarr" "c"
    (Expr.Array [Expr.Call "f" [Expr.Identifier "a"] false, Expr.StringCon "x"]) true

/-- The declaration `intarr a = {1, 2, 3};`. -/
def declA123 : Stmt :=
  Stmt.VarDecl "intarr" "a" (Expr.Array [Expr.IntCon 1, Expr.IntCon 2, Expr.IntCon 3]) true

/-- The declaration `intarr b = {1, "x"};`. -/
def declB1x : Stmt :=
  Stmt.VarDecl "intarr" "b" (Expr.Array [Expr.IntCon 1, Expr.StringCon "x"]) true

/-- An evaluator that stores no nil interface. -/
def EvNoNil (ev : Node → State → World → Res Out) : Prop :=
  ∀ n s w o, NoNil s → ev n s w = Res.ok o → NoNil o.s

/-- The store binds the name to a `FuncDecl`. -/
def FDName (s : State) (k : String) : Prop := ∃ v, s.Get k = some v ∧ isFuncDecl v = true

/-- Two stores bind the same names to `FuncDecl` values. -/
def SameFD (s t : State) : Prop := ∀ k, FDName t k ↔ FDName s k

/-- An evaluator under which the evaluation of an expression keeps the set of names
bound to functions, and which evaluates an identifier with `evalIdent`. -/
def EvFD (H : Host) (ev : Node → State → World → Res Out) : Prop :=
  (∀ e s w o, ev (Node.expr e) s w = Res.ok o → SameFD s o.s) ∧
  (∀ x s w o, ev (Node.expr (Expr.Identifier x)) s w = Res.ok o → o = ⟨evalIdent H x s, s, w⟩)

/-- The function `int f(int a, int b) { return a; }`. -/
def twoParams : Object :=
  Object.FuncDecl "int" "f" [⟨"int", "a", false⟩, ⟨"int", "b", false⟩]
    [Stmt.Return (Expr.Identifier "a") false]

/-- A store in which `f` is `twoParams`. -/
def storeF2 : State := ⟨[("f", twoParams)]⟩

/-- The program `int x = 1; void f() {}`. -/
def declsXF : List Stmt :=
  [Stmt.VarDecl "int" "x" (Expr.IntCon 1) true, Stmt.FuncDecl "void" "f" [] []]

/-- The store that `declsXF` leaves. -/
def storeXF : State := ⟨[("x", Object.Int 1), ("f", Object.FuncDecl "void" "f" [] [])]⟩

/-- The call `f(x = 5)`. -/
def callFx5 : Expr := Expr.Call "f" [Expr.Assign "x" (Expr.IntCon 5)] true

/-- A store in which `f` is the function `void f(char c) {}`. -/
def storeFC : State := ⟨[("f", Object.FuncDecl "void" "f" [⟨"char", "c", false⟩] [])]⟩

/-- The object has the type tag `tag`. -/
def hasTag (tag : ObjectType) (o : Object) : Bool :=
  match o.Type with
  | Res.ok t => t == tag
  | _ => false

/-- The homogeneity condition on an array object in a world: all its elements have
the type tag that its element-type name stands for. -/
def elementsTagged (w : World) : Object → Bool
  | Object.Array el ref =>
    match scalarTag el with
    | some tag => (w.elems ref).all (hasTag tag)
    | none => false
  | _ => true

/-- The declaration `intarr a = {1, 2};`. -/
def declA12 : Stmt :=
  Stmt.VarDecl "intarr" "a" (Expr.Array [Expr.IntCon 1, Expr.IntCon 2]) true

/-- The statement `a[0] /= 0;`. -/
def divA0 : Stmt :=
  Stmt.ExprStmt (Expr.AssignExprIndexExpr "a" (Expr.IntCon 0) "/=" (Expr.IntCon 0))

/-- The statement `a = {1, "x"};`. -/
def assignA1x : Stmt :=
  Stmt.ExprStmt (Expr.Assign "a" (Expr.Array [Expr.IntCon 1, Expr.StringCon "x"]))

/-- Every name bound in `t` is bound in `s` or is the name of a built-in function. -/
def NewBI (s t : State) : Prop :=
  ∀ k, (t.Get k).isSome → (s.Get k).isSome ∨ (builtins k).isSome

/-- An evaluator under which the evaluation of an expression binds no new name but
names of built-in functions, and which evaluates an identifier with `evalIdent`. -/
def EvBI (H : Host) (ev : Node → State → World → Res Out) : Prop :=
  (∀ e s w o, ev (Node.expr e) s w = Res.ok o → NewBI s o.s) ∧
  (∀ x s w o, ev (Node.expr (Expr.Identifier x)) s w = Res.ok o → o = ⟨evalIdent H x s, s, w⟩)

/-- The declaration `int print = {print = println};`. -/
def declPrint : Stmt :=
  Stmt.VarDecl "int" "print"
    (Expr.Array [Expr.Assign "print" (Expr.Identifier "println")]) true

/-- A store that binds no name to an Error or a Return. -/
def NoSig (s : State) : Prop := ∀ k v, s.Get k = some v → isSignal v = false

/-- An evaluator that stores no Error and no Return, and which evaluates an
identifier with `evalIdent`. -/
def EvNoSig (H : Host) (ev : Node → State → World → Res Out) : Prop :=
  (∀ n s w o, NoSig s → ev n s w = Res.ok o → NoSig o.s) ∧
  (∀ x s w o, ev (Node.expr (Expr.Identifier x)) s w = Res.ok o → o = ⟨evalIdent H x s, s, w⟩)

/-- The store in which `n` is 1. -/
def storeN1 : State := ⟨[("n", Object.Int 1)]⟩

/-- The store in which `n` is 0. -/
def storeN0 : State := ⟨[("n", Object.Int 0)]⟩

/-- The block `{ n -= 1; n; }`. -/
def bodyDecN : Stmt :=
  Stmt.Block [Stmt.ExprStmt (Expr.AssignExpr "n" "-=" (Expr.IntCon 1)),
    Stmt.ExprStmt (Expr.Identifier "n")]

/-- The loop `while (n > 0) { n -= 1; n; }`. -/
def whileDecN : Stmt :=
  Stmt.While (Expr.InfixExpr (Expr.Identifier "n") ">" (Expr.IntCon 0)) bodyDecN

/-- A store in which `a` is the array with handle 0. -/
def storeA : State := ⟨[("a", Object.Array "int" 0)]⟩

/-- A store in which `t` is the array with handle 0, of element type `string`. -/
def storeT : State := ⟨[("t", Object.Array "string" 0)]⟩

/-- A world in which the array with handle 0 is `{"x", "y"}`. -/
def worldT : World := ⟨[[Object.String "x", Object.String "y"]], 0, []⟩

/-- The function `int f() { while (true) { return 1; } return 2; }`. -/
def returnInWhile : Object :=
  Object.FuncDecl "int" "f" []
    [Stmt.While (Expr.Bool true) (Stmt.Block [Stmt.Return (Expr.IntCon 1) false]),
     Stmt.Return (Expr.IntCon 2) false]

/-- The function `int g() { for (0; true; 0) { return 1; } return 2; }`. -/
def returnInFor : Object :=
  Object.FuncDecl "int" "g" []
    [Stmt.For (Expr.IntCon 0) (Expr.Bool true) (Expr.IntCon 0)
      (Stmt.Block [Stmt.Return (Expr.IntCon 1) false]) false "" "" Expr.nil,
     Stmt.Return (Expr.IntCon 2) false]

/-- The function `int h() { if (true) { { return 1; } } return 2; }`. -/
def returnInIf : Object :=
  Object.FuncDecl "int" "h" []
    [Stmt.IfElse (Expr.Bool true)
      (Stmt.Block [Stmt.Block [Stmt.Return (Expr.IntCon 1) false]]) Stmt.nil false,
     Stmt.Return (Expr.IntCon 2) false]

/-- A store in which `f`, `g` and `h` are these three functions. -/
def storeFGH : State := ⟨[("f", returnInWhile), ("g", returnInFor), ("h", returnInIf)]⟩

/-- The loop `while (10 / n > 1) { n -= 1; }`. -/
def whileDivN : Stmt :=
  Stmt.While
    (Expr.InfixExpr (Expr.InfixExpr (Expr.IntCon 10) "/" (Expr.Identifier "n")) ">"
      (Expr.IntCon 1))
    (Stmt.Block [Stmt.ExprStmt (Expr.AssignExpr "n" "-=" (Expr.IntCon 1))])

/-- A store in which `c` is the array with handle 0 and `i` is 0. -/
def storeCI : State := ⟨[("c", Object.Array "" 0), ("i", Object.Int 0)]⟩

/-- A world in which the array with handle 0 is `{true, 1}`. -/
def worldCI : World := ⟨[[Object.Bool true, Object.Int 1]], 0, []⟩

/-- The loop `for (0; c[i]; i += 1) {}`. -/
def forCI : Stmt :=
  Stmt.For (Expr.IntCon 0) (Expr.IndexExpr "c" (Expr.Identifier "i"))
    (Expr.AssignExpr "i" "+=" (Expr.IntCon 1)) (Stmt.Block []) false "" "" Expr.nil

/-- The function `int f(int f) { return f; }`, whose parameter has the name of the
function. -/
def paramOwnName : Object :=
  Object.FuncDecl "int" "f" [⟨"int", "f", false⟩] [Stmt.Return (Expr.Identifier "f") false]

/-- The function `int k(int g) { return g; }`, whose parameter has the name of
another declared function. -/
def paramOtherName : Object :=
  Object.FuncDecl "int" "k" [⟨"int", "g", false⟩] [Stmt.Return (Expr.Identifier "g") false]

/-- A caller's store with the functions `f`, `g` and `k`. -/
def storeFGK : State := ⟨[("f", paramOwnName), ("g", returns7), ("k", paramOtherName)]⟩

/-- Every name bound in `s` is bound in `t`, to an object with the same type tag. -/
def SameTypes (s t : State) : Prop :=
  ∀ k v, s.Get k = some v → ∃ v', t.Get k = some v' ∧ v'.Type = v.Type

/-- An evaluator that keeps every binding and its type tag, and which evaluates an
identifier with `evalIdent`. -/
def EvTypes (H : Host) (ev : Node → State → World → Res Out) : Prop :=
  (∀ n s w o, ev n s w = Res.ok o → SameTypes s o.s) ∧
  (∀ x s w o, ev (Node.expr (Expr.Identifier x)) s w = Res.ok o → o = ⟨evalIdent H x s, s, w⟩)

mutual
/-- An expression built only from literals, identifiers, prefix operators, infix
operators, array literals and index reads. -/
def isPure : Expr → Bool
  | Expr.PrefixExpr _ right => isPure right
  | Expr.InfixExpr left _ right => isPure left && isPure right
  | Expr.Identifier _ => true
  | Expr.CharCon _ => true
  | Expr.IntCon _ => true
  | Expr.FloatCon _ => true
  | Expr.StringCon _ => true
  | Expr.Bool _ => true
  | Expr.Array elements => isPureList elements
  | Expr.IndexExpr _ index => isPure index
  | _ => false
/-- All expressions of the list are pure. -/
def isPureList : List Expr → Bool
  | [] => true
  | e :: es => isPure e && isPureList es
end

/-- The handle `r` of the second evaluation: handles below `n0` are those of arrays
that existed before the first evaluation; an array that the first evaluation
allocated at `r` is allocated `k` places later by the second. -/
def shiftRef (n0 k r : Nat) : Nat := if r < n0 then r else r + k

/-- The object of the second evaluation that corresponds to an object of the first. -/
def shiftObj (n0 k : Nat) : Object → Object
  | Object.Array el ref => Object.Array el (shiftRef n0 k ref)
  | o => o

/-- The world `wb` of the second evaluation corresponds to the world `wa` of the
first: the arrays below `n0` are the same and hold no handle of a later array, and
each array that `wa` has from `n0` on is in `wb`, `k` places later, with
corresponding elements. -/
def WorldRel (n0 k : Nat) (wa wb : World) : Prop :=
  n0 ≤ wa.cells.length ∧ wb.cells.length = wa.cells.length + k ∧
  (∀ r, r < n0 → wb.elems r = wa.elems r) ∧
  (∀ r, n0 ≤ r → r < wa.cells.length → wb.elems (r + k) = (wa.elems r).map (shiftObj n0 k)) ∧
  (∀ r, r < n0 → ∀ x ∈ wa.elems r, shiftObj n0 k x = x) ∧
  wb.rng = wa.rng ∧ wb.out = wa.out

/-- The world `w1` is `w` with more arrays allocated. -/
def Extends (w w1 : World) : Prop :=
  ∃ extra, w1.cells = w.cells ++ extra ∧ w1.rng = w.rng ∧ w1.out = w.out

/-- Every array handle in the store is below `n0`. -/
def StoreLow (n0 : Nat) (s : State) : Prop :=
  ∀ x el r, s.Get x = some (Object.Array el r) → r < n0

/-- The store and the arrays of the world hold only handles of arrays of the world. -/
def WellFormed (s : State) (w : World) : Prop :=
  StoreLow w.cells.length s ∧
  ∀ r, r < w.cells.length → ∀ el r', Object.Array el r' ∈ w.elems r → r' < w.cells.length

/-- The two objects are the same to depth `d`: equal when they are no arrays, and
for arrays the same element-type name and elements that are the same to depth
`d - 1`, each in its world. -/
def sameDeep (w1 w2 : World) : Nat → Object → Object → Prop
  | 0, _, _ => True
  | d + 1, Object.Array el r, Object.Array el' r' =>
    el = el' ∧ List.Forall₂ (sameDeep w1 w2 d) (w1.elems r) (w2.elems r')
  | _ + 1, v1, v2 => v1 = v2

/-- The step of a pure evaluation, as a function of the world: the store `s` is
handed back, arrays are only allocated, and in a corresponding world the step
yields the corresponding object and world. -/
def PureStep (n0 k : Nat) (s : State) (f : World → Res Out) : Prop :=
  ∀ wa wb oa, WorldRel n0 k wa wb → f wa = Res.ok oa →
    oa.s = s ∧ Extends wa oa.w ∧
      ∃ wb', f wb = Res.ok ⟨shiftObj n0 k oa.val, s, wb'⟩ ∧ WorldRel n0 k oa.w wb'

/-- The object that `evalInfixExpr` computes from the values of its two operands,
once neither is an Error. -/
def infixVal (H : Host) (op : String) (l r : Object) : Res Object := do
  let tl ← l.Type
  let tr ← r.Type
  if tl ≠ tr then
    pure (errorObj H ("mismatched types: " ++ ObjString l ++ " " ++ op ++ " " ++ ObjString r))
  else
    match l, r with
    | Object.Char a, Object.Char b => pure (evalInfixExprChar H op a b)
    | Object.Int a, Object.Int b => evalInfixExprInt H op a b
    | Object.Float a, Object.Float b => pure (evalInfixExprFloat H op a b)
    | Object.String a, Object.String b => pure (evalInfixExprString H op a b)
    | Object.Bool a, Object.Bool b => pure (evalInfixExprBool H op a b)
    | _, _ =>
      pure (errorObj H ("invalid expression types: " ++ ObjString l ++ " " ++ op ++ " "
        ++ ObjString r))

/-- The object that `evalPrefixExpr` computes from the value of its operand, once
it is no Error. -/
def prefixVal (H : Host) (op : String) (v : Object) : Res Object :=
  if op = "!" then evalNotOp H v
  else if op = "-" then pure (evalNegOp H v)
  else if op = "+" then pure (evalPosOp H v)
  else if op = "~" then pure (evalTildeOp H v)
  else pure (errorObj H ("unknown prefix operator: " ++ op))

/-- The object that `evalIndexExpr` computes from the value of the index expression,
once it is no Error, in the store and world that its evaluation left. -/
def indexVal (H : Host) (ident : String) (s : State) (x : Object) (w : World) : Res Object := do
  let tx ← x.Type
  if tx ≠ ObjectType.IntObj then pure (errorObj H ("illegal array index: " ++ ObjString x))
  else
    match s.Get ident with
    | none => pure (errorObj H ("undeclared array: " ++ ident))
    | some array => do
      let ta ← array.Type
      if ta ≠ ObjectType.ArrObj then pure (errorObj H (ident ++ " is not an array"))
      else
        match x, array with
        | Object.Int idx, Object.Array _ arr =>
          if idx < 0 ∨ idx ≥ (w.elems arr).length then
            pure (errorObj H ("array index out of bounds: " ++ ident ++ "["
              ++ toString idx ++ "]"))
          else pure ((w.elems arr).getD idx.toNat Object.nil)
        | _, _ => Res.panic

/-- An evaluator under which the evaluation of every pure expression on the store
`s` is such a step. -/
def PureEv (n0 k : Nat) (s : State) (ev : Node → State → World → Res Out) : Prop :=
  ∀ e, isPure e = true → PureStep n0 k s (fun w => ev (Node.expr e) s w)

/-- The array literal `{a[0], 1 + 1}`. -/
def pureLit : Expr :=
  Expr.Array [Expr.IndexExpr "a" (Expr.IntCon 0),
    Expr.InfixExpr (Expr.IntCon 1) "+" (Expr.IntCon 1)]

/-- A store in which `a` is the array with handle 0 and `y` is 1. -/
def storeAY : State := ⟨[("a", Object.Array "int" 0), ("y", Object.Int 1)]⟩

/-- Every array handle that the object carries satisfies `P`. -/
def HandlesIn (P : Nat → Prop) : Object → Prop
  | Object.Array _ ref => P ref
  | Object.Return v => HandlesIn P v
  | _ => True

/-- Every array handle bound in the store satisfies `P`. -/
def StoreIn (P : Nat → Prop) (s : State) : Prop :=
  ∀ k v, s.Get k = some v → HandlesIn P v

/-- The world `w` comes from the world `w0` by steps that reach only the arrays
whose handle satisfies `P`: the handles that `w0` does not use satisfy `P`, no array
was removed, the arrays within `P` hold only handles within `P`, every array outside
`P` holds what it held in `w0`, and every array has the length it had in `w0`. -/
def Framed (P : Nat → Prop) (w0 w : World) : Prop :=
  (∀ r, w0.cells.length ≤ r → P r) ∧
  w0.cells.length ≤ w.cells.length ∧
  (∀ r, P r → ∀ x ∈ w.elems r, HandlesIn P x) ∧
  (∀ r, ¬ P r → w.elems r = w0.elems r) ∧
  (∀ r, r < w0.cells.length → (w.elems r).length = (w0.elems r).length)

/-- An evaluator that, from a store and a world that reach only arrays within `P`,
yields an object, a store and a world that reach only arrays within `P`. -/
def EvFrame (P : Nat → Prop) (w0 : World) (ev : Node → State → World → Res Out) : Prop :=
  ∀ n s w o, StoreIn P s → Framed P w0 w → ev n s w = Res.ok o →
    StoreIn P o.s ∧ Framed P w0 o.w ∧ HandlesIn P o.val
/-- A store in which `a` is the array with handle 0, `b` the array with handle 1 and
`f` the function `void f(int p[]) { p[0] = 9; }`. -/
def storeABF : State :=
  ⟨[("a", Object.Array "int" 0), ("b", Object.Array "int" 1),
    ("f", Object.FuncDecl "void" "f" [⟨"int", "p", true⟩]
      [Stmt.ExprStmt (Expr.AssignIndexExpr "p" (Expr.IntCon 0) (Expr.IntCon 9))])]⟩

/-- The world of `storeABF`: the array `a` holds 1 and the array `b` holds 2. -/
def worldAB : World := ⟨[[Object.Int 1], [Object.Int 2]], 0, []⟩

-- (end of definitions)

set_option linter.unusedTactic false
set_option linter.unreachableTactic false

/-! ## Basic facts -/

@[simp] theorem Res.ok_bind {α β : Type} (a : α) (f : α → Res β) : (Res.ok a >>= f) = f a := rfl
@[simp] theorem Res.panic_bind {α β : Type} (f : α → Res β) : (Res.panic >>= f) = Res.panic := rfl
@[simp] theorem Res.timeout_bind {α β : Type} (f : α → Res β) :
    (Res.timeout >>= f) = Res.timeout := rfl
@[simp] theorem Res.pure_eq {α : Type} (a : α) : (pure a : Res α) = Res.ok a := rfl

theorem Res.bind_eq_ok {α β : Type} {x : Res α} {f : α → Res β} {b : β}
    (h : (x >>= f) = Res.ok b) : ∃ a, x = Res.ok a ∧ f a = Res.ok b := by
  cases x with
  | ok a => exact ⟨a, rfl, h⟩
  | panic => cases h
  | timeout => cases h

theorem lookup_cons_self (k : String) (v : Object) (l : List (String × Object)) :
    ((k, v) :: l).lookup k = some v := by
  simp [List.lookup]

theorem lookup_cons_other (k k' : String) (v : Object) (l : List (String × Object))
    (h : k' ≠ k) : ((k, v) :: l).lookup k' = l.lookup k' := by
  have hb : (k' == k) = false := by simpa using h
  simp [List.lookup, hb]

theorem lookup_storeSet (k : String) (v : Object) (l : List (String × Object)) (k' : String) :
    (storeSet k v l).lookup k' = if k' = k then some v else l.lookup k' := by
  induction l with
  | nil =>
    by_cases h : k' = k
    · subst h; simp [storeSet, lookup_cons_self]
    · simp [storeSet, lookup_cons_other _ _ _ _ h, h]
  | cons p rest ih =>
    obtain ⟨a, b⟩ := p
    by_cases hak : a = k
    · subst hak
      by_cases h : k' = a
      · subst h; simp [storeSet, lookup_cons_self]
      · simp [storeSet, lookup_cons_other _ _ _ _ h, h]
    · by_cases h : k' = a
      · subst h
        simp [storeSet, hak, lookup_cons_self]
      · simp [storeSet, hak, lookup_cons_other _ _ _ _ h, ih]

theorem State.Get_Set (s : State) (k : String) (v : Object) (k' : String) :
    (s.Set k v).Get k' = if k' = k then some v else s.Get k' :=
  lookup_storeSet k v s.store k'

theorem State.Get_Set_self (s : State) (k : String) (v : Object) :
    (s.Set k v).Get k = some v := by simp [State.Get_Set]

theorem State.Get_Set_other (s : State) (k : String) (v : Object) (k' : String) (h : k' ≠ k) :
    (s.Set k v).Get k' = s.Get k' := by simp [State.Get_Set, h]

theorem Get_UpdateState (s t : State) (k : String) :
    (UpdateState s t).Get k = (s.Get k).map (fun _ => (t.Get k).getD Object.nil) := by
  unfold UpdateState State.Get
  generalize s.store = l
  induction l with
  | nil => simp [List.lookup]
  | cons p rest ih =>
    obtain ⟨a, b⟩ := p
    by_cases h : k = a
    · subst h; simp [List.lookup]
    · have hb : (k == a) = false := by simpa using h
      simp only [List.map, List.lookup, hb]
      exact ih

@[simp] theorem NewCopiedState_eq (s : State) : NewCopiedState s = s := rfl

@[simp] theorem NewState_Get (k : String) : NewState.Get k = none := rfl

/-! ## Evaluation never unbinds a name -/

theorem Keeps.refl (s : State) : Keeps s s := fun _ h => h

theorem Keeps.trans {s t u : State} (h1 : Keeps s t) (h2 : Keeps t u) : Keeps s u :=
  fun k h => h2 k (h1 k h)

theorem Keeps.set (s : State) (k : String) (v : Object) : Keeps s (s.Set k v) := by
  intro k' h
  rw [State.Get_Set]
  split
  · rfl
  · exact h

theorem Keeps.set_right {s t : State} (h : Keeps s t) (k : String) (v : Object) :
    Keeps s (t.Set k v) := h.trans (Keeps.set t k v)

theorem Keeps.update (s t : State) : Keeps s (UpdateState s t) := by
  intro k h
  rw [Get_UpdateState]
  cases hs : s.Get k with
  | none => rw [hs] at h; cases h
  | some v => rfl

theorem keeps_evalProgramLoop {ev : Node → State → World → Res Out} (hev : EvKeeps ev) :
    ∀ (p : List Stmt) (res : Object) (s : State) (w : World) (o : Out),
      evalProgramLoop ev p res s w = Res.ok o → Keeps s o.s := by
  intro p
  induction p with
  | nil =>
    intro res s w o h
    simp [evalProgramLoop] at h
    subst h
    exact Keeps.refl s
  | cons st rest ih =>
    intro res s w o h
    simp only [evalProgramLoop] at h
    obtain ⟨r, hr, h2⟩ := Res.bind_eq_ok h
    have hk := hev _ _ _ _ hr
    split at h2
    · simp at h2; subst h2; exact hk
    · simp at h2; subst h2; exact hk
    · exact hk.trans (ih _ _ _ _ h2)

theorem keeps_evalFuncDecl (H : Host) (t i : String) (ps : List Param) (b : List Stmt)
    (s : State) (w : World) (o : Out) (h : evalFuncDecl H t i ps b s w = Res.ok o) :
    Keeps s o.s := by
  unfold evalFuncDecl at h
  split at h
  · simp at h; subst h; exact Keeps.refl s
  · simp at h; subst h; exact Keeps.set s _ _

theorem keeps_evalVarDecl {ev : Node → State → World → Res Out} (hev : EvKeeps ev) (H : Host)
    (t i : String) (v : Expr) (ini : Bool) (s : State) (w : World) (o : Out)
    (h : evalVarDecl H ev t i v ini s w = Res.ok o) : Keeps s o.s := by
  unfold evalVarDecl at h
  split at h
  · simp at h; subst h; exact Keeps.refl s
  · split at h
    · obtain ⟨r, hr, h2⟩ := Res.bind_eq_ok h
      have hk := hev _ _ _ _ hr
      split at h2
      · simp at h2; subst h2; exact hk
      · split at h2
        · obtain ⟨ty, _, h3⟩ := Res.bind_eq_ok h2
          split at h3
          · simp at h3; subst h3; exact hk
          · simp at h3; subst h3; exact hk.set_right _ _
        · split at h2
          · obtain ⟨r2, hr2, h3⟩ := Res.bind_eq_ok h2
            have hk2 := hk.trans (hev _ _ _ _ hr2)
            split at h3
            · obtain ⟨hom, _, h4⟩ := Res.bind_eq_ok h3
              split at h4
              · simp at h4; subst h4; exact hk2
              · split at h4
                · cases h4
                · obtain ⟨t0, _, h5⟩ := Res.bind_eq_ok h4
                  split at h5
                  · simp at h5; subst h5; exact hk2
                  · simp at h5; subst h5; exact hk2.set_right _ _
            · cases h3
          · simp at h2; subst h2; exact hk
    · split at h
      · simp at h; subst h; exact Keeps.set s _ _
      · split at h
        · obtain ⟨r, hr, h2⟩ := Res.bind_eq_ok h
          have hk := hev _ _ _ _ hr
          split at h2
          · simp at h2; subst h2; exact hk
          · obtain ⟨ty, _, h3⟩ := Res.bind_eq_ok h2
            split at h3
            · simp at h3; subst h3; exact hk
            · split at h3
              · split at h3
                · cases h3
                · simp at h3; subst h3; exact hk.set_right _ _
              · cases h3
        · simp at h; subst h; exact Keeps.refl s

theorem keeps_evalWhileLoop {ev : Node → State → World → Res Out} (hev : EvKeeps ev)
    (c : Expr) (b : Stmt) : ∀ (n : Nat) (cond : Object) (s : State) (w : World) (o : Out),
      evalWhileLoop ev c b n cond s w = Res.ok o → Keeps s o.s := by
  intro n
  induction n with
  | zero => intro cond s w o h; cases h
  | succ n ih =>
    intro cond s w o h
    have hk : Keeps s s := Keeps.refl s
    simp only [evalWhileLoop] at h
    iterate 8 (
      all_goals try (first
        | (cases h; done)
        | (obtain ⟨r, hr, h'⟩ := Res.bind_eq_ok h; clear h; rename' h' => h; try beta_reduce at h;
           first | (replace hk := hk.trans (hev _ _ _ _ hr)) | skip)
        | (split at h)
        | (simp at h; subst h;
           first | exact hk | exact hk.set_right _ _ | exact Keeps.update _ _ | exact Keeps.refl _)
        | (exact hk.trans (ih _ _ _ _ h))))

theorem keeps_evalWhile {ev : Node → State → World → Res Out} (hev : EvKeeps ev) (H : Host)
    (fuel : Nat) (c : Expr) (b : Stmt) (s : State) (w : World) (o : Out)
    (h : evalWhile H ev fuel c b s w = Res.ok o) : Keeps s o.s := by
  have ih := keeps_evalWhileLoop hev c b fuel
  have hk : Keeps s s := Keeps.refl s
  unfold evalWhile at h
  iterate 8 (
    all_goals try (first
      | (cases h; done)
      | (obtain ⟨r, hr, h'⟩ := Res.bind_eq_ok h; clear h; rename' h' => h; try beta_reduce at h;
         first | (replace hk := hk.trans (hev _ _ _ _ hr)) | skip)
      | (split at h)
      | (simp at h; subst h;
         first | exact hk | exact hk.set_right _ _ | exact Keeps.update _ _ | exact Keeps.refl _)
      | (exact hk.trans (ih _ _ _ _ h))))

theorem keeps_evalIfElse {ev : Node → State → World → Res Out} (hev : EvKeeps ev) (H : Host)
    (c : Expr) (a b : Stmt) (ha : Bool) (s : State) (w : World) (o : Out)
    (h : evalIfElse H ev c a b ha s w = Res.ok o) : Keeps s o.s := by
  have ih := hev
  have hk : Keeps s s := Keeps.refl s
  unfold evalIfElse at h
  iterate 10 (
    all_goals try (first
      | (cases h; done)
      | (obtain ⟨r, hr, h'⟩ := Res.bind_eq_ok h; clear h; rename' h' => h; try beta_reduce at h;
         first | (replace hk := hk.trans (hev _ _ _ _ hr)) | skip)
      | (split at h)
      | (simp at h; subst h;
         first | exact hk | exact hk.set_right _ _ | exact Keeps.update _ _ | exact Keeps.refl _)
      | (exact hk.trans (ih _ _ _ _ h))))

theorem keeps_evalReturn {ev : Node → State → World → Res Out} (hev : EvKeeps ev)
    (v : Expr) (vd : Bool) (s : State) (w : World) (o : Out)
    (h : evalReturn ev v vd s w = Res.ok o) : Keeps s o.s := by
  have ih := hev
  have hk : Keeps s s := Keeps.refl s
  unfold evalReturn at h
  iterate 6 (
    all_goals try (first
      | (cases h; done)
      | (obtain ⟨r, hr, h'⟩ := Res.bind_eq_ok h; clear h; rename' h' => h; try beta_reduce at h;
         first | (replace hk := hk.trans (hev _ _ _ _ hr)) | skip)
      | (split at h)
      | (simp at h; subst h;
         first | exact hk | exact hk.set_right _ _ | exact Keeps.update _ _ | exact Keeps.refl _)
      | (exact hk.trans (ih _ _ _ _ h))))

theorem keeps_evalPrefixExpr {ev : Node → State → World → Res Out} (hev : EvKeeps ev)
    (H : Host) (op : String) (e : Expr) (s : State) (w : World) (o : Out)
    (h : evalPrefixExpr H ev op e s w = Res.ok o) : Keeps s o.s := by
  have ih := hev
  have hk : Keeps s s := Keeps.refl s
  unfold evalPrefixExpr at h
  iterate 10 (
    all_goals try (first
      | (cases h; done)
      | (obtain ⟨r, hr, h'⟩ := Res.bind_eq_ok h; clear h; rename' h' => h; try beta_reduce at h;
         first | (replace hk := hk.trans (hev _ _ _ _ hr)) | skip)
      | (split at h)
      | (simp at h; subst h;
         first | exact hk | exact hk.set_right _ _ | exact Keeps.update _ _ | exact Keeps.refl _)
      | (exact hk.trans (ih _ _ _ _ h))))

theorem keeps_evalInfixExpr {ev : Node → State → World → Res Out} (hev : EvKeeps ev)
    (H : Host) (l : Expr) (op : String) (e : Expr) (s : State) (w : World) (o : Out)
    (h : evalInfixExpr H ev l op e s w = Res.ok o) : Keeps s o.s := by
  have ih := hev
  have hk : Keeps s s := Keeps.refl s
  unfold evalInfixExpr at h
  iterate 12 (
    all_goals try (first
      | (cases h; done)
      | (obtain ⟨r, hr, h'⟩ := Res.bind_eq_ok h; clear h; rename' h' => h; try beta_reduce at h;
         first | (replace hk := hk.trans (hev _ _ _ _ hr)) | skip)
      | (split at h)
      | (simp at h; subst h;
         first | exact hk | exact hk.set_right _ _ | exact Keeps.update _ _ | exact Keeps.refl _)
      | (exact hk.trans (ih _ _ _ _ h))))

theorem keeps_evalAssign {ev : Node → State → World → Res Out} (hev : EvKeeps ev)
    (H : Host) (i : String) (e : Expr) (s : State) (w : World) (o : Out)
    (h : evalAssign H ev i e s w = Res.ok o) : Keeps s o.s := by
  have ih := hev
  have hk : Keeps s s := Keeps.refl s
  unfold evalAssign at h
  iterate 10 (
    all_goals try (first
      | (cases h; done)
      | (obtain ⟨r, hr, h'⟩ := Res.bind_eq_ok h; clear h; rename' h' => h; try beta_reduce at h;
         first | (replace hk := hk.trans (hev _ _ _ _ hr)) | skip)
      | (split at h)
      | (simp at h; subst h;
         first | exact hk | exact hk.set_right _ _ | exact Keeps.update _ _ | exact Keeps.refl _)
      | (exact hk.trans (ih _ _ _ _ h))))

theorem keeps_evalAssignExpr {ev : Node → State → World → Res Out} (hev : EvKeeps ev)
    (H : Host) (i op : String) (e : Expr) (s : State) (w : World) (o : Out)
    (h : evalAssignExpr H ev i op e s w = Res.ok o) : Keeps s o.s := by
  have ih := hev
  have hk : Keeps s s := Keeps.refl s
  unfold evalAssignExpr at h
  iterate 14 (
    all_goals try (first
      | (cases h; done)
      | (obtain ⟨r, hr, h'⟩ := Res.bind_eq_ok h; clear h; rename' h' => h; try beta_reduce at h;
         first | (replace hk := hk.trans (hev _ _ _ _ hr)) | skip)
      | (split at h)
      | (simp at h; subst h;
         first | exact hk | exact hk.set_right _ _ | exact Keeps.update _ _ | exact Keeps.refl _)
      | (exact hk.trans (ih _ _ _ _ h))))

theorem keeps_evalBlockLoop (ev : Node → State → World → Res Out) (s : State) :
    ∀ (b : List Stmt) (res : Object) (copied : State) (w : World) (o : Out),
      evalBlockLoop ev s b res copied w = Res.ok o → Keeps s o.s := by
  intro b
  induction b with
  | nil =>
    intro res copied w o h
    simp [evalBlockLoop] at h
    subst h
    exact Keeps.update _ _
  | cons st rest ih =>
    intro res copied w o h
    have hk : Keeps s s := Keeps.refl s
    have hev : True := trivial
    simp only [evalBlockLoop] at h
    iterate 6 (
      all_goals try (first
          | (cases h; done)
          | (obtain ⟨r, hr, h'⟩ := Res.bind_eq_ok h; clear h; rename' h' => h; try beta_reduce at h;
             first | (replace hk := hk.trans (hev _ _ _ _ hr)) | skip)
          | (split at h)
          | (simp at h; subst h;
             first | exact hk | exact hk.set_right _ _ | exact Keeps.update _ _ | exact Keeps.refl _)
          | (exact hk.trans (ih _ _ _ _ h))
          | (exact ih _ _ _ _ h)))

theorem keeps_evalBlock (ev : Node → State → World → Res Out) (b : List Stmt) (s : State)
    (w : World) (o : Out) (h : evalBlock ev b s w = Res.ok o) : Keeps s o.s :=
  keeps_evalBlockLoop ev s b _ _ _ _ h

theorem keeps_evalForLoop (ev : Node → State → World → Res Out) (c inc : Expr) (b : Stmt)
    (s : State) : ∀ (n : Nat) (cond : Object) (copied : State) (w : World) (o : Out),
      evalForLoop ev c inc b s n cond copied w = Res.ok o → Keeps s o.s := by
  intro n
  induction n with
  | zero => intro cond copied w o h; cases h
  | succ n ih =>
    intro cond copied w o h
    have hk : Keeps s s := Keeps.refl s
    have hev : True := trivial
    simp only [evalForLoop] at h
    iterate 12 (
      all_goals try (first
          | (cases h; done)
          | (obtain ⟨r, hr, h'⟩ := Res.bind_eq_ok h; clear h; rename' h' => h; try beta_reduce at h;
             first | (replace hk := hk.trans (hev _ _ _ _ hr)) | skip)
          | (split at h)
          | (simp at h; subst h;
             first | exact hk | exact hk.set_right _ _ | exact Keeps.update _ _ | exact Keeps.refl _)
          | (exact hk.trans (ih _ _ _ _ h))
          | (exact ih _ _ _ _ h)))

theorem keeps_evalFor (ev : Node → State → World → Res Out) (H : Host) (fuel : Nat)
    (i c inc : Expr) (b : Stmt) (vd : Bool) (t id : String) (v : Expr) (s : State) (w : World)
    (o : Out) (h : evalFor H ev fuel i c inc b vd t id v s w = Res.ok o) : Keeps s o.s := by
  have ih := keeps_evalForLoop ev c inc b s fuel
  have hk : Keeps s s := Keeps.refl s
  have hev : True := trivial
  unfold evalFor at h
  iterate 12 (
    all_goals try (first
        | (cases h; done)
        | (obtain ⟨r, hr, h'⟩ := Res.bind_eq_ok h; clear h; rename' h' => h; try beta_reduce at h;
           first | (replace hk := hk.trans (hev _ _ _ _ hr)) | skip)
        | (split at h)
        | (simp at h; subst h;
           first | exact hk | exact hk.set_right _ _ | exact Keeps.update _ _ | exact Keeps.refl _)
        | (exact hk.trans (ih _ _ _ _ h))
        | (exact ih _ _ _ _ h)))

theorem keeps_indexTarget {ev : Node → State → World → Res Out} (hev : EvKeeps ev) (H : Host)
    (i : String) (x : Expr) (s : State) (w : World)
    (t : Out ⊕ (String × Nat × Nat × State × World))
    (h : indexTarget H ev i x s w = Res.ok t) :
    Keeps s (targetState t) := by
  have ih := hev
  have hk : Keeps s s := Keeps.refl s
  unfold indexTarget at h
  dsimp only at h
  iterate 14 (
    all_goals try (first
        | (cases h; done)
        | (obtain ⟨r, hr, h'⟩ := Res.bind_eq_ok h; clear h; rename' h' => h; try beta_reduce at h;
           first | (replace hk := hk.trans (hev _ _ _ _ hr)) | skip)
        | (split at h)
        | (simp at h; subst h;
           first | exact hk | exact hk.set_right _ _ | exact Keeps.update _ _ | exact Keeps.refl _)
        | (exact hk.trans (ih _ _ _ _ h))
        | (exact ih _ _ _ _ h)))

theorem keeps_evalIndexExpr {ev : Node → State → World → Res Out} (hev : EvKeeps ev)
    (H : Host) (i : String) (x : Expr) (s : State) (w : World) (o : Out)
    (h : evalIndexExpr H ev i x s w = Res.ok o) : Keeps s o.s := by
  unfold evalIndexExpr at h
  obtain ⟨t, ht, h⟩ := Res.bind_eq_ok h
  have hk := keeps_indexTarget hev H i x s w t ht
  unfold targetState at hk
  have ih := hev
  cases t with
  | inl out => simp at h; subst h; exact hk
  | inr p =>
    obtain ⟨et, arr, idx, s1, w1⟩ := p
    simp at h; subst h; exact hk

theorem keeps_evalAssignIndexExpr {ev : Node → State → World → Res Out} (hev : EvKeeps ev)
    (H : Host) (i : String) (x v : Expr) (s : State) (w : World) (o : Out)
    (h : evalAssignIndexExpr H ev i x v s w = Res.ok o) : Keeps s o.s := by
  unfold evalAssignIndexExpr at h
  obtain ⟨t, ht, h⟩ := Res.bind_eq_ok h
  have hk := keeps_indexTarget hev H i x s w t ht
  unfold targetState at hk
  have ih := hev
  cases t with
  | inl out => simp at h; subst h; exact hk
  | inr p =>
    obtain ⟨et, arr, idx, s1, w1⟩ := p
    simp only [] at h hk
    iterate 16 (
      all_goals try (first
          | (cases h; done)
          | (obtain ⟨r, hr, h'⟩ := Res.bind_eq_ok h; clear h; rename' h' => h; try beta_reduce at h;
             first | (replace hk := hk.trans (hev _ _ _ _ hr)) | skip)
          | (split at h)
          | (simp at h; subst h;
             first | exact hk | exact hk.set_right _ _ | exact Keeps.update _ _ | exact Keeps.refl _)
          | (exact hk.trans (ih _ _ _ _ h))
          | (exact ih _ _ _ _ h)))

theorem keeps_evalAssignExprIndexExpr {ev : Node → State → World → Res Out} (hev : EvKeeps ev)
    (H : Host) (i : String) (x : Expr) (op : String) (v : Expr) (s : State) (w : World) (o : Out)
    (h : evalAssignExprIndexExpr H ev i x op v s w = Res.ok o) : Keeps s o.s := by
  unfold evalAssignExprIndexExpr at h
  obtain ⟨t, ht, h⟩ := Res.bind_eq_ok h
  have hk := keeps_indexTarget hev H i x s w t ht
  unfold targetState at hk
  have ih := hev
  cases t with
  | inl out => simp at h; subst h; exact hk
  | inr p =>
    obtain ⟨et, arr, idx, s1, w1⟩ := p
    simp only [] at h hk
    iterate 16 (
      all_goals try (first
          | (cases h; done)
          | (obtain ⟨r, hr, h'⟩ := Res.bind_eq_ok h; clear h; rename' h' => h; try beta_reduce at h;
             first | (replace hk := hk.trans (hev _ _ _ _ hr)) | skip)
          | (split at h)
          | (simp at h; subst h;
             first | exact hk | exact hk.set_right _ _ | exact Keeps.update _ _ | exact Keeps.refl _)
          | (exact hk.trans (ih _ _ _ _ h))
          | (exact ih _ _ _ _ h)))

theorem keeps_evalExpressions {ev : Node → State → World → Res Out} (hev : EvKeeps ev) :
    ∀ (args : List Expr) (acc : List Object) (s : State) (w : World)
      (res : List Object × State × World),
      evalExpressions ev args acc s w = Res.ok res → Keeps s res.2.1 := by
  intro args
  induction args with
  | nil =>
    intro acc s w res h
    simp [evalExpressions] at h
    subst h
    exact Keeps.refl s
  | cons a rest ih =>
    intro acc s w res h
    have hk : Keeps s s := Keeps.refl s
    simp only [evalExpressions] at h
    iterate 6 (
      all_goals try (first
          | (cases h; done)
          | (obtain ⟨r, hr, h'⟩ := Res.bind_eq_ok h; clear h; rename' h' => h; try beta_reduce at h;
             first | (replace hk := hk.trans (hev _ _ _ _ hr)) | skip)
          | (split at h)
          | (simp at h; subst h;
             first | exact hk | exact hk.set_right _ _ | exact Keeps.update _ _ | exact Keeps.refl _)
          | (exact hk.trans (ih _ _ _ _ h))
          | (exact ih _ _ _ _ h)))

theorem keeps_evalArray {ev : Node → State → World → Res Out} (hev : EvKeeps ev)
    (es : List Expr) (s : State) (w : World) (o : Out)
    (h : evalArray ev es s w = Res.ok o) : Keeps s o.s := by
  unfold evalArray at h
  obtain ⟨t, ht, h⟩ := Res.bind_eq_ok h
  have hk := keeps_evalExpressions hev es [] s w t ht
  obtain ⟨args, s1, w1⟩ := t
  simp only [] at h hk
  split at h
  · simp at h; subst h; exact hk
  · simp at h; subst h; exact hk

theorem keeps_evalCall {ev : Node → State → World → Res Out} (hev : EvKeeps ev) (H : Host)
    (fuel : Nat) (f : String) (args : List Expr) (s : State) (w : World) (o : Out)
    (h : evalCall H ev fuel f args s w = Res.ok o) : Keeps s o.s := by
  unfold evalCall at h
  obtain ⟨r0, hr0, h⟩ := Res.bind_eq_ok h
  have hk := hev _ _ _ _ hr0
  split at h
  · simp at h; subst h; exact hk
  · obtain ⟨tf, _, h⟩ := Res.bind_eq_ok h
    split at h
    · simp at h; subst h; exact hk
    · obtain ⟨t, ht, h⟩ := Res.bind_eq_ok h
      replace hk := hk.trans (keeps_evalExpressions hev args [] _ _ t ht)
      obtain ⟨vs, s1, w1⟩ := t
      simp only [] at h hk
      have ih := hev
      clear hev
      have hev : True := trivial
      iterate 16 (
        all_goals try (first
            | (cases h; done)
            | (obtain ⟨r, hr, h'⟩ := Res.bind_eq_ok h; clear h; rename' h' => h; try beta_reduce at h;
               first | (replace hk := hk.trans (hev _ _ _ _ hr)) | skip)
            | (split at h)
            | (simp at h; subst h;
               first | exact hk | exact hk.set_right _ _ | exact Keeps.update _ _ | exact Keeps.refl _)
            | (exact hk.trans (ih _ _ _ _ h))
            | (exact ih _ _ _ _ h)))

theorem Eval_keeps (H : Host) : ∀ fuel : Nat, EvKeeps (Eval H fuel) := by
  intro fuel
  induction fuel with
  | zero => intro n s w o h; simp [Eval] at h
  | succ fuel ih =>
    intro n s w o h
    cases n with
    | Program p => exact keeps_evalProgramLoop ih p _ s w o h
    | stmt st =>
      cases st with
      | nil => simp [Eval] at h; subst h; exact Keeps.refl s
      | FuncDecl t i ps b => exact keeps_evalFuncDecl H t i ps b s w o h
      | VarDecl t i v ini => exact keeps_evalVarDecl ih H t i v ini s w o h
      | Block b => exact keeps_evalBlock _ b s w o h
      | While c b => exact keeps_evalWhile ih H fuel c b s w o h
      | For i c inc b vd t id v => exact keeps_evalFor _ H fuel i c inc b vd t id v s w o h
      | IfElse c a b ha => exact keeps_evalIfElse ih H c a b ha s w o h
      | Return v vd => exact keeps_evalReturn ih v vd s w o h
      | ExprStmt e => exact ih _ s w o h
    | expr e =>
      cases e with
      | nil => simp [Eval] at h; subst h; exact Keeps.refl s
      | PrefixExpr op r => exact keeps_evalPrefixExpr ih H op r s w o h
      | InfixExpr l op r => exact keeps_evalInfixExpr ih H l op r s w o h
      | Assign i v => exact keeps_evalAssign ih H i v s w o h
      | AssignExpr i op v => exact keeps_evalAssignExpr ih H i op v s w o h
      | Call f args vd => exact keeps_evalCall ih H fuel f args s w o h
      | Identifier name => simp [Eval] at h; subst h; exact Keeps.refl s
      | CharCon v => simp [Eval] at h; subst h; exact Keeps.refl s
      | IntCon v => simp [Eval] at h; subst h; exact Keeps.refl s
      | FloatCon v => simp [Eval] at h; subst h; exact Keeps.refl s
      | StringCon v => simp [Eval] at h; subst h; exact Keeps.refl s
      | Bool v => simp [Eval] at h; subst h; exact Keeps.refl s
      | Array es => exact keeps_evalArray ih es s w o h
      | IndexExpr i x => exact keeps_evalIndexExpr ih H i x s w o h
      | AssignIndexExpr i x v => exact keeps_evalAssignIndexExpr ih H i x v s w o h
      | AssignExprIndexExpr i x op v => exact keeps_evalAssignExprIndexExpr ih H i x op v s w o h

/-! ## C1: block scoping -/

theorem blockRun_keeps {ev : Node → State → World → Res Out} (hev : EvKeeps ev) :
    ∀ (b : List Stmt) (res : Object) (c : State) (w : World) (fin : Out),
      blockRun ev b res c w = some fin → Keeps c fin.s := by
  intro b
  induction b with
  | nil =>
    intro res c w fin h
    simp [blockRun] at h
    subst h
    exact Keeps.refl c
  | cons st rest ih =>
    intro res c w fin h
    simp only [blockRun] at h
    split at h
    · rename_i r hr
      split at h
      · cases h
      · exact (hev _ _ _ _ hr).trans (ih _ _ _ _ h)
    · cases h

theorem evalBlockLoop_of_blockRun (ev : Node → State → World → Res Out) (s : State) :
    ∀ (b : List Stmt) (res : Object) (c : State) (w : World) (fin : Out),
      blockRun ev b res c w = some fin →
      evalBlockLoop ev s b res c w = Res.ok ⟨fin.val, UpdateState s fin.s, fin.w⟩ := by
  intro b
  induction b with
  | nil =>
    intro res c w fin h
    simp [blockRun] at h
    subst h
    simp [evalBlockLoop]
  | cons st rest ih =>
    intro res c w fin h
    simp only [blockRun] at h
    split at h
    · rename_i r hr
      split at h
      · cases h
      · rename_i hsig
        simp only [evalBlockLoop, hr, Res.ok_bind]
        have := ih _ _ _ _ h
        cases hv : r.val <;> simp [hv, isSignal] at hsig ⊢ <;> simpa [hv] using this
    · cases h

/-- C1. Block scoping: when all statements of a block finish without yielding a
Return or an Error, `evalBlock` returns the value of the last statement; the names
bound in the store afterwards are exactly the names bound before the block, and
each of them holds the value it has in the working copy when the last statement
has finished. -/
theorem C1_block_scoping (H : Host) (fuel : Nat) (b : List Stmt) (s : State) (w : World)
    (fin : Out) (h : blockRun (Eval H fuel) b Object.nil (NewCopiedState s) w = some fin) :
    ∃ o, evalBlock (Eval H fuel) b s w = Res.ok o ∧ o.val = fin.val ∧ o.w = fin.w ∧
      (∀ k, (o.s.Get k).isSome = (s.Get k).isSome) ∧
      (∀ k, (s.Get k).isSome → o.s.Get k = fin.s.Get k) := by
  refine ⟨⟨fin.val, UpdateState s fin.s, fin.w⟩, ?_, rfl, rfl, ?_, ?_⟩
  · exact evalBlockLoop_of_blockRun _ s b _ _ _ _ h
  · intro k
    simp only [Get_UpdateState]
    cases s.Get k <;> rfl
  · intro k hk
    have hkeep := blockRun_keeps (Eval_keeps H fuel) b _ _ _ _ h k hk
    simp only [Get_UpdateState]
    cases hs : s.Get k with
    | none => rw [hs] at hk; cases hk
    | some v =>
      cases hf : fin.s.Get k with
      | none => rw [hf] at hkeep; cases hkeep
      | some v' => rfl

/-- C1, witness: after `int x = 1;` the block `{ x = 2; int y = 9; }` leaves `x`
bound to 2 and `y` unbound. -/
theorem C1_block_scoping_witness :
    blockRun (Eval sampleHost 3) blockXY Object.nil (NewCopiedState storeX1) emptyWorld
        = some ⟨Object.nil, ⟨[("x", Object.Int 2), ("y", Object.Int 9)]⟩, emptyWorld⟩ ∧
    ∃ o, evalBlock (Eval sampleHost 3) blockXY storeX1 emptyWorld = Res.ok o ∧
      o.s.Get "x" = some (Object.Int 2) ∧ o.s.Get "y" = none := by
  have hrun : blockRun (Eval sampleHost 3) blockXY Object.nil (NewCopiedState storeX1) emptyWorld
      = some ⟨Object.nil, ⟨[("x", Object.Int 2), ("y", Object.Int 9)]⟩, emptyWorld⟩ := rfl
  refine ⟨hrun, ?_⟩
  obtain ⟨o, ho, _, _, hdom, hval⟩ :=
    C1_block_scoping sampleHost 3 blockXY storeX1 emptyWorld _ hrun
  refine ⟨o, ho, ?_, ?_⟩
  · rw [hval "x" rfl]; rfl
  · have := hdom "y"
    cases hy : o.s.Get "y" with
    | none => rfl
    | some v => rw [hy] at this; cases this

/-! ## C8: zero values -/

theorem scalarTag_zeroValue (t : String) (ht : t ∈ scalarTypes) :
    ∃ tag, scalarTag t = some tag ∧ zeroValue tag = specZero t := by
  simp only [scalarTypes, List.mem_cons, List.mem_singleton, List.not_mem_nil, or_false] at ht
  rcases ht with h | h | h | h | h <;> subst h
  · exact ⟨ObjectType.CharObj, by decide, rfl⟩
  · exact ⟨ObjectType.IntObj, by decide, rfl⟩
  · exact ⟨ObjectType.FloatObj, by decide, rfl⟩
  · exact ⟨ObjectType.StringObj, by decide, rfl⟩
  · exact ⟨ObjectType.BoolObj, by decide, rfl⟩

/-- C8. Zero values: for a scalar declared type `t` and a name `x` that is not
bound, the uninitialized declaration yields no error, binds `x` to the zero value
of `t`, changes no other binding and nothing else, and the identifier `x` evaluated
right afterwards yields that zero value. -/
theorem C8_zero_values (H : Host) (fuel fuel' : Nat) (t x : String) (v : Expr) (s : State)
    (w : World) (ht : t ∈ scalarTypes) (hx : s.Get x = none) :
    ∃ o, Eval H (fuel + 1) (Node.stmt (Stmt.VarDecl t x v false)) s w = Res.ok o ∧
      o.val = Object.nil ∧ o.w = w ∧
      o.s.Get x = some (specZero t) ∧
      (∀ k, k ≠ x → o.s.Get k = s.Get k) ∧
      Eval H (fuel' + 1) (Node.expr (Expr.Identifier x)) o.s o.w
        = Res.ok ⟨specZero t, o.s, o.w⟩ := by
  obtain ⟨tag, htag, hz⟩ := scalarTag_zeroValue t ht
  refine ⟨⟨Object.nil, s.Set x (specZero t), w⟩, ?_, rfl, rfl, ?_, ?_, ?_⟩
  · simp [Eval, evalVarDecl, hx, htag, hz]
  · exact State.Get_Set_self _ _ _
  · intro k hk
    exact State.Get_Set_other _ _ _ _ hk
  · simp [Eval, evalIdent, State.Get_Set_self]

/-- C8, witness: `int x;` in the empty store. -/
theorem C8_zero_values_witness :
    "int" ∈ scalarTypes ∧ NewState.Get "x" = none ∧
    ∃ o, Eval sampleHost 1 (Node.stmt (Stmt.VarDecl "int" "x" Expr.nil false)) NewState emptyWorld
        = Res.ok o ∧
      o.val = Object.nil ∧ o.w = emptyWorld ∧
      o.s.Get "x" = some (specZero "int") ∧
      (∀ k, k ≠ "x" → o.s.Get k = NewState.Get k) ∧
      Eval sampleHost 1 (Node.expr (Expr.Identifier "x")) o.s o.w
        = Res.ok ⟨specZero "int", o.s, o.w⟩ :=
  ⟨by decide, rfl,
    C8_zero_values sampleHost 0 0 "int" "x" Expr.nil NewState emptyWorld (by decide) rfl⟩

/-! ## C10: duplicate declarations -/

/-- C10. Duplicate declarations: when the name is already bound, a variable
declaration and a function declaration yield the error `<name> already declared`
and leave the store and the world as they are; the result does not depend on the
evaluator `ev` that would evaluate the initializer, so the initializer is not
evaluated. The same holds for a declaration that is the first statement of a block,
whose working copy inherits the name: the block yields the error and leaves the
store as it is. -/
theorem C10_duplicate_declaration (H : Host) (ev : Node → State → World → Res Out)
    (fuel : Nat) (t x : String) (v : Expr) (ini : Bool) (ps : List Param) (body rest : List Stmt)
    (s : State) (w : World) (hx : (s.Get x).isSome) :
    evalVarDecl H ev t x v ini s w = Res.ok ⟨errorObj H (x ++ " already declared"), s, w⟩ ∧
    evalFuncDecl H t x ps body s w = Res.ok ⟨errorObj H (x ++ " already declared"), s, w⟩ ∧
    Eval H (fuel + 1) (Node.stmt (Stmt.VarDecl t x v ini)) s w
      = Res.ok ⟨errorObj H (x ++ " already declared"), s, w⟩ ∧
    Eval H (fuel + 1) (Node.stmt (Stmt.FuncDecl t x ps body)) s w
      = Res.ok ⟨errorObj H (x ++ " already declared"), s, w⟩ ∧
    Eval H (fuel + 2) (Node.stmt (Stmt.Block (Stmt.VarDecl t x v ini :: rest))) s w
      = Res.ok ⟨errorObj H (x ++ " already declared"), s, w⟩ ∧
    Eval H (fuel + 2) (Node.stmt (Stmt.Block (Stmt.FuncDecl t x ps body :: rest))) s w
      = Res.ok ⟨errorObj H (x ++ " already declared"), s, w⟩ := by
  have h1 : evalVarDecl H ev t x v ini s w
      = Res.ok ⟨errorObj H (x ++ " already declared"), s, w⟩ := by
    simp [evalVarDecl, hx]
  have h1' : ∀ ev', evalVarDecl H ev' t x v ini s w
      = Res.ok ⟨errorObj H (x ++ " already declared"), s, w⟩ := by
    intro ev'; simp [evalVarDecl, hx]
  have h2 : evalFuncDecl H t x ps body s w
      = Res.ok ⟨errorObj H (x ++ " already declared"), s, w⟩ := by
    simp [evalFuncDecl, hx]
  refine ⟨h1, h2, ?_, ?_, ?_, ?_⟩
  · simp [Eval, h1']
  · simp [Eval, h2]
  · simp [Eval, evalBlock, evalBlockLoop, h1', errorObj]
  · simp [Eval, evalBlock, evalBlockLoop, h2, errorObj]

/-- C10, witness: `int x;` again after `int x = 1;`. -/
theorem C10_duplicate_declaration_witness :
    (storeX1.Get "x").isSome ∧
    Eval sampleHost 1 (Node.stmt (Stmt.VarDecl "int" "x" Expr.nil false)) storeX1 emptyWorld
      = Res.ok ⟨errorObj sampleHost ("x" ++ " already declared"), storeX1, emptyWorld⟩ :=
  ⟨rfl, (C10_duplicate_declaration sampleHost (Eval sampleHost 0) 0 "int" "x" Expr.nil false
    [] [] [] storeX1 emptyWorld rfl).2.2.1⟩

/-! ## C7: empty array initializers -/

/-- C7 (the code aborts). An initialized array declaration whose initializer is the
empty array literal panics, for each of the five array declared types, a fresh name
and any world: `isHeterogeneous` accepts the empty array and `arr.Elements[0]` is
then read. -/
theorem C7_empty_initializer_panics (H : Host) (fuel : Nat) (x : String) (w : World) :
    Eval H (fuel + 2) (Node.stmt (Stmt.VarDecl "chararr" x (Expr.Array []) true)) NewState w
      = Res.panic ∧
    Eval H (fuel + 2) (Node.stmt (Stmt.VarDecl "intarr" x (Expr.Array []) true)) NewState w
      = Res.panic ∧
    Eval H (fuel + 2) (Node.stmt (Stmt.VarDecl "floatarr" x (Expr.Array []) true)) NewState w
      = Res.panic ∧
    Eval H (fuel + 2) (Node.stmt (Stmt.VarDecl "stringarr" x (Expr.Array []) true)) NewState w
      = Res.panic ∧
    Eval H (fuel + 2) (Node.stmt (Stmt.VarDecl "boolarr" x (Expr.Array []) true)) NewState w
      = Res.panic := by
  refine ⟨?_, ?_, ?_, ?_, ?_⟩ <;>
    simp [Eval, evalVarDecl, evalArray, evalExpressions, singleError, IsError, scalarTag,
      arrayElem, World.alloc, World.elems, isHeterogeneous]

/-! ## C9: sized array declarations -/

/-- C9 (the code aborts). An uninitialized array declaration whose size evaluates
to a negative integer panics (`make` with a negative length), for each of the five
array declared types, a fresh name and any world. -/
theorem C9_negative_size_panics (H : Host) (fuel : Nat) (x : String) (w : World) (n : Nat) :
    Eval H (fuel + 2)
      (Node.stmt (Stmt.VarDecl "chararr" x (Expr.IntCon (Int.negSucc n)) false)) NewState w
      = Res.panic ∧
    Eval H (fuel + 2)
      (Node.stmt (Stmt.VarDecl "intarr" x (Expr.IntCon (Int.negSucc n)) false)) NewState w
      = Res.panic ∧
    Eval H (fuel + 2)
      (Node.stmt (Stmt.VarDecl "floatarr" x (Expr.IntCon (Int.negSucc n)) false)) NewState w
      = Res.panic ∧
    Eval H (fuel + 2)
      (Node.stmt (Stmt.VarDecl "stringarr" x (Expr.IntCon (Int.negSucc n)) false)) NewState w
      = Res.panic ∧
    Eval H (fuel + 2)
      (Node.stmt (Stmt.VarDecl "boolarr" x (Expr.IntCon (Int.negSucc n)) false)) NewState w
      = Res.panic := by
  have hn : Int.negSucc n < 0 := Int.negSucc_lt_zero n
  refine ⟨?_, ?_, ?_, ?_, ?_⟩ <;>
    simp [Eval, evalVarDecl, evalIntCon, IsError, scalarTag, arrayElem, Object.Type, hn]

/-! ## C2: function isolation -/

theorem Get_isSome_of_mem (l : List (String × Object)) (k : String) (v : Object)
    (h : (k, v) ∈ l) : ((⟨l⟩ : State).Get k).isSome := by
  induction l with
  | nil => cases h
  | cons p rest ih =>
    obtain ⟨a, b⟩ := p
    by_cases hk : k = a
    · subst hk; simp [State.Get, lookup_cons_self]
    · have hm : (k, v) ∈ rest := by
        rcases List.mem_cons.mp h with h1 | h1
        · exact absurd (congrArg Prod.fst h1) hk
        · exact h1
      simpa [State.Get, lookup_cons_other _ _ _ _ hk] using ih hm

theorem mem_keys_of_Get (l : List (String × Object)) (k : String)
    (h : ((⟨l⟩ : State).Get k).isSome) : k ∈ l.map Prod.fst := by
  induction l with
  | nil => simp [State.Get, List.lookup] at h
  | cons p rest ih =>
    obtain ⟨a, b⟩ := p
    by_cases hk : k = a
    · subst hk; simp
    · simp only [State.Get, lookup_cons_other _ _ _ _ hk] at h
      simp only [List.map_cons, List.mem_cons]
      exact Or.inr (ih h)

theorem Type_ok_of_ne_nil (v : Object) (h : v ≠ Object.nil) : ∃ ty, v.Type = Res.ok ty := by
  cases v <;> first | exact absurd rfl h | exact ⟨_, rfl⟩

theorem Type_FuncDecl_iff (v : Object) :
    v.Type = Res.ok ObjectType.FuncDeclObj ↔ isFuncDecl v = true := by
  cases v <;> simp [Object.Type, isFuncDecl]

theorem copyFunctionsLoop_spec (t : State) (ht : NoNil t) :
    ∀ (l : List (String × Object)) (s : State), (∀ kv ∈ l, (t.Get kv.1).isSome) →
      ∃ s', copyFunctionsLoop t l s = Res.ok s' ∧
        ∀ k, s'.Get k =
          if k ∈ l.map Prod.fst ∧ ((t.Get k).map isFuncDecl) = some true then t.Get k
          else s.Get k := by
  intro l
  induction l with
  | nil => intro s _; exact ⟨s, rfl, fun k => by simp⟩
  | cons p rest ih =>
    intro s hl
    obtain ⟨a, b⟩ := p
    have ha : (t.Get a).isSome := hl (a, b) (List.mem_cons_self _ _)
    have hrest : ∀ kv ∈ rest, (t.Get kv.1).isSome := fun kv h => hl kv (List.mem_cons_of_mem _ h)
    obtain ⟨v, hv⟩ := Option.isSome_iff_exists.mp ha
    have hvn : v ≠ Object.nil := fun e => ht a (e ▸ hv)
    obtain ⟨ty, hty⟩ := Type_ok_of_ne_nil v hvn
    by_cases hfd : ty = ObjectType.FuncDeclObj
    · subst hfd
      obtain ⟨s', hs', hget⟩ := ih (s.Set a v) hrest
      refine ⟨s', ?_, ?_⟩
      · simp [copyFunctionsLoop, hv, hty, hs']
      · intro k
        rw [hget k]
        have hvf : isFuncDecl v = true := (Type_FuncDecl_iff v).mp hty
        by_cases hka : k = a
        · subst hka
          simp [hv, hvf, State.Get_Set_self]
        · have hm : (k ∈ a :: List.map Prod.fst rest) ↔ k ∈ List.map Prod.fst rest := by
            simp [List.mem_cons, hka]
          rw [State.Get_Set_other _ _ _ _ hka]
          simp only [List.map_cons, hm]
    · obtain ⟨s', hs', hget⟩ := ih s hrest
      refine ⟨s', ?_, ?_⟩
      · simp [copyFunctionsLoop, hv, hty, hfd, hs']
      · intro k
        rw [hget k]
        have hvf : isFuncDecl v = false := by
          cases hb : isFuncDecl v with
          | false => rfl
          | true => exact absurd ((Type_FuncDecl_iff v).mpr hb ▸ hty) (by
              intro e; exact hfd (by cases e; rfl))
        by_cases hka : k = a
        · subst hka
          simp [hv, hvf]
        · have hm : (k ∈ a :: List.map Prod.fst rest) ↔ k ∈ List.map Prod.fst rest := by
            simp [List.mem_cons, hka]
          simp only [List.map_cons, hm]

theorem CopyFunctions_spec (s t : State) (ht : NoNil t) :
    ∃ s', CopyFunctions s t = Res.ok s' ∧
      ∀ k, s'.Get k = if ((t.Get k).map isFuncDecl) = some true then t.Get k else s.Get k := by
  obtain ⟨s', hs', hget⟩ := copyFunctionsLoop_spec t ht t.store s
    (fun kv h => Get_isSome_of_mem t.store kv.1 kv.2 h)
  refine ⟨s', hs', ?_⟩
  intro k
  rw [hget k]
  by_cases hf : ((t.Get k).map isFuncDecl) = some true
  · have hk : k ∈ t.store.map Prod.fst := by
      apply mem_keys_of_Get
      cases hg : t.Get k with
      | none => rw [hg] at hf; cases hf
      | some v => rfl
    simp [hf, hk]
  · simp [hf]

theorem bindParams_spec :
    ∀ (ps : List Param) (vals : List Object) (s : State), ps.length = vals.length →
      ∃ s', bindParams ps vals s = Res.ok s' ∧
        ∀ k, (s'.Get k).isSome = (decide (k ∈ ps.map Param.ident) || (s.Get k).isSome) := by
  intro ps
  induction ps with
  | nil => intro vals s _; exact ⟨s, rfl, fun k => by simp⟩
  | cons p rest ih =>
    intro vals s hlen
    cases vals with
    | nil => cases hlen
    | cons a as =>
      obtain ⟨s', hs', hget⟩ := ih as (s.Set p.ident a) (by simpa using hlen)
      refine ⟨s', by simpa [bindParams] using hs', ?_⟩
      intro k
      rw [hget k, State.Get_Set]
      by_cases hk : k = p.ident
      · simp [hk]
      · simp [hk]

theorem checkCall_length (H : Host) (f : String) (ps : List Param) (vals : List Object)
    (h : checkCall H f ps vals = Res.ok none) : ps.length = vals.length := by
  unfold checkCall at h
  split at h
  · cases h
  · split at h
    · cases h
    · omega

theorem unwrap_match (s1 : State) (r : Out) :
    (match r.val with
      | Object.Return v => (pure ⟨v, s1, r.w⟩ : Res Out)
      | _ => pure ⟨r.val, s1, r.w⟩) = Res.ok ⟨unwrapReturn r.val, s1, r.w⟩ := by
  cases r.val <;> rfl

theorem storeXGF_NoNil : NoNil storeXGF := by
  intro k h
  by_cases h1 : k = "x"
  · subst h1; cases h
  · by_cases h2 : k = "g"
    · subst h2; cases h
    · by_cases h3 : k = "f"
      · subst h3; cases h
      · have e : storeXGF.Get k = none := by
          unfold storeXGF State.Get
          rw [lookup_cons_other _ _ _ _ h1, lookup_cons_other _ _ _ _ h2,
            lookup_cons_other _ _ _ _ h3]
          rfl
        rw [e] at h
        cases h

/-! ## C3: a call and the caller's variables -/

theorem Eval_identOrLit (H : Host) (n : Nat) (e : Expr) (he : isIdentOrLit e = true)
    (s : State) (w : World) (o : Out) (h : Eval H n (Node.expr e) s w = Res.ok o) :
    o.s = s ∧ o.w = w := by
  cases n with
  | zero => simp [Eval] at h
  | succ n =>
    cases e <;> simp [isIdentOrLit] at he <;> simp [Eval] at h <;> subst h <;> exact ⟨rfl, rfl⟩

theorem evalExpressions_identOrLit (H : Host) (n : Nat) :
    ∀ (args : List Expr) (acc : List Object) (s : State) (w : World)
      (res : List Object × State × World), (∀ a ∈ args, isIdentOrLit a = true) →
      evalExpressions (Eval H n) args acc s w = Res.ok res → res.2.1 = s ∧ res.2.2 = w := by
  intro args
  induction args with
  | nil =>
    intro acc s w res _ h
    simp [evalExpressions] at h
    subst h
    exact ⟨rfl, rfl⟩
  | cons a rest ih =>
    intro acc s w res hall h
    simp only [evalExpressions] at h
    obtain ⟨e, he, h⟩ := Res.bind_eq_ok h
    obtain ⟨h1, h2⟩ := Eval_identOrLit H n a (hall a (List.mem_cons_self _ _)) s w e he
    split at h
    · simp at h; subst h; exact ⟨h1, h2⟩
    · have := ih _ _ _ _ (fun x hx => hall x (List.mem_cons_of_mem _ hx)) h
      rw [h1, h2] at this
      exact this

/-- The store a call hands back is the store after the callee identifier or after
the arguments were evaluated. -/
theorem evalCall_state (H : Host) (ev : Node → State → World → Res Out) (fuel : Nat)
    (f : String) (args : List Expr) (s : State) (w : World) (o : Out)
    (h : evalCall H ev fuel f args s w = Res.ok o) :
    ∃ r0, ev (Node.expr (Expr.Identifier f)) s w = Res.ok r0 ∧
      (o.s = r0.s ∨ ∃ t, evalExpressions ev args [] r0.s r0.w = Res.ok t ∧ o.s = t.2.1) := by
  unfold evalCall at h
  obtain ⟨r0, hr0, h⟩ := Res.bind_eq_ok h
  refine ⟨r0, hr0, ?_⟩
  split at h
  · simp at h; subst h; exact Or.inl rfl
  · obtain ⟨tf, _, h⟩ := Res.bind_eq_ok h
    split at h
    · simp at h; subst h; exact Or.inl rfl
    · obtain ⟨t, ht, h⟩ := Res.bind_eq_ok h
      refine Or.inr ⟨t, ht, ?_⟩
      obtain ⟨vs, s1, w1⟩ := t
      simp only [] at h
      iterate 16 (
        all_goals try (first
          | (cases h; done)
          | (obtain ⟨r, hr, h'⟩ := Res.bind_eq_ok h; clear h; rename' h' => h;
             try beta_reduce at h)
          | (split at h)
          | (simp at h; subst h; rfl)))

/-- C3, counterexample: after `intarr a = {1}; void f(int p[]) { p[0] = 9; }` the
call `f(a)` returns, `a` is bound to the same array handle as before, and the
element of that array, which was 1 before the call, is 9 after it. -/
theorem C3_counterexample :
    Eval sampleHost 4 (Node.Program declsAF) NewState emptyWorld
      = Res.ok ⟨Object.nil, storeAF, worldAF⟩ ∧
    ∃ o, Eval sampleHost 6 (Node.expr (Expr.Call "f" [Expr.Identifier "a"] true))
        storeAF worldAF = Res.ok o ∧
      storeAF.Get "a" = some (Object.Array "int" 1) ∧
      o.s.Get "a" = some (Object.Array "int" 1) ∧
      worldAF.elems 1 = [Object.Int 1] ∧
      o.w.elems 1 = [Object.Int 9] :=
  ⟨rfl, ⟨Object.nil, storeAF, ⟨[[Object.Int 1], [Object.Int 9]], 0, []⟩⟩, rfl, rfl, rfl, rfl, rfl⟩

/-! ## C4: index reads -/

theorem evalIdent_of_Get (H : Host) (a : String) (s : State) (v : Object)
    (h : s.Get a = some v) : evalIdent H a s = v := by
  simp [evalIdent, h]

/-- What `indexTarget` returns for a name bound to an array and an index that
evaluates to an integer. -/
theorem indexTarget_array (H : Host) (ev : Node → State → World → Res Out) (a : String)
    (index : Expr) (s : State) (w : World) (T0 : String) (ref0 : Nat) (i : Int) (s1 : State)
    (w1 : World) (T : String) (ref : Nat)
    (hs : s.Get a = some (Object.Array T0 ref0))
    (hidx : ev (Node.expr index) s w = Res.ok ⟨Object.Int i, s1, w1⟩)
    (harr : s1.Get a = some (Object.Array T ref)) :
    indexTarget H ev a index s w =
      if i < 0 ∨ i ≥ (w1.elems ref).length then
        Res.ok (Sum.inl ⟨errorObj H ("array index out of bounds: " ++ a ++ "["
          ++ toString i ++ "]"), s1, w1⟩)
      else Res.ok (Sum.inr (T, ref, i.toNat, s1, w1)) := by
  unfold indexTarget
  simp only [evalIdent_of_Get H a s _ hs, IsError, hidx, Res.ok_bind, Object.Type, harr,
    Res.pure_eq]
  simp

/-- C4 (amended). Index read bounds: for a name bound to an array and an index
expression that evaluates to the integer `i`, the index read yields element `i`
(0-based) of the array, as it is once the index expression has been evaluated, when
`0 ≤ i < N`, and the index-out-of-bounds error when `i < 0` or `i ≥ N`, where `N` is
the length of the array; in both cases the store and the world are exactly those
that the evaluation of the index expression left. -/
theorem C4_index_read (H : Host) (fuel : Nat) (a : String) (index : Expr) (s : State)
    (w : World) (T0 : String) (ref0 : Nat) (i : Int) (s1 : State) (w1 : World) (T : String)
    (ref : Nat)
    (hs : s.Get a = some (Object.Array T0 ref0))
    (hidx : Eval H fuel (Node.expr index) s w = Res.ok ⟨Object.Int i, s1, w1⟩)
    (harr : s1.Get a = some (Object.Array T ref)) :
    (0 ≤ i ∧ i < (w1.elems ref).length →
      ∃ x, (w1.elems ref).get? i.toNat = some x ∧
        Eval H (fuel + 1) (Node.expr (Expr.IndexExpr a index)) s w = Res.ok ⟨x, s1, w1⟩) ∧
    (i < 0 ∨ i ≥ (w1.elems ref).length →
      Eval H (fuel + 1) (Node.expr (Expr.IndexExpr a index)) s w
        = Res.ok ⟨errorObj H ("array index out of bounds: " ++ a ++ "[" ++ toString i ++ "]"),
            s1, w1⟩) := by
  have e : Eval H (fuel + 1) (Node.expr (Expr.IndexExpr a index)) s w
      = evalIndexExpr H (Eval H fuel) a index s w := rfl
  have ht := indexTarget_array H (Eval H fuel) a index s w T0 ref0 i s1 w1 T ref hs hidx harr
  constructor
  · intro hi
    have hlt : i.toNat < (w1.elems ref).length := by omega
    have hnot : ¬ (i < 0 ∨ i ≥ (w1.elems ref).length) := by omega
    refine ⟨(w1.elems ref).get ⟨i.toNat, hlt⟩, List.get?_eq_get hlt, ?_⟩
    rw [e]
    unfold evalIndexExpr
    rw [ht, if_neg hnot]
    simp only [Res.ok_bind, Res.pure_eq]
    congr 2
    rw [List.getD_eq_getElem _ _ hlt]
    rfl
  · intro hi
    rw [e]
    unfold evalIndexExpr
    rw [ht, if_pos hi]
    rfl

/-- C4, witness: `a[0]` and `a[1]` on the one-element array of `storeAF`. -/
theorem C4_index_read_witness :
    (∃ x, (worldAF.elems 1).get? (0 : Int).toNat = some x ∧
        Eval sampleHost 2 (Node.expr (Expr.IndexExpr "a" (Expr.IntCon 0))) storeAF worldAF
          = Res.ok ⟨x, storeAF, worldAF⟩) ∧
    Eval sampleHost 2 (Node.expr (Expr.IndexExpr "a" (Expr.IntCon 1))) storeAF worldAF
      = Res.ok ⟨errorObj sampleHost ("array index out of bounds: " ++ "a" ++ "["
          ++ toString (1 : Int) ++ "]"), storeAF, worldAF⟩ :=
  ⟨(C4_index_read sampleHost 1 "a" (Expr.IntCon 0) storeAF worldAF "int" 1 0 storeAF worldAF
      "int" 1 rfl rfl rfl).1 (by decide),
   (C4_index_read sampleHost 1 "a" (Expr.IntCon 1) storeAF worldAF "int" 1 1 storeAF worldAF
      "int" 1 rfl rfl rfl).2 (by decide)⟩

/-- C4, counterexample: with `a` bound to the one-element array `{1}` and
`int f(int p[]) { p[0] = 9; return 0; }`, the index expression `f(a)` evaluates to
the integer 0, which is in range; the read `a[f(a)]` yields 9, and the element of
`a`, which was 1 before the read, is 9 after it: the environment is changed. -/
theorem C4_counterexample :
    storeAI.Get "a" = some (Object.Array "int" 1) ∧
    worldAF.elems 1 = [Object.Int 1] ∧
    Eval sampleHost 6 (Node.expr (Expr.Call "f" [Expr.Identifier "a"] false)) storeAI worldAF
      = Res.ok ⟨Object.Int 0, storeAI, ⟨[[Object.Int 1], [Object.Int 9]], 0, []⟩⟩ ∧
    ∃ o, Eval sampleHost 7 (Node.expr readAfa) storeAI worldAF = Res.ok o ∧
      o.val = Object.Int 9 ∧ o.w.elems 1 = [Object.Int 9] ∧ o.w.elems 1 ≠ worldAF.elems 1 :=
  ⟨rfl, rfl, rfl, ⟨Object.Int 9, storeAI, ⟨[[Object.Int 1], [Object.Int 9]], 0, []⟩⟩, rfl, rfl,
    rfl, by simp [World.elems, worldAF]⟩

/-! ## C5: index writes -/

theorem World.elems_write_same (w : World) (ref idx : Nat) (v : Object)
    (h : ref < w.cells.length) :
    (w.write ref idx v).elems ref = (w.elems ref).set idx v := by
  simp [World.write, World.elems, List.getElem?_set, h]

theorem World.elems_write_other (w : World) (ref idx : Nat) (v : Object) (ref' : Nat)
    (h : ref' ≠ ref) : (w.write ref idx v).elems ref' = w.elems ref' := by
  simp [World.write, World.elems, List.getElem?_set, Ne.symm h]

theorem World.valid_of_elems (w : World) (ref : Nat) (h : 0 < (w.elems ref).length) :
    ref < w.cells.length := by
  by_contra hc
  have : w.cells[ref]? = none := List.getElem?_eq_none (by omega)
  simp [World.elems, this] at h

/-- C5 (amended). Index write frame: for a name `a` bound to an array with
element-type tag `T`, an index expression that evaluates to an integer `i` in range
and a value expression that evaluates to a value `v` that is not an error, where
`old` is element `i` of the array once both expressions have been evaluated: if `v`
and `old` have the same type tag the write succeeds, `a` is then bound to the array
with the same handle and tag `T`, of the same length, whose element `i` is `v` and
whose other elements are as the two evaluations left them, every other array and
every other name's binding is as the two evaluations left it; if the tags differ
the write yields the type-mismatch error and store and world are as the two
evaluations left them. -/
theorem C5_index_write (H : Host) (fuel : Nat) (a : String) (index value : Expr) (s : State)
    (w : World) (T0 : String) (ref0 : Nat) (i : Int) (s1 : State) (w1 : World) (T : String)
    (ref : Nat) (v : Object) (s2 : State) (w2 : World) (old : Object) (tv te : ObjectType)
    (hs : s.Get a = some (Object.Array T0 ref0))
    (hidx : Eval H fuel (Node.expr index) s w = Res.ok ⟨Object.Int i, s1, w1⟩)
    (harr : s1.Get a = some (Object.Array T ref))
    (hi : 0 ≤ i ∧ i < (w1.elems ref).length)
    (hval : Eval H fuel (Node.expr value) s1 w1 = Res.ok ⟨v, s2, w2⟩)
    (hv : IsError v = false) (htv : v.Type = Res.ok tv)
    (hold : (w2.elems ref).get? i.toNat = some old) (hte : old.Type = Res.ok te) :
    (te = tv →
      ∃ o, Eval H (fuel + 1) (Node.expr (Expr.AssignIndexExpr a index value)) s w = Res.ok o ∧
        o.val = Object.nil ∧
        o.s.Get a = some (Object.Array T ref) ∧
        (∀ k, k ≠ a → o.s.Get k = s2.Get k) ∧
        o.w.elems ref = (w2.elems ref).set i.toNat v ∧
        (o.w.elems ref).length = (w2.elems ref).length ∧
        (o.w.elems ref).get? i.toNat = some v ∧
        (∀ j, j ≠ i.toNat → (o.w.elems ref).get? j = (w2.elems ref).get? j) ∧
        (∀ r, r ≠ ref → o.w.elems r = w2.elems r)) ∧
    (te ≠ tv →
      Eval H (fuel + 1) (Node.expr (Expr.AssignIndexExpr a index value)) s w
        = Res.ok ⟨errorObj H ("assignment type mismatch: " ++ ObjString old ++ " and "
            ++ ObjString v), s2, w2⟩) := by
  have e : Eval H (fuel + 1) (Node.expr (Expr.AssignIndexExpr a index value)) s w
      = evalAssignIndexExpr H (Eval H fuel) a index value s w := rfl
  have ht := indexTarget_array H (Eval H fuel) a index s w T0 ref0 i s1 w1 T ref hs hidx harr
  have hnot : ¬ (i < 0 ∨ i ≥ (w1.elems ref).length) := by omega
  rw [if_neg hnot] at ht
  have hlt : i.toNat < (w2.elems ref).length := by
    by_contra hc
    have : (w2.elems ref).get? i.toNat = none := List.get?_eq_none.mpr (by omega)
    rw [this] at hold; cases hold
  have hgetD : (w2.elems ref).getD i.toNat Object.nil = old := by
    rw [List.getD_eq_getElem?_getD, ← List.get?_eq_getElem?, hold]; rfl
  have hvalid : ref < w2.cells.length := World.valid_of_elems w2 ref (by omega)
  constructor
  · intro htt
    subst htt
    refine ⟨⟨Object.nil, s2.Set a (Object.Array T ref), w2.write ref i.toNat v⟩, ?_, rfl,
      State.Get_Set_self _ _ _, fun k hk => State.Get_Set_other _ _ _ _ hk,
      World.elems_write_same _ _ _ _ hvalid, ?_, ?_, ?_,
      fun r hr => World.elems_write_other _ _ _ _ _ hr⟩
    · rw [e]
      unfold evalAssignIndexExpr
      simp only [ht, Res.ok_bind, hval, hv, hgetD, hte, htv]
      simp
    · simp [World.elems_write_same _ _ _ _ hvalid]
    · simp [World.elems_write_same _ _ _ _ hvalid, List.getElem?_set, hlt]
    · intro j hj
      simp [World.elems_write_same _ _ _ _ hvalid, List.getElem?_set, Ne.symm hj]
  · intro hne
    rw [e]
    unfold evalAssignIndexExpr
    simp only [ht, Res.ok_bind, hval, hv, hgetD, hte, htv]
    simp [hne]

/-- C5, witness: `a[0] = 9` on the one-element array of `storeAF`, and the write
`a[0] = "x"`, whose value has another type tag than the element. -/
theorem C5_index_write_witness :
    (∃ o, Eval sampleHost 2
        (Node.expr (Expr.AssignIndexExpr "a" (Expr.IntCon 0) (Expr.IntCon 9))) storeAF worldAF
          = Res.ok o ∧
        o.val = Object.nil ∧
        o.s.Get "a" = some (Object.Array "int" 1) ∧
        (∀ k, k ≠ "a" → o.s.Get k = storeAF.Get k) ∧
        o.w.elems 1 = (worldAF.elems 1).set (0 : Int).toNat (Object.Int 9) ∧
        (o.w.elems 1).length = (worldAF.elems 1).length ∧
        (o.w.elems 1).get? (0 : Int).toNat = some (Object.Int 9) ∧
        (∀ j, j ≠ (0 : Int).toNat → (o.w.elems 1).get? j = (worldAF.elems 1).get? j) ∧
        (∀ r, r ≠ 1 → o.w.elems r = worldAF.elems r)) ∧
    Eval sampleHost 2
        (Node.expr (Expr.AssignIndexExpr "a" (Expr.IntCon 0) (Expr.StringCon "x")))
        storeAF worldAF
      = Res.ok ⟨errorObj sampleHost ("assignment type mismatch: " ++ ObjString (Object.Int 1)
          ++ " and " ++ ObjString (Object.String "x")), storeAF, worldAF⟩ :=
  ⟨(C5_index_write sampleHost 1 "a" (Expr.IntCon 0) (Expr.IntCon 9) storeAF worldAF "int" 1 0
      storeAF worldAF "int" 1 (Object.Int 9) storeAF worldAF (Object.Int 1) ObjectType.IntObj
      ObjectType.IntObj rfl rfl rfl (by decide) rfl rfl rfl rfl rfl).1 rfl,
   (C5_index_write sampleHost 1 "a" (Expr.IntCon 0) (Expr.StringCon "x") storeAF worldAF "int" 1
      0 storeAF worldAF "int" 1 (Object.String "x") storeAF worldAF (Object.Int 1)
      ObjectType.StringObj ObjectType.IntObj rfl rfl rfl (by decide) rfl rfl rfl rfl rfl).2
      (by decide)⟩

/-- C5, counterexample: with `a` bound to `{1, 2}` and
`int f(int p[]) { p[1] = 7; return 5; }`, the write `a[0] = f(a)` has the in-range
index 0 and a value expression that evaluates to the integer 5, of the type tag of
`a[0]`; it succeeds, and afterwards `a` is `{5, 7}`: the other element, which was
2, is 7. -/
theorem C5_counterexample :
    storeA2.Get "a" = some (Object.Array "int" 0) ∧
    worldA2.elems 0 = [Object.Int 1, Object.Int 2] ∧
    Eval sampleHost 6 (Node.expr (Expr.Call "f" [Expr.Identifier "a"] false)) storeA2 worldA2
      = Res.ok ⟨Object.Int 5, storeA2, ⟨[[Object.Int 1, Object.Int 7]], 0, []⟩⟩ ∧
    ∃ o, Eval sampleHost 7 (Node.expr writeAfa) storeA2 worldA2 = Res.ok o ∧
      o.val = Object.nil ∧ o.s.Get "a" = some (Object.Array "int" 0) ∧
      o.w.elems 0 = [Object.Int 5, Object.Int 7] ∧
      (o.w.elems 0).get? 1 ≠ (worldA2.elems 0).get? 1 :=
  ⟨rfl, rfl, rfl, ⟨Object.nil, storeA2, ⟨[[Object.Int 5, Object.Int 7]], 0, []⟩⟩, rfl, rfl,
    rfl, rfl, by simp [World.elems, worldA2]⟩

/-! ## C6: array homogeneity on declaration -/

theorem scalarTag_of_arrayElem (T el : String) (tag : ObjectType)
    (h : arrayElem T = some (el, tag)) : scalarTag T = none := by
  unfold arrayElem at h
  split at h
  · subst T; decide
  · split at h
    · subst T; decide
    · split at h
      · subst T; decide
      · split at h
        · subst T; decide
        · split at h
          · subst T; decide
          · cases h

theorem isHeterogeneousLoop_true (first : Object) (t0 : ObjectType)
    (hf : first.Type = Res.ok t0) :
    ∀ l : List Object, (∀ v ∈ l, v.Type = Res.ok t0) →
      isHeterogeneousLoop first l = Res.ok true := by
  intro l
  induction l with
  | nil => intro _; rfl
  | cons a rest ih =>
    intro h
    have ha := h a (List.mem_cons_self _ _)
    simp only [isHeterogeneousLoop, ha, hf, Res.ok_bind]
    simp only [ne_eq, not_true_eq_false, if_false]
    exact ih (fun v hv => h v (List.mem_cons_of_mem _ hv))

theorem isHeterogeneousLoop_false (first : Object) (t0 : ObjectType)
    (hf : first.Type = Res.ok t0) :
    ∀ l : List Object, (∀ v ∈ l, v ≠ Object.nil) → (∃ v ∈ l, v.Type ≠ Res.ok t0) →
      isHeterogeneousLoop first l = Res.ok false := by
  intro l
  induction l with
  | nil => intro _ h; obtain ⟨v, hv, _⟩ := h; cases hv
  | cons a rest ih =>
    intro hnn hex
    obtain ⟨ta, hta⟩ := Type_ok_of_ne_nil a (hnn a (List.mem_cons_self _ _))
    simp only [isHeterogeneousLoop, hta, hf, Res.ok_bind]
    by_cases hat : ta = t0
    · subst hat
      simp only [ne_eq, not_true_eq_false, if_false]
      apply ih (fun v hv => hnn v (List.mem_cons_of_mem _ hv))
      obtain ⟨v, hv, hvt⟩ := hex
      rcases List.mem_cons.mp hv with h1 | h1
      · subst h1; exact absurd hta hvt
      · exact ⟨v, h1, hvt⟩
    · simp [hat]

/-- The three outcomes of an initialized array declaration of a fresh name whose
initializer evaluates, the second time, to an array with the elements `e0 :: rest`,
none of them the nil interface: the binding, the heterogeneous-array error, or the
illegal-element-type error, with the store and world that the second evaluation
left. -/
theorem arrayDecl_cases (H : Host) (fuel : Nat) (T x : String) (value : Expr) (s : State)
    (w : World) (el : String) (tag : ObjectType) (r1 : Out) (et : String) (ref : Nat)
    (s2 : State) (w2 : World) (e0 : Object) (rest : List Object) (t0 : ObjectType)
    (hx : s.Get x = none)
    (hT : arrayElem T = some (el, tag))
    (h1 : Eval H fuel (Node.expr value) s w = Res.ok r1) (hne : IsError r1.val = false)
    (h2 : Eval H fuel (Node.expr value) r1.s r1.w = Res.ok ⟨Object.Array et ref, s2, w2⟩)
    (hel : w2.elems ref = e0 :: rest)
    (hnn : ∀ v ∈ e0 :: rest, v ≠ Object.nil)
    (ht0 : e0.Type = Res.ok t0) :
    ((∀ v ∈ e0 :: rest, v.Type = Res.ok tag) →
      Eval H (fuel + 1) (Node.stmt (Stmt.VarDecl T x value true)) s w
        = Res.ok ⟨Object.nil, s2.Set x (Object.Array el ref), w2⟩) ∧
    ((∃ v ∈ e0 :: rest, v.Type ≠ Res.ok t0) →
      Eval H (fuel + 1) (Node.stmt (Stmt.VarDecl T x value true)) s w
        = Res.ok ⟨errorObj H ("heterogeneous array typings: " ++ x), s2, w2⟩) ∧
    ((∀ v ∈ e0 :: rest, v.Type = Res.ok t0) → t0 ≠ tag →
      Eval H (fuel + 1) (Node.stmt (Stmt.VarDecl T x value true)) s w
        = Res.ok ⟨errorObj H ("illegal type in " ++ el ++ " array: " ++ ObjString e0),
            s2, w2⟩) := by
  have e : Eval H (fuel + 1) (Node.stmt (Stmt.VarDecl T x value true)) s w
      = evalVarDecl H (Eval H fuel) T x value true s w := rfl
  have hsc := scalarTag_of_arrayElem T el tag hT
  have hstep : ∀ hom : Res Bool, isHeterogeneous (e0 :: rest) = hom →
      evalVarDecl H (Eval H fuel) T x value true s w =
        (hom >>= fun hom =>
          if !hom then
            (pure ⟨errorObj H ("heterogeneous array typings: " ++ x), s2, w2⟩ : Res Out)
          else
            if t0 ≠ tag then
              pure ⟨errorObj H ("illegal type in " ++ el ++ " array: " ++ ObjString e0), s2, w2⟩
            else pure ⟨Object.nil, s2.Set x (Object.Array el ref), w2⟩) := by
    intro hom hh
    unfold evalVarDecl
    simp only [hx, Option.isSome_none, Bool.false_eq_true, if_false, if_true, h1, Res.ok_bind,
      hne, hsc, hT, h2, hel, hh, ht0]
  constructor
  · intro hall
    have ht : t0 = tag := by
      have := hall e0 (List.mem_cons_self _ _)
      rw [ht0] at this
      cases this; rfl
    subst ht
    have hh : isHeterogeneous (e0 :: rest) = Res.ok true := by
      simp only [isHeterogeneous]
      exact isHeterogeneousLoop_true e0 t0 ht0 _ hall
    rw [e, hstep _ hh]
    simp
  constructor
  · intro hex
    have hh : isHeterogeneous (e0 :: rest) = Res.ok false := by
      simp only [isHeterogeneous]
      exact isHeterogeneousLoop_false e0 t0 ht0 _ hnn hex
    rw [e, hstep _ hh]
    simp
  · intro hall hne
    have hh : isHeterogeneous (e0 :: rest) = Res.ok true := by
      simp only [isHeterogeneous]
      exact isHeterogeneousLoop_true e0 t0 ht0 _ hall
    rw [e, hstep _ hh]
    simp [hne]

/-- C6, counterexample: with `a` bound to `{1}` and
`int f(int p[]) { p[0] = 9; return 0; }`, the elements of the initializer of
`intarr c = {f(a), "x"};` evaluate without error, to the integer 0 and the string
"x"; the declaration fails with the heterogeneous-array error and leaves `c`
unbound, and the element of `a`, which was 1 before the declaration, is 9 after
it: the environment is changed. -/
theorem C6_counterexample :
    storeAI.Get "c" = none ∧
    worldAF.elems 1 = [Object.Int 1] ∧
    Eval sampleHost 6 (Node.expr (Expr.Call "f" [Expr.Identifier "a"] false)) storeAI worldAF
      = Res.ok ⟨Object.Int 0, storeAI, ⟨[[Object.Int 1], [Object.Int 9]], 0, []⟩⟩ ∧
    ∃ o, Eval sampleHost 9 (Node.stmt declCfa) storeAI worldAF = Res.ok o ∧
      o.val = errorObj sampleHost "heterogeneous array typings: c" ∧
      o.s.Get "c" = none ∧ o.s.Get "a" = some (Object.Array "int" 1) ∧
      o.w.elems 1 = [Object.Int 9] ∧ o.w.elems 1 ≠ worldAF.elems 1 :=
  ⟨rfl, rfl, rfl,
    ⟨errorObj sampleHost "heterogeneous array typings: c", storeAI,
      ⟨[[Object.Int 1], [Object.Int 9], [Object.Int 0, Object.String "x"],
        [Object.Int 0, Object.String "x"]], 0, []⟩⟩,
    rfl, rfl, rfl, rfl, rfl, by simp [World.elems, worldAF]⟩

/-! ## Evaluation stores no nil interface -/

theorem NoNil.setN {s : State} (h : NoNil s) (k : String) (v : Object) (hv : v ≠ Object.nil) :
    NoNil (s.Set k v) := by
  intro k' hk
  rw [State.Get_Set] at hk
  split at hk
  · exact hv (Option.some.inj hk)
  · exact h k' hk

theorem NoNil.set_typed {s : State} (h : NoNil s) (k : String) (v : Object) (ty : ObjectType)
    (hv : v.Type = Res.ok ty) : NoNil (s.Set k v) := by
  apply h.setN
  intro e
  subst e
  cases hv

theorem NoNil.updateN {s t : State} (ht : NoNil t) (hk : Keeps s t) :
    NoNil (UpdateState s t) := by
  intro k h
  rw [Get_UpdateState] at h
  cases hs : s.Get k with
  | none => rw [hs] at h; cases h
  | some v =>
    have hb := hk k (by rw [hs]; rfl)
    cases hg : t.Get k with
    | none => rw [hg] at hb; cases hb
    | some v' =>
      rw [hs, hg] at h
      simp at h
      exact ht k (by rw [hg, h])

theorem NoNil.newState : NoNil NewState := by
  intro k h
  cases h

theorem zeroValue_ne_nil {t : String} {tag : ObjectType} (h : scalarTag t = some tag) :
    zeroValue tag ≠ Object.nil := by
  unfold scalarTag at h
  split at h
  · cases h; simp [zeroValue]
  split at h
  · cases h; simp [zeroValue]
  split at h
  · cases h; simp [zeroValue]
  split at h
  · cases h; simp [zeroValue]
  split at h
  · cases h; simp [zeroValue]
  cases h

theorem infixInt_ne_nil (H : Host) (op : String) (a b : Int) (x : Object)
    (h : evalInfixExprInt H op a b = Res.ok x) : x ≠ Object.nil := by
  intro e
  subst e
  unfold evalInfixExprInt at h
  by_cases h0 : op = "<"
  · rw [if_pos h0] at h
    first | (cases h; done) | (split at h <;> first | (cases h; done) | (split at h <;> cases h))
  rw [if_neg h0] at h
  clear h0
  by_cases h1 : op = "<="
  · rw [if_pos h1] at h
    first | (cases h; done) | (split at h <;> first | (cases h; done) | (split at h <;> cases h))
  rw [if_neg h1] at h
  clear h1
  by_cases h2 : op = "=="
  · rw [if_pos h2] at h
    first | (cases h; done) | (split at h <;> first | (cases h; done) | (split at h <;> cases h))
  rw [if_neg h2] at h
  clear h2
  by_cases h3 : op = "!="
  · rw [if_pos h3] at h
    first | (cases h; done) | (split at h <;> first | (cases h; done) | (split at h <;> cases h))
  rw [if_neg h3] at h
  clear h3
  by_cases h4 : op = ">="
  · rw [if_pos h4] at h
    first | (cases h; done) | (split at h <;> first | (cases h; done) | (split at h <;> cases h))
  rw [if_neg h4] at h
  clear h4
  by_cases h5 : op = ">"
  · rw [if_pos h5] at h
    first | (cases h; done) | (split at h <;> first | (cases h; done) | (split at h <;> cases h))
  rw [if_neg h5] at h
  clear h5
  by_cases h6 : op = "+"
  · rw [if_pos h6] at h
    first | (cases h; done) | (split at h <;> first | (cases h; done) | (split at h <;> cases h))
  rw [if_neg h6] at h
  clear h6
  by_cases h7 : op = "-"
  · rw [if_pos h7] at h
    first | (cases h; done) | (split at h <;> first | (cases h; done) | (split at h <;> cases h))
  rw [if_neg h7] at h
  clear h7
  by_cases h8 : op = "*"
  · rw [if_pos h8] at h
    first | (cases h; done) | (split at h <;> first | (cases h; done) | (split at h <;> cases h))
  rw [if_neg h8] at h
  clear h8
  by_cases h9 : op = "/"
  · rw [if_pos h9] at h
    first | (cases h; done) | (split at h <;> first | (cases h; done) | (split at h <;> cases h))
  rw [if_neg h9] at h
  clear h9
  by_cases h10 : op = "%"
  · rw [if_pos h10] at h
    first | (cases h; done) | (split at h <;> first | (cases h; done) | (split at h <;> cases h))
  rw [if_neg h10] at h
  clear h10
  by_cases h11 : op = "&"
  · rw [if_pos h11] at h
    first | (cases h; done) | (split at h <;> first | (cases h; done) | (split at h <;> cases h))
  rw [if_neg h11] at h
  clear h11
  by_cases h12 : op = "^"
  · rw [if_pos h12] at h
    first | (cases h; done) | (split at h <;> first | (cases h; done) | (split at h <;> cases h))
  rw [if_neg h12] at h
  clear h12
  by_cases h13 : op = "|"
  · rw [if_pos h13] at h
    first | (cases h; done) | (split at h <;> first | (cases h; done) | (split at h <;> cases h))
  rw [if_neg h13] at h
  clear h13
  by_cases h14 : op = "<<"
  · rw [if_pos h14] at h
    first | (cases h; done) | (split at h <;> first | (cases h; done) | (split at h <;> cases h))
  rw [if_neg h14] at h
  clear h14
  by_cases h15 : op = ">>"
  · rw [if_pos h15] at h
    first | (cases h; done) | (split at h <;> first | (cases h; done) | (split at h <;> cases h))
  rw [if_neg h15] at h
  clear h15
  cases h

theorem infixFloat_ne_nil (H : Host) (op : String) (a b : F64) :
    evalInfixExprFloat H op a b ≠ Object.nil := by
  unfold evalInfixExprFloat
  by_cases h0 : op = "<"
  · rw [if_pos h0]
    first | (simp [errorObj]; done) | (split <;> simp [errorObj])
  rw [if_neg h0]
  clear h0
  by_cases h1 : op = "<="
  · rw [if_pos h1]
    first | (simp [errorObj]; done) | (split <;> simp [errorObj])
  rw [if_neg h1]
  clear h1
  by_cases h2 : op = "=="
  · rw [if_pos h2]
    first | (simp [errorObj]; done) | (split <;> simp [errorObj])
  rw [if_neg h2]
  clear h2
  by_cases h3 : op = "!="
  · rw [if_pos h3]
    first | (simp [errorObj]; done) | (split <;> simp [errorObj])
  rw [if_neg h3]
  clear h3
  by_cases h4 : op = ">="
  · rw [if_pos h4]
    first | (simp [errorObj]; done) | (split <;> simp [errorObj])
  rw [if_neg h4]
  clear h4
  by_cases h5 : op = ">"
  · rw [if_pos h5]
    first | (simp [errorObj]; done) | (split <;> simp [errorObj])
  rw [if_neg h5]
  clear h5
  by_cases h6 : op = "+"
  · rw [if_pos h6]
    first | (simp [errorObj]; done) | (split <;> simp [errorObj])
  rw [if_neg h6]
  clear h6
  by_cases h7 : op = "-"
  · rw [if_pos h7]
    first | (simp [errorObj]; done) | (split <;> simp [errorObj])
  rw [if_neg h7]
  clear h7
  by_cases h8 : op = "*"
  · rw [if_pos h8]
    first | (simp [errorObj]; done) | (split <;> simp [errorObj])
  rw [if_neg h8]
  clear h8
  by_cases h9 : op = "/"
  · rw [if_pos h9]
    first | (simp [errorObj]; done) | (split <;> simp [errorObj])
  rw [if_neg h9]
  clear h9
  simp [illegalOperator, errorObj]

theorem infixString_ne_nil (H : Host) (op : String) (a b : String) :
    evalInfixExprString H op a b ≠ Object.nil := by
  unfold evalInfixExprString
  by_cases h0 : op = "<"
  · rw [if_pos h0]
    first | (simp [errorObj]; done) | (split <;> simp [errorObj])
  rw [if_neg h0]
  clear h0
  by_cases h1 : op = "<="
  · rw [if_pos h1]
    first | (simp [errorObj]; done) | (split <;> simp [errorObj])
  rw [if_neg h1]
  clear h1
  by_cases h2 : op = "=="
  · rw [if_pos h2]
    first | (simp [errorObj]; done) | (split <;> simp [errorObj])
  rw [if_neg h2]
  clear h2
  by_cases h3 : op = "!="
  · rw [if_pos h3]
    first | (simp [errorObj]; done) | (split <;> simp [errorObj])
  rw [if_neg h3]
  clear h3
  by_cases h4 : op = ">="
  · rw [if_pos h4]
    first | (simp [errorObj]; done) | (split <;> simp [errorObj])
  rw [if_neg h4]
  clear h4
  by_cases h5 : op = ">"
  · rw [if_pos h5]
    first | (simp [errorObj]; done) | (split <;> simp [errorObj])
  rw [if_neg h5]
  clear h5
  by_cases h6 : op = "+"
  · rw [if_pos h6]
    first | (simp [errorObj]; done) | (split <;> simp [errorObj])
  rw [if_neg h6]
  clear h6
  simp [illegalOperator, errorObj]

theorem pure_ne_nil (v x : Object) (hv : v ≠ Object.nil) (h : (pure v : Res Object) = Res.ok x) :
    x ≠ Object.nil := by
  cases h
  exact hv

theorem noNil_evalProgramLoop {ev : Node → State → World → Res Out} (hev : EvNoNil ev) :
    ∀ (p : List Stmt) (res : Object) (s : State) (w : World) (o : Out), NoNil s →
      evalProgramLoop ev p res s w = Res.ok o → NoNil o.s := by
  intro p
  induction p with
  | nil =>
    intro res s w o hk h
    simp [evalProgramLoop] at h
    subst h
    exact hk
  | cons st rest ih =>
    intro res s w o hk h
    simp only [evalProgramLoop] at h
    iterate 6 (
      all_goals try (first
          | (cases h; done)
          | (obtain ⟨r, hr, h'⟩ := Res.bind_eq_ok h; clear h; rename' h' => h; try beta_reduce at h;
             first | (replace hk := hev _ _ _ _ hk hr) | skip)
          | (split at h)
          | (simp at h; subst h;
             first
             | exact hk
             | (apply NoNil.set_typed hk; assumption)
             | (apply NoNil.setN hk; apply zeroValue_ne_nil; assumption)
             | (apply NoNil.setN hk; apply infixInt_ne_nil; assumption)
             | (apply NoNil.setN hk; apply pure_ne_nil _ _ (infixFloat_ne_nil _ _ _ _); assumption)
             | (apply NoNil.setN hk; apply pure_ne_nil _ _ (infixString_ne_nil _ _ _ _); assumption)
             | (refine hk.setN _ _ ?_; simp; done)
             | (apply NoNil.setN hk; rintro rfl; simp [errorObj] at hr; done))
          | (exact ih _ _ _ _ hk h)))

theorem noNil_evalFuncDecl (H : Host) (t i : String) (ps : List Param) (b : List Stmt)
    (s : State) (w : World) (o : Out) (hk : NoNil s)
    (h : evalFuncDecl H t i ps b s w = Res.ok o) : NoNil o.s := by
  unfold evalFuncDecl at h
  split at h
  · simp at h; subst h; exact hk
  · simp at h; subst h; exact hk.setN _ _ (by simp)

theorem noNil_evalVarDecl {ev : Node → State → World → Res Out} (hev : EvNoNil ev)
    (H : Host) (t i : String) (v : Expr) (ini : Bool) (s : State) (w : World) (o : Out) (hk : NoNil s)
    (h : evalVarDecl H ev t i v ini s w = Res.ok o) : NoNil o.s := by
  have ih := hev
  unfold evalVarDecl at h
  iterate 16 (
    all_goals try (first
        | (cases h; done)
        | (obtain ⟨r, hr, h'⟩ := Res.bind_eq_ok h; clear h; rename' h' => h; try beta_reduce at h;
           first | (replace hk := hev _ _ _ _ hk hr) | skip)
        | (split at h)
        | (simp at h; subst h;
           first
           | exact hk
           | (apply NoNil.set_typed hk; assumption)
           | (apply NoNil.setN hk; apply zeroValue_ne_nil; assumption)
           | (apply NoNil.setN hk; apply infixInt_ne_nil; assumption)
           | (apply NoNil.setN hk; apply pure_ne_nil _ _ (infixFloat_ne_nil _ _ _ _); assumption)
           | (apply NoNil.setN hk; apply pure_ne_nil _ _ (infixString_ne_nil _ _ _ _); assumption)
           | (refine hk.setN _ _ ?_; simp; done)
           | (apply NoNil.setN hk; rintro rfl; simp [errorObj] at hr; done))
        | (exact ih _ _ _ _ hk h)))

theorem noNil_evalBlockLoop {ev : Node → State → World → Res Out} (hev : EvNoNil ev)
    (hkeep : EvKeeps ev) (s : State) :
    ∀ (b : List Stmt) (res : Object) (copied : State) (w : World) (o : Out), NoNil s →
      NoNil copied → Keeps s copied → evalBlockLoop ev s b res copied w = Res.ok o →
      NoNil o.s := by
  intro b
  induction b with
  | nil =>
    intro res copied w o hs hc hk h
    simp [evalBlockLoop] at h
    subst h
    exact NoNil.updateN hc hk
  | cons st rest ih =>
    intro res copied w o hs hc hk h
    simp only [evalBlockLoop] at h
    obtain ⟨r, hr, h⟩ := Res.bind_eq_ok h
    have hc' := hev _ _ _ _ hc hr
    have hk' := hk.trans (hkeep _ _ _ _ hr)
    split at h
    · simp at h; subst h; exact hs
    · simp at h; subst h; exact hs
    · exact ih _ _ _ _ hs hc' hk' h

theorem noNil_evalBlock {ev : Node → State → World → Res Out} (hev : EvNoNil ev)
    (hkeep : EvKeeps ev) (b : List Stmt) (s : State) (w : World) (o : Out) (hk : NoNil s)
    (h : evalBlock ev b s w = Res.ok o) : NoNil o.s :=
  noNil_evalBlockLoop hev hkeep s b _ _ _ _ hk hk (Keeps.refl s) h

theorem noNil_evalWhileLoop {ev : Node → State → World → Res Out} (hev : EvNoNil ev)
    (c : Expr) (b : Stmt) : ∀ (n : Nat) (cond : Object) (s : State) (w : World) (o : Out),
      NoNil s → evalWhileLoop ev c b n cond s w = Res.ok o → NoNil o.s := by
  intro n
  induction n with
  | zero => intro cond s w o _ h; cases h
  | succ n ih =>
    intro cond s w o hk h
    simp only [evalWhileLoop] at h
    iterate 8 (
      all_goals try (first
          | (cases h; done)
          | (obtain ⟨r, hr, h'⟩ := Res.bind_eq_ok h; clear h; rename' h' => h; try beta_reduce at h;
             first | (replace hk := hev _ _ _ _ hk hr) | skip)
          | (split at h)
          | (simp at h; subst h;
             first
             | exact hk
             | (apply NoNil.set_typed hk; assumption)
             | (apply NoNil.setN hk; apply zeroValue_ne_nil; assumption)
             | (apply NoNil.setN hk; apply infixInt_ne_nil; assumption)
             | (apply NoNil.setN hk; apply pure_ne_nil _ _ (infixFloat_ne_nil _ _ _ _); assumption)
             | (apply NoNil.setN hk; apply pure_ne_nil _ _ (infixString_ne_nil _ _ _ _); assumption)
             | (refine hk.setN _ _ ?_; simp; done)
             | (apply NoNil.setN hk; rintro rfl; simp [errorObj] at hr; done))
          | (exact ih _ _ _ _ hk h)))

theorem noNil_evalWhile {ev : Node → State → World → Res Out} (hev : EvNoNil ev)
    (H : Host) (fuel : Nat) (c : Expr) (b : Stmt) (s : State) (w : World) (o : Out) (hk : NoNil s)
    (h : evalWhile H ev fuel c b s w = Res.ok o) : NoNil o.s := by
  have ih := noNil_evalWhileLoop hev c b fuel
  unfold evalWhile at h
  iterate 8 (
    all_goals try (first
        | (cases h; done)
        | (obtain ⟨r, hr, h'⟩ := Res.bind_eq_ok h; clear h; rename' h' => h; try beta_reduce at h;
           first | (replace hk := hev _ _ _ _ hk hr) | skip)
        | (split at h)
        | (simp at h; subst h;
           first
           | exact hk
           | (apply NoNil.set_typed hk; assumption)
           | (apply NoNil.setN hk; apply zeroValue_ne_nil; assumption)
           | (apply NoNil.setN hk; apply infixInt_ne_nil; assumption)
           | (apply NoNil.setN hk; apply pure_ne_nil _ _ (infixFloat_ne_nil _ _ _ _); assumption)
           | (apply NoNil.setN hk; apply pure_ne_nil _ _ (infixString_ne_nil _ _ _ _); assumption)
           | (refine hk.setN _ _ ?_; simp; done)
           | (apply NoNil.setN hk; rintro rfl; simp [errorObj] at hr; done))
        | (exact ih _ _ _ _ hk h)))

theorem noNil_evalForLoop {ev : Node → State → World → Res Out} (hev : EvNoNil ev)
    (hkeep : EvKeeps ev) (c inc : Expr) (b : Stmt) (s : State) :
    ∀ (n : Nat) (cond : Object) (copied : State) (w : World) (o : Out), NoNil s →
      NoNil copied → Keeps s copied → evalForLoop ev c inc b s n cond copied w = Res.ok o →
      NoNil o.s := by
  intro n
  induction n with
  | zero => intro cond copied w o _ _ _ h; cases h
  | succ n ih =>
    intro cond copied w o hs hc hk h
    simp only [evalForLoop] at h
    split at h
    · obtain ⟨r, hr, h⟩ := Res.bind_eq_ok h
      have hc1 := hev _ _ _ _ hc hr
      have hk1 := hk.trans (hkeep _ _ _ _ hr)
      split at h
      · simp at h; subst h; exact hs
      · simp at h; subst h; exact hs
      · obtain ⟨i, hi, h⟩ := Res.bind_eq_ok h
        have hc2 := hev _ _ _ _ hc1 hi
        have hk2 := hk1.trans (hkeep _ _ _ _ hi)
        split at h
        · simp at h; subst h; exact hs
        · obtain ⟨c2, hc2e, h⟩ := Res.bind_eq_ok h
          have hc3 := hev _ _ _ _ hc2 hc2e
          have hk3 := hk2.trans (hkeep _ _ _ _ hc2e)
          split at h
          · simp at h; subst h; exact hs
          · exact ih _ _ _ _ hs hc3 hk3 h
    · simp at h; subst h; exact NoNil.updateN hc hk
    · cases h

theorem noNil_evalFor {ev : Node → State → World → Res Out} (hev : EvNoNil ev)
    (hkeep : EvKeeps ev) (H : Host) (fuel : Nat) (i c inc : Expr) (b : Stmt) (vd : Bool)
    (t id : String) (v : Expr) (s : State) (w : World) (o : Out) (hs : NoNil s)
    (h : evalFor H ev fuel i c inc b vd t id v s w = Res.ok o) : NoNil o.s := by
  unfold evalFor at h
  simp only [NewCopiedState_eq] at h
  split at h
  all_goals (
    obtain ⟨d, hd, h⟩ := Res.bind_eq_ok h
    have hd1 : NoNil d.s := hev _ _ _ _ hs hd
    have hd2 : Keeps s d.s := hkeep _ _ _ _ hd
    split at h
    · simp at h; subst h; exact hs
    · obtain ⟨c1, hc1, h⟩ := Res.bind_eq_ok h
      have hc2 := hev _ _ _ _ hd1 hc1
      have hk2 := hd2.trans (hkeep _ _ _ _ hc1)
      split at h
      · simp at h; subst h; exact hs
      · obtain ⟨ty, _, h⟩ := Res.bind_eq_ok h
        split at h
        · simp at h; subst h; exact hs
        · exact noNil_evalForLoop hev hkeep c inc b s fuel _ _ _ _ hs hc2 hk2 h)

theorem noNil_evalIfElse {ev : Node → State → World → Res Out} (hev : EvNoNil ev)
    (H : Host) (c : Expr) (a b : Stmt) (ha : Bool) (s : State) (w : World) (o : Out) (hk : NoNil s)
    (h : evalIfElse H ev c a b ha s w = Res.ok o) : NoNil o.s := by
  have ih := hev
  unfold evalIfElse at h
  iterate 10 (
    all_goals try (first
        | (cases h; done)
        | (obtain ⟨r, hr, h'⟩ := Res.bind_eq_ok h; clear h; rename' h' => h; try beta_reduce at h;
           first | (replace hk := hev _ _ _ _ hk hr) | skip)
        | (split at h)
        | (simp at h; subst h;
           first
           | exact hk
           | (apply NoNil.set_typed hk; assumption)
           | (apply NoNil.setN hk; apply zeroValue_ne_nil; assumption)
           | (apply NoNil.setN hk; apply infixInt_ne_nil; assumption)
           | (apply NoNil.setN hk; apply pure_ne_nil _ _ (infixFloat_ne_nil _ _ _ _); assumption)
           | (apply NoNil.setN hk; apply pure_ne_nil _ _ (infixString_ne_nil _ _ _ _); assumption)
           | (refine hk.setN _ _ ?_; simp; done)
           | (apply NoNil.setN hk; rintro rfl; simp [errorObj] at hr; done))
        | (exact ih _ _ _ _ hk h)))

theorem noNil_evalReturn {ev : Node → State → World → Res Out} (hev : EvNoNil ev)
    (v : Expr) (vd : Bool) (s : State) (w : World) (o : Out) (hk : NoNil s)
    (h : evalReturn ev v vd s w = Res.ok o) : NoNil o.s := by
  have ih := hev
  unfold evalReturn at h
  iterate 6 (
    all_goals try (first
        | (cases h; done)
        | (obtain ⟨r, hr, h'⟩ := Res.bind_eq_ok h; clear h; rename' h' => h; try beta_reduce at h;
           first | (replace hk := hev _ _ _ _ hk hr) | skip)
        | (split at h)
        | (simp at h; subst h;
           first
           | exact hk
           | (apply NoNil.set_typed hk; assumption)
           | (apply NoNil.setN hk; apply zeroValue_ne_nil; assumption)
           | (apply NoNil.setN hk; apply infixInt_ne_nil; assumption)
           | (apply NoNil.setN hk; apply pure_ne_nil _ _ (infixFloat_ne_nil _ _ _ _); assumption)
           | (apply NoNil.setN hk; apply pure_ne_nil _ _ (infixString_ne_nil _ _ _ _); assumption)
           | (refine hk.setN _ _ ?_; simp; done)
           | (apply NoNil.setN hk; rintro rfl; simp [errorObj] at hr; done))
        | (exact ih _ _ _ _ hk h)))

theorem noNil_evalPrefixExpr {ev : Node → State → World → Res Out} (hev : EvNoNil ev)
    (H : Host) (op : String) (e : Expr) (s : State) (w : World) (o : Out) (hk : NoNil s)
    (h : evalPrefixExpr H ev op e s w = Res.ok o) : NoNil o.s := by
  have ih := hev
  unfold evalPrefixExpr at h
  iterate 10 (
    all_goals try (first
        | (cases h; done)
        | (obtain ⟨r, hr, h'⟩ := Res.bind_eq_ok h; clear h; rename' h' => h; try beta_reduce at h;
           first | (replace hk := hev _ _ _ _ hk hr) | skip)
        | (split at h)
        | (simp at h; subst h;
           first
           | exact hk
           | (apply NoNil.set_typed hk; assumption)
           | (apply NoNil.setN hk; apply zeroValue_ne_nil; assumption)
           | (apply NoNil.setN hk; apply infixInt_ne_nil; assumption)
           | (apply NoNil.setN hk; apply pure_ne_nil _ _ (infixFloat_ne_nil _ _ _ _); assumption)
           | (apply NoNil.setN hk; apply pure_ne_nil _ _ (infixString_ne_nil _ _ _ _); assumption)
           | (refine hk.setN _ _ ?_; simp; done)
           | (apply NoNil.setN hk; rintro rfl; simp [errorObj] at hr; done))
        | (exact ih _ _ _ _ hk h)))

theorem noNil_evalInfixExpr {ev : Node → State → World → Res Out} (hev : EvNoNil ev)
    (H : Host) (l : Expr) (op : String) (e : Expr) (s : State) (w : World) (o : Out) (hk : NoNil s)
    (h : evalInfixExpr H ev l op e s w = Res.ok o) : NoNil o.s := by
  have ih := hev
  unfold evalInfixExpr at h
  iterate 12 (
    all_goals try (first
        | (cases h; done)
        | (obtain ⟨r, hr, h'⟩ := Res.bind_eq_ok h; clear h; rename' h' => h; try beta_reduce at h;
           first | (replace hk := hev _ _ _ _ hk hr) | skip)
        | (split at h)
        | (simp at h; subst h;
           first
           | exact hk
           | (apply NoNil.set_typed hk; assumption)
           | (apply NoNil.setN hk; apply zeroValue_ne_nil; assumption)
           | (apply NoNil.setN hk; apply infixInt_ne_nil; assumption)
           | (apply NoNil.setN hk; apply pure_ne_nil _ _ (infixFloat_ne_nil _ _ _ _); assumption)
           | (apply NoNil.setN hk; apply pure_ne_nil _ _ (infixString_ne_nil _ _ _ _); assumption)
           | (refine hk.setN _ _ ?_; simp; done)
           | (apply NoNil.setN hk; rintro rfl; simp [errorObj] at hr; done))
        | (exact ih _ _ _ _ hk h)))

theorem noNil_evalAssign {ev : Node → State → World → Res Out} (hev : EvNoNil ev)
    (H : Host) (i : String) (e : Expr) (s : State) (w : World) (o : Out) (hk : NoNil s)
    (h : evalAssign H ev i e s w = Res.ok o) : NoNil o.s := by
  have ih := hev
  unfold evalAssign at h
  iterate 10 (
    all_goals try (first
        | (cases h; done)
        | (obtain ⟨r, hr, h'⟩ := Res.bind_eq_ok h; clear h; rename' h' => h; try beta_reduce at h;
           first | (replace hk := hev _ _ _ _ hk hr) | skip)
        | (split at h)
        | (simp at h; subst h;
           first
           | exact hk
           | (apply NoNil.set_typed hk; assumption)
           | (apply NoNil.setN hk; apply zeroValue_ne_nil; assumption)
           | (apply NoNil.setN hk; apply infixInt_ne_nil; assumption)
           | (apply NoNil.setN hk; apply pure_ne_nil _ _ (infixFloat_ne_nil _ _ _ _); assumption)
           | (apply NoNil.setN hk; apply pure_ne_nil _ _ (infixString_ne_nil _ _ _ _); assumption)
           | (refine hk.setN _ _ ?_; simp; done)
           | (apply NoNil.setN hk; rintro rfl; simp [errorObj] at hr; done))
        | (exact ih _ _ _ _ hk h)))

theorem noNil_evalAssignExpr {ev : Node → State → World → Res Out} (hev : EvNoNil ev)
    (H : Host) (i op : String) (e : Expr) (s : State) (w : World) (o : Out) (hk : NoNil s)
    (h : evalAssignExpr H ev i op e s w = Res.ok o) : NoNil o.s := by
  have ih := hev
  unfold evalAssignExpr at h
  iterate 14 (
    all_goals try (first
        | (cases h; done)
        | (obtain ⟨r, hr, h'⟩ := Res.bind_eq_ok h; clear h; rename' h' => h; try beta_reduce at h;
           first | (replace hk := hev _ _ _ _ hk hr) | skip)
        | (split at h)
        | (simp at h; subst h;
           first
           | exact hk
           | (apply NoNil.set_typed hk; assumption)
           | (apply NoNil.setN hk; apply zeroValue_ne_nil; assumption)
           | (apply NoNil.setN hk; apply infixInt_ne_nil; assumption)
           | (apply NoNil.setN hk; apply pure_ne_nil _ _ (infixFloat_ne_nil _ _ _ _); assumption)
           | (apply NoNil.setN hk; apply pure_ne_nil _ _ (infixString_ne_nil _ _ _ _); assumption)
           | (refine hk.setN _ _ ?_; simp; done)
           | (apply NoNil.setN hk; rintro rfl; simp [errorObj] at hr; done))
        | (exact ih _ _ _ _ hk h)))

theorem noNil_indexTarget {ev : Node → State → World → Res Out} (hev : EvNoNil ev) (H : Host)
    (i : String) (x : Expr) (s : State) (w : World)
    (t : Out ⊕ (String × Nat × Nat × State × World)) (hk : NoNil s)
    (h : indexTarget H ev i x s w = Res.ok t) : NoNil (targetState t) := by
  have ih := hev
  unfold indexTarget at h
  dsimp only at h
  iterate 14 (
    all_goals try (first
        | (cases h; done)
        | (obtain ⟨r, hr, h'⟩ := Res.bind_eq_ok h; clear h; rename' h' => h; try beta_reduce at h;
           first | (replace hk := hev _ _ _ _ hk hr) | skip)
        | (split at h)
        | (simp at h; subst h;
           first
           | exact hk
           | (apply NoNil.set_typed hk; assumption)
           | (apply NoNil.setN hk; apply zeroValue_ne_nil; assumption)
           | (apply NoNil.setN hk; apply infixInt_ne_nil; assumption)
           | (apply NoNil.setN hk; apply pure_ne_nil _ _ (infixFloat_ne_nil _ _ _ _); assumption)
           | (apply NoNil.setN hk; apply pure_ne_nil _ _ (infixString_ne_nil _ _ _ _); assumption)
           | (refine hk.setN _ _ ?_; simp; done)
           | (apply NoNil.setN hk; rintro rfl; simp [errorObj] at hr; done))
        | (exact ih _ _ _ _ hk h)))

theorem noNil_evalIndexExpr {ev : Node → State → World → Res Out} (hev : EvNoNil ev)
    (H : Host) (i : String) (x : Expr) (s : State) (w : World) (o : Out) (hs : NoNil s)
    (h : evalIndexExpr H ev i x s w = Res.ok o) : NoNil o.s := by
  unfold evalIndexExpr at h
  obtain ⟨t, ht, h⟩ := Res.bind_eq_ok h
  have hk := noNil_indexTarget hev H i x s w t hs ht
  unfold targetState at hk
  have ih := hev
  cases t with
  | inl out => simp at h; subst h; exact hk
  | inr p =>
    obtain ⟨et, arr, idx, s1, w1⟩ := p
    simp only [] at h hk
    iterate 16 (
      all_goals try (first
          | (cases h; done)
          | (obtain ⟨r, hr, h'⟩ := Res.bind_eq_ok h; clear h; rename' h' => h; try beta_reduce at h;
             first | (replace hk := hev _ _ _ _ hk hr) | skip)
          | (split at h)
          | (simp at h; subst h;
             first
             | exact hk
             | (apply NoNil.set_typed hk; assumption)
             | (apply NoNil.setN hk; apply zeroValue_ne_nil; assumption)
             | (apply NoNil.setN hk; apply infixInt_ne_nil; assumption)
             | (apply NoNil.setN hk; apply pure_ne_nil _ _ (infixFloat_ne_nil _ _ _ _); assumption)
             | (apply NoNil.setN hk; apply pure_ne_nil _ _ (infixString_ne_nil _ _ _ _); assumption)
             | (refine hk.setN _ _ ?_; simp; done)
             | (apply NoNil.setN hk; rintro rfl; simp [errorObj] at hr; done))
          | (exact ih _ _ _ _ hk h)))

theorem noNil_evalAssignIndexExpr {ev : Node → State → World → Res Out} (hev : EvNoNil ev)
    (H : Host) (i : String) (x v : Expr) (s : State) (w : World) (o : Out) (hs : NoNil s)
    (h : evalAssignIndexExpr H ev i x v s w = Res.ok o) : NoNil o.s := by
  unfold evalAssignIndexExpr at h
  obtain ⟨t, ht, h⟩ := Res.bind_eq_ok h
  have hk := noNil_indexTarget hev H i x s w t hs ht
  unfold targetState at hk
  have ih := hev
  cases t with
  | inl out => simp at h; subst h; exact hk
  | inr p =>
    obtain ⟨et, arr, idx, s1, w1⟩ := p
    simp only [] at h hk
    iterate 16 (
      all_goals try (first
          | (cases h; done)
          | (obtain ⟨r, hr, h'⟩ := Res.bind_eq_ok h; clear h; rename' h' => h; try beta_reduce at h;
             first | (replace hk := hev _ _ _ _ hk hr) | skip)
          | (split at h)
          | (simp at h; subst h;
             first
             | exact hk
             | (apply NoNil.set_typed hk; assumption)
             | (apply NoNil.setN hk; apply zeroValue_ne_nil; assumption)
             | (apply NoNil.setN hk; apply infixInt_ne_nil; assumption)
             | (apply NoNil.setN hk; apply pure_ne_nil _ _ (infixFloat_ne_nil _ _ _ _); assumption)
             | (apply NoNil.setN hk; apply pure_ne_nil _ _ (infixString_ne_nil _ _ _ _); assumption)
             | (refine hk.setN _ _ ?_; simp; done)
             | (apply NoNil.setN hk; rintro rfl; simp [errorObj] at hr; done))
          | (exact ih _ _ _ _ hk h)))

theorem noNil_evalAssignExprIndexExpr {ev : Node → State → World → Res Out} (hev : EvNoNil ev)
    (H : Host) (i : String) (x : Expr) (op : String) (v : Expr) (s : State) (w : World) (o : Out) (hs : NoNil s)
    (h : evalAssignExprIndexExpr H ev i x op v s w = Res.ok o) : NoNil o.s := by
  unfold evalAssignExprIndexExpr at h
  obtain ⟨t, ht, h⟩ := Res.bind_eq_ok h
  have hk := noNil_indexTarget hev H i x s w t hs ht
  unfold targetState at hk
  have ih := hev
  cases t with
  | inl out => simp at h; subst h; exact hk
  | inr p =>
    obtain ⟨et, arr, idx, s1, w1⟩ := p
    simp only [] at h hk
    iterate 16 (
      all_goals try (first
          | (cases h; done)
          | (obtain ⟨r, hr, h'⟩ := Res.bind_eq_ok h; clear h; rename' h' => h; try beta_reduce at h;
             first | (replace hk := hev _ _ _ _ hk hr) | skip)
          | (split at h)
          | (simp at h; subst h;
             first
             | exact hk
             | (apply NoNil.set_typed hk; assumption)
             | (apply NoNil.setN hk; apply zeroValue_ne_nil; assumption)
             | (apply NoNil.setN hk; apply infixInt_ne_nil; assumption)
             | (apply NoNil.setN hk; apply pure_ne_nil _ _ (infixFloat_ne_nil _ _ _ _); assumption)
             | (apply NoNil.setN hk; apply pure_ne_nil _ _ (infixString_ne_nil _ _ _ _); assumption)
             | (refine hk.setN _ _ ?_; simp; done)
             | (apply NoNil.setN hk; rintro rfl; simp [errorObj] at hr; done))
          | (exact ih _ _ _ _ hk h)))

theorem noNil_evalExpressions {ev : Node → State → World → Res Out} (hev : EvNoNil ev) :
    ∀ (args : List Expr) (acc : List Object) (s : State) (w : World)
      (res : List Object × State × World), NoNil s →
      evalExpressions ev args acc s w = Res.ok res → NoNil res.2.1 := by
  intro args
  induction args with
  | nil =>
    intro acc s w res hk h
    simp [evalExpressions] at h
    subst h
    exact hk
  | cons a rest ih =>
    intro acc s w res hk h
    simp only [evalExpressions] at h
    iterate 6 (
      all_goals try (first
          | (cases h; done)
          | (obtain ⟨r, hr, h'⟩ := Res.bind_eq_ok h; clear h; rename' h' => h; try beta_reduce at h;
             first | (replace hk := hev _ _ _ _ hk hr) | skip)
          | (split at h)
          | (simp at h; subst h;
             first
             | exact hk
             | (apply NoNil.set_typed hk; assumption)
             | (apply NoNil.setN hk; apply zeroValue_ne_nil; assumption)
             | (apply NoNil.setN hk; apply infixInt_ne_nil; assumption)
             | (apply NoNil.setN hk; apply pure_ne_nil _ _ (infixFloat_ne_nil _ _ _ _); assumption)
             | (apply NoNil.setN hk; apply pure_ne_nil _ _ (infixString_ne_nil _ _ _ _); assumption)
             | (refine hk.setN _ _ ?_; simp; done)
             | (apply NoNil.setN hk; rintro rfl; simp [errorObj] at hr; done))
          | (exact ih _ _ _ _ hk h)))

theorem noNil_evalArray {ev : Node → State → World → Res Out} (hev : EvNoNil ev)
    (es : List Expr) (s : State) (w : World) (o : Out) (hs : NoNil s)
    (h : evalArray ev es s w = Res.ok o) : NoNil o.s := by
  unfold evalArray at h
  obtain ⟨t, ht, h⟩ := Res.bind_eq_ok h
  have hk := noNil_evalExpressions hev es [] s w t hs ht
  obtain ⟨args, s1, w1⟩ := t
  simp only [] at h hk
  split at h
  · simp at h; subst h; exact hk
  · simp at h; subst h; exact hk

theorem noNil_evalCall {ev : Node → State → World → Res Out} (hev : EvNoNil ev) (H : Host)
    (fuel : Nat) (f : String) (args : List Expr) (s : State) (w : World) (o : Out)
    (hs : NoNil s) (h : evalCall H ev fuel f args s w = Res.ok o) : NoNil o.s := by
  obtain ⟨r0, hr0, hcase⟩ := evalCall_state H ev fuel f args s w o h
  have h0 := hev _ _ _ _ hs hr0
  rcases hcase with hc | ⟨t, ht, hc⟩
  · rw [hc]; exact h0
  · rw [hc]; exact noNil_evalExpressions hev args [] _ _ t h0 ht

/-- Every store that evaluation builds from a store without nil bindings is
without nil bindings; the empty store is one. -/
theorem Eval_noNil (H : Host) : ∀ fuel : Nat, EvNoNil (Eval H fuel) := by
  intro fuel
  induction fuel with
  | zero => intro n s w o _ h; simp [Eval] at h
  | succ fuel ih =>
    have ihk := Eval_keeps H fuel
    intro n s w o hs h
    cases n with
    | Program p => exact noNil_evalProgramLoop ih p _ s w o hs h
    | stmt st =>
      cases st with
      | nil => simp [Eval] at h; subst h; exact hs
      | FuncDecl t i ps b => exact noNil_evalFuncDecl H t i ps b s w o hs h
      | VarDecl t i v ini => exact noNil_evalVarDecl ih H t i v ini s w o hs h
      | Block b => exact noNil_evalBlock ih ihk b s w o hs h
      | While c b => exact noNil_evalWhile ih H fuel c b s w o hs h
      | For i c inc b vd t id v => exact noNil_evalFor ih ihk H fuel i c inc b vd t id v s w o hs h
      | IfElse c a b ha => exact noNil_evalIfElse ih H c a b ha s w o hs h
      | Return v vd => exact noNil_evalReturn ih v vd s w o hs h
      | ExprStmt e => exact ih _ s w o hs h
    | expr e =>
      cases e with
      | nil => simp [Eval] at h; subst h; exact hs
      | PrefixExpr op r => exact noNil_evalPrefixExpr ih H op r s w o hs h
      | InfixExpr l op r => exact noNil_evalInfixExpr ih H l op r s w o hs h
      | Assign i v => exact noNil_evalAssign ih H i v s w o hs h
      | AssignExpr i op v => exact noNil_evalAssignExpr ih H i op v s w o hs h
      | Call f args vd => exact noNil_evalCall ih H fuel f args s w o hs h
      | Identifier name => simp [Eval] at h; subst h; exact hs
      | CharCon v => simp [Eval] at h; subst h; exact hs
      | IntCon v => simp [Eval] at h; subst h; exact hs
      | FloatCon v => simp [Eval] at h; subst h; exact hs
      | StringCon v => simp [Eval] at h; subst h; exact hs
      | Bool v => simp [Eval] at h; subst h; exact hs
      | Array es => exact noNil_evalArray ih es s w o hs h
      | IndexExpr i x => exact noNil_evalIndexExpr ih H i x s w o hs h
      | AssignIndexExpr i x v => exact noNil_evalAssignIndexExpr ih H i x v s w o hs h
      | AssignExprIndexExpr i x op v =>
        exact noNil_evalAssignExprIndexExpr ih H i x op v s w o hs h

/-! ## Evaluating an expression keeps the names bound to functions -/

theorem SameFD.reflF (s : State) : SameFD s s := fun _ => Iff.rfl

theorem SameFD.transF {s t u : State} (h1 : SameFD s t) (h2 : SameFD t u) : SameFD s u :=
  fun k => (h2 k).trans (h1 k)

theorem FDName_set (t : State) (k : String) (v : Object) (k' : String) :
    FDName (t.Set k v) k' ↔ (if k' = k then isFuncDecl v = true else FDName t k') := by
  unfold FDName
  rw [State.Get_Set]
  by_cases h : k' = k
  · simp [h]
  · simp [h]

theorem SameFD.setF {s t : State} (h : SameFD s t) (k : String) (v : Object)
    (hv : FDName s k ↔ isFuncDecl v = true) : SameFD s (t.Set k v) := by
  intro k'
  rw [FDName_set]
  by_cases hk : k' = k
  · subst hk; simp only [if_true]; exact hv.symm
  · simp only [hk, if_false]; exact h k'

theorem isFuncDecl_of_Type (v : Object) (ty : ObjectType) (h : v.Type = Res.ok ty) :
    (isFuncDecl v = true ↔ ty = ObjectType.FuncDeclObj) := by
  cases v <;> simp [Object.Type] at h <;> subst h <;> simp [isFuncDecl]

theorem isFuncDecl_evalIdent (H : Host) (k : String) (s : State) :
    (isFuncDecl (evalIdent H k s) = true ↔ FDName s k) := by
  unfold evalIdent FDName
  cases hs : s.Get k with
  | some v => simp
  | none =>
    cases hb : builtins k with
    | some f => simp [isFuncDecl]
    | none => simp [isFuncDecl, errorObj]

theorem not_FDName_of_getD (t : State) (k : String) (v : Object)
    (h : (t.Get k).getD Object.nil = v) (hv : isFuncDecl v = false) : ¬ FDName t k := by
  rintro ⟨v', hv', hfd⟩
  rw [hv'] at h
  simp at h
  subst h
  rw [hv] at hfd
  cases hfd

theorem infixInt_not_fd (H : Host) (op : String) (a b : Int) (x : Object)
    (h : evalInfixExprInt H op a b = Res.ok x) : isFuncDecl x = false := by
  unfold evalInfixExprInt at h
  by_cases h0 : op = "<"
  · rw [if_pos h0] at h
    first | (cases h; rfl) | (split at h <;> first | (cases h; rfl) | (cases h; done) | (split at h <;> first | (cases h; rfl) | (cases h; done)))
  rw [if_neg h0] at h
  clear h0
  by_cases h1 : op = "<="
  · rw [if_pos h1] at h
    first | (cases h; rfl) | (split at h <;> first | (cases h; rfl) | (cases h; done) | (split at h <;> first | (cases h; rfl) | (cases h; done)))
  rw [if_neg h1] at h
  clear h1
  by_cases h2 : op = "=="
  · rw [if_pos h2] at h
    first | (cases h; rfl) | (split at h <;> first | (cases h; rfl) | (cases h; done) | (split at h <;> first | (cases h; rfl) | (cases h; done)))
  rw [if_neg h2] at h
  clear h2
  by_cases h3 : op = "!="
  · rw [if_pos h3] at h
    first | (cases h; rfl) | (split at h <;> first | (cases h; rfl) | (cases h; done) | (split at h <;> first | (cases h; rfl) | (cases h; done)))
  rw [if_neg h3] at h
  clear h3
  by_cases h4 : op = ">="
  · rw [if_pos h4] at h
    first | (cases h; rfl) | (split at h <;> first | (cases h; rfl) | (cases h; done) | (split at h <;> first | (cases h; rfl) | (cases h; done)))
  rw [if_neg h4] at h
  clear h4
  by_cases h5 : op = ">"
  · rw [if_pos h5] at h
    first | (cases h; rfl) | (split at h <;> first | (cases h; rfl) | (cases h; done) | (split at h <;> first | (cases h; rfl) | (cases h; done)))
  rw [if_neg h5] at h
  clear h5
  by_cases h6 : op = "+"
  · rw [if_pos h6] at h
    first | (cases h; rfl) | (split at h <;> first | (cases h; rfl) | (cases h; done) | (split at h <;> first | (cases h; rfl) | (cases h; done)))
  rw [if_neg h6] at h
  clear h6
  by_cases h7 : op = "-"
  · rw [if_pos h7] at h
    first | (cases h; rfl) | (split at h <;> first | (cases h; rfl) | (cases h; done) | (split at h <;> first | (cases h; rfl) | (cases h; done)))
  rw [if_neg h7] at h
  clear h7
  by_cases h8 : op = "*"
  · rw [if_pos h8] at h
    first | (cases h; rfl) | (split at h <;> first | (cases h; rfl) | (cases h; done) | (split at h <;> first | (cases h; rfl) | (cases h; done)))
  rw [if_neg h8] at h
  clear h8
  by_cases h9 : op = "/"
  · rw [if_pos h9] at h
    first | (cases h; rfl) | (split at h <;> first | (cases h; rfl) | (cases h; done) | (split at h <;> first | (cases h; rfl) | (cases h; done)))
  rw [if_neg h9] at h
  clear h9
  by_cases h10 : op = "%"
  · rw [if_pos h10] at h
    first | (cases h; rfl) | (split at h <;> first | (cases h; rfl) | (cases h; done) | (split at h <;> first | (cases h; rfl) | (cases h; done)))
  rw [if_neg h10] at h
  clear h10
  by_cases h11 : op = "&"
  · rw [if_pos h11] at h
    first | (cases h; rfl) | (split at h <;> first | (cases h; rfl) | (cases h; done) | (split at h <;> first | (cases h; rfl) | (cases h; done)))
  rw [if_neg h11] at h
  clear h11
  by_cases h12 : op = "^"
  · rw [if_pos h12] at h
    first | (cases h; rfl) | (split at h <;> first | (cases h; rfl) | (cases h; done) | (split at h <;> first | (cases h; rfl) | (cases h; done)))
  rw [if_neg h12] at h
  clear h12
  by_cases h13 : op = "|"
  · rw [if_pos h13] at h
    first | (cases h; rfl) | (split at h <;> first | (cases h; rfl) | (cases h; done) | (split at h <;> first | (cases h; rfl) | (cases h; done)))
  rw [if_neg h13] at h
  clear h13
  by_cases h14 : op = "<<"
  · rw [if_pos h14] at h
    first | (cases h; rfl) | (split at h <;> first | (cases h; rfl) | (cases h; done) | (split at h <;> first | (cases h; rfl) | (cases h; done)))
  rw [if_neg h14] at h
  clear h14
  by_cases h15 : op = ">>"
  · rw [if_pos h15] at h
    first | (cases h; rfl) | (split at h <;> first | (cases h; rfl) | (cases h; done) | (split at h <;> first | (cases h; rfl) | (cases h; done)))
  rw [if_neg h15] at h
  clear h15
  cases h
  rfl

theorem infixFloat_not_fd (H : Host) (op : String) (a b : F64) :
    isFuncDecl (evalInfixExprFloat H op a b) = false := by
  unfold evalInfixExprFloat
  by_cases h0 : op = "<"
  · rw [if_pos h0]
    first | (simp [errorObj, isFuncDecl]; done) | (split <;> simp [errorObj, isFuncDecl])
  rw [if_neg h0]
  clear h0
  by_cases h1 : op = "<="
  · rw [if_pos h1]
    first | (simp [errorObj, isFuncDecl]; done) | (split <;> simp [errorObj, isFuncDecl])
  rw [if_neg h1]
  clear h1
  by_cases h2 : op = "=="
  · rw [if_pos h2]
    first | (simp [errorObj, isFuncDecl]; done) | (split <;> simp [errorObj, isFuncDecl])
  rw [if_neg h2]
  clear h2
  by_cases h3 : op = "!="
  · rw [if_pos h3]
    first | (simp [errorObj, isFuncDecl]; done) | (split <;> simp [errorObj, isFuncDecl])
  rw [if_neg h3]
  clear h3
  by_cases h4 : op = ">="
  · rw [if_pos h4]
    first | (simp [errorObj, isFuncDecl]; done) | (split <;> simp [errorObj, isFuncDecl])
  rw [if_neg h4]
  clear h4
  by_cases h5 : op = ">"
  · rw [if_pos h5]
    first | (simp [errorObj, isFuncDecl]; done) | (split <;> simp [errorObj, isFuncDecl])
  rw [if_neg h5]
  clear h5
  by_cases h6 : op = "+"
  · rw [if_pos h6]
    first | (simp [errorObj, isFuncDecl]; done) | (split <;> simp [errorObj, isFuncDecl])
  rw [if_neg h6]
  clear h6
  by_cases h7 : op = "-"
  · rw [if_pos h7]
    first | (simp [errorObj, isFuncDecl]; done) | (split <;> simp [errorObj, isFuncDecl])
  rw [if_neg h7]
  clear h7
  by_cases h8 : op = "*"
  · rw [if_pos h8]
    first | (simp [errorObj, isFuncDecl]; done) | (split <;> simp [errorObj, isFuncDecl])
  rw [if_neg h8]
  clear h8
  by_cases h9 : op = "/"
  · rw [if_pos h9]
    first | (simp [errorObj, isFuncDecl]; done) | (split <;> simp [errorObj, isFuncDecl])
  rw [if_neg h9]
  clear h9
  simp [illegalOperator, errorObj, isFuncDecl]

theorem infixString_not_fd (H : Host) (op : String) (a b : String) :
    isFuncDecl (evalInfixExprString H op a b) = false := by
  unfold evalInfixExprString
  by_cases h0 : op = "<"
  · rw [if_pos h0]
    first | (simp [errorObj, isFuncDecl]; done) | (split <;> simp [errorObj, isFuncDecl])
  rw [if_neg h0]
  clear h0
  by_cases h1 : op = "<="
  · rw [if_pos h1]
    first | (simp [errorObj, isFuncDecl]; done) | (split <;> simp [errorObj, isFuncDecl])
  rw [if_neg h1]
  clear h1
  by_cases h2 : op = "=="
  · rw [if_pos h2]
    first | (simp [errorObj, isFuncDecl]; done) | (split <;> simp [errorObj, isFuncDecl])
  rw [if_neg h2]
  clear h2
  by_cases h3 : op = "!="
  · rw [if_pos h3]
    first | (simp [errorObj, isFuncDecl]; done) | (split <;> simp [errorObj, isFuncDecl])
  rw [if_neg h3]
  clear h3
  by_cases h4 : op = ">="
  · rw [if_pos h4]
    first | (simp [errorObj, isFuncDecl]; done) | (split <;> simp [errorObj, isFuncDecl])
  rw [if_neg h4]
  clear h4
  by_cases h5 : op = ">"
  · rw [if_pos h5]
    first | (simp [errorObj, isFuncDecl]; done) | (split <;> simp [errorObj, isFuncDecl])
  rw [if_neg h5]
  clear h5
  by_cases h6 : op = "+"
  · rw [if_pos h6]
    first | (simp [errorObj, isFuncDecl]; done) | (split <;> simp [errorObj, isFuncDecl])
  rw [if_neg h6]
  clear h6
  simp [illegalOperator, errorObj, isFuncDecl]

theorem fd_evalPrefixExpr {H : Host} {ev : Node → State → World → Res Out} (hev : EvFD H ev)
    (op : String) (e : Expr) (s : State) (w : World) (o : Out)
    (h : evalPrefixExpr H ev op e s w = Res.ok o) : SameFD s o.s := by
  have ih := hev.1
  have hk : SameFD s s := SameFD.reflF s
  unfold evalPrefixExpr at h
  iterate 10 (
    all_goals try (first
        | (cases h; done)
        | (obtain ⟨r, hr, h'⟩ := Res.bind_eq_ok h; clear h; rename' h' => h; try beta_reduce at h;
           first | (replace hk := hk.transF (hev.1 _ _ _ _ hr)) | skip)
        | (split at h)
        | (simp at h; subst h; exact hk)
        | (exact hk.transF (ih _ _ _ _ h))))

theorem fd_evalInfixExpr {H : Host} {ev : Node → State → World → Res Out} (hev : EvFD H ev)
    (l : Expr) (op : String) (e : Expr) (s : State) (w : World) (o : Out)
    (h : evalInfixExpr H ev l op e s w = Res.ok o) : SameFD s o.s := by
  have ih := hev.1
  have hk : SameFD s s := SameFD.reflF s
  unfold evalInfixExpr at h
  iterate 12 (
    all_goals try (first
        | (cases h; done)
        | (obtain ⟨r, hr, h'⟩ := Res.bind_eq_ok h; clear h; rename' h' => h; try beta_reduce at h;
           first | (replace hk := hk.transF (hev.1 _ _ _ _ hr)) | skip)
        | (split at h)
        | (simp at h; subst h; exact hk)
        | (exact hk.transF (ih _ _ _ _ h))))

theorem fd_evalAssign {H : Host} {ev : Node → State → World → Res Out} (hev : EvFD H ev)
    (i : String) (e : Expr) (s : State) (w : World) (o : Out)
    (h : evalAssign H ev i e s w = Res.ok o) : SameFD s o.s := by
  unfold evalAssign at h
  obtain ⟨r0, hr0, h⟩ := Res.bind_eq_ok h
  have e0 := hev.2 _ _ _ _ hr0
  subst e0
  simp only [] at h
  split at h
  · simp at h; subst h; exact SameFD.reflF s
  · obtain ⟨v, hv, h⟩ := Res.bind_eq_ok h
    have hk := hev.1 _ _ _ _ hv
    split at h
    · simp at h; subst h; exact hk
    · obtain ⟨ti, hti, h⟩ := Res.bind_eq_ok h
      obtain ⟨tv, htv, h⟩ := Res.bind_eq_ok h
      split at h
      · simp at h; subst h; exact hk
      · rename_i hne
        simp at h; subst h
        have heq : ti = tv := by
          by_contra hc
          exact hne hc
        apply hk.setF
        rw [isFuncDecl_of_Type _ _ htv, ← heq, ← isFuncDecl_of_Type _ _ hti]
        exact (isFuncDecl_evalIdent H i s).symm

theorem fd_evalAssignExpr {H : Host} {ev : Node → State → World → Res Out} (hev : EvFD H ev)
    (i op : String) (e : Expr) (s : State) (w : World) (o : Out)
    (h : evalAssignExpr H ev i op e s w = Res.ok o) : SameFD s o.s := by
  unfold evalAssignExpr at h
  obtain ⟨r0, hr0, h⟩ := Res.bind_eq_ok h
  have e0 := hev.2 _ _ _ _ hr0
  subst e0
  simp only [] at h
  split at h
  · simp at h; subst h; exact SameFD.reflF s
  · obtain ⟨v, hv, h⟩ := Res.bind_eq_ok h
    have hk := hev.1 _ _ _ _ hv
    split at h
    · simp at h; subst h; exact hk
    · obtain ⟨ts, hts, h⟩ := Res.bind_eq_ok h
      obtain ⟨tv, htv, h⟩ := Res.bind_eq_ok h
      split at h
      · simp at h; subst h; exact hk
      · split at h
        · simp at h; subst h; exact hk
        · split at h
          · rename_i a b hself _
            obtain ⟨nv, hnv, h⟩ := Res.bind_eq_ok h
            beta_reduce at h
            split at h
            · simp at h; subst h; exact hk
            · simp at h; subst h
              apply hk.setF
              have h1 := not_FDName_of_getD v.s i _ hself rfl
              have h2 := infixInt_not_fd _ _ _ _ _ hnv
              constructor
              · intro hfd; exact absurd ((hk i).mpr hfd) h1
              · intro hfd; rw [h2] at hfd; cases hfd
          · rename_i a b hself _
            obtain ⟨nv, hnv, h⟩ := Res.bind_eq_ok h
            beta_reduce at h
            simp at hnv
            subst hnv
            split at h
            · simp at h; subst h; exact hk
            · simp at h; subst h
              apply hk.setF
              have h1 := not_FDName_of_getD v.s i _ hself rfl
              constructor
              · intro hfd; exact absurd ((hk i).mpr hfd) h1
              · intro hfd; rw [infixFloat_not_fd] at hfd; cases hfd
          · rename_i a b hself _
            obtain ⟨nv, hnv, h⟩ := Res.bind_eq_ok h
            beta_reduce at h
            simp at hnv
            subst hnv
            split at h
            · simp at h; subst h; exact hk
            · simp at h; subst h
              apply hk.setF
              have h1 := not_FDName_of_getD v.s i _ hself rfl
              constructor
              · intro hfd; exact absurd ((hk i).mpr hfd) h1
              · intro hfd; rw [infixString_not_fd] at hfd; cases hfd
          · obtain ⟨nv, hnv, h⟩ := Res.bind_eq_ok h
            beta_reduce at h
            simp at hnv
            subst hnv
            simp [IsError, errorObj] at h
            subst h
            exact hk

/-- What `indexTarget` hands on: the store has the same function names, and in the
array case the name is bound to an array in it. -/
theorem fd_indexTarget {H : Host} {ev : Node → State → World → Res Out} (hev : EvFD H ev)
    (i : String) (x : Expr) (s : State) (w : World)
    (t : Out ⊕ (String × Nat × Nat × State × World))
    (h : indexTarget H ev i x s w = Res.ok t) :
    SameFD s (targetState t) ∧
      (∀ p, t = Sum.inr p → ∃ et ref, p.2.2.2.1.Get i = some (Object.Array et ref)) := by
  unfold indexTarget at h
  dsimp only at h
  split at h
  · simp at h; subst h; exact ⟨SameFD.reflF s, fun p hp => by cases hp⟩
  · obtain ⟨r, hr, h⟩ := Res.bind_eq_ok h
    have hk := hev.1 _ _ _ _ hr
    split at h
    · simp at h; subst h; exact ⟨hk, fun p hp => by cases hp⟩
    · obtain ⟨tx, _, h⟩ := Res.bind_eq_ok h
      split at h
      · simp at h; subst h; exact ⟨hk, fun p hp => by cases hp⟩
      · split at h
        · simp at h; subst h; exact ⟨hk, fun p hp => by cases hp⟩
        · rename_i arr harr
          obtain ⟨ta, _, h⟩ := Res.bind_eq_ok h
          split at h
          · simp at h; subst h; exact ⟨hk, fun p hp => by cases hp⟩
          · split at h
            · split at h
              · simp at h; subst h; exact ⟨hk, fun p hp => by cases hp⟩
              · simp at h; subst h
                refine ⟨hk, fun p hp => ?_⟩
                cases hp
                exact ⟨_, _, harr⟩
            · cases h

theorem fd_evalIndexExpr {H : Host} {ev : Node → State → World → Res Out} (hev : EvFD H ev)
    (i : String) (x : Expr) (s : State) (w : World) (o : Out)
    (h : evalIndexExpr H ev i x s w = Res.ok o) : SameFD s o.s := by
  unfold evalIndexExpr at h
  obtain ⟨t, ht, h⟩ := Res.bind_eq_ok h
  have hk := (fd_indexTarget hev i x s w t ht).1
  unfold targetState at hk
  cases t with
  | inl out => simp at h; subst h; exact hk
  | inr p =>
    obtain ⟨et, arr, idx, s1, w1⟩ := p
    simp at h; subst h; exact hk

theorem SameFD.set_array {s s1 t : State} (h1 : SameFD s s1) (h2 : SameFD s1 t) (k : String)
    (et : String) (ref : Nat) (et' : String) (ref' : Nat)
    (hb : s1.Get k = some (Object.Array et ref)) : SameFD s (t.Set k (Object.Array et' ref')) := by
  apply (h1.transF h2).setF
  constructor
  · rintro hfd
    obtain ⟨v, hv, hfd'⟩ := (h1 k).mpr hfd
    rw [hb] at hv
    cases hv
    cases hfd'
  · intro hfd; cases hfd

theorem fd_evalAssignIndexExpr {H : Host} {ev : Node → State → World → Res Out} (hev : EvFD H ev)
    (i : String) (x v : Expr) (s : State) (w : World) (o : Out)
    (h : evalAssignIndexExpr H ev i x v s w = Res.ok o) : SameFD s o.s := by
  unfold evalAssignIndexExpr at h
  obtain ⟨t, ht, h⟩ := Res.bind_eq_ok h
  obtain ⟨hk, harr⟩ := fd_indexTarget hev i x s w t ht
  unfold targetState at hk
  cases t with
  | inl out => simp at h; subst h; exact hk
  | inr p =>
    obtain ⟨et0, ref0, hb⟩ := harr p rfl
    obtain ⟨et, arr, idx, s1, w1⟩ := p
    simp only [] at h hk hb
    have hk2 : SameFD s1 s1 := SameFD.reflF s1
    iterate 16 (
      all_goals try (first
        | (cases h; done)
        | (obtain ⟨r, hr, h'⟩ := Res.bind_eq_ok h; clear h; rename' h' => h;
           try beta_reduce at h;
           first | (replace hk2 := hk2.transF (hev.1 _ _ _ _ hr)) | skip)
        | (split at h)
        | (simp at h; subst h;
           first
           | exact hk.transF hk2
           | exact SameFD.set_array hk hk2 _ _ _ _ _ hb)))

theorem fd_evalAssignExprIndexExpr {H : Host} {ev : Node → State → World → Res Out} (hev : EvFD H ev)
    (i : String) (x : Expr) (op : String) (v : Expr) (s : State) (w : World) (o : Out)
    (h : evalAssignExprIndexExpr H ev i x op v s w = Res.ok o) : SameFD s o.s := by
  unfold evalAssignExprIndexExpr at h
  obtain ⟨t, ht, h⟩ := Res.bind_eq_ok h
  obtain ⟨hk, harr⟩ := fd_indexTarget hev i x s w t ht
  unfold targetState at hk
  cases t with
  | inl out => simp at h; subst h; exact hk
  | inr p =>
    obtain ⟨et0, ref0, hb⟩ := harr p rfl
    obtain ⟨et, arr, idx, s1, w1⟩ := p
    simp only [] at h hk hb
    have hk2 : SameFD s1 s1 := SameFD.reflF s1
    iterate 16 (
      all_goals try (first
        | (cases h; done)
        | (obtain ⟨r, hr, h'⟩ := Res.bind_eq_ok h; clear h; rename' h' => h;
           try beta_reduce at h;
           first | (replace hk2 := hk2.transF (hev.1 _ _ _ _ hr)) | skip)
        | (split at h)
        | (simp at h; subst h;
           first
           | exact hk.transF hk2
           | exact SameFD.set_array hk hk2 _ _ _ _ _ hb)))

theorem fd_evalExpressions {H : Host} {ev : Node → State → World → Res Out}
    (hev : EvFD H ev) :
    ∀ (args : List Expr) (acc : List Object) (s : State) (w : World)
      (res : List Object × State × World),
      evalExpressions ev args acc s w = Res.ok res → SameFD s res.2.1 := by
  intro args
  induction args with
  | nil =>
    intro acc s w res h
    simp [evalExpressions] at h
    subst h
    exact SameFD.reflF s
  | cons a rest ih =>
    intro acc s w res h
    have hk : SameFD s s := SameFD.reflF s
    simp only [evalExpressions] at h
    iterate 6 (
      all_goals try (first
          | (cases h; done)
          | (obtain ⟨r, hr, h'⟩ := Res.bind_eq_ok h; clear h; rename' h' => h; try beta_reduce at h;
             first | (replace hk := hk.transF (hev.1 _ _ _ _ hr)) | skip)
          | (split at h)
          | (simp at h; subst h; exact hk)
          | (exact hk.transF (ih _ _ _ _ h))))

theorem fd_evalArray {H : Host} {ev : Node → State → World → Res Out} (hev : EvFD H ev)
    (es : List Expr) (s : State) (w : World) (o : Out)
    (h : evalArray ev es s w = Res.ok o) : SameFD s o.s := by
  unfold evalArray at h
  obtain ⟨t, ht, h⟩ := Res.bind_eq_ok h
  have hk := fd_evalExpressions hev es [] s w t ht
  obtain ⟨args, s1, w1⟩ := t
  simp only [] at h hk
  split at h
  · simp at h; subst h; exact hk
  · simp at h; subst h; exact hk

theorem fd_evalCall {H : Host} {ev : Node → State → World → Res Out} (hev : EvFD H ev)
    (fuel : Nat) (f : String) (args : List Expr) (s : State) (w : World) (o : Out)
    (h : evalCall H ev fuel f args s w = Res.ok o) : SameFD s o.s := by
  obtain ⟨r0, hr0, hcase⟩ := evalCall_state H ev fuel f args s w o h
  have h0 := hev.1 _ _ _ _ hr0
  rcases hcase with hc | ⟨t, ht, hc⟩
  · rw [hc]; exact h0
  · rw [hc]; exact h0.transF (fd_evalExpressions hev args [] _ _ t ht)

/-- Evaluating an expression keeps the set of names that the store binds to
functions. -/
theorem Eval_fd (H : Host) : ∀ fuel : Nat, EvFD H (Eval H fuel) := by
  intro fuel
  induction fuel with
  | zero =>
    exact ⟨fun e s w o h => by simp [Eval] at h, fun x s w o h => by simp [Eval] at h⟩
  | succ fuel ih =>
    refine ⟨?_, fun x s w o h => by simp [Eval] at h; exact h.symm⟩
    intro e s w o h
    cases e with
    | nil => simp [Eval] at h; subst h; exact SameFD.reflF s
    | PrefixExpr op r => exact fd_evalPrefixExpr ih op r s w o h
    | InfixExpr l op r => exact fd_evalInfixExpr ih l op r s w o h
    | Assign i v => exact fd_evalAssign ih i v s w o h
    | AssignExpr i op v => exact fd_evalAssignExpr ih i op v s w o h
    | Call f args vd => exact fd_evalCall ih fuel f args s w o h
    | Identifier name => simp [Eval] at h; subst h; exact SameFD.reflF s
    | CharCon v => simp [Eval] at h; subst h; exact SameFD.reflF s
    | IntCon v => simp [Eval] at h; subst h; exact SameFD.reflF s
    | FloatCon v => simp [Eval] at h; subst h; exact SameFD.reflF s
    | StringCon v => simp [Eval] at h; subst h; exact SameFD.reflF s
    | Bool v => simp [Eval] at h; subst h; exact SameFD.reflF s
    | Array es => exact fd_evalArray ih es s w o h
    | IndexExpr i x => exact fd_evalIndexExpr ih i x s w o h
    | AssignIndexExpr i x v => exact fd_evalAssignIndexExpr ih i x v s w o h
    | AssignExprIndexExpr i x op v => exact fd_evalAssignExprIndexExpr ih i x op v s w o h

/-! ## C2: function isolation (statement) -/

/-- C2. Function isolation: in a call of a user-declared function that passes the
arity and type checks, the body is evaluated in a store whose bound names are
exactly the parameter names together with the names that the caller's store binds
to `FuncDecl` values (before the arguments are evaluated, and equally after); there
a name of the caller that is neither a function, nor a parameter name, nor a
built-in name evaluates to the undeclared-identifier error, and every name the
caller binds to a function (the called function included) evaluates to the function
it is bound to. The caller's store binds no name to the nil interface, as every
store that evaluation builds from the empty store. -/
theorem C2_function_isolation (H : Host) (fuel : Nat) (f : String) (args : List Expr)
    (vd : Bool) (s : State) (w : World) (rt id : String) (params : List Param)
    (body : List Stmt) (vals : List Object) (s1 : State) (w1 : World)
    (hf : s.Get f = some (Object.FuncDecl rt id params body))
    (hargs : evalExpressions (Eval H (fuel + 1)) args [] s w = Res.ok (vals, s1, w1))
    (hne : singleError vals = none)
    (hdecl : s1.Get f = some (Object.FuncDecl rt id params body))
    (hchk : checkCall H f params vals = Res.ok none)
    (hnil : NoNil s) :
    ∃ callState,
      Eval H (fuel + 2) (Node.expr (Expr.Call f args vd)) s w
        = (Eval H (fuel + 1) (Node.stmt (Stmt.Block body)) callState w1 >>= fun r =>
            Res.ok ⟨unwrapReturn r.val, s1, r.w⟩) ∧
      (∀ k, (callState.Get k).isSome ↔ (k ∈ params.map Param.ident ∨ FDName s k)) ∧
      (∀ k, FDName s1 k ↔ FDName s k) ∧
      (∀ x, x ∉ params.map Param.ident → ¬ FDName s x → builtins x = none →
        evalIdent H x callState = errorObj H ("identifier " ++ x ++ " undeclared")) ∧
      (∀ g, FDName s g →
        isFuncDecl (evalIdent H g callState) = true ∧
        s1.Get g = some (evalIdent H g callState)) := by
  have hfd : SameFD s s1 := fd_evalExpressions (Eval_fd H (fuel + 1)) args [] s w _ hargs
  have hnil1 : NoNil s1 :=
    noNil_evalExpressions (Eval_noNil H (fuel + 1)) args [] s w _ hnil hargs
  obtain ⟨bound, hbound, hbget⟩ := bindParams_spec params vals NewState
    (checkCall_length H f params vals hchk)
  obtain ⟨cs, hcs, hcget⟩ := CopyFunctions_spec bound s1 hnil1
  have hdom1 : ∀ k, (cs.Get k).isSome ↔ (k ∈ params.map Param.ident ∨ FDName s1 k) := by
    intro k
    rw [hcget k]
    unfold FDName
    cases hk : s1.Get k with
    | none =>
      simp only [Option.map_none', if_false, reduceCtorEq]
      rw [hbget k]
      simp
    | some v =>
      by_cases hv : isFuncDecl v = true
      · simp [hv]
      · simp only [Option.map_some', Option.some.injEq, hv, if_false, Bool.false_eq_true]
        rw [hbget k]
        simp [hv]
  have hdom : ∀ k, (cs.Get k).isSome ↔ (k ∈ params.map Param.ident ∨ FDName s k) := by
    intro k
    rw [hdom1 k, hfd k]
  refine ⟨cs, ?_, hdom, hfd, ?_, ?_⟩
  · have e1 : Eval H (fuel + 2) (Node.expr (Expr.Call f args vd)) s w
        = evalCall H (Eval H (fuel + 1)) (fuel + 1) f args s w := rfl
    have e2 : Eval H (fuel + 1) (Node.expr (Expr.Identifier f)) s w
        = Res.ok ⟨Object.FuncDecl rt id params body, s, w⟩ := by
      simp [Eval, evalIdent, hf]
    rw [e1]
    unfold evalCall
    simp only [e2, Res.ok_bind, IsError, Object.Type, hargs, hne, hdecl, hchk, hbound, hcs,
      unwrap_match]
    simp
  · intro x hxp hxf hxb
    have hx : cs.Get x = none := by
      cases hc : cs.Get x with
      | none => rfl
      | some v =>
        have := (hdom x).mp (by rw [hc]; rfl)
        rcases this with h1 | h1
        · exact absurd h1 hxp
        · exact absurd h1 hxf
    simp [evalIdent, hx, hxb]
  · intro g hg
    obtain ⟨v, hv, hvf⟩ := (hfd g).mpr hg
    have : cs.Get g = some v := by
      rw [hcget g, hv]; simp [hvf]
    simp [evalIdent, this, hvf, hv]

/-- C2, witness: with `x`, `g` and `f` bound by the caller, the call `f(1)` of
`int f(int n) { return x; }` evaluates the body where `n`, `g` and `f` are bound
and `x` is not, and yields the undeclared-identifier error. -/
theorem C2_function_isolation_witness :
    (∃ callState,
      Eval sampleHost 5 (Node.expr (Expr.Call "f" [Expr.IntCon 1] false)) storeXGF emptyWorld
        = (Eval sampleHost 4 (Node.stmt (Stmt.Block [Stmt.Return (Expr.Identifier "x") false]))
            callState emptyWorld >>= fun r =>
            Res.ok ⟨unwrapReturn r.val, storeXGF, r.w⟩) ∧
      (∀ k, (callState.Get k).isSome ↔
        (k ∈ [(⟨"int", "n", false⟩ : Param)].map Param.ident ∨ FDName storeXGF k)) ∧
      (∀ k, FDName storeXGF k ↔ FDName storeXGF k) ∧
      (∀ x, x ∉ [(⟨"int", "n", false⟩ : Param)].map Param.ident → ¬ FDName storeXGF x →
        builtins x = none →
        evalIdent sampleHost x callState
          = errorObj sampleHost ("identifier " ++ x ++ " undeclared")) ∧
      (∀ g, FDName storeXGF g →
        isFuncDecl (evalIdent sampleHost g callState) = true ∧
        storeXGF.Get g = some (evalIdent sampleHost g callState))) ∧
    Eval sampleHost 5 (Node.expr (Expr.Call "f" [Expr.IntCon 1] false)) storeXGF emptyWorld
      = Res.ok ⟨errorObj sampleHost "identifier x undeclared", storeXGF, emptyWorld⟩ :=
  ⟨C2_function_isolation sampleHost 3 "f" [Expr.IntCon 1] false storeXGF emptyWorld
      "int" "f" [⟨"int", "n", false⟩] [Stmt.Return (Expr.Identifier "x") false]
      [Object.Int 1] storeXGF emptyWorld rfl rfl rfl rfl rfl storeXGF_NoNil, rfl⟩

/-! ## C12: program evaluation -/

theorem evalProgramLoop_append (ev : Node → State → World → Res Out) :
    ∀ (pre rest : List Stmt) (res : Object) (s : State) (w : World) (mid : Out),
      blockRun ev pre res s w = some mid →
      evalProgramLoop ev (pre ++ rest) res s w = evalProgramLoop ev rest mid.val mid.s mid.w := by
  intro pre
  induction pre with
  | nil =>
    intro rest res s w mid h
    simp [blockRun] at h
    subst h
    rfl
  | cons st pre ih =>
    intro rest res s w mid h
    simp only [blockRun] at h
    split at h
    · rename_i r hr
      split at h
      · cases h
      · rename_i hsig
        simp only [List.cons_append, evalProgramLoop, hr, Res.ok_bind]
        have := ih rest r.val r.s r.w mid h
        cases hv : r.val <;> simp [hv, isSignal] at hsig ⊢ <;> simpa [hv] using this
    · cases h

/-- C12. Program evaluation: the statements are evaluated in order, each on the
store and world the previous one left. When the statements before `st` yield no
Return and no Error and `st` yields a Return, the program yields the wrapped value;
when `st` yields an Error, the program yields that Error; in both cases whatever
statements `post` follow (they are not evaluated). When no statement yields a
Return or an Error, the program yields the value of the last statement, nothing for
the empty program. -/
theorem C12_program_evaluation (H : Host) (fuel : Nat) (pre : List Stmt) (st : Stmt)
    (s : State) (w : World) (mid r : Out)
    (hpre : blockRun (Eval H fuel) pre Object.nil s w = some mid)
    (hst : Eval H fuel (Node.stmt st) mid.s mid.w = Res.ok r) :
    (∀ v, r.val = Object.Return v → ∀ post,
      Eval H (fuel + 1) (Node.Program (pre ++ st :: post)) s w = Res.ok ⟨v, r.s, r.w⟩) ∧
    (∀ m, r.val = Object.Error m → ∀ post,
      Eval H (fuel + 1) (Node.Program (pre ++ st :: post)) s w = Res.ok r) ∧
    (isSignal r.val = false →
      Eval H (fuel + 1) (Node.Program (pre ++ [st])) s w = Res.ok r) ∧
    Eval H (fuel + 1) (Node.Program pre) s w = Res.ok mid ∧
    Eval H (fuel + 1) (Node.Program []) s w = Res.ok ⟨Object.nil, s, w⟩ := by
  have e : ∀ p, Eval H (fuel + 1) (Node.Program p) s w
      = evalProgramLoop (Eval H fuel) p Object.nil s w := fun _ => rfl
  refine ⟨?_, ?_, ?_, ?_, ?_⟩
  · intro v hv post
    rw [e, evalProgramLoop_append _ pre _ _ _ _ mid hpre]
    simp [evalProgramLoop, hst, hv]
  · intro m hm post
    rw [e, evalProgramLoop_append _ pre _ _ _ _ mid hpre]
    simp [evalProgramLoop, hst, hm]
  · intro hsig
    rw [e, evalProgramLoop_append _ pre _ _ _ _ mid hpre]
    simp only [evalProgramLoop, hst, Res.ok_bind]
    obtain ⟨rv, rs, rw⟩ := r
    cases rv <;> simp [isSignal] at hsig ⊢
  · have := evalProgramLoop_append (Eval H fuel) pre [] Object.nil s w mid hpre
    rw [e]
    simpa [evalProgramLoop] using this
  · rfl

/-- C12, witness: in `int x = 1; return x; int y = 2;` the second statement yields
a Return; the program yields 1 and `y` is not declared. -/
theorem C12_program_evaluation_witness :
    Eval sampleHost 4 (Node.Program
      ([Stmt.VarDecl "int" "x" (Expr.IntCon 1) true] ++
        Stmt.Return (Expr.Identifier "x") false ::
        [Stmt.VarDecl "int" "y" (Expr.IntCon 2) true])) NewState emptyWorld
      = Res.ok ⟨Object.Int 1, storeX1, emptyWorld⟩ :=
  (C12_program_evaluation sampleHost 3 [Stmt.VarDecl "int" "x" (Expr.IntCon 1) true]
    (Stmt.Return (Expr.Identifier "x") false) NewState emptyWorld
    ⟨Object.nil, storeX1, emptyWorld⟩ ⟨Object.Return (Object.Int 1), storeX1, emptyWorld⟩
    rfl rfl).1 (Object.Int 1) rfl [Stmt.VarDecl "int" "y" (Expr.IntCon 2) true]

/-! ## C13: integer division and modulo -/

theorem wrap64_of_isInt64 (x : Int) (h : isInt64 x) : wrap64 x = x := by
  unfold isInt64 at h
  unfold wrap64
  omega

theorem isInt64_wrap64 (x : Int) : isInt64 (wrap64 x) := by
  unfold isInt64 wrap64
  omega

theorem wrap64_modEq (x : Int) : wrap64 x ≡ x [ZMOD 2 ^ 64] := by
  unfold wrap64 Int.ModEq
  omega

theorem wrap64_congr (x y : Int) (h : x ≡ y [ZMOD 2 ^ 64]) : wrap64 x = wrap64 y := by
  unfold Int.ModEq at h
  unfold wrap64
  omega

theorem tmod_abs_lt (a b : Int) (hb : b ≠ 0) : |Int.tmod a b| < |b| := by
  rcases a with m | m <;> rcases b with n | n
  · have hn : n ≠ 0 := by rintro rfl; exact hb rfl
    have := Nat.mod_lt m (Nat.pos_of_ne_zero hn)
    simp only [Int.tmod, Int.ofNat_eq_coe]
    rw [abs_of_nonneg (by positivity), abs_of_nonneg (by positivity)]
    exact_mod_cast this
  · have := Nat.mod_lt m (Nat.succ_pos n)
    simp only [Int.tmod, Int.ofNat_eq_coe]
    rw [abs_of_nonneg (by positivity), Int.negSucc_eq, abs_neg, abs_of_nonneg (by positivity)]
    exact_mod_cast this
  · have hn : n ≠ 0 := by rintro rfl; exact hb rfl
    have := Nat.mod_lt (m + 1) (Nat.pos_of_ne_zero hn)
    simp only [Int.tmod, Int.ofNat_eq_coe]
    rw [abs_neg, abs_of_nonneg (by positivity), abs_of_nonneg (by positivity)]
    exact_mod_cast this
  · have := Nat.mod_lt (m + 1) (Nat.succ_pos n)
    simp only [Int.tmod, Int.ofNat_eq_coe]
    rw [abs_neg, abs_of_nonneg (by positivity), Int.negSucc_eq, abs_neg,
      abs_of_nonneg (by positivity)]
    exact_mod_cast this

theorem tmod_abs_le (a b : Int) : |Int.tmod a b| ≤ |a| := by
  rcases a with m | m <;> rcases b with n | n
  · simp only [Int.tmod, Int.ofNat_eq_coe]
    rw [abs_of_nonneg (by positivity), abs_of_nonneg (by positivity)]
    exact_mod_cast Nat.mod_le m n
  · simp only [Int.tmod, Int.ofNat_eq_coe]
    rw [abs_of_nonneg (by positivity), abs_of_nonneg (by positivity)]
    exact_mod_cast Nat.mod_le m (n + 1)
  · simp only [Int.tmod, Int.ofNat_eq_coe]
    rw [abs_neg, abs_of_nonneg (by positivity), Int.negSucc_eq, abs_neg,
      abs_of_nonneg (by positivity)]
    exact_mod_cast Nat.mod_le (m + 1) n
  · simp only [Int.tmod, Int.ofNat_eq_coe]
    rw [abs_neg, abs_of_nonneg (by positivity), Int.negSucc_eq, abs_neg,
      abs_of_nonneg (by positivity)]
    exact_mod_cast Nat.mod_le (m + 1) (n + 1)

theorem tmod_sign (a b : Int) : Int.tmod a b = 0 ∨ Int.sign (Int.tmod a b) = Int.sign a := by
  rcases a with m | m <;> rcases b with n | n
  · simp only [Int.tmod, Int.ofNat_eq_coe]
    by_cases h : m % n = 0
    · left; exact_mod_cast h
    · right
      have hm : m ≠ 0 := by rintro rfl; simp at h
      rw [Int.sign_eq_one_of_pos (by exact_mod_cast Nat.pos_of_ne_zero h),
        Int.sign_eq_one_of_pos (by exact_mod_cast Nat.pos_of_ne_zero hm)]
  · simp only [Int.tmod, Int.ofNat_eq_coe]
    by_cases h : m % (n + 1) = 0
    · left; exact_mod_cast h
    · right
      have hm : m ≠ 0 := by rintro rfl; simp at h
      rw [Int.sign_eq_one_of_pos (by exact_mod_cast Nat.pos_of_ne_zero h),
        Int.sign_eq_one_of_pos (by exact_mod_cast Nat.pos_of_ne_zero hm)]
  · simp only [Int.tmod, Int.ofNat_eq_coe]
    by_cases h : (m + 1) % n = 0
    · left; simp [h]
    · right
      rw [Int.sign_eq_neg_one_of_neg
        (Int.neg_neg_of_pos (by exact_mod_cast Nat.pos_of_ne_zero h)), Int.sign_negSucc]
  · simp only [Int.tmod, Int.ofNat_eq_coe]
    by_cases h : (m + 1) % (n + 1) = 0
    · left; simp [h]
    · right
      rw [Int.sign_eq_neg_one_of_neg
        (Int.neg_neg_of_pos (by exact_mod_cast Nat.pos_of_ne_zero h)), Int.sign_negSucc]

theorem tdiv_isInt64 (a b : Int) (ha : isInt64 a) (hb : b ≠ 0)
    (h : ¬ (a = -(2 ^ 63) ∧ b = -1)) : isInt64 (Int.tdiv a b) := by
  have h1 : |Int.tdiv a b| * |b| ≤ |a| := by
    have e := Int.tdiv_add_tmod a b
    have hn := Int.natAbs_tdiv a b
    rw [← abs_mul, Int.abs_eq_natAbs, Int.abs_eq_natAbs]
    rw [Int.natAbs_mul, hn]
    exact_mod_cast Nat.div_mul_le_self _ _
  unfold isInt64 at ha ⊢
  have hb1 : 1 ≤ |b| := Int.one_le_abs hb
  by_cases hb2 : |b| = 1
  · rcases (abs_eq (by norm_num : (0:Int) ≤ 1)).1 hb2 with rfl | rfl
    · simp; omega
    · have : a ≠ -(2 ^ 63) := fun e => h ⟨e, rfl⟩
      rw [Int.tdiv_neg]
      simp
      omega
  · have hb3 : 2 ≤ |b| := by omega
    have h2 : |Int.tdiv a b| * 2 ≤ |a| :=
      le_trans (mul_le_mul_of_nonneg_left hb3 (abs_nonneg _)) h1
    have h3 : |a| ≤ 2 ^ 63 := abs_le.2 ⟨ha.1, le_of_lt ha.2⟩
    have h4 : |Int.tdiv a b| < 2 ^ 63 := by omega
    exact ⟨by have := (abs_lt.1 h4).1; omega, (abs_lt.1 h4).2⟩

/-- C13. Integer division and modulo follow the native semantics: for int64 `a`,
`b` with `b ≠ 0`, infix `/` yields `Int q` and infix `%` yields `Int r`, where `q`
is the quotient truncated toward zero reduced to 64 bits (the truncated quotient
itself unless `a = -2^63` and `b = -1`, where it is `-2^63`), `r` is zero or has the
sign of `a`, `|r| < |b|`, both are int64, and `q * b + r = a` in 64-bit wrap-around
arithmetic. -/
theorem C13_int_div_mod (H : Host) (a b : Int) (ha : isInt64 a) (hb : b ≠ 0) :
    ∃ q r, evalInfixExprInt H "/" a b = Res.ok (Object.Int q) ∧
      evalInfixExprInt H "%" a b = Res.ok (Object.Int r) ∧
      q = wrap64 (Int.tdiv a b) ∧
      (¬ (a = -(2 ^ 63) ∧ b = -1) → q = Int.tdiv a b) ∧
      (a = -(2 ^ 63) ∧ b = -1 → q = -(2 ^ 63) ∧ r = 0) ∧
      Int.tdiv a b * b + r = a ∧
      (r = 0 ∨ Int.sign r = Int.sign a) ∧
      |r| < |b| ∧
      isInt64 q ∧ isInt64 r ∧
      wrap64 (q * b + r) = a := by
  refine ⟨wrap64 (Int.tdiv a b), Int.tmod a b, ?_, ?_, rfl, ?_, ?_, ?_, tmod_sign a b,
    tmod_abs_lt a b hb, isInt64_wrap64 _, ?_, ?_⟩
  · simp [evalInfixExprInt, hb]
  · simp [evalInfixExprInt, hb]
  · intro h
    exact wrap64_of_isInt64 _ (tdiv_isInt64 a b ha hb h)
  · rintro ⟨rfl, rfl⟩
    exact ⟨by decide, by decide⟩
  · have := Int.tdiv_add_tmod a b
    linarith
  · have h1 := tmod_abs_le a b
    have h2 := tmod_sign a b
    unfold isInt64 at ha ⊢
    have h3 : |a| ≤ 2 ^ 63 := abs_le.2 ⟨ha.1, le_of_lt ha.2⟩
    have h4 := abs_le.1 (le_trans h1 h3)
    refine ⟨h4.1, ?_⟩
    rcases h2 with h2 | h2
    · rw [h2]; norm_num
    · rcases lt_trichotomy a 0 with h5 | h5 | h5
      · rw [Int.sign_eq_neg_one_of_neg h5] at h2
        have h6 : Int.tmod a b < 0 := Int.sign_eq_neg_one_iff_neg.1 h2
        omega
      · subst h5; simp
      · have h6 : |a| < 2 ^ 63 := abs_lt.2 ⟨by omega, ha.2⟩
        exact (abs_lt.1 (lt_of_le_of_lt h1 h6)).2
  · have e : wrap64 (Int.tdiv a b) * b + Int.tmod a b ≡ a [ZMOD 2 ^ 64] := by
      have h1 : Int.tdiv a b * b + Int.tmod a b = a := by
        have := Int.tdiv_add_tmod a b
        linarith
      calc wrap64 (Int.tdiv a b) * b + Int.tmod a b
          ≡ Int.tdiv a b * b + Int.tmod a b [ZMOD 2 ^ 64] :=
            Int.ModEq.add (Int.ModEq.mul (wrap64_modEq _) (Int.ModEq.refl b)) (Int.ModEq.refl _)
        _ = a := h1
    rw [wrap64_congr _ _ e, wrap64_of_isInt64 a ha]

/-- C13, witness: `7 / 2 == 3` and `7 % 2 == 1`. -/
theorem C13_int_div_mod_witness :
    evalInfixExprInt sampleHost "/" 7 2 = Res.ok (Object.Int 3) ∧
    evalInfixExprInt sampleHost "%" 7 2 = Res.ok (Object.Int 1) := by
  obtain ⟨q, r, h1, h2, h3, -⟩ := C13_int_div_mod sampleHost 7 2 (by decide) (by decide)
  refine ⟨?_, ?_⟩
  · rw [h1, h3]; rfl
  · rfl

/-! ## C14: division by zero -/

theorem F64.zero_eq_zero (neg : Bool) : (F64.zero neg).eq (F64.zero false) = true := by
  cases neg <;> decide

theorem F64.eq_zero_of_isZero (y : F64) (hy : y.bits < 2 ^ 64) (hz : y.isZero = true) :
    y = F64.zero false ∨ y = F64.zero true := by
  obtain ⟨b⟩ := y
  simp only [F64.isZero, F64.expo, F64.frac, Bool.and_eq_true, beq_iff_eq] at hz
  simp only [F64.zero, F64.signBit, F64.mk.injEq] at hy ⊢
  simp only [Bool.false_eq_true, if_false, if_true]
  omega

/-- C14. Division by zero is an error value: for every integer dividend `a`, infix
`/` with the integer divisor 0 yields the DivideByZero error; for every float
dividend `x`, infix `/` with a float divisor that is zero (`0.0` or `-0.0`, the two
binary64 values for which `isZero` holds) yields the DivideByZero error, which is
not a Float. -/
theorem C14_divide_by_zero (H : Host) (a : Int) (x : F64) :
    evalInfixExprInt H "/" a 0 = Res.ok (errorObj H "divide by zero error") ∧
    (∀ neg, evalInfixExprFloat H "/" x (F64.zero neg) = errorObj H "divide by zero error") ∧
    (∀ y : F64, y.bits < 2 ^ 64 → y.isZero = true →
      evalInfixExprFloat H "/" x y = errorObj H "divide by zero error" ∧
      ∀ f, evalInfixExprFloat H "/" x y ≠ Object.Float f) := by
  have hz : ∀ neg, evalInfixExprFloat H "/" x (F64.zero neg)
      = errorObj H "divide by zero error" := by
    intro neg
    simp [evalInfixExprFloat, F64.zero_eq_zero]
  refine ⟨by simp [evalInfixExprInt], hz, ?_⟩
  intro y hy hyz
  rcases F64.eq_zero_of_isZero y hy hyz with rfl | rfl
  · exact ⟨hz false, by rw [hz false]; intro f h; simp [errorObj] at h⟩
  · exact ⟨hz true, by rw [hz true]; intro f h; simp [errorObj] at h⟩

/-- C14, witness: `1 / 0` on integers and `x / -0.0` on floats (the float with bit
pattern 1 divided by the one with only the sign bit set) yield the error. -/
theorem C14_divide_by_zero_witness :
    evalInfixExprInt sampleHost "/" 1 0 = Res.ok (errorObj sampleHost "divide by zero error") ∧
    evalInfixExprFloat sampleHost "/" ⟨1⟩ ⟨2 ^ 63⟩ = errorObj sampleHost "divide by zero error" :=
  ⟨(C14_divide_by_zero sampleHost 1 ⟨1⟩).1,
    ((C14_divide_by_zero sampleHost 1 ⟨1⟩).2.2 ⟨2 ^ 63⟩ (by decide) (by decide)).1⟩

/-! ## C15: operator legality -/

/-- C15 (the code aborts). Inside the int operator set, `%` with the divisor 0 does
not yield a value of the operand type or a DivideByZero error: the integer infix
routine panics, for every dividend, and so does the evaluation of `1 % 0`; the two
shifts panic likewise on a negative count. The sibling `/` checks its divisor. -/
theorem C15_modulo_by_zero_panics (H : Host) (a : Int) (fuel : Nat) (s : State) (w : World) :
    evalInfixExprInt H "%" a 0 = Res.panic ∧
    evalInfixExprInt H "<<" a (-1) = Res.panic ∧
    evalInfixExprInt H ">>" a (-1) = Res.panic ∧
    evalInfixExprInt H "/" a 0 = Res.ok (errorObj H "divide by zero error") ∧
    Eval H (fuel + 2) (Node.expr (Expr.InfixExpr (Expr.IntCon 1) "%" (Expr.IntCon 0))) s w
      = Res.panic := by
  refine ⟨?_, ?_, ?_, ?_, ?_⟩
  · simp [evalInfixExprInt]
  · simp [evalInfixExprInt]
  · simp [evalInfixExprInt]
  · simp [evalInfixExprInt]
  · simp [Eval, evalInfixExpr, evalInfixExprInt, IsError, Object.Type, evalIntCon]

/-! ## C16: compound assignment -/

theorem compoundOp_cases (op bop : String) (hop : compoundOp op = some bop) :
    bop = "+" ∨ bop = "-" ∨ bop = "*" ∨ bop = "/" ∨ bop = "%" ∨ bop = "&" ∨ bop = "^" ∨
      bop = "|" ∨ bop = "<<" ∨ bop = ">>" := by
  unfold compoundOp at hop
  repeat (first
    | (split at hop; · (cases hop; simp))
    | (cases hop; done))

theorem compoundOp_int (H : Host) (op bop : String) (a b : Int) (r : Object)
    (hop : compoundOp op = some bop) (hr : evalInfixExprInt H bop a b = Res.ok r) :
    (∃ m, r = Object.Error m) ∨ ∃ i, r = Object.Int i := by
  rcases compoundOp_cases op bop hop with h | h | h | h | h | h | h | h | h | h <;> subst h <;>
    simp [evalInfixExprInt] at hr <;>
    (try split_ifs at hr) <;> (try simp at hr) <;> subst hr <;> simp [IsError, errorObj]

theorem compoundOp_float (H : Host) (op bop : String) (a b : F64)
    (hop : compoundOp op = some bop) :
    (∃ m, evalInfixExprFloat H bop a b = Object.Error m) ∨
      ∃ f, evalInfixExprFloat H bop a b = Object.Float f := by
  rcases compoundOp_cases op bop hop with h | h | h | h | h | h | h | h | h | h <;> subst h <;>
    simp [evalInfixExprFloat, illegalOperator] <;>
    (try split_ifs) <;> simp [IsError, errorObj]

theorem compoundOp_string (H : Host) (op bop : String) (a b : String)
    (hop : compoundOp op = some bop) :
    (∃ m, evalInfixExprString H bop a b = Object.Error m) ∨
      ∃ f, evalInfixExprString H bop a b = Object.String f := by
  rcases compoundOp_cases op bop hop with h | h | h | h | h | h | h | h | h | h <;> subst h <;>
    simp [evalInfixExprString, illegalOperator] <;>
    (try split_ifs) <;> simp [IsError, errorObj]
theorem Eval_ident (H : Host) (k : Nat) (x : String) (s : State) (w : World) :
    Eval H (k + 1) (Node.expr (Expr.Identifier x)) s w = Res.ok ⟨evalIdent H x s, s, w⟩ := rfl

/-- C16. Compound assignment equals the expanded form: when `x` is bound to an
Int, Float or String, `op` is one of the ten compound operators with base operator
`bop`, and `e` evaluates (with any fuel from `n` on) without changing store or world
to a value of the type tag of `x`, then `x = x bop e` and `x op= e` evaluate to the
same outcome; that outcome is nothing with `x` rebound, or an error with the store
and world unchanged, so that `x` keeps its old value. -/
theorem C16_compound_assignment (H : Host) (n : Nat) (x op bop : String) (e : Expr)
    (s : State) (w : World) (xv v : Object) (t : ObjectType)
    (hop : compoundOp op = some bop)
    (hx : s.Get x = some xv) (hxt : xv.Type = Res.ok t)
    (ht : t = ObjectType.IntObj ∨ t = ObjectType.FloatObj ∨ t = ObjectType.StringObj)
    (hv : v.Type = Res.ok t)
    (he : ∀ k, n ≤ k → Eval H k (Node.expr e) s w = Res.ok ⟨v, s, w⟩) :
    ∀ k, n ≤ k →
      Eval H (k + 2) (Node.expr (Expr.Assign x (Expr.InfixExpr (Expr.Identifier x) bop e))) s w
        = Eval H (k + 2) (Node.expr (Expr.AssignExpr x op e)) s w ∧
      ∀ r, Eval H (k + 2) (Node.expr (Expr.AssignExpr x op e)) s w = Res.ok r →
        (r.val = Object.nil ∧ ∃ nv, r.s = s.Set x nv ∧ nv.Type = Res.ok t ∧ r.w = w) ∨
        (IsError r.val = true ∧ r.s = s ∧ r.w = w ∧ r.s.Get x = some xv) := by
  intro k hk
  have hk1 : ∃ j, k = j + 1 := by
    cases k with
    | zero => have := he 0 hk; cases this
    | succ j => exact ⟨j, rfl⟩
  obtain ⟨j, rfl⟩ := hk1
  have e1 := he (j + 1) hk
  have e2 := he (j + 2) (by omega)
  have a1 : Eval H (j + 3) (Node.expr (Expr.Assign x (Expr.InfixExpr (Expr.Identifier x) bop e)))
      s w = evalAssign H (Eval H (j + 2)) x (Expr.InfixExpr (Expr.Identifier x) bop e) s w := rfl
  have a2 : ∀ s0 w0, Eval H (j + 2) (Node.expr (Expr.InfixExpr (Expr.Identifier x) bop e)) s0 w0
      = evalInfixExpr H (Eval H (j + 1)) (Expr.Identifier x) bop e s0 w0 := fun _ _ => rfl
  have a3 : Eval H (j + 3) (Node.expr (Expr.AssignExpr x op e)) s w
      = evalAssignExpr H (Eval H (j + 2)) x op e s w := rfl
  have hid : evalIdent H x s = xv := evalIdent_of_Get H x s xv hx
  rw [a1, a3]
  unfold evalAssign evalAssignExpr
  simp only [Eval_ident, Res.ok_bind, a2]
  unfold evalInfixExpr
  simp only [Eval_ident, Res.ok_bind, e1, e2, hid, hx, Option.getD_some]
  rcases ht with rfl | rfl | rfl
  · cases xv <;> simp [Object.Type] at hxt
    cases v <;> simp [Object.Type] at hv
    rename_i a b
    simp only [IsError, Bool.false_eq_true, if_false, Object.Type, Res.ok_bind, ne_eq,
      not_true_eq_false, hop]
    cases hr : evalInfixExprInt H bop a b with
    | panic => simp
    | timeout => simp
    | ok r =>
      rcases compoundOp_int H op bop a b r hop hr with ⟨m, rfl⟩ | ⟨i, rfl⟩
      · simp [hx, IsError]
      · simp [IsError, Object.Type]
        exact ⟨_, rfl, rfl⟩
  · cases xv <;> simp [Object.Type] at hxt
    cases v <;> simp [Object.Type] at hv
    rename_i a b
    simp only [IsError, Bool.false_eq_true, if_false, Object.Type, Res.ok_bind, ne_eq,
      not_true_eq_false, hop]
    rcases compoundOp_float H op bop a b hop with ⟨m, h⟩ | ⟨i, h⟩
    · simp [h, hx, IsError]
    · simp [h, IsError, Object.Type]
      exact ⟨_, rfl, rfl⟩
  · cases xv <;> simp [Object.Type] at hxt
    cases v <;> simp [Object.Type] at hv
    rename_i a b
    simp only [IsError, Bool.false_eq_true, if_false, Object.Type, Res.ok_bind, ne_eq,
      not_true_eq_false, hop]
    rcases compoundOp_string H op bop a b hop with ⟨m, h⟩ | ⟨i, h⟩
    · simp [h, hx, IsError]
    · simp [h, IsError, Object.Type]
      exact ⟨_, rfl, rfl⟩

/-- C16, witness: with `x` bound to 1, `x = x + 2` and `x += 2` both yield nothing
and rebind `x` to 3. -/
theorem C16_compound_assignment_witness :
    Eval sampleHost 3 (Node.expr (Expr.Assign "x"
        (Expr.InfixExpr (Expr.Identifier "x") "+" (Expr.IntCon 2)))) storeX1 emptyWorld
      = Eval sampleHost 3 (Node.expr (Expr.AssignExpr "x" "+=" (Expr.IntCon 2))) storeX1
          emptyWorld ∧
    Eval sampleHost 3 (Node.expr (Expr.AssignExpr "x" "+=" (Expr.IntCon 2))) storeX1 emptyWorld
      = Res.ok ⟨Object.nil, storeX1.Set "x" (Object.Int 3), emptyWorld⟩ :=
  ⟨(C16_compound_assignment sampleHost 1 "x" "+=" "+" (Expr.IntCon 2) storeX1 emptyWorld
      (Object.Int 1) (Object.Int 2) ObjectType.IntObj rfl rfl rfl (Or.inl rfl) rfl
      (fun k hk => by
        obtain ⟨j, rfl⟩ : ∃ j, k = j + 1 := ⟨k - 1, by omega⟩
        rfl) 1 (le_refl 1)).1, rfl⟩

/-! ## C17: the arity check -/

theorem evalExpressions_length (ev : Node → State → World → Res Out) :
    ∀ (l : List Expr) (acc : List Object) (s : State) (w : World) (args : List Object)
      (s1 : State) (w1 : World), evalExpressions ev l acc s w = Res.ok (args, s1, w1) →
      (∀ a ∈ args, IsError a = false) → args.length = acc.length + l.length := by
  intro l
  induction l with
  | nil =>
    intro acc s w args s1 w1 h _
    simp [evalExpressions] at h
    simp [h.1]
  | cons a rest ih =>
    intro acc s w args s1 w1 h hne
    simp only [evalExpressions] at h
    obtain ⟨e, he, h⟩ := Res.bind_eq_ok h
    split at h
    · rename_i herr
      simp at h
      have := hne e.val (by rw [← h.1]; simp)
      rw [this] at herr
      cases herr
    · have := ih _ _ _ _ _ _ h hne
      simp at this ⊢
      omega

theorem singleError_none (args : List Object) (h : ∀ a ∈ args, IsError a = false) :
    singleError args = none := by
  match args with
  | [] => rfl
  | [x] => simp [singleError, h x (by simp)]
  | _ :: _ :: _ => rfl

/-- C17 (amended). The arity check of a call of a user-declared function `f` whose
`m` arguments all evaluate without error, leaving the store `s1` and the world `w1`:
with `n` the number of parameters of the declaration bound to `f` in `s1`, the call
yields the TooManyArguments error when `m > n` and the NotEnoughArguments error when
`m < n`, whatever the body is, and hands back `s1` and `w1`, the environment as the
evaluation of the arguments left it. When the arguments are identifiers or literals,
that is the caller's environment unchanged and `n` counts the parameters of the
declaration the caller had. -/
theorem C17_arity_check (H : Host) (fuel : Nat) (f : String) (arguments : List Expr)
    (vd : Bool) (s : State) (w : World) (rt id : String) (ps : List Param) (body : List Stmt)
    (args : List Object) (s1 : State) (w1 : World) (rt1 id1 : String) (ps1 : List Param)
    (body1 : List Stmt)
    (hf : s.Get f = some (Object.FuncDecl rt id ps body))
    (hargs : evalExpressions (Eval H (fuel + 1)) arguments [] s w = Res.ok (args, s1, w1))
    (hne : ∀ a ∈ args, IsError a = false)
    (hf1 : s1.Get f = some (Object.FuncDecl rt1 id1 ps1 body1)) :
    args.length = arguments.length ∧
    (ps1.length < arguments.length →
      Eval H (fuel + 2) (Node.expr (Expr.Call f arguments vd)) s w
        = Res.ok ⟨errorObj H ("too many arguments supplied to " ++ f ++ "()"), s1, w1⟩) ∧
    (arguments.length < ps1.length →
      Eval H (fuel + 2) (Node.expr (Expr.Call f arguments vd)) s w
        = Res.ok ⟨errorObj H ("not enough arguments supplied to " ++ f ++ "()"), s1, w1⟩) ∧
    ((∀ a ∈ arguments, isIdentOrLit a = true) → s1 = s ∧ w1 = w ∧ ps1 = ps) := by
  have hlen : args.length = arguments.length := by
    have := evalExpressions_length _ arguments [] s w args s1 w1 hargs hne
    simpa using this
  have hse := singleError_none args hne
  have e1 : Eval H (fuel + 2) (Node.expr (Expr.Call f arguments vd)) s w
      = evalCall H (Eval H (fuel + 1)) (fuel + 1) f arguments s w := rfl
  have hid : evalIdent H f s = Object.FuncDecl rt id ps body := evalIdent_of_Get H f s _ hf
  refine ⟨hlen, ?_, ?_, ?_⟩
  · intro hm
    rw [e1]
    unfold evalCall
    simp only [Eval_ident, Res.ok_bind, hid, IsError, Object.Type, hargs, hse, hf1]
    simp [checkCall, hlen, hm]
  · intro hm
    rw [e1]
    unfold evalCall
    simp only [Eval_ident, Res.ok_bind, hid, IsError, Object.Type, hargs, hse, hf1]
    have : ¬ ps1.length < arguments.length := by omega
    simp [checkCall, hlen, hm, this]
  · intro hall
    obtain ⟨h1, h2⟩ := evalExpressions_identOrLit H (fuel + 1) arguments [] s w _ hall hargs
    simp only at h1 h2
    subst h1
    subst h2
    rw [hf] at hf1
    simp at hf1
    exact ⟨rfl, rfl, hf1.2.2.1.symm⟩

/-- C17, witness: `int f(int a, int b)` called with one argument fails with the
NotEnoughArguments error. -/
theorem C17_arity_check_witness :
    Eval sampleHost 2 (Node.expr (Expr.Call "f" [Expr.IntCon 1] false)) storeF2 emptyWorld
      = Res.ok ⟨errorObj sampleHost "not enough arguments supplied to f()", storeF2,
          emptyWorld⟩ :=
  (C17_arity_check sampleHost 0 "f" [Expr.IntCon 1] false storeF2 emptyWorld "int" "f"
    [⟨"int", "a", false⟩, ⟨"int", "b", false⟩] [Stmt.Return (Expr.Identifier "a") false]
    [Object.Int 1] storeF2 emptyWorld "int" "f"
    [⟨"int", "a", false⟩, ⟨"int", "b", false⟩] [Stmt.Return (Expr.Identifier "a") false]
    rfl rfl (by simp [IsError]) rfl).2.2.1 (by decide)

/-- C17, counterexample: after `int x = 1; void f() {}` the call `f(x = 5)` has one
argument, which evaluates without error, for a function with no parameter; it yields
the TooManyArguments error, and the caller's `x`, which was 1, is 5. -/
theorem C17_counterexample :
    Eval sampleHost 3 (Node.Program declsXF) NewState emptyWorld
      = Res.ok ⟨Object.nil, storeXF, emptyWorld⟩ ∧
    ∃ o, Eval sampleHost 3 (Node.expr callFx5) storeXF emptyWorld = Res.ok o ∧
      o.val = errorObj sampleHost "too many arguments supplied to f()" ∧
      storeXF.Get "x" = some (Object.Int 1) ∧
      o.s.Get "x" = some (Object.Int 5) :=
  ⟨rfl, ⟨errorObj sampleHost "too many arguments supplied to f()",
    storeXF.Set "x" (Object.Int 5), emptyWorld⟩, rfl, rfl, rfl, rfl⟩

/-! ## C18: the argument type check -/

/-- C18 (the code rejects every char argument). In the argument check a Char
argument for a scalar parameter falls in the `default` case of the switch over the
argument's type, whatever the declared type of the parameter, `char` included: the
check yields the error `illegal type for argument i`. So after `void f(char c) {}`
the call `f('a')` does not pass the check and does not fail with the
MismatchedArgumentType error either. -/
theorem C18_char_argument_rejected (H : Host) (fuel : Nat) (c : String) (vd : Bool)
    (w : World) :
    (∀ (i : Nat) (t x : String) (ps : List Param) (rest : List Object),
      checkArgs H i (⟨t, x, false⟩ :: ps) (Object.Char c :: rest)
        = Res.ok (some (errorObj H ("illegal type for argument " ++ toString i)))) ∧
    Eval H (fuel + 2) (Node.expr (Expr.Call "f" [Expr.CharCon c] vd)) storeFC w
      = Res.ok ⟨errorObj H "illegal type for argument 0", storeFC, w⟩ ∧
    errorObj sampleHost "illegal type for argument 0" ≠ mismatchedArg sampleHost 0 := by
  refine ⟨?_, ?_, ?_⟩
  · intro i t x ps rest
    simp [checkArgs, Object.Type]
  · have e1 : Eval H (fuel + 2) (Node.expr (Expr.Call "f" [Expr.CharCon c] vd)) storeFC w
        = evalCall H (Eval H (fuel + 1)) (fuel + 1) "f" [Expr.CharCon c] storeFC w := rfl
    have e2 : evalExpressions (Eval H (fuel + 1)) [Expr.CharCon c] [] storeFC w
        = Res.ok ([Object.Char c], storeFC, w) := rfl
    have e3 : evalIdent H "f" storeFC = Object.FuncDecl "void" "f" [⟨"char", "c", false⟩] [] :=
      rfl
    have e4 : storeFC.Get "f" = some (Object.FuncDecl "void" "f" [⟨"char", "c", false⟩] []) :=
      rfl
    rw [e1]
    unfold evalCall
    simp only [Eval_ident, Res.ok_bind, e2, e3, e4, IsError, Object.Type]
    simp [singleError, IsError, checkCall, checkArgs, Object.Type]
    rfl
  · simp only [errorObj, mismatchedArg, sampleHost]
    intro h
    injection h with h
    revert h
    decide

/-! ## C20: array homogeneity over a run -/

/-- C20 (the code breaks the invariant). After `intarr a = {1, 2};` the array bound
to `a` has two Int elements and the element-type name `int`. The compound index
assignment `a[0] /= 0;` then yields nothing and stores the DivideByZero error as
element 0, so the elements no longer share the tag of the element type; the plain
assignment `a = {1, "x"};` yields nothing as well and binds `a` to an array with an
Int and a String element and an empty element-type name. -/
theorem C20_homogeneity_broken :
    (∃ o, Eval sampleHost 4 (Node.Program [declA12]) NewState emptyWorld = Res.ok o ∧
      o.s.Get "a" = some (Object.Array "int" 1) ∧
      o.w.elems 1 = [Object.Int 1, Object.Int 2] ∧
      elementsTagged o.w (Object.Array "int" 1) = true) ∧
    (∃ o, Eval sampleHost 4 (Node.Program [declA12, divA0]) NewState emptyWorld = Res.ok o ∧
      o.val = Object.nil ∧
      o.s.Get "a" = some (Object.Array "int" 1) ∧
      o.w.elems 1 = [errorObj sampleHost "divide by zero error", Object.Int 2] ∧
      elementsTagged o.w (Object.Array "int" 1) = false) ∧
    (∃ o, Eval sampleHost 5 (Node.Program [declA12, assignA1x]) NewState emptyWorld = Res.ok o ∧
      o.val = Object.nil ∧
      o.s.Get "a" = some (Object.Array "" 2) ∧
      o.w.elems 2 = [Object.Int 1, Object.String "x"] ∧
      elementsTagged o.w (Object.Array "" 2) = false) :=
  ⟨⟨⟨Object.nil, ⟨[("a", Object.Array "int" 1)]⟩,
      ⟨[[Object.Int 1, Object.Int 2], [Object.Int 1, Object.Int 2]], 0, []⟩⟩,
      rfl, rfl, rfl, rfl⟩,
    ⟨⟨Object.nil, ⟨[("a", Object.Array "int" 1)]⟩,
      ⟨[[Object.Int 1, Object.Int 2],
        [errorObj sampleHost "divide by zero error", Object.Int 2]], 0, []⟩⟩,
      rfl, rfl, rfl, rfl, rfl⟩,
    ⟨⟨Object.nil, ⟨[("a", Object.Array "" 2)]⟩,
      ⟨[[Object.Int 1, Object.Int 2], [Object.Int 1, Object.Int 2],
        [Object.Int 1, Object.String "x"]], 0, []⟩⟩,
      rfl, rfl, rfl, rfl, rfl⟩⟩

/-! ## Evaluating an expression binds no new name but names of built-ins -/

theorem NewBI.reflB (s : State) : NewBI s s := fun _ h => Or.inl h

theorem NewBI.transB {s t u : State} (h1 : NewBI s t) (h2 : NewBI t u) : NewBI s u := by
  intro k hk
  rcases h2 k hk with h | h
  · exact h1 k h
  · exact Or.inr h

theorem NewBI.setB {s t : State} (h : NewBI s t) (k : String) (v : Object)
    (hk : (s.Get k).isSome ∨ (builtins k).isSome) : NewBI s (t.Set k v) := by
  intro k' hk'
  rw [State.Get_Set] at hk'
  by_cases e : k' = k
  · subst e; exact hk
  · simp only [e, if_false] at hk'
    exact h k' hk'

theorem NewBI.set_bound {s t : State} (h : NewBI s t) (k : String) (v : Object)
    (hb : (t.Get k).isSome) : NewBI s (t.Set k v) :=
  h.setB k v (h k hb)

theorem isSome_of_getD_Type (o : Option Object) (ty : ObjectType)
    (h : (o.getD Object.nil).Type = Res.ok ty) : o.isSome := by
  cases o with
  | none => cases h
  | some v => rfl

theorem bound_of_evalIdent (H : Host) (k : String) (s : State)
    (h : ¬ IsError (evalIdent H k s) = true) : (s.Get k).isSome ∨ (builtins k).isSome := by
  unfold evalIdent at h
  cases hs : s.Get k with
  | some v => exact Or.inl rfl
  | none =>
    cases hb : builtins k with
    | some f => exact Or.inr rfl
    | none => simp [hs, hb, IsError, errorObj] at h

theorem bi_evalPrefixExpr {H : Host} {ev : Node → State → World → Res Out} (hev : EvBI H ev)
    (op : String) (e : Expr) (s : State) (w : World) (o : Out)
    (h : evalPrefixExpr H ev op e s w = Res.ok o) : NewBI s o.s := by
  have ih := hev.1
  have hk : NewBI s s := NewBI.reflB s
  unfold evalPrefixExpr at h
  iterate 10 (
    all_goals try (first
        | (cases h; done)
        | (obtain ⟨r, hr, h'⟩ := Res.bind_eq_ok h; clear h; rename' h' => h; try beta_reduce at h;
           first | (replace hk := hk.transB (hev.1 _ _ _ _ hr)) | skip)
        | (split at h)
        | (simp at h; subst h;
           first
           | exact hk
           | (apply NewBI.set_bound hk; apply isSome_of_getD_Type; assumption))
        | (exact hk.transB (ih _ _ _ _ h))))

theorem bi_evalInfixExpr {H : Host} {ev : Node → State → World → Res Out} (hev : EvBI H ev)
    (l : Expr) (op : String) (e : Expr) (s : State) (w : World) (o : Out)
    (h : evalInfixExpr H ev l op e s w = Res.ok o) : NewBI s o.s := by
  have ih := hev.1
  have hk : NewBI s s := NewBI.reflB s
  unfold evalInfixExpr at h
  iterate 12 (
    all_goals try (first
        | (cases h; done)
        | (obtain ⟨r, hr, h'⟩ := Res.bind_eq_ok h; clear h; rename' h' => h; try beta_reduce at h;
           first | (replace hk := hk.transB (hev.1 _ _ _ _ hr)) | skip)
        | (split at h)
        | (simp at h; subst h;
           first
           | exact hk
           | (apply NewBI.set_bound hk; apply isSome_of_getD_Type; assumption))
        | (exact hk.transB (ih _ _ _ _ h))))

theorem bi_evalAssign {H : Host} {ev : Node → State → World → Res Out} (hev : EvBI H ev)
    (i : String) (e : Expr) (s : State) (w : World) (o : Out)
    (h : evalAssign H ev i e s w = Res.ok o) : NewBI s o.s := by
  unfold evalAssign at h
  obtain ⟨r0, hr0, h⟩ := Res.bind_eq_ok h
  have e0 := hev.2 _ _ _ _ hr0
  subst e0
  simp only [] at h
  split at h
  · simp at h; subst h; exact NewBI.reflB s
  · rename_i hne
    obtain ⟨v, hv, h⟩ := Res.bind_eq_ok h
    have hk := hev.1 _ _ _ _ hv
    split at h
    · simp at h; subst h; exact hk
    · obtain ⟨ti, hti, h⟩ := Res.bind_eq_ok h
      obtain ⟨tv, htv, h⟩ := Res.bind_eq_ok h
      split at h
      · simp at h; subst h; exact hk
      · simp at h; subst h
        exact hk.setB _ _ (bound_of_evalIdent H i s hne)

theorem bi_evalAssignExpr {H : Host} {ev : Node → State → World → Res Out} (hev : EvBI H ev)
    (i op : String) (e : Expr) (s : State) (w : World) (o : Out)
    (h : evalAssignExpr H ev i op e s w = Res.ok o) : NewBI s o.s := by
  have ih := hev.1
  have hk : NewBI s s := NewBI.reflB s
  unfold evalAssignExpr at h
  iterate 14 (
    all_goals try (first
        | (cases h; done)
        | (obtain ⟨r, hr, h'⟩ := Res.bind_eq_ok h; clear h; rename' h' => h; try beta_reduce at h;
           first | (replace hk := hk.transB (hev.1 _ _ _ _ hr)) | skip)
        | (split at h)
        | (simp at h; subst h;
           first
           | exact hk
           | (apply NewBI.set_bound hk; apply isSome_of_getD_Type; assumption))
        | (exact hk.transB (ih _ _ _ _ h))))

theorem bi_indexTarget {H : Host} {ev : Node → State → World → Res Out} (hev : EvBI H ev)
    (i : String) (x : Expr) (s : State) (w : World)
    (t : Out ⊕ (String × Nat × Nat × State × World))
    (h : indexTarget H ev i x s w = Res.ok t) :
    NewBI s (targetState t) ∧ (∀ p, t = Sum.inr p → (p.2.2.2.1.Get i).isSome) := by
  unfold indexTarget at h
  dsimp only at h
  split at h
  · simp at h; subst h; exact ⟨NewBI.reflB s, fun p hp => by cases hp⟩
  · obtain ⟨r, hr, h⟩ := Res.bind_eq_ok h
    have hk := hev.1 _ _ _ _ hr
    split at h
    · simp at h; subst h; exact ⟨hk, fun p hp => by cases hp⟩
    · obtain ⟨tx, _, h⟩ := Res.bind_eq_ok h
      split at h
      · simp at h; subst h; exact ⟨hk, fun p hp => by cases hp⟩
      · split at h
        · simp at h; subst h; exact ⟨hk, fun p hp => by cases hp⟩
        · rename_i arr harr
          obtain ⟨ta, _, h⟩ := Res.bind_eq_ok h
          split at h
          · simp at h; subst h; exact ⟨hk, fun p hp => by cases hp⟩
          · split at h
            · split at h
              · simp at h; subst h; exact ⟨hk, fun p hp => by cases hp⟩
              · simp at h; subst h
                refine ⟨hk, fun p hp => ?_⟩
                cases hp
                simp only [harr]
                rfl
            · cases h

theorem bi_evalIndexExpr {H : Host} {ev : Node → State → World → Res Out} (hev : EvBI H ev)
    (i : String) (x : Expr) (s : State) (w : World) (o : Out)
    (h : evalIndexExpr H ev i x s w = Res.ok o) : NewBI s o.s := by
  unfold evalIndexExpr at h
  obtain ⟨t, ht, h⟩ := Res.bind_eq_ok h
  have hk := (bi_indexTarget hev i x s w t ht).1
  unfold targetState at hk
  cases t with
  | inl out => simp at h; subst h; exact hk
  | inr p =>
    obtain ⟨et, arr, idx, s1, w1⟩ := p
    simp at h; subst h; exact hk

theorem bi_evalAssignIndexExpr {H : Host} {ev : Node → State → World → Res Out} (hev : EvBI H ev)
    (i : String) (x v : Expr) (s : State) (w : World) (o : Out)
    (h : evalAssignIndexExpr H ev i x v s w = Res.ok o) : NewBI s o.s := by
  unfold evalAssignIndexExpr at h
  obtain ⟨t, ht, h⟩ := Res.bind_eq_ok h
  obtain ⟨hk, harr⟩ := bi_indexTarget hev i x s w t ht
  unfold targetState at hk
  cases t with
  | inl out => simp at h; subst h; exact hk
  | inr p =>
    have hb := harr p rfl
    obtain ⟨et, arr, idx, s1, w1⟩ := p
    simp only [] at h hk hb
    have hk2 : NewBI s1 s1 := NewBI.reflB s1
    iterate 16 (
      all_goals try (first
        | (cases h; done)
        | (obtain ⟨r, hr, h'⟩ := Res.bind_eq_ok h; clear h; rename' h' => h;
           try beta_reduce at h;
           first | (replace hk2 := hk2.transB (hev.1 _ _ _ _ hr)) | skip)
        | (split at h)
        | (simp at h; subst h;
           first
           | exact hk.transB hk2
           | exact (hk.transB hk2).setB _ _ (hk _ hb))))

theorem bi_evalAssignExprIndexExpr {H : Host} {ev : Node → State → World → Res Out} (hev : EvBI H ev)
    (i : String) (x : Expr) (op : String) (v : Expr) (s : State) (w : World) (o : Out)
    (h : evalAssignExprIndexExpr H ev i x op v s w = Res.ok o) : NewBI s o.s := by
  unfold evalAssignExprIndexExpr at h
  obtain ⟨t, ht, h⟩ := Res.bind_eq_ok h
  obtain ⟨hk, harr⟩ := bi_indexTarget hev i x s w t ht
  unfold targetState at hk
  cases t with
  | inl out => simp at h; subst h; exact hk
  | inr p =>
    have hb := harr p rfl
    obtain ⟨et, arr, idx, s1, w1⟩ := p
    simp only [] at h hk hb
    have hk2 : NewBI s1 s1 := NewBI.reflB s1
    iterate 16 (
      all_goals try (first
        | (cases h; done)
        | (obtain ⟨r, hr, h'⟩ := Res.bind_eq_ok h; clear h; rename' h' => h;
           try beta_reduce at h;
           first | (replace hk2 := hk2.transB (hev.1 _ _ _ _ hr)) | skip)
        | (split at h)
        | (simp at h; subst h;
           first
           | exact hk.transB hk2
           | exact (hk.transB hk2).setB _ _ (hk _ hb))))

theorem bi_evalExpressions {H : Host} {ev : Node → State → World → Res Out}
    (hev : EvBI H ev) :
    ∀ (args : List Expr) (acc : List Object) (s : State) (w : World)
      (res : List Object × State × World),
      evalExpressions ev args acc s w = Res.ok res → NewBI s res.2.1 := by
  intro args
  induction args with
  | nil =>
    intro acc s w res h
    simp [evalExpressions] at h
    subst h
    exact NewBI.reflB s
  | cons a rest ih =>
    intro acc s w res h
    have hk : NewBI s s := NewBI.reflB s
    simp only [evalExpressions] at h
    iterate 6 (
      all_goals try (first
          | (cases h; done)
          | (obtain ⟨r, hr, h'⟩ := Res.bind_eq_ok h; clear h; rename' h' => h; try beta_reduce at h;
             first | (replace hk := hk.transB (hev.1 _ _ _ _ hr)) | skip)
          | (split at h)
          | (simp at h; subst h;
             first
             | exact hk
             | (apply NewBI.set_bound hk; apply isSome_of_getD_Type; assumption))
          | (exact hk.transB (ih _ _ _ _ h))))

theorem bi_evalArray {H : Host} {ev : Node → State → World → Res Out} (hev : EvBI H ev)
    (es : List Expr) (s : State) (w : World) (o : Out)
    (h : evalArray ev es s w = Res.ok o) : NewBI s o.s := by
  unfold evalArray at h
  obtain ⟨t, ht, h⟩ := Res.bind_eq_ok h
  have hk := bi_evalExpressions hev es [] s w t ht
  obtain ⟨args, s1, w1⟩ := t
  simp only [] at h hk
  split at h
  · simp at h; subst h; exact hk
  · simp at h; subst h; exact hk

theorem bi_evalCall {H : Host} {ev : Node → State → World → Res Out} (hev : EvBI H ev)
    (fuel : Nat) (f : String) (args : List Expr) (s : State) (w : World) (o : Out)
    (h : evalCall H ev fuel f args s w = Res.ok o) : NewBI s o.s := by
  obtain ⟨r0, hr0, hcase⟩ := evalCall_state H ev fuel f args s w o h
  have h0 := hev.1 _ _ _ _ hr0
  rcases hcase with hc | ⟨t, ht, hc⟩
  · rw [hc]; exact h0
  · rw [hc]; exact h0.transB (bi_evalExpressions hev args [] _ _ t ht)

/-- Evaluating an expression binds no new name, except names of built-in
functions (which an assignment can bind). -/
theorem Eval_bi (H : Host) : ∀ fuel : Nat, EvBI H (Eval H fuel) := by
  intro fuel
  induction fuel with
  | zero =>
    exact ⟨fun e s w o h => by simp [Eval] at h, fun x s w o h => by simp [Eval] at h⟩
  | succ fuel ih =>
    refine ⟨?_, fun x s w o h => by simp [Eval] at h; exact h.symm⟩
    intro e s w o h
    cases e with
    | nil => simp [Eval] at h; subst h; exact NewBI.reflB s
    | PrefixExpr op r => exact bi_evalPrefixExpr ih op r s w o h
    | InfixExpr l op r => exact bi_evalInfixExpr ih l op r s w o h
    | Assign i v => exact bi_evalAssign ih i v s w o h
    | AssignExpr i op v => exact bi_evalAssignExpr ih i op v s w o h
    | Call f args vd => exact bi_evalCall ih fuel f args s w o h
    | Identifier name => simp [Eval] at h; subst h; exact NewBI.reflB s
    | CharCon v => simp [Eval] at h; subst h; exact NewBI.reflB s
    | IntCon v => simp [Eval] at h; subst h; exact NewBI.reflB s
    | FloatCon v => simp [Eval] at h; subst h; exact NewBI.reflB s
    | StringCon v => simp [Eval] at h; subst h; exact NewBI.reflB s
    | Bool v => simp [Eval] at h; subst h; exact NewBI.reflB s
    | Array es => exact bi_evalArray ih es s w o h
    | IndexExpr i x => exact bi_evalIndexExpr ih i x s w o h
    | AssignIndexExpr i x v => exact bi_evalAssignIndexExpr ih i x v s w o h
    | AssignExprIndexExpr i x op v => exact bi_evalAssignExprIndexExpr ih i x op v s w o h
/-! ## C11: scalar initialized declarations -/

/-- C11 (amended). A scalar initialized declaration `T x = e;` of a fresh name `x`
whose initializer evaluates to a value `v` that is no error and has a type tag, leaving
the store `s1`: when the tag of `v` is exactly the one `T` requires, the declaration
yields nothing and binds `x` to `v` in `s1`; otherwise it yields the TypeMismatch
error and hands back `s1` as it is, with no declaration made. Evaluating the
initializer binds no new name but names of built-in functions, so `x` is unbound
after the error unless `x` is such a name. -/
theorem C11_scalar_declaration (H : Host) (fuel : Nat) (T x : String) (e : Expr)
    (s : State) (w : World) (v : Object) (s1 : State) (w1 : World) (tag tv : ObjectType)
    (hfresh : s.Get x = none) (hT : scalarTag T = some tag)
    (he : Eval H fuel (Node.expr e) s w = Res.ok ⟨v, s1, w1⟩)
    (hne : IsError v = false) (hv : v.Type = Res.ok tv) :
    (tv = tag →
      Eval H (fuel + 1) (Node.stmt (Stmt.VarDecl T x e true)) s w
        = Res.ok ⟨Object.nil, s1.Set x v, w1⟩ ∧ (s1.Set x v).Get x = some v) ∧
    (tv ≠ tag →
      Eval H (fuel + 1) (Node.stmt (Stmt.VarDecl T x e true)) s w
        = Res.ok ⟨errorObj H ("mismatched types: " ++ T ++ " " ++ x ++ " = " ++ ObjString v),
            s1, w1⟩) ∧
    (builtins x = none → s1.Get x = none) := by
  have e1 : Eval H (fuel + 1) (Node.stmt (Stmt.VarDecl T x e true)) s w
      = evalVarDecl H (Eval H fuel) T x e true s w := rfl
  refine ⟨?_, ?_, ?_⟩
  · intro ht
    subst ht
    rw [e1]
    unfold evalVarDecl
    simp [hfresh, he, hne, hT, hv, State.Get_Set_self]
  · intro ht
    rw [e1]
    unfold evalVarDecl
    simp [hfresh, he, hne, hT, hv, ht]
  · intro hb
    have h1 := (Eval_bi H fuel).1 e s w _ he x
    cases hs : s1.Get x with
    | none => rfl
    | some u =>
      rw [hs] at h1
      rcases h1 rfl with h2 | h2
      · rw [hfresh] at h2; cases h2
      · rw [hb] at h2; cases h2

/-- C11, witness: `int x = 1;` binds `x` to 1, and `int x = "a";` fails. -/
theorem C11_scalar_declaration_witness :
    Eval sampleHost 2 (Node.stmt (Stmt.VarDecl "int" "x" (Expr.IntCon 1) true)) NewState
        emptyWorld = Res.ok ⟨Object.nil, NewState.Set "x" (Object.Int 1), emptyWorld⟩ ∧
    Eval sampleHost 2 (Node.stmt (Stmt.VarDecl "int" "x" (Expr.StringCon "a") true)) NewState
        emptyWorld
      = Res.ok ⟨errorObj sampleHost ("mismatched types: " ++ "int" ++ " " ++ "x" ++ " = "
          ++ ObjString (Object.String "a")), NewState, emptyWorld⟩ :=
  ⟨((C11_scalar_declaration sampleHost 1 "int" "x" (Expr.IntCon 1) NewState emptyWorld
      (Object.Int 1) NewState emptyWorld ObjectType.IntObj ObjectType.IntObj rfl rfl rfl rfl
      rfl).1 rfl).1,
    (C11_scalar_declaration sampleHost 1 "int" "x" (Expr.StringCon "a") NewState emptyWorld
      (Object.String "a") NewState emptyWorld ObjectType.IntObj ObjectType.StringObj rfl rfl
      rfl rfl rfl).2.1 (by decide)⟩

/-- C11, counterexample: in the empty store `print` is a fresh name and the
initializer `{print = println}` evaluates to an array, which is no error and has
not the tag of `int`; the declaration `int print = {print = println};` yields the
TypeMismatch error, and `print` is bound afterwards. -/
theorem C11_counterexample :
    NewState.Get "print" = none ∧
    Eval sampleHost 3 (Node.expr (Expr.Array [Expr.Assign "print" (Expr.Identifier "println")]))
        NewState emptyWorld
      = Res.ok ⟨Object.Array "" 0,
          NewState.Set "print" (Object.BuiltIn BuiltInFunc.println),
          ⟨[[Object.nil]], 0, []⟩⟩ ∧
    ∃ o, Eval sampleHost 4 (Node.stmt declPrint) NewState emptyWorld = Res.ok o ∧
      o.val = errorObj sampleHost ("mismatched types: int print = "
        ++ ObjString (Object.Array "" 0)) ∧
      o.s.Get "print" = some (Object.BuiltIn BuiltInFunc.println) :=
  ⟨rfl, rfl, ⟨errorObj sampleHost ("mismatched types: int print = "
        ++ ObjString (Object.Array "" 0)),
      NewState.Set "print" (Object.BuiltIn BuiltInFunc.println),
      ⟨[[Object.nil]], 0, []⟩⟩, rfl, rfl, rfl⟩

/-! ## Evaluation stores no Error and no Return -/

theorem NoSig.setS {s : State} (h : NoSig s) (k : String) (v : Object)
    (hv : isSignal v = false) : NoSig (s.Set k v) := by
  intro k' v' hk
  rw [State.Get_Set] at hk
  split at hk
  · cases hk; exact hv
  · exact h k' v' hk

theorem NoSig.set_scalar {s : State} (h : NoSig s) (k : String) (v : Object) (t : String)
    (tag ty : ObjectType) (htag : scalarTag t = some tag) (hty : v.Type = Res.ok ty)
    (heq : ¬ ty ≠ tag) : NoSig (s.Set k v) := by
  apply h.setS
  have e : ty = tag := not_not.1 heq
  subst e
  unfold scalarTag at htag
  cases v <;> simp [Object.Type] at hty <;> subst hty <;> first
    | rfl
    | (exfalso; revert htag; repeat (first | (split; · (intro hc; cases hc)) | (intro hc; cases hc)))

theorem NoSig.updateS {s t : State} (ht : NoSig t) : NoSig (UpdateState s t) := by
  intro k v h
  rw [Get_UpdateState] at h
  cases hs : s.Get k with
  | none => rw [hs] at h; cases h
  | some u =>
    rw [hs] at h
    simp at h
    cases hg : t.Get k with
    | none => rw [hg] at h; simp at h; subst h; rfl
    | some v' =>
      rw [hg] at h
      simp at h
      subst h
      exact ht k _ hg

theorem NoSig.newS : NoSig NewState := by
  intro k v h
  cases h

theorem zeroValue_not_signal {t : String} {tag : ObjectType} (h : scalarTag t = some tag) :
    isSignal (zeroValue tag) = false := by
  unfold scalarTag at h
  split at h
  · cases h; rfl
  split at h
  · cases h; rfl
  split at h
  · cases h; rfl
  split at h
  · cases h; rfl
  split at h
  · cases h; rfl
  cases h

/-- What the integer infix routine returns, when it returns: a Bool, an Int or an
Error. -/
theorem infixInt_kind (H : Host) (op : String) (a b : Int) (x : Object)
    (h : evalInfixExprInt H op a b = Res.ok x) :
    (∃ v, x = Object.Bool v) ∨ (∃ v, x = Object.Int v) ∨ (∃ m, x = Object.Error m) := by
  unfold evalInfixExprInt at h
  by_cases h0 : op = "<"
  · rw [if_pos h0] at h
    first | (first | (cases h; done) | (cases h; first | exact Or.inl ⟨_, rfl⟩ | exact Or.inr (Or.inl ⟨_, rfl⟩) | exact Or.inr (Or.inr ⟨_, rfl⟩))) | (split at h <;> first | (first | (cases h; done) | (cases h; first | exact Or.inl ⟨_, rfl⟩ | exact Or.inr (Or.inl ⟨_, rfl⟩) | exact Or.inr (Or.inr ⟨_, rfl⟩))) | (split at h <;> first | (cases h; done) | (cases h; first | exact Or.inl ⟨_, rfl⟩ | exact Or.inr (Or.inl ⟨_, rfl⟩) | exact Or.inr (Or.inr ⟨_, rfl⟩))))
  rw [if_neg h0] at h
  clear h0
  by_cases h1 : op = "<="
  · rw [if_pos h1] at h
    first | (first | (cases h; done) | (cases h; first | exact Or.inl ⟨_, rfl⟩ | exact Or.inr (Or.inl ⟨_, rfl⟩) | exact Or.inr (Or.inr ⟨_, rfl⟩))) | (split at h <;> first | (first | (cases h; done) | (cases h; first | exact Or.inl ⟨_, rfl⟩ | exact Or.inr (Or.inl ⟨_, rfl⟩) | exact Or.inr (Or.inr ⟨_, rfl⟩))) | (split at h <;> first | (cases h; done) | (cases h; first | exact Or.inl ⟨_, rfl⟩ | exact Or.inr (Or.inl ⟨_, rfl⟩) | exact Or.inr (Or.inr ⟨_, rfl⟩))))
  rw [if_neg h1] at h
  clear h1
  by_cases h2 : op = "=="
  · rw [if_pos h2] at h
    first | (first | (cases h; done) | (cases h; first | exact Or.inl ⟨_, rfl⟩ | exact Or.inr (Or.inl ⟨_, rfl⟩) | exact Or.inr (Or.inr ⟨_, rfl⟩))) | (split at h <;> first | (first | (cases h; done) | (cases h; first | exact Or.inl ⟨_, rfl⟩ | exact Or.inr (Or.inl ⟨_, rfl⟩) | exact Or.inr (Or.inr ⟨_, rfl⟩))) | (split at h <;> first | (cases h; done) | (cases h; first | exact Or.inl ⟨_, rfl⟩ | exact Or.inr (Or.inl ⟨_, rfl⟩) | exact Or.inr (Or.inr ⟨_, rfl⟩))))
  rw [if_neg h2] at h
  clear h2
  by_cases h3 : op = "!="
  · rw [if_pos h3] at h
    first | (first | (cases h; done) | (cases h; first | exact Or.inl ⟨_, rfl⟩ | exact Or.inr (Or.inl ⟨_, rfl⟩) | exact Or.inr (Or.inr ⟨_, rfl⟩))) | (split at h <;> first | (first | (cases h; done) | (cases h; first | exact Or.inl ⟨_, rfl⟩ | exact Or.inr (Or.inl ⟨_, rfl⟩) | exact Or.inr (Or.inr ⟨_, rfl⟩))) | (split at h <;> first | (cases h; done) | (cases h; first | exact Or.inl ⟨_, rfl⟩ | exact Or.inr (Or.inl ⟨_, rfl⟩) | exact Or.inr (Or.inr ⟨_, rfl⟩))))
  rw [if_neg h3] at h
  clear h3
  by_cases h4 : op = ">="
  · rw [if_pos h4] at h
    first | (first | (cases h; done) | (cases h; first | exact Or.inl ⟨_, rfl⟩ | exact Or.inr (Or.inl ⟨_, rfl⟩) | exact Or.inr (Or.inr ⟨_, rfl⟩))) | (split at h <;> first | (first | (cases h; done) | (cases h; first | exact Or.inl ⟨_, rfl⟩ | exact Or.inr (Or.inl ⟨_, rfl⟩) | exact Or.inr (Or.inr ⟨_, rfl⟩))) | (split at h <;> first | (cases h; done) | (cases h; first | exact Or.inl ⟨_, rfl⟩ | exact Or.inr (Or.inl ⟨_, rfl⟩) | exact Or.inr (Or.inr ⟨_, rfl⟩))))
  rw [if_neg h4] at h
  clear h4
  by_cases h5 : op = ">"
  · rw [if_pos h5] at h
    first | (first | (cases h; done) | (cases h; first | exact Or.inl ⟨_, rfl⟩ | exact Or.inr (Or.inl ⟨_, rfl⟩) | exact Or.inr (Or.inr ⟨_, rfl⟩))) | (split at h <;> first | (first | (cases h; done) | (cases h; first | exact Or.inl ⟨_, rfl⟩ | exact Or.inr (Or.inl ⟨_, rfl⟩) | exact Or.inr (Or.inr ⟨_, rfl⟩))) | (split at h <;> first | (cases h; done) | (cases h; first | exact Or.inl ⟨_, rfl⟩ | exact Or.inr (Or.inl ⟨_, rfl⟩) | exact Or.inr (Or.inr ⟨_, rfl⟩))))
  rw [if_neg h5] at h
  clear h5
  by_cases h6 : op = "+"
  · rw [if_pos h6] at h
    first | (first | (cases h; done) | (cases h; first | exact Or.inl ⟨_, rfl⟩ | exact Or.inr (Or.inl ⟨_, rfl⟩) | exact Or.inr (Or.inr ⟨_, rfl⟩))) | (split at h <;> first | (first | (cases h; done) | (cases h; first | exact Or.inl ⟨_, rfl⟩ | exact Or.inr (Or.inl ⟨_, rfl⟩) | exact Or.inr (Or.inr ⟨_, rfl⟩))) | (split at h <;> first | (cases h; done) | (cases h; first | exact Or.inl ⟨_, rfl⟩ | exact Or.inr (Or.inl ⟨_, rfl⟩) | exact Or.inr (Or.inr ⟨_, rfl⟩))))
  rw [if_neg h6] at h
  clear h6
  by_cases h7 : op = "-"
  · rw [if_pos h7] at h
    first | (first | (cases h; done) | (cases h; first | exact Or.inl ⟨_, rfl⟩ | exact Or.inr (Or.inl ⟨_, rfl⟩) | exact Or.inr (Or.inr ⟨_, rfl⟩))) | (split at h <;> first | (first | (cases h; done) | (cases h; first | exact Or.inl ⟨_, rfl⟩ | exact Or.inr (Or.inl ⟨_, rfl⟩) | exact Or.inr (Or.inr ⟨_, rfl⟩))) | (split at h <;> first | (cases h; done) | (cases h; first | exact Or.inl ⟨_, rfl⟩ | exact Or.inr (Or.inl ⟨_, rfl⟩) | exact Or.inr (Or.inr ⟨_, rfl⟩))))
  rw [if_neg h7] at h
  clear h7
  by_cases h8 : op = "*"
  · rw [if_pos h8] at h
    first | (first | (cases h; done) | (cases h; first | exact Or.inl ⟨_, rfl⟩ | exact Or.inr (Or.inl ⟨_, rfl⟩) | exact Or.inr (Or.inr ⟨_, rfl⟩))) | (split at h <;> first | (first | (cases h; done) | (cases h; first | exact Or.inl ⟨_, rfl⟩ | exact Or.inr (Or.inl ⟨_, rfl⟩) | exact Or.inr (Or.inr ⟨_, rfl⟩))) | (split at h <;> first | (cases h; done) | (cases h; first | exact Or.inl ⟨_, rfl⟩ | exact Or.inr (Or.inl ⟨_, rfl⟩) | exact Or.inr (Or.inr ⟨_, rfl⟩))))
  rw [if_neg h8] at h
  clear h8
  by_cases h9 : op = "/"
  · rw [if_pos h9] at h
    first | (first | (cases h; done) | (cases h; first | exact Or.inl ⟨_, rfl⟩ | exact Or.inr (Or.inl ⟨_, rfl⟩) | exact Or.inr (Or.inr ⟨_, rfl⟩))) | (split at h <;> first | (first | (cases h; done) | (cases h; first | exact Or.inl ⟨_, rfl⟩ | exact Or.inr (Or.inl ⟨_, rfl⟩) | exact Or.inr (Or.inr ⟨_, rfl⟩))) | (split at h <;> first | (cases h; done) | (cases h; first | exact Or.inl ⟨_, rfl⟩ | exact Or.inr (Or.inl ⟨_, rfl⟩) | exact Or.inr (Or.inr ⟨_, rfl⟩))))
  rw [if_neg h9] at h
  clear h9
  by_cases h10 : op = "%"
  · rw [if_pos h10] at h
    first | (first | (cases h; done) | (cases h; first | exact Or.inl ⟨_, rfl⟩ | exact Or.inr (Or.inl ⟨_, rfl⟩) | exact Or.inr (Or.inr ⟨_, rfl⟩))) | (split at h <;> first | (first | (cases h; done) | (cases h; first | exact Or.inl ⟨_, rfl⟩ | exact Or.inr (Or.inl ⟨_, rfl⟩) | exact Or.inr (Or.inr ⟨_, rfl⟩))) | (split at h <;> first | (cases h; done) | (cases h; first | exact Or.inl ⟨_, rfl⟩ | exact Or.inr (Or.inl ⟨_, rfl⟩) | exact Or.inr (Or.inr ⟨_, rfl⟩))))
  rw [if_neg h10] at h
  clear h10
  by_cases h11 : op = "&"
  · rw [if_pos h11] at h
    first | (first | (cases h; done) | (cases h; first | exact Or.inl ⟨_, rfl⟩ | exact Or.inr (Or.inl ⟨_, rfl⟩) | exact Or.inr (Or.inr ⟨_, rfl⟩))) | (split at h <;> first | (first | (cases h; done) | (cases h; first | exact Or.inl ⟨_, rfl⟩ | exact Or.inr (Or.inl ⟨_, rfl⟩) | exact Or.inr (Or.inr ⟨_, rfl⟩))) | (split at h <;> first | (cases h; done) | (cases h; first | exact Or.inl ⟨_, rfl⟩ | exact Or.inr (Or.inl ⟨_, rfl⟩) | exact Or.inr (Or.inr ⟨_, rfl⟩))))
  rw [if_neg h11] at h
  clear h11
  by_cases h12 : op = "^"
  · rw [if_pos h12] at h
    first | (first | (cases h; done) | (cases h; first | exact Or.inl ⟨_, rfl⟩ | exact Or.inr (Or.inl ⟨_, rfl⟩) | exact Or.inr (Or.inr ⟨_, rfl⟩))) | (split at h <;> first | (first | (cases h; done) | (cases h; first | exact Or.inl ⟨_, rfl⟩ | exact Or.inr (Or.inl ⟨_, rfl⟩) | exact Or.inr (Or.inr ⟨_, rfl⟩))) | (split at h <;> first | (cases h; done) | (cases h; first | exact Or.inl ⟨_, rfl⟩ | exact Or.inr (Or.inl ⟨_, rfl⟩) | exact Or.inr (Or.inr ⟨_, rfl⟩))))
  rw [if_neg h12] at h
  clear h12
  by_cases h13 : op = "|"
  · rw [if_pos h13] at h
    first | (first | (cases h; done) | (cases h; first | exact Or.inl ⟨_, rfl⟩ | exact Or.inr (Or.inl ⟨_, rfl⟩) | exact Or.inr (Or.inr ⟨_, rfl⟩))) | (split at h <;> first | (first | (cases h; done) | (cases h; first | exact Or.inl ⟨_, rfl⟩ | exact Or.inr (Or.inl ⟨_, rfl⟩) | exact Or.inr (Or.inr ⟨_, rfl⟩))) | (split at h <;> first | (cases h; done) | (cases h; first | exact Or.inl ⟨_, rfl⟩ | exact Or.inr (Or.inl ⟨_, rfl⟩) | exact Or.inr (Or.inr ⟨_, rfl⟩))))
  rw [if_neg h13] at h
  clear h13
  by_cases h14 : op = "<<"
  · rw [if_pos h14] at h
    first | (first | (cases h; done) | (cases h; first | exact Or.inl ⟨_, rfl⟩ | exact Or.inr (Or.inl ⟨_, rfl⟩) | exact Or.inr (Or.inr ⟨_, rfl⟩))) | (split at h <;> first | (first | (cases h; done) | (cases h; first | exact Or.inl ⟨_, rfl⟩ | exact Or.inr (Or.inl ⟨_, rfl⟩) | exact Or.inr (Or.inr ⟨_, rfl⟩))) | (split at h <;> first | (cases h; done) | (cases h; first | exact Or.inl ⟨_, rfl⟩ | exact Or.inr (Or.inl ⟨_, rfl⟩) | exact Or.inr (Or.inr ⟨_, rfl⟩))))
  rw [if_neg h14] at h
  clear h14
  by_cases h15 : op = ">>"
  · rw [if_pos h15] at h
    first | (first | (cases h; done) | (cases h; first | exact Or.inl ⟨_, rfl⟩ | exact Or.inr (Or.inl ⟨_, rfl⟩) | exact Or.inr (Or.inr ⟨_, rfl⟩))) | (split at h <;> first | (first | (cases h; done) | (cases h; first | exact Or.inl ⟨_, rfl⟩ | exact Or.inr (Or.inl ⟨_, rfl⟩) | exact Or.inr (Or.inr ⟨_, rfl⟩))) | (split at h <;> first | (cases h; done) | (cases h; first | exact Or.inl ⟨_, rfl⟩ | exact Or.inr (Or.inl ⟨_, rfl⟩) | exact Or.inr (Or.inr ⟨_, rfl⟩))))
  rw [if_neg h15] at h
  clear h15
  cases h
  exact Or.inr (Or.inr ⟨_, rfl⟩)

/-- What the float infix routine returns: a Bool, a Float or an Error. -/
theorem infixFloat_kind (H : Host) (op : String) (a b : F64) :
    (∃ v, evalInfixExprFloat H op a b = Object.Bool v) ∨
    (∃ v, evalInfixExprFloat H op a b = Object.Float v) ∨
    (∃ m, evalInfixExprFloat H op a b = Object.Error m) := by
  unfold evalInfixExprFloat
  by_cases h0 : op = "<"
  · rw [if_pos h0]
    first | (first | exact Or.inl ⟨_, rfl⟩ | exact Or.inr (Or.inl ⟨_, rfl⟩) | exact Or.inr (Or.inr ⟨_, rfl⟩)) | (split <;> first | exact Or.inl ⟨_, rfl⟩ | exact Or.inr (Or.inl ⟨_, rfl⟩) | exact Or.inr (Or.inr ⟨_, rfl⟩))
  rw [if_neg h0]
  clear h0
  by_cases h1 : op = "<="
  · rw [if_pos h1]
    first | (first | exact Or.inl ⟨_, rfl⟩ | exact Or.inr (Or.inl ⟨_, rfl⟩) | exact Or.inr (Or.inr ⟨_, rfl⟩)) | (split <;> first | exact Or.inl ⟨_, rfl⟩ | exact Or.inr (Or.inl ⟨_, rfl⟩) | exact Or.inr (Or.inr ⟨_, rfl⟩))
  rw [if_neg h1]
  clear h1
  by_cases h2 : op = "=="
  · rw [if_pos h2]
    first | (first | exact Or.inl ⟨_, rfl⟩ | exact Or.inr (Or.inl ⟨_, rfl⟩) | exact Or.inr (Or.inr ⟨_, rfl⟩)) | (split <;> first | exact Or.inl ⟨_, rfl⟩ | exact Or.inr (Or.inl ⟨_, rfl⟩) | exact Or.inr (Or.inr ⟨_, rfl⟩))
  rw [if_neg h2]
  clear h2
  by_cases h3 : op = "!="
  · rw [if_pos h3]
    first | (first | exact Or.inl ⟨_, rfl⟩ | exact Or.inr (Or.inl ⟨_, rfl⟩) | exact Or.inr (Or.inr ⟨_, rfl⟩)) | (split <;> first | exact Or.inl ⟨_, rfl⟩ | exact Or.inr (Or.inl ⟨_, rfl⟩) | exact Or.inr (Or.inr ⟨_, rfl⟩))
  rw [if_neg h3]
  clear h3
  by_cases h4 : op = ">="
  · rw [if_pos h4]
    first | (first | exact Or.inl ⟨_, rfl⟩ | exact Or.inr (Or.inl ⟨_, rfl⟩) | exact Or.inr (Or.inr ⟨_, rfl⟩)) | (split <;> first | exact Or.inl ⟨_, rfl⟩ | exact Or.inr (Or.inl ⟨_, rfl⟩) | exact Or.inr (Or.inr ⟨_, rfl⟩))
  rw [if_neg h4]
  clear h4
  by_cases h5 : op = ">"
  · rw [if_pos h5]
    first | (first | exact Or.inl ⟨_, rfl⟩ | exact Or.inr (Or.inl ⟨_, rfl⟩) | exact Or.inr (Or.inr ⟨_, rfl⟩)) | (split <;> first | exact Or.inl ⟨_, rfl⟩ | exact Or.inr (Or.inl ⟨_, rfl⟩) | exact Or.inr (Or.inr ⟨_, rfl⟩))
  rw [if_neg h5]
  clear h5
  by_cases h6 : op = "+"
  · rw [if_pos h6]
    first | (first | exact Or.inl ⟨_, rfl⟩ | exact Or.inr (Or.inl ⟨_, rfl⟩) | exact Or.inr (Or.inr ⟨_, rfl⟩)) | (split <;> first | exact Or.inl ⟨_, rfl⟩ | exact Or.inr (Or.inl ⟨_, rfl⟩) | exact Or.inr (Or.inr ⟨_, rfl⟩))
  rw [if_neg h6]
  clear h6
  by_cases h7 : op = "-"
  · rw [if_pos h7]
    first | (first | exact Or.inl ⟨_, rfl⟩ | exact Or.inr (Or.inl ⟨_, rfl⟩) | exact Or.inr (Or.inr ⟨_, rfl⟩)) | (split <;> first | exact Or.inl ⟨_, rfl⟩ | exact Or.inr (Or.inl ⟨_, rfl⟩) | exact Or.inr (Or.inr ⟨_, rfl⟩))
  rw [if_neg h7]
  clear h7
  by_cases h8 : op = "*"
  · rw [if_pos h8]
    first | (first | exact Or.inl ⟨_, rfl⟩ | exact Or.inr (Or.inl ⟨_, rfl⟩) | exact Or.inr (Or.inr ⟨_, rfl⟩)) | (split <;> first | exact Or.inl ⟨_, rfl⟩ | exact Or.inr (Or.inl ⟨_, rfl⟩) | exact Or.inr (Or.inr ⟨_, rfl⟩))
  rw [if_neg h8]
  clear h8
  by_cases h9 : op = "/"
  · rw [if_pos h9]
    first | (first | exact Or.inl ⟨_, rfl⟩ | exact Or.inr (Or.inl ⟨_, rfl⟩) | exact Or.inr (Or.inr ⟨_, rfl⟩)) | (split <;> first | exact Or.inl ⟨_, rfl⟩ | exact Or.inr (Or.inl ⟨_, rfl⟩) | exact Or.inr (Or.inr ⟨_, rfl⟩))
  rw [if_neg h9]
  clear h9
  exact Or.inr (Or.inr ⟨_, rfl⟩)

/-- What the string infix routine returns: a Bool, a String or an Error. -/
theorem infixString_kind (H : Host) (op : String) (a b : String) :
    (∃ v, evalInfixExprString H op a b = Object.Bool v) ∨
    (∃ v, evalInfixExprString H op a b = Object.String v) ∨
    (∃ m, evalInfixExprString H op a b = Object.Error m) := by
  unfold evalInfixExprString
  by_cases h0 : op = "<"
  · rw [if_pos h0]
    first | (first | exact Or.inl ⟨_, rfl⟩ | exact Or.inr (Or.inl ⟨_, rfl⟩) | exact Or.inr (Or.inr ⟨_, rfl⟩)) | (split <;> first | exact Or.inl ⟨_, rfl⟩ | exact Or.inr (Or.inl ⟨_, rfl⟩) | exact Or.inr (Or.inr ⟨_, rfl⟩))
  rw [if_neg h0]
  clear h0
  by_cases h1 : op = "<="
  · rw [if_pos h1]
    first | (first | exact Or.inl ⟨_, rfl⟩ | exact Or.inr (Or.inl ⟨_, rfl⟩) | exact Or.inr (Or.inr ⟨_, rfl⟩)) | (split <;> first | exact Or.inl ⟨_, rfl⟩ | exact Or.inr (Or.inl ⟨_, rfl⟩) | exact Or.inr (Or.inr ⟨_, rfl⟩))
  rw [if_neg h1]
  clear h1
  by_cases h2 : op = "=="
  · rw [if_pos h2]
    first | (first | exact Or.inl ⟨_, rfl⟩ | exact Or.inr (Or.inl ⟨_, rfl⟩) | exact Or.inr (Or.inr ⟨_, rfl⟩)) | (split <;> first | exact Or.inl ⟨_, rfl⟩ | exact Or.inr (Or.inl ⟨_, rfl⟩) | exact Or.inr (Or.inr ⟨_, rfl⟩))
  rw [if_neg h2]
  clear h2
  by_cases h3 : op = "!="
  · rw [if_pos h3]
    first | (first | exact Or.inl ⟨_, rfl⟩ | exact Or.inr (Or.inl ⟨_, rfl⟩) | exact Or.inr (Or.inr ⟨_, rfl⟩)) | (split <;> first | exact Or.inl ⟨_, rfl⟩ | exact Or.inr (Or.inl ⟨_, rfl⟩) | exact Or.inr (Or.inr ⟨_, rfl⟩))
  rw [if_neg h3]
  clear h3
  by_cases h4 : op = ">="
  · rw [if_pos h4]
    first | (first | exact Or.inl ⟨_, rfl⟩ | exact Or.inr (Or.inl ⟨_, rfl⟩) | exact Or.inr (Or.inr ⟨_, rfl⟩)) | (split <;> first | exact Or.inl ⟨_, rfl⟩ | exact Or.inr (Or.inl ⟨_, rfl⟩) | exact Or.inr (Or.inr ⟨_, rfl⟩))
  rw [if_neg h4]
  clear h4
  by_cases h5 : op = ">"
  · rw [if_pos h5]
    first | (first | exact Or.inl ⟨_, rfl⟩ | exact Or.inr (Or.inl ⟨_, rfl⟩) | exact Or.inr (Or.inr ⟨_, rfl⟩)) | (split <;> first | exact Or.inl ⟨_, rfl⟩ | exact Or.inr (Or.inl ⟨_, rfl⟩) | exact Or.inr (Or.inr ⟨_, rfl⟩))
  rw [if_neg h5]
  clear h5
  by_cases h6 : op = "+"
  · rw [if_pos h6]
    first | (first | exact Or.inl ⟨_, rfl⟩ | exact Or.inr (Or.inl ⟨_, rfl⟩) | exact Or.inr (Or.inr ⟨_, rfl⟩)) | (split <;> first | exact Or.inl ⟨_, rfl⟩ | exact Or.inr (Or.inl ⟨_, rfl⟩) | exact Or.inr (Or.inr ⟨_, rfl⟩))
  rw [if_neg h6]
  clear h6
  exact Or.inr (Or.inr ⟨_, rfl⟩)

theorem infixInt_not_signal (H : Host) (op : String) (a b : Int) (x : Object)
    (h : evalInfixExprInt H op a b = Res.ok x) (herr : ¬ IsError x = true) :
    isSignal x = false := by
  rcases infixInt_kind H op a b x h with ⟨v, rfl⟩ | ⟨v, rfl⟩ | ⟨m, rfl⟩
  · rfl
  · rfl
  · exact absurd rfl herr

theorem infixFloat_not_signal (H : Host) (op : String) (a b : F64) (x : Object)
    (h : (pure (evalInfixExprFloat H op a b) : Res Object) = Res.ok x)
    (herr : ¬ IsError x = true) : isSignal x = false := by
  cases h
  rcases infixFloat_kind H op a b with ⟨v, e⟩ | ⟨v, e⟩ | ⟨m, e⟩
  · rw [e]; rfl
  · rw [e]; rfl
  · rw [e] at herr; exact absurd rfl herr

theorem infixString_not_signal (H : Host) (op : String) (a b : String) (x : Object)
    (h : (pure (evalInfixExprString H op a b) : Res Object) = Res.ok x)
    (herr : ¬ IsError x = true) : isSignal x = false := by
  cases h
  rcases infixString_kind H op a b with ⟨v, e⟩ | ⟨v, e⟩ | ⟨m, e⟩
  · rw [e]; rfl
  · rw [e]; rfl
  · rw [e] at herr; exact absurd rfl herr

theorem errorObj_not_signal (H : Host) (m : String) (x : Object)
    (h : (pure (errorObj H m) : Res Object) = Res.ok x) (herr : ¬ IsError x = true) :
    isSignal x = false := by
  cases h
  exact absurd rfl herr

theorem evalIdent_not_return (H : Host) (k : String) (s : State) (hs : NoSig s) :
    (evalIdent H k s).Type ≠ Res.ok ObjectType.ReturnObj := by
  unfold evalIdent
  cases hg : s.Get k with
  | some v =>
    have := hs k v hg
    cases v <;> simp [isSignal] at this <;> simp [Object.Type]
  | none =>
    cases hb : builtins k with
    | some f => simp [Object.Type]
    | none => simp [Object.Type, errorObj]

theorem noSig_evalProgramLoop {H : Host} {ev : Node → State → World → Res Out}
    (hev : EvNoSig H ev) :
    ∀ (p : List Stmt) (res : Object) (s : State) (w : World) (o : Out), NoSig s →
      evalProgramLoop ev p res s w = Res.ok o → NoSig o.s := by
  intro p
  induction p with
  | nil =>
    intro res s w o hk h
    simp [evalProgramLoop] at h
    subst h
    exact hk
  | cons st rest ih =>
    intro res s w o hk h
    simp only [evalProgramLoop] at h
    iterate 6 (
      all_goals try (first
          | (cases h; done)
          | (obtain ⟨r, hr, h'⟩ := Res.bind_eq_ok h; clear h; rename' h' => h; try beta_reduce at h;
             first | (replace hk := hev.1 _ _ _ _ hk hr) | skip)
          | (split at h)
          | (simp at h; subst h;
             first
             | exact hk
             | (apply NoSig.setS hk; rfl)
             | (apply NoSig.set_scalar hk; all_goals assumption)
             | (apply NoSig.setS hk; apply zeroValue_not_signal; assumption)
             | (apply NoSig.setS hk; apply infixInt_not_signal; all_goals assumption)
             | (apply NoSig.setS hk; apply infixFloat_not_signal; all_goals assumption)
             | (apply NoSig.setS hk; apply infixString_not_signal; all_goals assumption)
             | (apply NoSig.setS hk; apply errorObj_not_signal; all_goals assumption))
          | (exact ih _ _ _ _ hk h)))

theorem noSig_evalFuncDecl (H : Host) (t i : String) (ps : List Param) (b : List Stmt)
    (s : State) (w : World) (o : Out) (hk : NoSig s)
    (h : evalFuncDecl H t i ps b s w = Res.ok o) : NoSig o.s := by
  unfold evalFuncDecl at h
  split at h
  · simp at h; subst h; exact hk
  · simp at h; subst h; exact hk.setS _ _ rfl

theorem noSig_evalVarDecl {H : Host} {ev : Node → State → World → Res Out} (hev : EvNoSig H ev)
    (t i : String) (v : Expr) (ini : Bool) (s : State) (w : World) (o : Out) (hk : NoSig s)
    (h : evalVarDecl H ev t i v ini s w = Res.ok o) : NoSig o.s := by
  have ih := hev.1
  unfold evalVarDecl at h
  iterate 16 (
    all_goals try (first
        | (cases h; done)
        | (obtain ⟨r, hr, h'⟩ := Res.bind_eq_ok h; clear h; rename' h' => h; try beta_reduce at h;
           first | (replace hk := hev.1 _ _ _ _ hk hr) | skip)
        | (split at h)
        | (simp at h; subst h;
           first
           | exact hk
           | (apply NoSig.setS hk; rfl)
           | (apply NoSig.set_scalar hk; all_goals assumption)
           | (apply NoSig.setS hk; apply zeroValue_not_signal; assumption)
           | (apply NoSig.setS hk; apply infixInt_not_signal; all_goals assumption)
           | (apply NoSig.setS hk; apply infixFloat_not_signal; all_goals assumption)
           | (apply NoSig.setS hk; apply infixString_not_signal; all_goals assumption)
           | (apply NoSig.setS hk; apply errorObj_not_signal; all_goals assumption))
        | (exact ih _ _ _ _ hk h)))

theorem noSig_evalBlockLoop {H : Host} {ev : Node → State → World → Res Out}
    (hev : EvNoSig H ev) (s : State) :
    ∀ (b : List Stmt) (res : Object) (copied : State) (w : World) (o : Out), NoSig s →
      NoSig copied → evalBlockLoop ev s b res copied w = Res.ok o → NoSig o.s := by
  intro b
  induction b with
  | nil =>
    intro res copied w o hs hc h
    simp [evalBlockLoop] at h
    subst h
    exact NoSig.updateS hc
  | cons st rest ih =>
    intro res copied w o hs hc h
    simp only [evalBlockLoop] at h
    obtain ⟨r, hr, h⟩ := Res.bind_eq_ok h
    have hc' := hev.1 _ _ _ _ hc hr
    split at h
    · simp at h; subst h; exact hs
    · simp at h; subst h; exact hs
    · exact ih _ _ _ _ hs hc' h

theorem noSig_evalBlock {H : Host} {ev : Node → State → World → Res Out}
    (hev : EvNoSig H ev) (b : List Stmt) (s : State) (w : World) (o : Out) (hk : NoSig s)
    (h : evalBlock ev b s w = Res.ok o) : NoSig o.s :=
  noSig_evalBlockLoop hev s b _ _ _ _ hk hk h

theorem noSig_evalWhileLoop {H : Host} {ev : Node → State → World → Res Out}
    (hev : EvNoSig H ev) (c : Expr) (b : Stmt) :
    ∀ (n : Nat) (cond : Object) (s : State) (w : World) (o : Out),
      NoSig s → evalWhileLoop ev c b n cond s w = Res.ok o → NoSig o.s := by
  intro n
  induction n with
  | zero => intro cond s w o _ h; cases h
  | succ n ih =>
    intro cond s w o hk h
    simp only [evalWhileLoop] at h
    iterate 8 (
      all_goals try (first
          | (cases h; done)
          | (obtain ⟨r, hr, h'⟩ := Res.bind_eq_ok h; clear h; rename' h' => h; try beta_reduce at h;
             first | (replace hk := hev.1 _ _ _ _ hk hr) | skip)
          | (split at h)
          | (simp at h; subst h;
             first
             | exact hk
             | (apply NoSig.setS hk; rfl)
             | (apply NoSig.set_scalar hk; all_goals assumption)
             | (apply NoSig.setS hk; apply zeroValue_not_signal; assumption)
             | (apply NoSig.setS hk; apply infixInt_not_signal; all_goals assumption)
             | (apply NoSig.setS hk; apply infixFloat_not_signal; all_goals assumption)
             | (apply NoSig.setS hk; apply infixString_not_signal; all_goals assumption)
             | (apply NoSig.setS hk; apply errorObj_not_signal; all_goals assumption))
          | (exact ih _ _ _ _ hk h)))

theorem noSig_evalWhile {H : Host} {ev : Node → State → World → Res Out} (hev : EvNoSig H ev)
    (fuel : Nat) (c : Expr) (b : Stmt) (s : State) (w : World) (o : Out) (hk : NoSig s)
    (h : evalWhile H ev fuel c b s w = Res.ok o) : NoSig o.s := by
  have ih := noSig_evalWhileLoop hev c b fuel
  unfold evalWhile at h
  iterate 8 (
    all_goals try (first
        | (cases h; done)
        | (obtain ⟨r, hr, h'⟩ := Res.bind_eq_ok h; clear h; rename' h' => h; try beta_reduce at h;
           first | (replace hk := hev.1 _ _ _ _ hk hr) | skip)
        | (split at h)
        | (simp at h; subst h;
           first
           | exact hk
           | (apply NoSig.setS hk; rfl)
           | (apply NoSig.set_scalar hk; all_goals assumption)
           | (apply NoSig.setS hk; apply zeroValue_not_signal; assumption)
           | (apply NoSig.setS hk; apply infixInt_not_signal; all_goals assumption)
           | (apply NoSig.setS hk; apply infixFloat_not_signal; all_goals assumption)
           | (apply NoSig.setS hk; apply infixString_not_signal; all_goals assumption)
           | (apply NoSig.setS hk; apply errorObj_not_signal; all_goals assumption))
        | (exact ih _ _ _ _ hk h)))

theorem noSig_evalForLoop {H : Host} {ev : Node → State → World → Res Out}
    (hev : EvNoSig H ev) (c inc : Expr) (b : Stmt) (s : State) :
    ∀ (n : Nat) (cond : Object) (copied : State) (w : World) (o : Out), NoSig s →
      NoSig copied → evalForLoop ev c inc b s n cond copied w = Res.ok o → NoSig o.s := by
  intro n
  induction n with
  | zero => intro cond copied w o _ _ h; cases h
  | succ n ih =>
    intro cond copied w o hs hc h
    simp only [evalForLoop] at h
    split at h
    · obtain ⟨r, hr, h⟩ := Res.bind_eq_ok h
      have hc1 := hev.1 _ _ _ _ hc hr
      split at h
      · simp at h; subst h; exact hs
      · simp at h; subst h; exact hs
      · obtain ⟨i, hi, h⟩ := Res.bind_eq_ok h
        have hc2 := hev.1 _ _ _ _ hc1 hi
        split at h
        · simp at h; subst h; exact hs
        · obtain ⟨c2, hc2e, h⟩ := Res.bind_eq_ok h
          have hc3 := hev.1 _ _ _ _ hc2 hc2e
          split at h
          · simp at h; subst h; exact hs
          · exact ih _ _ _ _ hs hc3 h
    · simp at h; subst h; exact NoSig.updateS hc
    · cases h

theorem noSig_evalFor {H : Host} {ev : Node → State → World → Res Out}
    (hev : EvNoSig H ev) (fuel : Nat) (i c inc : Expr) (b : Stmt) (vd : Bool)
    (t id : String) (v : Expr) (s : State) (w : World) (o : Out) (hs : NoSig s)
    (h : evalFor H ev fuel i c inc b vd t id v s w = Res.ok o) : NoSig o.s := by
  unfold evalFor at h
  simp only [NewCopiedState_eq] at h
  split at h
  all_goals (
    obtain ⟨d, hd, h⟩ := Res.bind_eq_ok h
    have hd1 : NoSig d.s := hev.1 _ _ _ _ hs hd
    split at h
    · simp at h; subst h; exact hs
    · obtain ⟨c1, hc1, h⟩ := Res.bind_eq_ok h
      have hc2 := hev.1 _ _ _ _ hd1 hc1
      split at h
      · simp at h; subst h; exact hs
      · obtain ⟨ty, _, h⟩ := Res.bind_eq_ok h
        split at h
        · simp at h; subst h; exact hs
        · exact noSig_evalForLoop hev c inc b s fuel _ _ _ _ hs hc2 h)

theorem noSig_evalIfElse {H : Host} {ev : Node → State → World → Res Out} (hev : EvNoSig H ev)
    (c : Expr) (a b : Stmt) (ha : Bool) (s : State) (w : World) (o : Out) (hk : NoSig s)
    (h : evalIfElse H ev c a b ha s w = Res.ok o) : NoSig o.s := by
  have ih := hev.1
  unfold evalIfElse at h
  iterate 10 (
    all_goals try (first
        | (cases h; done)
        | (obtain ⟨r, hr, h'⟩ := Res.bind_eq_ok h; clear h; rename' h' => h; try beta_reduce at h;
           first | (replace hk := hev.1 _ _ _ _ hk hr) | skip)
        | (split at h)
        | (simp at h; subst h;
           first
           | exact hk
           | (apply NoSig.setS hk; rfl)
           | (apply NoSig.set_scalar hk; all_goals assumption)
           | (apply NoSig.setS hk; apply zeroValue_not_signal; assumption)
           | (apply NoSig.setS hk; apply infixInt_not_signal; all_goals assumption)
           | (apply NoSig.setS hk; apply infixFloat_not_signal; all_goals assumption)
           | (apply NoSig.setS hk; apply infixString_not_signal; all_goals assumption)
           | (apply NoSig.setS hk; apply errorObj_not_signal; all_goals assumption))
        | (exact ih _ _ _ _ hk h)))

theorem noSig_evalReturn {H : Host} {ev : Node → State → World → Res Out} (hev : EvNoSig H ev)
    (v : Expr) (vd : Bool) (s : State) (w : World) (o : Out) (hk : NoSig s)
    (h : evalReturn ev v vd s w = Res.ok o) : NoSig o.s := by
  have ih := hev.1
  unfold evalReturn at h
  iterate 6 (
    all_goals try (first
        | (cases h; done)
        | (obtain ⟨r, hr, h'⟩ := Res.bind_eq_ok h; clear h; rename' h' => h; try beta_reduce at h;
           first | (replace hk := hev.1 _ _ _ _ hk hr) | skip)
        | (split at h)
        | (simp at h; subst h;
           first
           | exact hk
           | (apply NoSig.setS hk; rfl)
           | (apply NoSig.set_scalar hk; all_goals assumption)
           | (apply NoSig.setS hk; apply zeroValue_not_signal; assumption)
           | (apply NoSig.setS hk; apply infixInt_not_signal; all_goals assumption)
           | (apply NoSig.setS hk; apply infixFloat_not_signal; all_goals assumption)
           | (apply NoSig.setS hk; apply infixString_not_signal; all_goals assumption)
           | (apply NoSig.setS hk; apply errorObj_not_signal; all_goals assumption))
        | (exact ih _ _ _ _ hk h)))

theorem noSig_evalPrefixExpr {H : Host} {ev : Node → State → World → Res Out} (hev : EvNoSig H ev)
    (op : String) (e : Expr) (s : State) (w : World) (o : Out) (hk : NoSig s)
    (h : evalPrefixExpr H ev op e s w = Res.ok o) : NoSig o.s := by
  have ih := hev.1
  unfold evalPrefixExpr at h
  iterate 10 (
    all_goals try (first
        | (cases h; done)
        | (obtain ⟨r, hr, h'⟩ := Res.bind_eq_ok h; clear h; rename' h' => h; try beta_reduce at h;
           first | (replace hk := hev.1 _ _ _ _ hk hr) | skip)
        | (split at h)
        | (simp at h; subst h;
           first
           | exact hk
           | (apply NoSig.setS hk; rfl)
           | (apply NoSig.set_scalar hk; all_goals assumption)
           | (apply NoSig.setS hk; apply zeroValue_not_signal; assumption)
           | (apply NoSig.setS hk; apply infixInt_not_signal; all_goals assumption)
           | (apply NoSig.setS hk; apply infixFloat_not_signal; all_goals assumption)
           | (apply NoSig.setS hk; apply infixString_not_signal; all_goals assumption)
           | (apply NoSig.setS hk; apply errorObj_not_signal; all_goals assumption))
        | (exact ih _ _ _ _ hk h)))

theorem noSig_evalInfixExpr {H : Host} {ev : Node → State → World → Res Out} (hev : EvNoSig H ev)
    (l : Expr) (op : String) (e : Expr) (s : State) (w : World) (o : Out) (hk : NoSig s)
    (h : evalInfixExpr H ev l op e s w = Res.ok o) : NoSig o.s := by
  have ih := hev.1
  unfold evalInfixExpr at h
  iterate 12 (
    all_goals try (first
        | (cases h; done)
        | (obtain ⟨r, hr, h'⟩ := Res.bind_eq_ok h; clear h; rename' h' => h; try beta_reduce at h;
           first | (replace hk := hev.1 _ _ _ _ hk hr) | skip)
        | (split at h)
        | (simp at h; subst h;
           first
           | exact hk
           | (apply NoSig.setS hk; rfl)
           | (apply NoSig.set_scalar hk; all_goals assumption)
           | (apply NoSig.setS hk; apply zeroValue_not_signal; assumption)
           | (apply NoSig.setS hk; apply infixInt_not_signal; all_goals assumption)
           | (apply NoSig.setS hk; apply infixFloat_not_signal; all_goals assumption)
           | (apply NoSig.setS hk; apply infixString_not_signal; all_goals assumption)
           | (apply NoSig.setS hk; apply errorObj_not_signal; all_goals assumption))
        | (exact ih _ _ _ _ hk h)))

theorem noSig_evalAssign {H : Host} {ev : Node → State → World → Res Out}
    (hev : EvNoSig H ev) (i : String) (e : Expr) (s : State) (w : World) (o : Out)
    (hs : NoSig s) (h : evalAssign H ev i e s w = Res.ok o) : NoSig o.s := by
  unfold evalAssign at h
  obtain ⟨r0, hr0, h⟩ := Res.bind_eq_ok h
  have e0 := hev.2 _ _ _ _ hr0
  subst e0
  simp only [] at h
  split at h
  · simp at h; subst h; exact hs
  · obtain ⟨v, hv, h⟩ := Res.bind_eq_ok h
    have hk := hev.1 _ _ _ _ hs hv
    split at h
    · simp at h; subst h; exact hk
    · rename_i hne
      obtain ⟨ti, hti, h⟩ := Res.bind_eq_ok h
      obtain ⟨tv, htv, h⟩ := Res.bind_eq_ok h
      split at h
      · simp at h; subst h; exact hk
      · rename_i hty
        simp at h; subst h
        have heq : ti = tv := not_not.1 hty
        subst heq
        apply hk.setS
        have hnr := evalIdent_not_return H i s hs
        rw [hti] at hnr
        cases hvv : v.val <;> rw [hvv] at htv hne <;> first
          | rfl
          | (exfalso; exact hne rfl)
          | (exfalso; cases htv; exact hnr rfl)

theorem noSig_evalAssignExpr {H : Host} {ev : Node → State → World → Res Out} (hev : EvNoSig H ev)
    (i op : String) (e : Expr) (s : State) (w : World) (o : Out) (hk : NoSig s)
    (h : evalAssignExpr H ev i op e s w = Res.ok o) : NoSig o.s := by
  have ih := hev.1
  unfold evalAssignExpr at h
  iterate 14 (
    all_goals try (first
        | (cases h; done)
        | (obtain ⟨r, hr, h'⟩ := Res.bind_eq_ok h; clear h; rename' h' => h; try beta_reduce at h;
           first | (replace hk := hev.1 _ _ _ _ hk hr) | skip)
        | (split at h)
        | (simp at h; subst h;
           first
           | exact hk
           | (apply NoSig.setS hk; rfl)
           | (apply NoSig.set_scalar hk; all_goals assumption)
           | (apply NoSig.setS hk; apply zeroValue_not_signal; assumption)
           | (apply NoSig.setS hk; apply infixInt_not_signal; all_goals assumption)
           | (apply NoSig.setS hk; apply infixFloat_not_signal; all_goals assumption)
           | (apply NoSig.setS hk; apply infixString_not_signal; all_goals assumption)
           | (apply NoSig.setS hk; apply errorObj_not_signal; all_goals assumption))
        | (exact ih _ _ _ _ hk h)))

theorem noSig_indexTarget {H : Host} {ev : Node → State → World → Res Out}
    (hev : EvNoSig H ev) (i : String) (x : Expr) (s : State) (w : World)
    (t : Out ⊕ (String × Nat × Nat × State × World)) (hk : NoSig s)
    (h : indexTarget H ev i x s w = Res.ok t) : NoSig (targetState t) := by
  have ih := hev.1
  unfold indexTarget at h
  dsimp only at h
  iterate 14 (
    all_goals try (first
        | (cases h; done)
        | (obtain ⟨r, hr, h'⟩ := Res.bind_eq_ok h; clear h; rename' h' => h; try beta_reduce at h;
           first | (replace hk := hev.1 _ _ _ _ hk hr) | skip)
        | (split at h)
        | (simp at h; subst h;
           first
           | exact hk
           | (apply NoSig.setS hk; rfl)
           | (apply NoSig.set_scalar hk; all_goals assumption)
           | (apply NoSig.setS hk; apply zeroValue_not_signal; assumption)
           | (apply NoSig.setS hk; apply infixInt_not_signal; all_goals assumption)
           | (apply NoSig.setS hk; apply infixFloat_not_signal; all_goals assumption)
           | (apply NoSig.setS hk; apply infixString_not_signal; all_goals assumption)
           | (apply NoSig.setS hk; apply errorObj_not_signal; all_goals assumption))
        | (exact ih _ _ _ _ hk h)))

theorem noSig_evalIndexExpr {H : Host} {ev : Node → State → World → Res Out}
    (hev : EvNoSig H ev) (i : String) (x : Expr) (s : State) (w : World) (o : Out) (hs : NoSig s)
    (h : evalIndexExpr H ev i x s w = Res.ok o) : NoSig o.s := by
  unfold evalIndexExpr at h
  obtain ⟨t, ht, h⟩ := Res.bind_eq_ok h
  have hk := noSig_indexTarget hev i x s w t hs ht
  unfold targetState at hk
  have ih := hev.1
  cases t with
  | inl out => simp at h; subst h; exact hk
  | inr p =>
    obtain ⟨et, arr, idx, s1, w1⟩ := p
    simp only [] at h hk
    iterate 16 (
      all_goals try (first
          | (cases h; done)
          | (obtain ⟨r, hr, h'⟩ := Res.bind_eq_ok h; clear h; rename' h' => h; try beta_reduce at h;
             first | (replace hk := hev.1 _ _ _ _ hk hr) | skip)
          | (split at h)
          | (simp at h; subst h;
             first
             | exact hk
             | (apply NoSig.setS hk; rfl)
             | (apply NoSig.set_scalar hk; all_goals assumption)
             | (apply NoSig.setS hk; apply zeroValue_not_signal; assumption)
             | (apply NoSig.setS hk; apply infixInt_not_signal; all_goals assumption)
             | (apply NoSig.setS hk; apply infixFloat_not_signal; all_goals assumption)
             | (apply NoSig.setS hk; apply infixString_not_signal; all_goals assumption)
             | (apply NoSig.setS hk; apply errorObj_not_signal; all_goals assumption))
          | (exact ih _ _ _ _ hk h)))

theorem noSig_evalAssignIndexExpr {H : Host} {ev : Node → State → World → Res Out}
    (hev : EvNoSig H ev) (i : String) (x v : Expr) (s : State) (w : World) (o : Out) (hs : NoSig s)
    (h : evalAssignIndexExpr H ev i x v s w = Res.ok o) : NoSig o.s := by
  unfold evalAssignIndexExpr at h
  obtain ⟨t, ht, h⟩ := Res.bind_eq_ok h
  have hk := noSig_indexTarget hev i x s w t hs ht
  unfold targetState at hk
  have ih := hev.1
  cases t with
  | inl out => simp at h; subst h; exact hk
  | inr p =>
    obtain ⟨et, arr, idx, s1, w1⟩ := p
    simp only [] at h hk
    iterate 16 (
      all_goals try (first
          | (cases h; done)
          | (obtain ⟨r, hr, h'⟩ := Res.bind_eq_ok h; clear h; rename' h' => h; try beta_reduce at h;
             first | (replace hk := hev.1 _ _ _ _ hk hr) | skip)
          | (split at h)
          | (simp at h; subst h;
             first
             | exact hk
             | (apply NoSig.setS hk; rfl)
             | (apply NoSig.set_scalar hk; all_goals assumption)
             | (apply NoSig.setS hk; apply zeroValue_not_signal; assumption)
             | (apply NoSig.setS hk; apply infixInt_not_signal; all_goals assumption)
             | (apply NoSig.setS hk; apply infixFloat_not_signal; all_goals assumption)
             | (apply NoSig.setS hk; apply infixString_not_signal; all_goals assumption)
             | (apply NoSig.setS hk; apply errorObj_not_signal; all_goals assumption))
          | (exact ih _ _ _ _ hk h)))

theorem noSig_evalAssignExprIndexExpr {H : Host} {ev : Node → State → World → Res Out}
    (hev : EvNoSig H ev) (i : String) (x : Expr) (op : String) (v : Expr) (s : State) (w : World) (o : Out) (hs : NoSig s)
    (h : evalAssignExprIndexExpr H ev i x op v s w = Res.ok o) : NoSig o.s := by
  unfold evalAssignExprIndexExpr at h
  obtain ⟨t, ht, h⟩ := Res.bind_eq_ok h
  have hk := noSig_indexTarget hev i x s w t hs ht
  unfold targetState at hk
  have ih := hev.1
  cases t with
  | inl out => simp at h; subst h; exact hk
  | inr p =>
    obtain ⟨et, arr, idx, s1, w1⟩ := p
    simp only [] at h hk
    iterate 16 (
      all_goals try (first
          | (cases h; done)
          | (obtain ⟨r, hr, h'⟩ := Res.bind_eq_ok h; clear h; rename' h' => h; try beta_reduce at h;
             first | (replace hk := hev.1 _ _ _ _ hk hr) | skip)
          | (split at h)
          | (simp at h; subst h;
             first
             | exact hk
             | (apply NoSig.setS hk; rfl)
             | (apply NoSig.set_scalar hk; all_goals assumption)
             | (apply NoSig.setS hk; apply zeroValue_not_signal; assumption)
             | (apply NoSig.setS hk; apply infixInt_not_signal; all_goals assumption)
             | (apply NoSig.setS hk; apply infixFloat_not_signal; all_goals assumption)
             | (apply NoSig.setS hk; apply infixString_not_signal; all_goals assumption)
             | (apply NoSig.setS hk; apply errorObj_not_signal; all_goals assumption))
          | (exact ih _ _ _ _ hk h)))

theorem noSig_evalExpressions {H : Host} {ev : Node → State → World → Res Out}
    (hev : EvNoSig H ev) :
    ∀ (args : List Expr) (acc : List Object) (s : State) (w : World)
      (res : List Object × State × World), NoSig s →
      evalExpressions ev args acc s w = Res.ok res → NoSig res.2.1 := by
  intro args
  induction args with
  | nil =>
    intro acc s w res hk h
    simp [evalExpressions] at h
    subst h
    exact hk
  | cons a rest ih =>
    intro acc s w res hk h
    simp only [evalExpressions] at h
    iterate 6 (
      all_goals try (first
          | (cases h; done)
          | (obtain ⟨r, hr, h'⟩ := Res.bind_eq_ok h; clear h; rename' h' => h; try beta_reduce at h;
             first | (replace hk := hev.1 _ _ _ _ hk hr) | skip)
          | (split at h)
          | (simp at h; subst h;
             first
             | exact hk
             | (apply NoSig.setS hk; rfl)
             | (apply NoSig.set_scalar hk; all_goals assumption)
             | (apply NoSig.setS hk; apply zeroValue_not_signal; assumption)
             | (apply NoSig.setS hk; apply infixInt_not_signal; all_goals assumption)
             | (apply NoSig.setS hk; apply infixFloat_not_signal; all_goals assumption)
             | (apply NoSig.setS hk; apply infixString_not_signal; all_goals assumption)
             | (apply NoSig.setS hk; apply errorObj_not_signal; all_goals assumption))
          | (exact ih _ _ _ _ hk h)))

theorem noSig_evalArray {H : Host} {ev : Node → State → World → Res Out}
    (hev : EvNoSig H ev) (es : List Expr) (s : State) (w : World) (o : Out) (hs : NoSig s)
    (h : evalArray ev es s w = Res.ok o) : NoSig o.s := by
  unfold evalArray at h
  obtain ⟨t, ht, h⟩ := Res.bind_eq_ok h
  have hk := noSig_evalExpressions hev es [] s w t hs ht
  obtain ⟨args, s1, w1⟩ := t
  simp only [] at h hk
  split at h
  · simp at h; subst h; exact hk
  · simp at h; subst h; exact hk

theorem noSig_evalCall {H : Host} {ev : Node → State → World → Res Out}
    (hev : EvNoSig H ev) (fuel : Nat) (f : String) (args : List Expr) (s : State) (w : World)
    (o : Out) (hs : NoSig s) (h : evalCall H ev fuel f args s w = Res.ok o) : NoSig o.s := by
  obtain ⟨r0, hr0, hcase⟩ := evalCall_state H ev fuel f args s w o h
  have h0 := hev.1 _ _ _ _ hs hr0
  rcases hcase with hc | ⟨t, ht, hc⟩
  · rw [hc]; exact h0
  · rw [hc]; exact noSig_evalExpressions hev args [] _ _ t h0 ht

/-- Every store that evaluation builds from a store without a stored Error or
Return is without one. -/
theorem Eval_noSig (H : Host) : ∀ fuel : Nat, EvNoSig H (Eval H fuel) := by
  intro fuel
  induction fuel with
  | zero =>
    exact ⟨fun n s w o _ h => by simp [Eval] at h, fun x s w o h => by simp [Eval] at h⟩
  | succ fuel ih =>
    refine ⟨?_, fun x s w o h => by simp [Eval] at h; exact h.symm⟩
    intro n s w o hs h
    cases n with
    | Program p => exact noSig_evalProgramLoop ih p _ s w o hs h
    | stmt st =>
      cases st with
      | nil => simp [Eval] at h; subst h; exact hs
      | FuncDecl t i ps b => exact noSig_evalFuncDecl H t i ps b s w o hs h
      | VarDecl t i v ini => exact noSig_evalVarDecl ih t i v ini s w o hs h
      | Block b => exact noSig_evalBlock ih b s w o hs h
      | While c b => exact noSig_evalWhile ih fuel c b s w o hs h
      | For i c inc b vd t id v => exact noSig_evalFor ih fuel i c inc b vd t id v s w o hs h
      | IfElse c a b ha => exact noSig_evalIfElse ih c a b ha s w o hs h
      | Return v vd => exact noSig_evalReturn ih v vd s w o hs h
      | ExprStmt e => exact ih.1 _ s w o hs h
    | expr e =>
      cases e with
      | nil => simp [Eval] at h; subst h; exact hs
      | PrefixExpr op r => exact noSig_evalPrefixExpr ih op r s w o hs h
      | InfixExpr l op r => exact noSig_evalInfixExpr ih l op r s w o hs h
      | Assign i v => exact noSig_evalAssign ih i v s w o hs h
      | AssignExpr i op v => exact noSig_evalAssignExpr ih i op v s w o hs h
      | Call f args vd => exact noSig_evalCall ih fuel f args s w o hs h
      | Identifier name => simp [Eval] at h; subst h; exact hs
      | CharCon v => simp [Eval] at h; subst h; exact hs
      | IntCon v => simp [Eval] at h; subst h; exact hs
      | FloatCon v => simp [Eval] at h; subst h; exact hs
      | StringCon v => simp [Eval] at h; subst h; exact hs
      | Bool v => simp [Eval] at h; subst h; exact hs
      | Array es => exact noSig_evalArray ih es s w o hs h
      | IndexExpr i x => exact noSig_evalIndexExpr ih i x s w o hs h
      | AssignIndexExpr i x v => exact noSig_evalAssignIndexExpr ih i x v s w o hs h
      | AssignExprIndexExpr i x op v =>
        exact noSig_evalAssignExprIndexExpr ih i x op v s w o hs h
theorem checkArgs_not_signal (H : Host) :
    ∀ (ps : List Param) (i : Nat) (args : List Object),
      checkArgs H i ps args = Res.ok none → ps.length = args.length →
      ∀ a ∈ args, isSignal a = false := by
  intro ps
  induction ps with
  | nil =>
    intro i args _ hlen a ha
    cases args with
    | nil => cases ha
    | cons _ _ => cases hlen
  | cons p ps ih =>
    intro i args h hlen a ha
    cases args with
    | nil => cases hlen
    | cons a0 rest =>
      have hlen' : ps.length = rest.length := by simpa using hlen
      simp only [checkArgs] at h
      obtain ⟨ty, hty, h⟩ := Res.bind_eq_ok h
      have key : isSignal a0 = false ∧ checkArgs H (i + 1) ps rest = Res.ok none := by
        split at h
        · split at h
          · split at h
            · cases h
            · exact ⟨rfl, h⟩
          · cases h
        · have hns : ty ≠ ObjectType.ErrorObj ∧ ty ≠ ObjectType.ReturnObj →
              isSignal a0 = false := by
            intro hne
            cases a0 <;> simp [Object.Type] at hty <;> subst hty <;> first
              | rfl
              | exact absurd rfl hne.1
              | exact absurd rfl hne.2
          iterate 4 (
            split at h
            · rename_i hty'
              subst hty'
              split at h
              · cases h
              · exact ⟨hns ⟨by decide, by decide⟩, h⟩)
          cases h
      rcases List.mem_cons.1 ha with rfl | hmem
      · exact key.1
      · exact ih (i + 1) rest key.2 hlen' a hmem

theorem bindParams_noSig :
    ∀ (ps : List Param) (args : List Object) (s b : State), NoSig s →
      (∀ a ∈ args, isSignal a = false) → bindParams ps args s = Res.ok b → NoSig b := by
  intro ps
  induction ps with
  | nil =>
    intro args s b hs _ h
    cases h
    exact hs
  | cons p ps ih =>
    intro args s b hs hargs h
    cases args with
    | nil => cases h
    | cons a rest =>
      simp only [bindParams] at h
      exact ih rest _ b (hs.setS _ _ (hargs a (List.mem_cons_self _ _)))
        (fun x hx => hargs x (List.mem_cons_of_mem _ hx)) h

theorem copyFunctionsLoop_noSig (t : State) :
    ∀ (l : List (String × Object)) (s s' : State), NoSig s →
      copyFunctionsLoop t l s = Res.ok s' → NoSig s' := by
  intro l
  induction l with
  | nil =>
    intro s s' hs h
    cases h
    exact hs
  | cons kv rest ih =>
    intro s s' hs h
    simp only [copyFunctionsLoop] at h
    obtain ⟨ty, hty, h⟩ := Res.bind_eq_ok h
    split at h
    · rename_i hfd
      subst hfd
      refine ih _ s' (hs.setS _ _ ?_) h
      generalize (t.Get kv.1).getD Object.nil = val at hty
      cases val <;> simp [Object.Type] at hty
      rfl
    · exact ih _ s' hs h

theorem blockRun_noSig {H : Host} {ev : Node → State → World → Res Out} (hev : EvNoSig H ev) :
    ∀ (b : List Stmt) (res : Object) (s : State) (w : World) (mid : Out), NoSig s →
      blockRun ev b res s w = some mid → NoSig mid.s := by
  intro b
  induction b with
  | nil =>
    intro res s w mid hs h
    simp [blockRun] at h
    subst h
    exact hs
  | cons st rest ih =>
    intro res s w mid hs h
    simp only [blockRun] at h
    split at h
    · rename_i r hr
      split at h
      · cases h
      · exact ih _ _ _ _ (hev.1 _ _ _ _ hs hr) h
    · cases h

/-! ## C19: no stored signals -/

/-- C19. No name is ever bound to an Error or a Return. The empty top-level store
binds none; every evaluation of a node, started on a store that binds none, hands
back a store that binds none, so this holds after a program and after each of its
statements, and likewise for the statements of a block run on the working copy; the
working copy of a block or a for loop starts as the entered store, and what is merged
back binds none; the call-local store, built from the arguments that passed the
checks of the call and from the functions of the caller, binds none. -/
theorem C19_no_stored_signals (H : Host) (fuel : Nat) :
    NoSig NewState ∧
    (∀ n s w o, NoSig s → Eval H fuel n s w = Res.ok o → NoSig o.s) ∧
    (∀ p w o, Eval H fuel (Node.Program p) NewState w = Res.ok o → NoSig o.s) ∧
    (∀ b res s w mid, NoSig s → blockRun (Eval H fuel) b res s w = some mid → NoSig mid.s) ∧
    (∀ s, NoSig s → NoSig (NewCopiedState s)) ∧
    (∀ s t, NoSig t → NoSig (UpdateState s t)) ∧
    (∀ f params parameters args s1 bound callState,
      checkCall H f params args = Res.ok none →
      bindParams parameters args NewState = Res.ok bound →
      CopyFunctions bound s1 = Res.ok callState → NoSig callState) := by
  have hev := Eval_noSig H fuel
  refine ⟨NoSig.newS, hev.1, fun p w o h => hev.1 _ _ _ _ NoSig.newS h,
    fun b res s w mid hs h => blockRun_noSig hev b res s w mid hs h,
    fun s hs => hs, fun s t ht => NoSig.updateS ht, ?_⟩
  intro f params parameters args s1 bound callState hc hb hcf
  have hlen := checkCall_length H f params args hc
  have hca : checkArgs H 0 params args = Res.ok none := by
    unfold checkCall at hc
    split at hc
    · cases hc
    · split at hc
      · cases hc
      · exact hc
  have hargs := checkArgs_not_signal H params 0 args hca hlen
  have hbound := bindParams_noSig parameters args NewState bound NoSig.newS hargs hb
  exact copyFunctionsLoop_noSig s1 s1.store bound callState hbound hcf

/-- C19, witness: the program `int x = 1; x = 1 / 0;` yields the DivideByZero
error, and the store it leaves, in which `x` is still 1, binds no name to an Error
or a Return. -/
theorem C19_no_stored_signals_witness :
    Eval sampleHost 5 (Node.Program
      [Stmt.VarDecl "int" "x" (Expr.IntCon 1) true,
       Stmt.ExprStmt (Expr.Assign "x" (Expr.InfixExpr (Expr.IntCon 1) "/" (Expr.IntCon 0)))])
      NewState emptyWorld
      = Res.ok ⟨errorObj sampleHost "divide by zero error", storeX1, emptyWorld⟩ ∧
    NoSig storeX1 :=
  ⟨rfl, (C19_no_stored_signals sampleHost 5).2.2.1
    [Stmt.VarDecl "int" "x" (Expr.IntCon 1) true,
     Stmt.ExprStmt (Expr.Assign "x" (Expr.InfixExpr (Expr.IntCon 1) "/" (Expr.IntCon 0)))]
    emptyWorld ⟨errorObj sampleHost "divide by zero error", storeX1, emptyWorld⟩ rfl⟩

/-! ## C21: the result of a while loop -/

/-- C21 (the code yields nothing). With `n` bound to 1 the condition of
`while (n > 0) { n -= 1; n; }` is true at first, the single iteration finishes
without a Return or an Error and its body yields the integer 0; the loop then ends
and yields nothing, not that 0: inside the loop the body's result is assigned to a
new variable that shadows `result`. -/
theorem C21_while_yields_nothing (H : Host) (fuel : Nat) :
    Eval H (fuel + 2) (Node.expr (Expr.InfixExpr (Expr.Identifier "n") ">" (Expr.IntCon 0)))
        storeN1 emptyWorld = Res.ok ⟨Object.Bool true, storeN1, emptyWorld⟩ ∧
    Eval H (fuel + 4) (Node.stmt bodyDecN) storeN1 emptyWorld
      = Res.ok ⟨Object.Int 0, storeN0, emptyWorld⟩ ∧
    Eval H (fuel + 2) (Node.expr (Expr.InfixExpr (Expr.Identifier "n") ">" (Expr.IntCon 0)))
        storeN0 emptyWorld = Res.ok ⟨Object.Bool false, storeN0, emptyWorld⟩ ∧
    Eval H (fuel + 5) (Node.stmt whileDecN) storeN1 emptyWorld
      = Res.ok ⟨Object.nil, storeN0, emptyWorld⟩ :=
  ⟨rfl, rfl, rfl, rfl⟩

/-! ## C23: totality of the integer infix routine -/

/-- C23 (the code aborts). The integer infix routine aborts exactly on a modulo
with the divisor 0 and on a shift by a negative count, for which the claim requires
an Error value; on every other operator string and pair of operands it returns an
object, which is a Bool, an Int or an Error. -/
theorem C23_int_infix_aborts (H : Host) (op : String) (a b : Int) :
    (evalInfixExprInt H op a b = Res.panic ↔
      (op = "%" ∧ b = 0) ∨ ((op = "<<" ∨ op = ">>") ∧ b < 0)) ∧
    (evalInfixExprInt H op a b = Res.panic ∨
      ∃ x, evalInfixExprInt H op a b = Res.ok x ∧
        ((∃ v, x = Object.Bool v) ∨ (∃ v, x = Object.Int v) ∨ (∃ m, x = Object.Error m))) ∧
    evalInfixExprInt H "%" a 0 = Res.panic ∧
    evalInfixExprInt H "<<" a (-1) = Res.panic ∧
    evalInfixExprInt H ">>" a (-1) = Res.panic := by
  have key : evalInfixExprInt H op a b = Res.panic ↔
      (op = "%" ∧ b = 0) ∨ ((op = "<<" ∨ op = ">>") ∧ b < 0) := by
    by_cases h0 : op = "<"
    · subst h0
      simp [evalInfixExprInt]
    by_cases h1 : op = "<="
    · subst h1
      simp [evalInfixExprInt]
    by_cases h2 : op = "=="
    · subst h2
      simp [evalInfixExprInt]
    by_cases h3 : op = "!="
    · subst h3
      simp [evalInfixExprInt]
    by_cases h4 : op = ">="
    · subst h4
      simp [evalInfixExprInt]
    by_cases h5 : op = ">"
    · subst h5
      simp [evalInfixExprInt]
    by_cases h6 : op = "+"
    · subst h6
      simp [evalInfixExprInt]
    by_cases h7 : op = "-"
    · subst h7
      simp [evalInfixExprInt]
    by_cases h8 : op = "*"
    · subst h8
      simp [evalInfixExprInt]
    by_cases h9 : op = "/"
    · subst h9
      by_cases hb : b = 0
      · simp [evalInfixExprInt, hb]
      · simp [evalInfixExprInt, hb]
    by_cases h10 : op = "%"
    · subst h10
      by_cases hb : b = 0
      · simp [evalInfixExprInt, hb]
      · simp [evalInfixExprInt, hb]
    by_cases h11 : op = "&"
    · subst h11
      simp [evalInfixExprInt]
    by_cases h12 : op = "^"
    · subst h12
      simp [evalInfixExprInt]
    by_cases h13 : op = "|"
    · subst h13
      simp [evalInfixExprInt]
    by_cases h14 : op = "<<"
    · subst h14
      by_cases hb : b < 0
      · simp [evalInfixExprInt, hb]
      · by_cases hc : 64 ≤ b
        · simp [evalInfixExprInt, hb, hc]
        · simp [evalInfixExprInt, hb, hc]
    by_cases h15 : op = ">>"
    · subst h15
      by_cases hb : b < 0
      · simp [evalInfixExprInt, hb]
      · by_cases hc : 64 ≤ b
        · simp [evalInfixExprInt, hb, hc]
        · simp [evalInfixExprInt, hb, hc]
    have hl : evalInfixExprInt H op a b = Res.ok (illegalOperator H "int" op "int") := by
      unfold evalInfixExprInt
      rw [if_neg h0, if_neg h1, if_neg h2, if_neg h3, if_neg h4, if_neg h5, if_neg h6, if_neg h7, if_neg h8, if_neg h9, if_neg h10, if_neg h11, if_neg h12, if_neg h13, if_neg h14, if_neg h15]
      rfl
    rw [hl]
    simp [h10, h14, h15]
  have nt : evalInfixExprInt H op a b ≠ Res.timeout := by
    by_cases h0 : op = "<"
    · subst h0
      simp [evalInfixExprInt]
    by_cases h1 : op = "<="
    · subst h1
      simp [evalInfixExprInt]
    by_cases h2 : op = "=="
    · subst h2
      simp [evalInfixExprInt]
    by_cases h3 : op = "!="
    · subst h3
      simp [evalInfixExprInt]
    by_cases h4 : op = ">="
    · subst h4
      simp [evalInfixExprInt]
    by_cases h5 : op = ">"
    · subst h5
      simp [evalInfixExprInt]
    by_cases h6 : op = "+"
    · subst h6
      simp [evalInfixExprInt]
    by_cases h7 : op = "-"
    · subst h7
      simp [evalInfixExprInt]
    by_cases h8 : op = "*"
    · subst h8
      simp [evalInfixExprInt]
    by_cases h9 : op = "/"
    · subst h9
      by_cases hb : b = 0
      · simp [evalInfixExprInt, hb]
      · simp [evalInfixExprInt, hb]
    by_cases h10 : op = "%"
    · subst h10
      by_cases hb : b = 0
      · simp [evalInfixExprInt, hb]
      · simp [evalInfixExprInt, hb]
    by_cases h11 : op = "&"
    · subst h11
      simp [evalInfixExprInt]
    by_cases h12 : op = "^"
    · subst h12
      simp [evalInfixExprInt]
    by_cases h13 : op = "|"
    · subst h13
      simp [evalInfixExprInt]
    by_cases h14 : op = "<<"
    · subst h14
      by_cases hb : b < 0
      · simp [evalInfixExprInt, hb]
      · by_cases hc : 64 ≤ b
        · simp [evalInfixExprInt, hb, hc]
        · simp [evalInfixExprInt, hb, hc]
    by_cases h15 : op = ">>"
    · subst h15
      by_cases hb : b < 0
      · simp [evalInfixExprInt, hb]
      · by_cases hc : 64 ≤ b
        · simp [evalInfixExprInt, hb, hc]
        · simp [evalInfixExprInt, hb, hc]
    have hl : evalInfixExprInt H op a b = Res.ok (illegalOperator H "int" op "int") := by
      unfold evalInfixExprInt
      rw [if_neg h0, if_neg h1, if_neg h2, if_neg h3, if_neg h4, if_neg h5, if_neg h6, if_neg h7, if_neg h8, if_neg h9, if_neg h10, if_neg h11, if_neg h12, if_neg h13, if_neg h14, if_neg h15]
      rfl
    rw [hl]
    simp
  refine ⟨key, ?_, ?_, ?_, ?_⟩
  · cases hr : evalInfixExprInt H op a b with
    | panic => exact Or.inl rfl
    | ok x => exact Or.inr ⟨x, rfl, infixInt_kind H op a b x hr⟩
    | timeout => exact absurd hr nt
  · simp [evalInfixExprInt]
  · simp [evalInfixExprInt]
  · simp [evalInfixExprInt]

/-! ## C24: operator errors in a compound index assignment -/

/-- C24 (the code stores the error). With `a` the array `{1, 2}`, the compound
index assignment `a[0] /= 0` has an in-range index and a right-hand value of the
element's tag, and its infix computation yields the DivideByZero error; the routine
yields nothing and element 0 of `a` is that Error afterwards. Likewise with `t` the
array `{"x", "y"}`, `t[1] -= "z"` yields nothing and stores the IllegalOperator
error as element 1. The plain compound assignment tests `IsError(newVal)` before it
writes; this routine does not. -/
theorem C24_error_stored_as_element (H : Host) (fuel : Nat) :
    evalInfixExprInt H "/" 1 0 = Res.ok (errorObj H "divide by zero error") ∧
    Eval H (fuel + 2)
        (Node.expr (Expr.AssignExprIndexExpr "a" (Expr.IntCon 0) "/=" (Expr.IntCon 0)))
        storeA worldA2
      = Res.ok ⟨Object.nil, storeA,
          ⟨[[errorObj H "divide by zero error", Object.Int 2]], 0, []⟩⟩ ∧
    evalInfixExprString H "-" "y" "z" = illegalOperator H "string" "-" "string" ∧
    Eval H (fuel + 2)
        (Node.expr (Expr.AssignExprIndexExpr "t" (Expr.IntCon 1) "-=" (Expr.StringCon "z")))
        storeT worldT
      = Res.ok ⟨Object.nil, storeT,
          ⟨[[Object.String "x", illegalOperator H "string" "-" "string"]], 0, []⟩⟩ :=
  ⟨rfl, rfl, rfl, rfl⟩

/-! ## C25: a return inside a loop -/

/-- C25 (the code goes on after the loop). In the body of
`int f() { while (true) { return 1; } return 2; }` the statement `return 1` is
executed inside the while loop; the loop itself yields the plain value 1, the
statement after the loop is executed, and the call `f()` yields 2. The same holds
for a for loop (`g`). A return nested in blocks and an if branch only (`h`) does
unwind the call: `h()` yields 1. -/
theorem C25_return_in_loop (H : Host) (fuel : Nat) (w : World) :
    Eval H (fuel + 4)
        (Node.stmt (Stmt.While (Expr.Bool true) (Stmt.Block [Stmt.Return (Expr.IntCon 1) false])))
        NewState w = Res.ok ⟨Object.Int 1, NewState, w⟩ ∧
    Eval H (fuel + 6) (Node.expr (Expr.Call "f" [] false)) storeFGH w
      = Res.ok ⟨Object.Int 2, storeFGH, w⟩ ∧
    Eval H (fuel + 6) (Node.expr (Expr.Call "g" [] false)) storeFGH w
      = Res.ok ⟨Object.Int 2, storeFGH, w⟩ ∧
    Eval H (fuel + 7) (Node.expr (Expr.Call "h" [] false)) storeFGH w
      = Res.ok ⟨Object.Int 1, storeFGH, w⟩ :=
  ⟨rfl, rfl, rfl, rfl⟩

/-! ## C26: loop conditions after the first evaluation -/

/-- C26 (the code aborts). With `n` bound to 1, the condition of
`while (10 / n > 1) { n -= 1; }` is true at first; after the iteration `n` is 0 and
the condition evaluates to the DivideByZero error, which the loop does not test: the
evaluation aborts on the type assertion `cond.(object.Bool)` instead of yielding the
error. A for loop tests the re-evaluated condition for an Error only: in
`for (0; c[i]; i += 1) {}` with `c` the array `{true, 1}` the second evaluation of
the condition yields the integer 1 and the evaluation aborts as well. -/
theorem C26_condition_unchecked (H : Host) (fuel : Nat) :
    Eval H (fuel + 3) (Node.expr (Expr.InfixExpr
        (Expr.InfixExpr (Expr.IntCon 10) "/" (Expr.Identifier "n")) ">" (Expr.IntCon 1)))
        storeN1 emptyWorld = Res.ok ⟨Object.Bool true, storeN1, emptyWorld⟩ ∧
    Eval H (fuel + 3) (Node.expr (Expr.InfixExpr
        (Expr.InfixExpr (Expr.IntCon 10) "/" (Expr.Identifier "n")) ">" (Expr.IntCon 1)))
        storeN0 emptyWorld
      = Res.ok ⟨errorObj H "divide by zero error", storeN0, emptyWorld⟩ ∧
    Eval H (fuel + 5) (Node.stmt whileDivN) storeN1 emptyWorld = Res.panic ∧
    Eval H (fuel + 3) (Node.expr (Expr.IndexExpr "c" (Expr.Identifier "i")))
        (storeCI.Set "i" (Object.Int 1)) worldCI
      = Res.ok ⟨Object.Int 1, storeCI.Set "i" (Object.Int 1), worldCI⟩ ∧
    Eval H (fuel + 4) (Node.stmt forCI) storeCI worldCI = Res.panic :=
  ⟨rfl, rfl, rfl, rfl, rfl⟩

/-! ## C27: parameters and function names -/

/-- C27 (the code binds the function). The call `f(1)` of `int f(int f) { return f; }`
passes the arity and type checks, and the call-local store that `evalCall` builds
(parameters bound first, the caller's functions copied over them afterwards) binds
the parameter `f` to the function, not to the argument 1: the call yields the
function. Likewise `k(1)` for `int k(int g) { return g; }` with a declared function
`g` yields the function `g`. -/
theorem C27_function_overrides_parameter (H : Host) (fuel : Nat) (w : World) :
    checkCall H "f" [⟨"int", "f", false⟩] [Object.Int 1] = Res.ok none ∧
    bindParams [⟨"int", "f", false⟩] [Object.Int 1] NewState
      = Res.ok (NewState.Set "f" (Object.Int 1)) ∧
    (∃ callState, CopyFunctions (NewState.Set "f" (Object.Int 1)) storeFGK = Res.ok callState ∧
      callState.Get "f" = some paramOwnName) ∧
    Eval H (fuel + 5) (Node.expr (Expr.Call "f" [Expr.IntCon 1] false)) storeFGK w
      = Res.ok ⟨paramOwnName, storeFGK, w⟩ ∧
    Eval H (fuel + 5) (Node.expr (Expr.Call "k" [Expr.IntCon 1] false)) storeFGK w
      = Res.ok ⟨returns7, storeFGK, w⟩ :=
  ⟨rfl, rfl, ⟨_, rfl, rfl⟩, rfl, rfl⟩

/-! ## C28: prefix `+` -/

/-- C28 (amended). Prefix `+` on an int64 `n` other than `-2^63` yields the Int
`|n|`, which is non-negative and an int64; on `-2^63` the negation wraps around and
it yields `-2^63` itself. On a Char, String, Bool or Array operand it yields the
IllegalOperation error. -/
theorem C28_prefix_plus (H : Host) (n : Int) (hn : isInt64 n) :
    (n ≠ -(2 ^ 63) → evalPosOp H (Object.Int n) = Object.Int |n| ∧ 0 ≤ |n| ∧ isInt64 |n|) ∧
    (n = -(2 ^ 63) → evalPosOp H (Object.Int n) = Object.Int (-(2 ^ 63))) ∧
    (∀ c, evalPosOp H (Object.Char c) = errorObj H ("illegal operation: +" ++ "char")) ∧
    (∀ c, evalPosOp H (Object.String c) = errorObj H ("illegal operation: +" ++ "string")) ∧
    (∀ c, evalPosOp H (Object.Bool c) = errorObj H ("illegal operation: +" ++ "bool")) ∧
    (∀ el ref, evalPosOp H (Object.Array el ref)
      = errorObj H ("illegal operation: +" ++ ObjString (Object.Array el ref))) ∧
    (∀ fuel s w, Eval H (fuel + 2) (Node.expr (Expr.PrefixExpr "+" (Expr.IntCon n))) s w
      = Res.ok ⟨evalPosOp H (Object.Int n), s, w⟩) := by
  refine ⟨?_, ?_, fun _ => rfl, fun _ => rfl, fun _ => rfl, fun _ _ => rfl, ?_⟩
  · intro hne
    unfold isInt64 at hn
    have h1 : evalPosOp H (Object.Int n) = Object.Int |n| := by
      simp only [evalPosOp]
      by_cases h : n < 0
      · rw [if_pos h, abs_of_neg h]
        have : isInt64 (-n) := by unfold isInt64; omega
        rw [wrap64_of_isInt64 _ this]
      · rw [if_neg h, abs_of_nonneg (not_lt.1 h)]
    refine ⟨h1, abs_nonneg n, ?_⟩
    unfold isInt64
    rcases abs_cases n with ⟨e, _⟩ | ⟨e, _⟩ <;> rw [e] <;> omega
  · rintro rfl
    rfl
  · intro fuel s w
    simp [Eval, evalPrefixExpr, evalIntCon, IsError]

/-- C28, witness: `+(-5)` is 5. -/
theorem C28_prefix_plus_witness :
    evalPosOp sampleHost (Object.Int (-5)) = Object.Int |(-5 : Int)| ∧
    (0 : Int) ≤ |(-5 : Int)| ∧ isInt64 |(-5 : Int)| :=
  (C28_prefix_plus sampleHost (-5) (by decide)).1 (by decide)

/-- C28, counterexample: `-2^63` is an int64, and prefix `+` on it yields `-2^63`,
which is negative and is not `|-2^63| = 2^63`. -/
theorem C28_counterexample :
    isInt64 (-(2 ^ 63)) ∧
    evalPosOp sampleHost (Object.Int (-(2 ^ 63))) = Object.Int (-(2 ^ 63)) ∧
    Eval sampleHost 2 (Node.expr (Expr.PrefixExpr "+" (Expr.IntCon (-(2 ^ 63))))) NewState
        emptyWorld = Res.ok ⟨Object.Int (-(2 ^ 63)), NewState, emptyWorld⟩ ∧
    (-(2 ^ 63) : Int) < 0 ∧ |(-(2 ^ 63) : Int)| = 2 ^ 63 ∧ (-(2 ^ 63) : Int) ≠ 2 ^ 63 :=
  ⟨by decide, rfl, rfl, by decide, by decide, by decide⟩

/-! ## C30: a block that ends early -/

theorem evalBlockLoop_append (ev : Node → State → World → Res Out) (s : State) :
    ∀ (pre rest : List Stmt) (res : Object) (c : State) (w : World) (mid : Out),
      blockRun ev pre res c w = some mid →
      evalBlockLoop ev s (pre ++ rest) res c w = evalBlockLoop ev s rest mid.val mid.s mid.w := by
  intro pre
  induction pre with
  | nil =>
    intro rest res c w mid h
    simp [blockRun] at h
    subst h
    rfl
  | cons st pre ih =>
    intro rest res c w mid h
    simp only [blockRun] at h
    split at h
    · rename_i r hr
      split at h
      · cases h
      · rename_i hsig
        simp only [List.cons_append, evalBlockLoop, hr, Res.ok_bind]
        have := ih rest r.val r.s r.w mid h
        cases hv : r.val <;> simp [hv, isSignal] at hsig ⊢ <;> simpa [hv] using this
    · cases h

/-- C30. A block that ends early rolls back: when the statements before `st` run
on the working copy without a Return or an Error and `st` then yields one, the block
yields that same object (a Return still wrapped), whatever statements `post` follow
(they are not evaluated), and hands back the store `s` it was entered with: the same
names, each bound to the object it was bound to before the block, so that no
assignment made on the working copy is merged back. -/
theorem C30_block_rollback (H : Host) (fuel : Nat) (pre : List Stmt) (st : Stmt)
    (s : State) (w : World) (mid r : Out)
    (hpre : blockRun (Eval H fuel) pre Object.nil (NewCopiedState s) w = some mid)
    (hst : Eval H fuel (Node.stmt st) mid.s mid.w = Res.ok r)
    (hsig : isSignal r.val = true) :
    ∀ post, ∃ o, Eval H (fuel + 1) (Node.stmt (Stmt.Block (pre ++ st :: post))) s w = Res.ok o ∧
      o.val = r.val ∧ o.w = r.w ∧ o.s = s ∧ (∀ k, o.s.Get k = s.Get k) := by
  intro post
  refine ⟨⟨r.val, s, r.w⟩, ?_, rfl, rfl, rfl, fun _ => rfl⟩
  have e : Eval H (fuel + 1) (Node.stmt (Stmt.Block (pre ++ st :: post))) s w
      = evalBlockLoop (Eval H fuel) s (pre ++ st :: post) Object.nil (NewCopiedState s) w := rfl
  rw [e, evalBlockLoop_append _ s pre _ _ _ _ mid hpre]
  simp only [evalBlockLoop, hst, Res.ok_bind]
  obtain ⟨rv, rs, rw⟩ := r
  cases rv <;> simp [isSignal] at hsig ⊢

/-- C30, witness: after `int x = 1;` the block `{ x = 2; return x; x = 3; }` yields
the wrapped Return of 2 and leaves `x` bound to 1. -/
theorem C30_block_rollback_witness :
    ∃ o, Eval sampleHost 4 (Node.stmt (Stmt.Block
        ([Stmt.ExprStmt (Expr.Assign "x" (Expr.IntCon 2))] ++
          Stmt.Return (Expr.Identifier "x") false ::
          [Stmt.ExprStmt (Expr.Assign "x" (Expr.IntCon 3))]))) storeX1 emptyWorld = Res.ok o ∧
      o.val = Object.Return (Object.Int 2) ∧ o.w = emptyWorld ∧ o.s = storeX1 ∧
      (∀ k, o.s.Get k = storeX1.Get k) :=
  C30_block_rollback sampleHost 3 [Stmt.ExprStmt (Expr.Assign "x" (Expr.IntCon 2))]
    (Stmt.Return (Expr.Identifier "x") false) storeX1 emptyWorld
    ⟨Object.nil, storeX1.Set "x" (Object.Int 2), emptyWorld⟩
    ⟨Object.Return (Object.Int 2), storeX1.Set "x" (Object.Int 2), emptyWorld⟩ rfl rfl rfl
    [Stmt.ExprStmt (Expr.Assign "x" (Expr.IntCon 3))]

/-! ## Evaluation keeps every binding and its type tag -/

theorem SameTypes.reflT (s : State) : SameTypes s s := fun _ v h => ⟨v, h, rfl⟩

theorem SameTypes.transT {s t u : State} (h1 : SameTypes s t) (h2 : SameTypes t u) :
    SameTypes s u := by
  intro k v hv
  obtain ⟨v1, hv1, e1⟩ := h1 k v hv
  obtain ⟨v2, hv2, e2⟩ := h2 k v1 hv1
  exact ⟨v2, hv2, e2.trans e1⟩

theorem SameTypes.setT {s t : State} (h : SameTypes s t) (k : String) (v : Object)
    (hv : ∀ u, s.Get k = some u → v.Type = u.Type) : SameTypes s (t.Set k v) := by
  intro k' u hu
  rw [State.Get_Set]
  by_cases e : k' = k
  · subst e
    simp only [if_true]
    exact ⟨v, rfl, hv u hu⟩
  · simp only [e, if_false]
    exact h k' u hu

theorem SameTypes.set_cur {s t : State} (h : SameTypes s t) (k : String) (v : Object)
    (hv : ∀ u, t.Get k = some u → v.Type = u.Type) : SameTypes s (t.Set k v) := by
  apply h.setT
  intro u hu
  obtain ⟨u', hu', e⟩ := h k u hu
  exact (hv u' hu').trans e

theorem SameTypes.set_unbound {s t : State} (h : SameTypes s t) (k : String) (v : Object)
    (hf : ¬ (s.Get k).isSome = true) : SameTypes s (t.Set k v) := by
  apply h.setT
  intro u hu
  rw [hu] at hf
  exact absurd rfl hf

theorem SameTypes.updateT {s t : State} (h : SameTypes s t) : SameTypes s (UpdateState s t) := by
  intro k v hv
  obtain ⟨v', hv', e⟩ := h k v hv
  refine ⟨v', ?_, e⟩
  rw [Get_UpdateState, hv, hv']
  rfl

theorem SameTypes.set_arrayT {s s1 t : State} (h1 : SameTypes s s1) (h2 : SameTypes s1 t)
    (k : String) (et : String) (ref : Nat) (et' : String) (ref' : Nat)
    (hb : s1.Get k = some (Object.Array et ref)) :
    SameTypes s (t.Set k (Object.Array et' ref')) := by
  apply (h1.transT h2).setT
  intro u hu
  obtain ⟨u', hu', e⟩ := h1 k u hu
  rw [hb] at hu'
  cases hu'
  exact e

theorem ty_evalProgramLoop {H : Host} {ev : Node → State → World → Res Out}
    (hev : EvTypes H ev) :
    ∀ (p : List Stmt) (res : Object) (s : State) (w : World) (o : Out),
      evalProgramLoop ev p res s w = Res.ok o → SameTypes s o.s := by
  intro p
  induction p with
  | nil =>
    intro res s w o h
    simp [evalProgramLoop] at h
    subst h
    exact SameTypes.reflT s
  | cons st rest ih =>
    intro res s w o h
    have hk : SameTypes s s := SameTypes.reflT s
    simp only [evalProgramLoop] at h
    iterate 6 (
      all_goals try (first
          | (cases h; done)
          | (obtain ⟨r, hr, h'⟩ := Res.bind_eq_ok h; clear h; rename' h' => h; try beta_reduce at h;
             first | (replace hk := hk.transT (hev.1 _ _ _ _ hr)) | skip)
          | (split at h)
          | (simp at h; subst h;
             first
             | exact hk
             | (apply SameTypes.set_unbound hk; assumption))
          | (exact hk.transT (ih _ _ _ _ h))))

theorem ty_evalFuncDecl (H : Host) (t i : String) (ps : List Param) (b : List Stmt)
    (s : State) (w : World) (o : Out)
    (h : evalFuncDecl H t i ps b s w = Res.ok o) : SameTypes s o.s := by
  unfold evalFuncDecl at h
  split at h
  · simp at h; subst h; exact SameTypes.reflT s
  · rename_i hf
    simp at h; subst h
    exact (SameTypes.reflT s).set_unbound _ _ hf

theorem ty_evalVarDecl {H : Host} {ev : Node → State → World → Res Out} (hev : EvTypes H ev)
    (t i : String) (v : Expr) (ini : Bool) (s : State) (w : World) (o : Out)
    (h : evalVarDecl H ev t i v ini s w = Res.ok o) : SameTypes s o.s := by
  have ih := hev.1
  have hk : SameTypes s s := SameTypes.reflT s
  unfold evalVarDecl at h
  iterate 16 (
    all_goals try (first
        | (cases h; done)
        | (obtain ⟨r, hr, h'⟩ := Res.bind_eq_ok h; clear h; rename' h' => h; try beta_reduce at h;
           first | (replace hk := hk.transT (hev.1 _ _ _ _ hr)) | skip)
        | (split at h)
        | (simp at h; subst h;
           first
           | exact hk
           | (apply SameTypes.set_unbound hk; assumption))
        | (exact hk.transT (ih _ _ _ _ h))))

theorem ty_evalBlockLoop {H : Host} {ev : Node → State → World → Res Out}
    (hev : EvTypes H ev) (s : State) :
    ∀ (b : List Stmt) (res : Object) (copied : State) (w : World) (o : Out),
      SameTypes s copied → evalBlockLoop ev s b res copied w = Res.ok o → SameTypes s o.s := by
  intro b
  induction b with
  | nil =>
    intro res copied w o hc h
    simp [evalBlockLoop] at h
    subst h
    exact hc.updateT
  | cons st rest ih =>
    intro res copied w o hc h
    simp only [evalBlockLoop] at h
    obtain ⟨r, hr, h⟩ := Res.bind_eq_ok h
    have hc' := hc.transT (hev.1 _ _ _ _ hr)
    split at h
    · simp at h; subst h; exact SameTypes.reflT s
    · simp at h; subst h; exact SameTypes.reflT s
    · exact ih _ _ _ _ hc' h

theorem ty_evalBlock {H : Host} {ev : Node → State → World → Res Out}
    (hev : EvTypes H ev) (b : List Stmt) (s : State) (w : World) (o : Out)
    (h : evalBlock ev b s w = Res.ok o) : SameTypes s o.s :=
  ty_evalBlockLoop hev s b _ _ _ _ (SameTypes.reflT s) h

theorem ty_evalWhileLoop {H : Host} {ev : Node → State → World → Res Out}
    (hev : EvTypes H ev) (c : Expr) (b : Stmt) :
    ∀ (n : Nat) (cond : Object) (s : State) (w : World) (o : Out),
      evalWhileLoop ev c b n cond s w = Res.ok o → SameTypes s o.s := by
  intro n
  induction n with
  | zero => intro cond s w o h; cases h
  | succ n ih =>
    intro cond s w o h
    have hk : SameTypes s s := SameTypes.reflT s
    simp only [evalWhileLoop] at h
    iterate 8 (
      all_goals try (first
          | (cases h; done)
          | (obtain ⟨r, hr, h'⟩ := Res.bind_eq_ok h; clear h; rename' h' => h; try beta_reduce at h;
             first | (replace hk := hk.transT (hev.1 _ _ _ _ hr)) | skip)
          | (split at h)
          | (simp at h; subst h;
             first
             | exact hk
             | (apply SameTypes.set_unbound hk; assumption))
          | (exact hk.transT (ih _ _ _ _ h))))

theorem ty_evalWhile {H : Host} {ev : Node → State → World → Res Out} (hev : EvTypes H ev)
    (fuel : Nat) (c : Expr) (b : Stmt) (s : State) (w : World) (o : Out)
    (h : evalWhile H ev fuel c b s w = Res.ok o) : SameTypes s o.s := by
  have ih := ty_evalWhileLoop hev c b fuel
  have hk : SameTypes s s := SameTypes.reflT s
  unfold evalWhile at h
  iterate 8 (
    all_goals try (first
        | (cases h; done)
        | (obtain ⟨r, hr, h'⟩ := Res.bind_eq_ok h; clear h; rename' h' => h; try beta_reduce at h;
           first | (replace hk := hk.transT (hev.1 _ _ _ _ hr)) | skip)
        | (split at h)
        | (simp at h; subst h;
           first
           | exact hk
           | (apply SameTypes.set_unbound hk; assumption))
        | (exact hk.transT (ih _ _ _ _ h))))

theorem ty_evalForLoop {H : Host} {ev : Node → State → World → Res Out}
    (hev : EvTypes H ev) (c inc : Expr) (b : Stmt) (s : State) :
    ∀ (n : Nat) (cond : Object) (copied : State) (w : World) (o : Out),
      SameTypes s copied → evalForLoop ev c inc b s n cond copied w = Res.ok o →
      SameTypes s o.s := by
  intro n
  induction n with
  | zero => intro cond copied w o _ h; cases h
  | succ n ih =>
    intro cond copied w o hc h
    simp only [evalForLoop] at h
    split at h
    · obtain ⟨r, hr, h⟩ := Res.bind_eq_ok h
      have hc1 := hc.transT (hev.1 _ _ _ _ hr)
      split at h
      · simp at h; subst h; exact SameTypes.reflT s
      · simp at h; subst h; exact SameTypes.reflT s
      · obtain ⟨i, hi, h⟩ := Res.bind_eq_ok h
        have hc2 := hc1.transT (hev.1 _ _ _ _ hi)
        split at h
        · simp at h; subst h; exact SameTypes.reflT s
        · obtain ⟨c2, hc2e, h⟩ := Res.bind_eq_ok h
          have hc3 := hc2.transT (hev.1 _ _ _ _ hc2e)
          split at h
          · simp at h; subst h; exact SameTypes.reflT s
          · exact ih _ _ _ _ hc3 h
    · simp at h; subst h; exact hc.updateT
    · cases h

theorem ty_evalFor {H : Host} {ev : Node → State → World → Res Out}
    (hev : EvTypes H ev) (fuel : Nat) (i c inc : Expr) (b : Stmt) (vd : Bool)
    (t id : String) (v : Expr) (s : State) (w : World) (o : Out)
    (h : evalFor H ev fuel i c inc b vd t id v s w = Res.ok o) : SameTypes s o.s := by
  unfold evalFor at h
  simp only [NewCopiedState_eq] at h
  split at h
  all_goals (
    obtain ⟨d, hd, h⟩ := Res.bind_eq_ok h
    have hd1 : SameTypes s d.s := hev.1 _ _ _ _ hd
    split at h
    · simp at h; subst h; exact SameTypes.reflT s
    · obtain ⟨c1, hc1, h⟩ := Res.bind_eq_ok h
      have hc2 := hd1.transT (hev.1 _ _ _ _ hc1)
      split at h
      · simp at h; subst h; exact SameTypes.reflT s
      · obtain ⟨ty, _, h⟩ := Res.bind_eq_ok h
        split at h
        · simp at h; subst h; exact SameTypes.reflT s
        · exact ty_evalForLoop hev c inc b s fuel _ _ _ _ hc2 h)

theorem ty_evalIfElse {H : Host} {ev : Node → State → World → Res Out} (hev : EvTypes H ev)
    (c : Expr) (a b : Stmt) (ha : Bool) (s : State) (w : World) (o : Out)
    (h : evalIfElse H ev c a b ha s w = Res.ok o) : SameTypes s o.s := by
  have ih := hev.1
  have hk : SameTypes s s := SameTypes.reflT s
  unfold evalIfElse at h
  iterate 10 (
    all_goals try (first
        | (cases h; done)
        | (obtain ⟨r, hr, h'⟩ := Res.bind_eq_ok h; clear h; rename' h' => h; try beta_reduce at h;
           first | (replace hk := hk.transT (hev.1 _ _ _ _ hr)) | skip)
        | (split at h)
        | (simp at h; subst h;
           first
           | exact hk
           | (apply SameTypes.set_unbound hk; assumption))
        | (exact hk.transT (ih _ _ _ _ h))))

theorem ty_evalReturn {H : Host} {ev : Node → State → World → Res Out} (hev : EvTypes H ev)
    (v : Expr) (vd : Bool) (s : State) (w : World) (o : Out)
    (h : evalReturn ev v vd s w = Res.ok o) : SameTypes s o.s := by
  have ih := hev.1
  have hk : SameTypes s s := SameTypes.reflT s
  unfold evalReturn at h
  iterate 6 (
    all_goals try (first
        | (cases h; done)
        | (obtain ⟨r, hr, h'⟩ := Res.bind_eq_ok h; clear h; rename' h' => h; try beta_reduce at h;
           first | (replace hk := hk.transT (hev.1 _ _ _ _ hr)) | skip)
        | (split at h)
        | (simp at h; subst h;
           first
           | exact hk
           | (apply SameTypes.set_unbound hk; assumption))
        | (exact hk.transT (ih _ _ _ _ h))))

theorem ty_evalPrefixExpr {H : Host} {ev : Node → State → World → Res Out} (hev : EvTypes H ev)
    (op : String) (e : Expr) (s : State) (w : World) (o : Out)
    (h : evalPrefixExpr H ev op e s w = Res.ok o) : SameTypes s o.s := by
  have ih := hev.1
  have hk : SameTypes s s := SameTypes.reflT s
  unfold evalPrefixExpr at h
  iterate 10 (
    all_goals try (first
        | (cases h; done)
        | (obtain ⟨r, hr, h'⟩ := Res.bind_eq_ok h; clear h; rename' h' => h; try beta_reduce at h;
           first | (replace hk := hk.transT (hev.1 _ _ _ _ hr)) | skip)
        | (split at h)
        | (simp at h; subst h;
           first
           | exact hk
           | (apply SameTypes.set_unbound hk; assumption))
        | (exact hk.transT (ih _ _ _ _ h))))

theorem ty_evalInfixExpr {H : Host} {ev : Node → State → World → Res Out} (hev : EvTypes H ev)
    (l : Expr) (op : String) (e : Expr) (s : State) (w : World) (o : Out)
    (h : evalInfixExpr H ev l op e s w = Res.ok o) : SameTypes s o.s := by
  have ih := hev.1
  have hk : SameTypes s s := SameTypes.reflT s
  unfold evalInfixExpr at h
  iterate 12 (
    all_goals try (first
        | (cases h; done)
        | (obtain ⟨r, hr, h'⟩ := Res.bind_eq_ok h; clear h; rename' h' => h; try beta_reduce at h;
           first | (replace hk := hk.transT (hev.1 _ _ _ _ hr)) | skip)
        | (split at h)
        | (simp at h; subst h;
           first
           | exact hk
           | (apply SameTypes.set_unbound hk; assumption))
        | (exact hk.transT (ih _ _ _ _ h))))

theorem ty_evalAssign {H : Host} {ev : Node → State → World → Res Out}
    (hev : EvTypes H ev) (i : String) (e : Expr) (s : State) (w : World) (o : Out)
    (h : evalAssign H ev i e s w = Res.ok o) : SameTypes s o.s := by
  unfold evalAssign at h
  obtain ⟨r0, hr0, h⟩ := Res.bind_eq_ok h
  have e0 := hev.2 _ _ _ _ hr0
  subst e0
  simp only [] at h
  split at h
  · simp at h; subst h; exact SameTypes.reflT s
  · obtain ⟨v, hv, h⟩ := Res.bind_eq_ok h
    have hk := hev.1 _ _ _ _ hv
    split at h
    · simp at h; subst h; exact hk
    · obtain ⟨ti, hti, h⟩ := Res.bind_eq_ok h
      obtain ⟨tv, htv, h⟩ := Res.bind_eq_ok h
      split at h
      · simp at h; subst h; exact hk
      · rename_i hty
        simp at h; subst h
        have heq : ti = tv := not_not.1 hty
        subst heq
        apply hk.setT
        intro u hu
        rw [evalIdent_of_Get H i s u hu] at hti
        rw [htv, hti]

theorem ty_evalAssignExpr {H : Host} {ev : Node → State → World → Res Out}
    (hev : EvTypes H ev) (i op : String) (e : Expr) (s : State) (w : World) (o : Out)
    (h : evalAssignExpr H ev i op e s w = Res.ok o) : SameTypes s o.s := by
  unfold evalAssignExpr at h
  obtain ⟨r0, hr0, h⟩ := Res.bind_eq_ok h
  have e0 := hev.2 _ _ _ _ hr0
  subst e0
  simp only [] at h
  split at h
  · simp at h; subst h; exact SameTypes.reflT s
  · obtain ⟨v, hv, h⟩ := Res.bind_eq_ok h
    have hk := hev.1 _ _ _ _ hv
    split at h
    · simp at h; subst h; exact hk
    · obtain ⟨ts, hts, h⟩ := Res.bind_eq_ok h
      obtain ⟨tv, htv, h⟩ := Res.bind_eq_ok h
      split at h
      · simp at h; subst h; exact hk
      · split at h
        · simp at h; subst h; exact hk
        · rename_i bop hop
          split at h
          · rename_i a b hself _
            obtain ⟨nv, hnv, h⟩ := Res.bind_eq_ok h
            beta_reduce at h
            split at h
            · simp at h; subst h; exact hk
            · rename_i hne
              simp at h; subst h
              apply hk.set_cur
              intro u hu
              rw [hu] at hself
              simp at hself
              subst hself
              rcases compoundOp_int H op bop a b nv hop hnv with ⟨m, rfl⟩ | ⟨j, rfl⟩
              · exact absurd rfl hne
              · rfl
          · rename_i a b hself _
            obtain ⟨nv, hnv, h⟩ := Res.bind_eq_ok h
            beta_reduce at h
            simp at hnv
            subst hnv
            split at h
            · simp at h; subst h; exact hk
            · rename_i hne
              simp at h; subst h
              apply hk.set_cur
              intro u hu
              rw [hu] at hself
              simp at hself
              subst hself
              rcases compoundOp_float H op bop a b hop with ⟨m, e⟩ | ⟨j, e⟩
              · rw [e] at hne; exact absurd rfl hne
              · rw [e]; rfl
          · rename_i a b hself _
            obtain ⟨nv, hnv, h⟩ := Res.bind_eq_ok h
            beta_reduce at h
            simp at hnv
            subst hnv
            split at h
            · simp at h; subst h; exact hk
            · rename_i hne
              simp at h; subst h
              apply hk.set_cur
              intro u hu
              rw [hu] at hself
              simp at hself
              subst hself
              rcases compoundOp_string H op bop a b hop with ⟨m, e⟩ | ⟨j, e⟩
              · rw [e] at hne; exact absurd rfl hne
              · rw [e]; rfl
          · obtain ⟨nv, hnv, h⟩ := Res.bind_eq_ok h
            beta_reduce at h
            simp at hnv
            subst hnv
            simp [IsError, errorObj] at h
            subst h
            exact hk

/-- What `indexTarget` hands on: a store with the same bindings and type tags,
and in the array case the name is bound to an array in it. -/
theorem ty_indexTarget {H : Host} {ev : Node → State → World → Res Out} (hev : EvTypes H ev)
    (i : String) (x : Expr) (s : State) (w : World)
    (t : Out ⊕ (String × Nat × Nat × State × World))
    (h : indexTarget H ev i x s w = Res.ok t) :
    SameTypes s (targetState t) ∧
      (∀ p, t = Sum.inr p → ∃ et ref, p.2.2.2.1.Get i = some (Object.Array et ref)) := by
  unfold indexTarget at h
  dsimp only at h
  split at h
  · simp at h; subst h; exact ⟨SameTypes.reflT s, fun p hp => by cases hp⟩
  · obtain ⟨r, hr, h⟩ := Res.bind_eq_ok h
    have hk := hev.1 _ _ _ _ hr
    split at h
    · simp at h; subst h; exact ⟨hk, fun p hp => by cases hp⟩
    · obtain ⟨tx, _, h⟩ := Res.bind_eq_ok h
      split at h
      · simp at h; subst h; exact ⟨hk, fun p hp => by cases hp⟩
      · split at h
        · simp at h; subst h; exact ⟨hk, fun p hp => by cases hp⟩
        · rename_i arr harr
          obtain ⟨ta, _, h⟩ := Res.bind_eq_ok h
          split at h
          · simp at h; subst h; exact ⟨hk, fun p hp => by cases hp⟩
          · split at h
            · split at h
              · simp at h; subst h; exact ⟨hk, fun p hp => by cases hp⟩
              · simp at h; subst h
                refine ⟨hk, fun p hp => ?_⟩
                cases hp
                exact ⟨_, _, harr⟩
            · cases h

theorem ty_evalIndexExpr {H : Host} {ev : Node → State → World → Res Out}
    (hev : EvTypes H ev) (i : String) (x : Expr) (s : State) (w : World) (o : Out)
    (h : evalIndexExpr H ev i x s w = Res.ok o) : SameTypes s o.s := by
  unfold evalIndexExpr at h
  obtain ⟨t, ht, h⟩ := Res.bind_eq_ok h
  have hk := (ty_indexTarget hev i x s w t ht).1
  unfold targetState at hk
  cases t with
  | inl out => simp at h; subst h; exact hk
  | inr p =>
    obtain ⟨et, arr, idx, s1, w1⟩ := p
    simp at h; subst h; exact hk

theorem ty_evalAssignIndexExpr {H : Host} {ev : Node → State → World → Res Out}
    (hev : EvTypes H ev) (i : String) (x v : Expr) (s : State) (w : World) (o : Out)
    (h : evalAssignIndexExpr H ev i x v s w = Res.ok o) : SameTypes s o.s := by
  unfold evalAssignIndexExpr at h
  obtain ⟨t, ht, h⟩ := Res.bind_eq_ok h
  obtain ⟨hk, harr⟩ := ty_indexTarget hev i x s w t ht
  unfold targetState at hk
  cases t with
  | inl out => simp at h; subst h; exact hk
  | inr p =>
    obtain ⟨et0, ref0, hb⟩ := harr p rfl
    obtain ⟨et, arr, idx, s1, w1⟩ := p
    simp only [] at h hk hb
    have hk2 : SameTypes s1 s1 := SameTypes.reflT s1
    iterate 16 (
      all_goals try (first
        | (cases h; done)
        | (obtain ⟨r, hr, h'⟩ := Res.bind_eq_ok h; clear h; rename' h' => h;
           try beta_reduce at h;
           first | (replace hk2 := hk2.transT (hev.1 _ _ _ _ hr)) | skip)
        | (split at h)
        | (simp at h; subst h;
           first
           | exact hk.transT hk2
           | exact SameTypes.set_arrayT hk hk2 _ _ _ _ _ hb)))

theorem ty_evalAssignExprIndexExpr {H : Host} {ev : Node → State → World → Res Out}
    (hev : EvTypes H ev) (i : String) (x : Expr) (op : String) (v : Expr) (s : State) (w : World) (o : Out)
    (h : evalAssignExprIndexExpr H ev i x op v s w = Res.ok o) : SameTypes s o.s := by
  unfold evalAssignExprIndexExpr at h
  obtain ⟨t, ht, h⟩ := Res.bind_eq_ok h
  obtain ⟨hk, harr⟩ := ty_indexTarget hev i x s w t ht
  unfold targetState at hk
  cases t with
  | inl out => simp at h; subst h; exact hk
  | inr p =>
    obtain ⟨et0, ref0, hb⟩ := harr p rfl
    obtain ⟨et, arr, idx, s1, w1⟩ := p
    simp only [] at h hk hb
    have hk2 : SameTypes s1 s1 := SameTypes.reflT s1
    iterate 16 (
      all_goals try (first
        | (cases h; done)
        | (obtain ⟨r, hr, h'⟩ := Res.bind_eq_ok h; clear h; rename' h' => h;
           try beta_reduce at h;
           first | (replace hk2 := hk2.transT (hev.1 _ _ _ _ hr)) | skip)
        | (split at h)
        | (simp at h; subst h;
           first
           | exact hk.transT hk2
           | exact SameTypes.set_arrayT hk hk2 _ _ _ _ _ hb)))

theorem ty_evalExpressions {H : Host} {ev : Node → State → World → Res Out}
    (hev : EvTypes H ev) :
    ∀ (args : List Expr) (acc : List Object) (s : State) (w : World)
      (res : List Object × State × World),
      evalExpressions ev args acc s w = Res.ok res → SameTypes s res.2.1 := by
  intro args
  induction args with
  | nil =>
    intro acc s w res h
    simp [evalExpressions] at h
    subst h
    exact SameTypes.reflT s
  | cons a rest ih =>
    intro acc s w res h
    have hk : SameTypes s s := SameTypes.reflT s
    simp only [evalExpressions] at h
    iterate 6 (
      all_goals try (first
          | (cases h; done)
          | (obtain ⟨r, hr, h'⟩ := Res.bind_eq_ok h; clear h; rename' h' => h; try beta_reduce at h;
             first | (replace hk := hk.transT (hev.1 _ _ _ _ hr)) | skip)
          | (split at h)
          | (simp at h; subst h;
             first
             | exact hk
             | (apply SameTypes.set_unbound hk; assumption))
          | (exact hk.transT (ih _ _ _ _ h))))

theorem ty_evalArray {H : Host} {ev : Node → State → World → Res Out}
    (hev : EvTypes H ev) (es : List Expr) (s : State) (w : World) (o : Out)
    (h : evalArray ev es s w = Res.ok o) : SameTypes s o.s := by
  unfold evalArray at h
  obtain ⟨t, ht, h⟩ := Res.bind_eq_ok h
  have hk := ty_evalExpressions hev es [] s w t ht
  obtain ⟨args, s1, w1⟩ := t
  simp only [] at h hk
  split at h
  · simp at h; subst h; exact hk
  · simp at h; subst h; exact hk

theorem ty_evalCall {H : Host} {ev : Node → State → World → Res Out}
    (hev : EvTypes H ev) (fuel : Nat) (f : String) (args : List Expr) (s : State) (w : World)
    (o : Out) (h : evalCall H ev fuel f args s w = Res.ok o) : SameTypes s o.s := by
  obtain ⟨r0, hr0, hcase⟩ := evalCall_state H ev fuel f args s w o h
  have h0 := hev.1 _ _ _ _ hr0
  rcases hcase with hc | ⟨t, ht, hc⟩
  · rw [hc]; exact h0
  · rw [hc]; exact h0.transT (ty_evalExpressions hev args [] _ _ t ht)

/-- Evaluation keeps every binding of the store it starts on, with its type tag. -/
theorem Eval_types (H : Host) : ∀ fuel : Nat, EvTypes H (Eval H fuel) := by
  intro fuel
  induction fuel with
  | zero =>
    exact ⟨fun n s w o h => by simp [Eval] at h, fun x s w o h => by simp [Eval] at h⟩
  | succ fuel ih =>
    refine ⟨?_, fun x s w o h => by simp [Eval] at h; exact h.symm⟩
    intro n s w o h
    cases n with
    | Program p => exact ty_evalProgramLoop ih p _ s w o h
    | stmt st =>
      cases st with
      | nil => simp [Eval] at h; subst h; exact SameTypes.reflT s
      | FuncDecl t i ps b => exact ty_evalFuncDecl H t i ps b s w o h
      | VarDecl t i v ini => exact ty_evalVarDecl ih t i v ini s w o h
      | Block b => exact ty_evalBlock ih b s w o h
      | While c b => exact ty_evalWhile ih fuel c b s w o h
      | For i c inc b vd t id v => exact ty_evalFor ih fuel i c inc b vd t id v s w o h
      | IfElse c a b ha => exact ty_evalIfElse ih c a b ha s w o h
      | Return v vd => exact ty_evalReturn ih v vd s w o h
      | ExprStmt e => exact ih.1 _ s w o h
    | expr e =>
      cases e with
      | nil => simp [Eval] at h; subst h; exact SameTypes.reflT s
      | PrefixExpr op r => exact ty_evalPrefixExpr ih op r s w o h
      | InfixExpr l op r => exact ty_evalInfixExpr ih l op r s w o h
      | Assign i v => exact ty_evalAssign ih i v s w o h
      | AssignExpr i op v => exact ty_evalAssignExpr ih i op v s w o h
      | Call f args vd => exact ty_evalCall ih fuel f args s w o h
      | Identifier name => simp [Eval] at h; subst h; exact SameTypes.reflT s
      | CharCon v => simp [Eval] at h; subst h; exact SameTypes.reflT s
      | IntCon v => simp [Eval] at h; subst h; exact SameTypes.reflT s
      | FloatCon v => simp [Eval] at h; subst h; exact SameTypes.reflT s
      | StringCon v => simp [Eval] at h; subst h; exact SameTypes.reflT s
      | Bool v => simp [Eval] at h; subst h; exact SameTypes.reflT s
      | Array es => exact ty_evalArray ih es s w o h
      | IndexExpr i x => exact ty_evalIndexExpr ih i x s w o h
      | AssignIndexExpr i x v => exact ty_evalAssignIndexExpr ih i x v s w o h
      | AssignExprIndexExpr i x op v => exact ty_evalAssignExprIndexExpr ih i x op v s w o h

/-! ## C29: bindings keep their type -/

/-- C29. Bindings keep their type: when the evaluation of a node on the store `s`
returns, every name bound in `s` is bound in the store handed back, to an object
with the same type tag as before. -/
theorem C29_bindings_keep_type (H : Host) (fuel : Nat) (n : Node) (s : State) (w : World)
    (o : Out) (h : Eval H fuel n s w = Res.ok o) :
    ∀ k v, s.Get k = some v → ∃ v', o.s.Get k = some v' ∧ v'.Type = v.Type :=
  (Eval_types H fuel).1 n s w o h

/-- C29, witness: after `int x = 1;` the block `{ x = 2; int y = 9; }` leaves `x`
bound to an Int. -/
theorem C29_bindings_keep_type_witness :
    ∃ v', (UpdateState storeX1 ⟨[("x", Object.Int 2), ("y", Object.Int 9)]⟩).Get "x" = some v' ∧
      v'.Type = (Object.Int 1).Type :=
  C29_bindings_keep_type sampleHost 4 (Node.stmt (Stmt.Block blockXY)) storeX1 emptyWorld
    ⟨Object.nil, UpdateState storeX1 ⟨[("x", Object.Int 2), ("y", Object.Int 9)]⟩, emptyWorld⟩
    rfl "x" (Object.Int 1) rfl

/-! ## Pure expressions -/

/-- What the character infix routine returns: a Bool, a String or an Error. -/
theorem infixChar_kind (H : Host) (op : String) (a b : String) :
    (∃ v, evalInfixExprChar H op a b = Object.Bool v) ∨
    (∃ v, evalInfixExprChar H op a b = Object.String v) ∨
    (∃ m, evalInfixExprChar H op a b = Object.Error m) := by
  unfold evalInfixExprChar
  by_cases h0 : op = "<"
  · rw [if_pos h0]
    first | exact Or.inl ⟨_, rfl⟩ | exact Or.inr (Or.inl ⟨_, rfl⟩) | exact Or.inr (Or.inr ⟨_, rfl⟩)
  rw [if_neg h0]
  clear h0
  by_cases h1 : op = "<="
  · rw [if_pos h1]
    first | exact Or.inl ⟨_, rfl⟩ | exact Or.inr (Or.inl ⟨_, rfl⟩) | exact Or.inr (Or.inr ⟨_, rfl⟩)
  rw [if_neg h1]
  clear h1
  by_cases h2 : op = "=="
  · rw [if_pos h2]
    first | exact Or.inl ⟨_, rfl⟩ | exact Or.inr (Or.inl ⟨_, rfl⟩) | exact Or.inr (Or.inr ⟨_, rfl⟩)
  rw [if_neg h2]
  clear h2
  by_cases h3 : op = "!="
  · rw [if_pos h3]
    first | exact Or.inl ⟨_, rfl⟩ | exact Or.inr (Or.inl ⟨_, rfl⟩) | exact Or.inr (Or.inr ⟨_, rfl⟩)
  rw [if_neg h3]
  clear h3
  by_cases h4 : op = ">="
  · rw [if_pos h4]
    first | exact Or.inl ⟨_, rfl⟩ | exact Or.inr (Or.inl ⟨_, rfl⟩) | exact Or.inr (Or.inr ⟨_, rfl⟩)
  rw [if_neg h4]
  clear h4
  by_cases h5 : op = ">"
  · rw [if_pos h5]
    first | exact Or.inl ⟨_, rfl⟩ | exact Or.inr (Or.inl ⟨_, rfl⟩) | exact Or.inr (Or.inr ⟨_, rfl⟩)
  rw [if_neg h5]
  clear h5
  by_cases h6 : op = "+"
  · rw [if_pos h6]
    first | exact Or.inl ⟨_, rfl⟩ | exact Or.inr (Or.inl ⟨_, rfl⟩) | exact Or.inr (Or.inr ⟨_, rfl⟩)
  rw [if_neg h6]
  clear h6
  exact Or.inr (Or.inr ⟨_, rfl⟩)

/-- What the boolean infix routine returns: a Bool or an Error. -/
theorem infixBool_kind (H : Host) (op : String) (a b : Bool) :
    (∃ v, evalInfixExprBool H op a b = Object.Bool v) ∨
    (∃ m, evalInfixExprBool H op a b = Object.Error m) := by
  unfold evalInfixExprBool
  by_cases h0 : op = "=="
  · rw [if_pos h0]
    first | exact Or.inl ⟨_, rfl⟩ | exact Or.inr ⟨_, rfl⟩
  rw [if_neg h0]
  clear h0
  by_cases h1 : op = "!="
  · rw [if_pos h1]
    first | exact Or.inl ⟨_, rfl⟩ | exact Or.inr ⟨_, rfl⟩
  rw [if_neg h1]
  clear h1
  by_cases h2 : op = "&&"
  · rw [if_pos h2]
    first | exact Or.inl ⟨_, rfl⟩ | exact Or.inr ⟨_, rfl⟩
  rw [if_neg h2]
  clear h2
  by_cases h3 : op = "||"
  · rw [if_pos h3]
    first | exact Or.inl ⟨_, rfl⟩ | exact Or.inr ⟨_, rfl⟩
  rw [if_neg h3]
  clear h3
  exact Or.inr ⟨_, rfl⟩
theorem shiftRef_zero (n0 r : Nat) : shiftRef n0 0 r = r := by
  unfold shiftRef
  split <;> rfl

theorem shiftObj_zero (n0 : Nat) (v : Object) : shiftObj n0 0 v = v := by
  cases v <;> simp [shiftObj, shiftRef_zero]

theorem IsError_shift (n0 k : Nat) (v : Object) : IsError (shiftObj n0 k v) = IsError v := by
  cases v <;> rfl

theorem Type_shift (n0 k : Nat) (v : Object) : (shiftObj n0 k v).Type = v.Type := by
  cases v <;> rfl

theorem ObjString_shift (n0 k : Nat) (v : Object) : ObjString (shiftObj n0 k v) = ObjString v := by
  cases v <;> rfl

theorem shiftObj_errorObj (n0 k : Nat) (H : Host) (m : String) :
    shiftObj n0 k (errorObj H m) = errorObj H m := rfl

theorem shiftObj_low (n0 k : Nat) (el : String) (r : Nat) (h : r < n0) :
    shiftObj n0 k (Object.Array el r) = Object.Array el r := by
  simp [shiftObj, shiftRef, h]

theorem shiftObj_high (n0 k : Nat) (el : String) (r : Nat) (h : n0 ≤ r) :
    shiftObj n0 k (Object.Array el r) = Object.Array el (r + k) := by
  have : ¬ r < n0 := by omega
  simp [shiftObj, shiftRef, this]

theorem evalNotOp_shift (n0 k : Nat) (H : Host) (v : Object) :
    evalNotOp H (shiftObj n0 k v) = evalNotOp H v ∧
      ∀ x, evalNotOp H v = Res.ok x → shiftObj n0 k x = x := by
  constructor
  · cases v <;> rfl
  · intro x hx
    cases v <;> simp [evalNotOp, Object.Type] at hx <;> try (subst hx; rfl)
    rename_i b
    cases b <;> simp at hx <;> subst hx <;> rfl

theorem evalNegOp_shift (n0 k : Nat) (H : Host) (v : Object) :
    evalNegOp H (shiftObj n0 k v) = evalNegOp H v ∧
      shiftObj n0 k (evalNegOp H v) = evalNegOp H v := by
  cases v <;> exact ⟨rfl, rfl⟩

theorem evalPosOp_shift (n0 k : Nat) (H : Host) (v : Object) :
    evalPosOp H (shiftObj n0 k v) = evalPosOp H v ∧
      shiftObj n0 k (evalPosOp H v) = evalPosOp H v := by
  cases v <;> exact ⟨rfl, rfl⟩

theorem evalTildeOp_shift (n0 k : Nat) (H : Host) (v : Object) :
    evalTildeOp H (shiftObj n0 k v) = evalTildeOp H v ∧
      shiftObj n0 k (evalTildeOp H v) = evalTildeOp H v := by
  cases v <;> exact ⟨rfl, rfl⟩

theorem Extends.reflE (w : World) : Extends w w := ⟨[], by simp, rfl, rfl⟩

theorem Extends.transE {w w1 w2 : World} (h1 : Extends w w1) (h2 : Extends w1 w2) :
    Extends w w2 := by
  obtain ⟨e1, c1, r1, o1⟩ := h1
  obtain ⟨e2, c2, r2, o2⟩ := h2
  exact ⟨e1 ++ e2, by rw [c2, c1, List.append_assoc], r2.trans r1, o2.trans o1⟩

theorem Extends.allocE (w : World) (es : List Object) : Extends w (w.alloc es).2 :=
  ⟨[es], rfl, rfl, rfl⟩

theorem World.elems_append_left (cells extra : List (List Object)) (rng : Nat)
    (out : List String) (r : Nat) (h : r < cells.length) :
    (⟨cells ++ extra, rng, out⟩ : World).elems r = (⟨cells, rng, out⟩ : World).elems r := by
  simp [World.elems, List.getElem?_append_left h]

theorem World.elems_alloc_old (w : World) (es : List Object) (r : Nat)
    (h : r < w.cells.length) : (w.alloc es).2.elems r = w.elems r := by
  simp [World.alloc, World.elems, List.getElem?_append_left h]

theorem World.elems_alloc_new (w : World) (es : List Object) :
    (w.alloc es).2.elems w.cells.length = es := by
  simp [World.alloc, World.elems]

theorem World.length_alloc (w : World) (es : List Object) :
    (w.alloc es).2.cells.length = w.cells.length + 1 := by
  simp [World.alloc]

/-- Allocating corresponding arrays in corresponding worlds gives corresponding
worlds and handles. -/
theorem WorldRel.allocR {n0 k : Nat} {wa wb : World} (h : WorldRel n0 k wa wb)
    (es : List Object) :
    (wb.alloc (es.map (shiftObj n0 k))).1 = shiftRef n0 k (wa.alloc es).1 ∧
    WorldRel n0 k (wa.alloc es).2 (wb.alloc (es.map (shiftObj n0 k))).2 := by
  obtain ⟨h1, h2, h3, h4, h5, h6, h7⟩ := h
  constructor
  · have : ¬ wa.cells.length < n0 := by omega
    simp [World.alloc, shiftRef, this, h2]
  · refine ⟨?_, ?_, ?_, ?_, ?_, h6, h7⟩
    · rw [World.length_alloc]; omega
    · rw [World.length_alloc, World.length_alloc, h2]; omega
    · intro r hr
      rw [World.elems_alloc_old _ _ _ (by omega), World.elems_alloc_old _ _ _ (by omega)]
      exact h3 r hr
    · intro r hr1 hr2
      rw [World.length_alloc] at hr2
      by_cases e : r = wa.cells.length
      · subst e
        rw [World.elems_alloc_new]
        have : wa.cells.length + k = wb.cells.length := h2.symm
        rw [this, World.elems_alloc_new]
      · rw [World.elems_alloc_old _ _ _ (by omega), World.elems_alloc_old _ _ _ (by omega)]
        exact h4 r hr1 (by omega)
    · intro r hr x hx
      rw [World.elems_alloc_old _ _ _ (by omega)] at hx
      exact h5 r hr x hx
theorem evalInfixExpr_eq (H : Host) (ev : Node → State → World → Res Out) (l : Expr)
    (op : String) (r : Expr) (s : State) (w : World) :
    evalInfixExpr H ev l op r s w = (do
      let lo ← ev (Node.expr l) s w
      if IsError lo.val then pure lo
      else do
        let ro ← ev (Node.expr r) lo.s lo.w
        if IsError ro.val then pure ro
        else do
          let v ← infixVal H op lo.val ro.val
          pure ⟨v, ro.s, ro.w⟩) := by
  unfold evalInfixExpr
  cases ev (Node.expr l) s w with
  | panic => rfl
  | timeout => rfl
  | ok lo =>
    simp only [Res.ok_bind]
    split
    · rfl
    · cases ev (Node.expr r) lo.s lo.w with
      | panic => rfl
      | timeout => rfl
      | ok ro =>
        simp only [Res.ok_bind]
        split
        · rfl
        · obtain ⟨lv, ls, lw⟩ := lo
          obtain ⟨rv, rs, rw⟩ := ro
          cases lv <;> cases rv <;> rfl

theorem evalPrefixExpr_eq (H : Host) (ev : Node → State → World → Res Out) (op : String)
    (r : Expr) (s : State) (w : World) :
    evalPrefixExpr H ev op r s w = (do
      let ro ← ev (Node.expr r) s w
      if IsError ro.val then pure ro
      else do
        let v ← prefixVal H op ro.val
        pure ⟨v, ro.s, ro.w⟩) := by
  unfold evalPrefixExpr prefixVal
  cases ev (Node.expr r) s w with
  | panic => rfl
  | timeout => rfl
  | ok ro =>
    simp only [Res.ok_bind]
    split
    · rfl
    · split
      · rfl
      · split
        · rfl
        · split
          · rfl
          · split
            · rfl
            · rfl
theorem shiftObj_not_array (n0 k : Nat) (x : Object) (h : ∀ el r, x ≠ Object.Array el r) :
    shiftObj n0 k x = x := by
  cases x <;> first | rfl | exact absurd rfl (h _ _)

theorem infixVal_not_array (H : Host) (op : String) (l r x : Object)
    (hx : infixVal H op l r = Res.ok x) : ∀ el ref, x ≠ Object.Array el ref := by
  intro el ref e
  subst e
  cases l <;> cases r <;> simp [infixVal, Object.Type, errorObj] at hx
  all_goals (
    rename_i a b
    first
    | (rcases infixChar_kind H op a b with ⟨v, e⟩ | ⟨v, e⟩ | ⟨v, e⟩ <;> rw [e] at hx <;> cases hx)
    | (rcases infixInt_kind H op a b _ hx with ⟨v, e⟩ | ⟨v, e⟩ | ⟨v, e⟩ <;> cases e)
    | (rcases infixFloat_kind H op a b with ⟨v, e⟩ | ⟨v, e⟩ | ⟨v, e⟩ <;> rw [e] at hx <;> cases hx)
    | (rcases infixString_kind H op a b with ⟨v, e⟩ | ⟨v, e⟩ | ⟨v, e⟩ <;> rw [e] at hx <;>
        cases hx)
    | (rcases infixBool_kind H op a b with ⟨v, e⟩ | ⟨v, e⟩ <;> rw [e] at hx <;> cases hx))

theorem infixVal_shift (n0 k : Nat) (H : Host) (op : String) (l r : Object) :
    infixVal H op (shiftObj n0 k l) (shiftObj n0 k r) = infixVal H op l r ∧
      ∀ x, infixVal H op l r = Res.ok x → shiftObj n0 k x = x := by
  constructor
  · cases l <;> cases r <;> rfl
  · intro x hx
    exact shiftObj_not_array n0 k x (infixVal_not_array H op l r x hx)

theorem prefixVal_shift (n0 k : Nat) (H : Host) (op : String) (v : Object) :
    prefixVal H op (shiftObj n0 k v) = prefixVal H op v ∧
      ∀ x, prefixVal H op v = Res.ok x → shiftObj n0 k x = x := by
  unfold prefixVal
  constructor
  · rw [(evalNotOp_shift n0 k H v).1, (evalNegOp_shift n0 k H v).1, (evalPosOp_shift n0 k H v).1,
      (evalTildeOp_shift n0 k H v).1]
  · intro x hx
    split at hx
    · exact (evalNotOp_shift n0 k H v).2 x hx
    · split at hx
      · cases hx; exact (evalNegOp_shift n0 k H v).2
      · split at hx
        · cases hx; exact (evalPosOp_shift n0 k H v).2
        · split at hx
          · cases hx; exact (evalTildeOp_shift n0 k H v).2
          · cases hx; rfl

theorem pure_evalPrefixExpr {n0 k : Nat} {s : State} {ev : Node → State → World → Res Out}
    (hev : PureEv n0 k s ev) (H : Host) (op : String) (r : Expr) (hr : isPure r = true) :
    PureStep n0 k s (fun w => evalPrefixExpr H ev op r s w) := by
  intro wa wb oa hrel h
  simp only [evalPrefixExpr_eq] at h ⊢
  obtain ⟨ra, hra, h1⟩ := Res.bind_eq_ok h
  clear h
  rename' h1 => h
  beta_reduce at h
  obtain ⟨hs, hext, wb1, hb, hrel1⟩ := hev r hr wa wb ra hrel hra
  simp only at hb
  rw [hb]
  simp only [Res.ok_bind, IsError_shift]
  obtain ⟨v, s', w'⟩ := ra
  simp only at hs hext hrel1 h ⊢
  subst hs
  by_cases herr : IsError v = true
  · rw [if_pos herr] at h ⊢
    cases h
    exact ⟨rfl, hext, wb1, rfl, hrel1⟩
  · rw [if_neg herr] at h ⊢
    obtain ⟨x, hx, h1⟩ := Res.bind_eq_ok h
    cases h1
    rw [(prefixVal_shift n0 k H op v).1, hx]
    refine ⟨rfl, hext, wb1, ?_, hrel1⟩
    simp only [Res.ok_bind, Res.pure_eq]
    rw [(prefixVal_shift n0 k H op v).2 x hx]

theorem pure_evalInfixExpr {n0 k : Nat} {s : State} {ev : Node → State → World → Res Out}
    (hev : PureEv n0 k s ev) (H : Host) (l : Expr) (op : String) (r : Expr)
    (hl : isPure l = true) (hr : isPure r = true) :
    PureStep n0 k s (fun w => evalInfixExpr H ev l op r s w) := by
  intro wa wb oa hrel h
  simp only [evalInfixExpr_eq] at h ⊢
  obtain ⟨la, hla, h1⟩ := Res.bind_eq_ok h
  clear h
  rename' h1 => h
  beta_reduce at h
  obtain ⟨hs, hext, wb1, hb, hrel1⟩ := hev l hl wa wb la hrel hla
  simp only at hb
  rw [hb]
  simp only [Res.ok_bind, IsError_shift]
  obtain ⟨lv, s', lw⟩ := la
  simp only at hs hext hrel1 h ⊢
  subst hs
  by_cases herr : IsError lv = true
  · rw [if_pos herr] at h ⊢
    cases h
    exact ⟨rfl, hext, wb1, rfl, hrel1⟩
  · rw [if_neg herr] at h ⊢
    obtain ⟨ra, hra, h1⟩ := Res.bind_eq_ok h
    clear h
    rename' h1 => h
    beta_reduce at h
    obtain ⟨hs2, hext2, wb2, hb2, hrel2⟩ := hev r hr lw wb1 ra hrel1 hra
    simp only at hb2
    rw [hb2]
    simp only [Res.ok_bind, IsError_shift]
    obtain ⟨rv, s'', rw'⟩ := ra
    simp only at hs2 hext2 hrel2 h ⊢
    subst hs2
    by_cases herr2 : IsError rv = true
    · rw [if_pos herr2] at h ⊢
      cases h
      exact ⟨rfl, hext.transE hext2, wb2, rfl, hrel2⟩
    · rw [if_neg herr2] at h ⊢
      obtain ⟨x, hx, h1⟩ := Res.bind_eq_ok h
      cases h1
      rw [(infixVal_shift n0 k H op lv rv).1, hx]
      refine ⟨rfl, hext.transE hext2, wb2, ?_, hrel2⟩
      simp only [Res.ok_bind, Res.pure_eq]
      rw [(infixVal_shift n0 k H op lv rv).2 x hx]
theorem evalIndexExpr_eq (H : Host) (ev : Node → State → World → Res Out) (ident : String)
    (index : Expr) (s : State) (w : World) :
    evalIndexExpr H ev ident index s w =
      (if IsError (evalIdent H ident s) then pure ⟨evalIdent H ident s, s, w⟩
       else do
        let x ← ev (Node.expr index) s w
        if IsError x.val then pure x
        else do
          let v ← indexVal H ident x.s x.val x.w
          pure ⟨v, x.s, x.w⟩) := by
  unfold evalIndexExpr indexTarget indexVal
  dsimp only
  split
  · rfl
  · cases ev (Node.expr index) s w with
    | panic => rfl
    | timeout => rfl
    | ok x =>
      obtain ⟨xv, xs, xw⟩ := x
      simp only [Res.ok_bind]
      split
      · rfl
      · cases hg : xs.Get ident with
        | none => cases xv <;> rfl
        | some array =>
          cases xv <;> cases array <;> first
            | rfl
            | (simp only [Object.Type, Res.ok_bind, ne_eq, not_true_eq_false, if_false]
               split <;> rfl)
theorem indexVal_shift {n0 k : Nat} {wa wb : World} (hrel : WorldRel n0 k wa wb) (H : Host)
    (ident : String) (s : State) (hlow : StoreLow n0 s) (x : Object) :
    indexVal H ident s (shiftObj n0 k x) wb = indexVal H ident s x wa ∧
      ∀ y, indexVal H ident s x wa = Res.ok y → shiftObj n0 k y = y := by
  unfold indexVal
  cases hg : s.Get ident with
  | none =>
    constructor
    · cases x <;> rfl
    · intro y hy
      cases x <;> simp [Object.Type] at hy <;> subst hy <;> rfl
  | some array =>
    constructor
    · cases x <;> cases array <;> first
        | rfl
        | (rename_i idx el arr
           have h1 := hrel.2.2.1 arr (hlow ident el arr hg)
           simp only [shiftObj, Object.Type, Res.ok_bind, ne_eq, not_true_eq_false, if_false, h1])
    · intro y hy
      cases x <;> cases array <;> simp [Object.Type] at hy <;> try (subst hy; rfl)
      rename_i idx el arr
      split at hy
      · simp at hy; subst hy; rfl
      · rename_i hin
        simp at hy
        subst hy
        have hlt : idx.toNat < (wa.elems arr).length := by omega
        apply hrel.2.2.2.2.1 arr (hlow ident el arr hg)
        rw [List.getElem?_eq_getElem hlt]
        exact List.getElem_mem _

theorem pure_evalIndexExpr {n0 k : Nat} {s : State} {ev : Node → State → World → Res Out}
    (hev : PureEv n0 k s ev) (hlow : StoreLow n0 s) (H : Host) (ident : String) (index : Expr)
    (hi : isPure index = true) :
    PureStep n0 k s (fun w => evalIndexExpr H ev ident index s w) := by
  intro wa wb oa hrel h
  simp only [evalIndexExpr_eq] at h ⊢
  by_cases hid : IsError (evalIdent H ident s) = true
  · rw [if_pos hid] at h ⊢
    cases h
    refine ⟨rfl, Extends.reflE wa, wb, ?_, hrel⟩
    have e : shiftObj n0 k (evalIdent H ident s) = evalIdent H ident s := by
      cases hv : evalIdent H ident s <;> rw [hv] at hid <;> first | rfl | cases hid
    simp only [e]
    rfl
  · rw [if_neg hid] at h ⊢
    obtain ⟨xa, hxa, h1⟩ := Res.bind_eq_ok h
    clear h
    rename' h1 => h
    beta_reduce at h
    obtain ⟨hs, hext, wb1, hb, hrel1⟩ := hev index hi wa wb xa hrel hxa
    simp only at hb
    rw [hb]
    simp only [Res.ok_bind, IsError_shift]
    obtain ⟨xv, s', xw⟩ := xa
    simp only at hs hext hrel1 h ⊢
    subst hs
    by_cases herr : IsError xv = true
    · rw [if_pos herr] at h ⊢
      cases h
      exact ⟨rfl, hext, wb1, rfl, hrel1⟩
    · rw [if_neg herr] at h ⊢
      obtain ⟨y, hy, h1⟩ := Res.bind_eq_ok h
      cases h1
      rw [(indexVal_shift hrel1 H ident _ hlow xv).1, hy]
      refine ⟨rfl, hext, wb1, ?_, hrel1⟩
      simp only [Res.ok_bind, Res.pure_eq]
      rw [(indexVal_shift hrel1 H ident _ hlow xv).2 y hy]

theorem evalIdent_shift (n0 k : Nat) (H : Host) (name : String) (s : State)
    (hlow : StoreLow n0 s) : shiftObj n0 k (evalIdent H name s) = evalIdent H name s := by
  unfold evalIdent
  cases hg : s.Get name with
  | none =>
    simp only []
    cases builtins name <;> rfl
  | some v =>
    simp only []
    cases v <;> first | rfl | exact shiftObj_low n0 k _ _ (hlow name _ _ hg)

theorem pure_const (n0 k : Nat) (s : State) (v : Object) (hv : shiftObj n0 k v = v) :
    PureStep n0 k s (fun w => Res.ok ⟨v, s, w⟩) := by
  intro wa wb oa hrel h
  cases h
  exact ⟨rfl, Extends.reflE wa, wb, by rw [hv], hrel⟩

theorem singleError_shift (n0 k : Nat) (es : List Object) :
    singleError (es.map (shiftObj n0 k)) = (singleError es).map (shiftObj n0 k) := by
  match es with
  | [] => rfl
  | [x] =>
    simp only [List.map, singleError, IsError_shift]
    split <;> rfl
  | _ :: _ :: _ => rfl

theorem pure_evalExpressions {n0 k : Nat} {s : State} {ev : Node → State → World → Res Out}
    (hev : PureEv n0 k s ev) :
    ∀ (es : List Expr), isPureList es = true → ∀ (acc : List Object) (wa wb : World)
      (res : List Object × State × World), WorldRel n0 k wa wb →
      evalExpressions ev es acc s wa = Res.ok res →
      res.2.1 = s ∧ Extends wa res.2.2 ∧
        ∃ wb', evalExpressions ev es (acc.map (shiftObj n0 k)) s wb
            = Res.ok (res.1.map (shiftObj n0 k), s, wb') ∧ WorldRel n0 k res.2.2 wb' := by
  intro es
  induction es with
  | nil =>
    intro _ acc wa wb res hrel h
    simp only [evalExpressions] at h ⊢
    cases h
    exact ⟨rfl, Extends.reflE wa, wb, rfl, hrel⟩
  | cons a rest ih =>
    intro hp acc wa wb res hrel h
    simp only [isPureList, Bool.and_eq_true] at hp
    simp only [evalExpressions] at h ⊢
    obtain ⟨ea, hea, h1⟩ := Res.bind_eq_ok h
    clear h
    rename' h1 => h
    beta_reduce at h
    obtain ⟨hs, hext, wb1, hb, hrel1⟩ := hev a hp.1 wa wb ea hrel hea
    simp only at hb
    rw [hb]
    simp only [Res.ok_bind, IsError_shift]
    obtain ⟨v, s', w'⟩ := ea
    simp only at hs hext hrel1 h ⊢
    subst hs
    by_cases herr : IsError v = true
    · rw [if_pos herr] at h ⊢
      cases h
      exact ⟨rfl, hext, wb1, rfl, hrel1⟩
    · rw [if_neg herr] at h ⊢
      obtain ⟨h1, h2, wb2, h3, h4⟩ := ih hp.2 (acc ++ [v]) w' wb1 res hrel1 h
      refine ⟨h1, hext.transE h2, wb2, ?_, h4⟩
      rw [← h3, List.map_append]
      rfl

theorem pure_evalArray {n0 k : Nat} {s : State} {ev : Node → State → World → Res Out}
    (hev : PureEv n0 k s ev) (es : List Expr) (hp : isPureList es = true) :
    PureStep n0 k s (fun w => evalArray ev es s w) := by
  intro wa wb oa hrel h
  simp only [evalArray] at h ⊢
  obtain ⟨res, hres, h1⟩ := Res.bind_eq_ok h
  clear h
  rename' h1 => h
  obtain ⟨hs, hext, wb1, hb, hrel1⟩ := pure_evalExpressions hev es hp [] wa wb res hrel hres
  simp only [List.map_nil] at hb
  rw [hb]
  obtain ⟨vs, s', w'⟩ := res
  simp only at hs hext hrel1 h ⊢
  subst hs
  simp only [Res.ok_bind, singleError_shift]
  cases hse : singleError vs with
  | some err =>
    rw [hse] at h
    simp only [Option.map] at h ⊢
    cases h
    exact ⟨rfl, hext, wb1, rfl, hrel1⟩
  | none =>
    rw [hse] at h
    simp only [Option.map] at h ⊢
    cases h
    obtain ⟨hr1, hr2⟩ := hrel1.allocR vs
    refine ⟨rfl, hext.transE (Extends.allocE _ _), _, ?_, hr2⟩
    simp only [Res.pure_eq, shiftObj, hr1]

/-- The evaluation of a pure expression on a store whose array handles are below
`n0` is a pure step. -/
theorem Eval_pure (H : Host) (n0 k : Nat) (s : State) (hlow : StoreLow n0 s) :
    ∀ fuel : Nat, PureEv n0 k s (Eval H fuel) := by
  intro fuel
  induction fuel with
  | zero =>
    intro e _ wa wb oa _ h
    cases h
  | succ fuel ih =>
    intro e he
    cases e with
    | nil => cases he
    | PrefixExpr op r => exact pure_evalPrefixExpr ih H op r he
    | InfixExpr l op r =>
      simp only [isPure, Bool.and_eq_true] at he
      exact pure_evalInfixExpr ih H l op r he.1 he.2
    | Assign i v => cases he
    | AssignExpr i op v => cases he
    | Call f args vd => cases he
    | Identifier name => exact pure_const n0 k s _ (evalIdent_shift n0 k H name s hlow)
    | CharCon v => exact pure_const n0 k s _ rfl
    | IntCon v => exact pure_const n0 k s _ rfl
    | FloatCon v => exact pure_const n0 k s _ rfl
    | StringCon v => exact pure_const n0 k s _ rfl
    | Bool v => exact pure_const n0 k s _ rfl
    | Array es => exact pure_evalArray ih es he
    | IndexExpr i x => exact pure_evalIndexExpr ih hlow H i x he
    | AssignIndexExpr i x v => cases he
    | AssignExprIndexExpr i x op v => cases he
theorem WorldRel.zeroR (n0 : Nat) (w : World) (h : n0 ≤ w.cells.length) : WorldRel n0 0 w w :=
  ⟨h, rfl, fun _ _ => rfl,
    fun r _ _ => by
      have e : (shiftObj n0 0) = id := funext (shiftObj_zero n0)
      rw [e, List.map_id]
      rfl,
    fun _ _ x _ => shiftObj_zero n0 x, rfl, rfl⟩

theorem StoreLow.monoL {n0 n1 : Nat} {s : State} (h : StoreLow n0 s) (hle : n0 ≤ n1) :
    StoreLow n1 s := fun x el r hx => Nat.lt_of_lt_of_le (h x el r hx) hle

/-- A pure expression hands back the store and only allocates arrays. -/
theorem pure_extends (H : Host) (fuel : Nat) (e : Expr) (hp : isPure e = true) (s : State)
    (w : World) (hlow : StoreLow w.cells.length s) (o : Out)
    (h : Eval H fuel (Node.expr e) s w = Res.ok o) : o.s = s ∧ Extends w o.w := by
  obtain ⟨h1, h2, _⟩ := Eval_pure H w.cells.length 0 s hlow fuel e hp w w o
    (WorldRel.zeroR _ w (le_refl _)) h
  exact ⟨h1, h2⟩

theorem World.elems_high (w : World) (r : Nat) (h : w.cells.length ≤ r) : w.elems r = [] := by
  simp [World.elems, List.getElem?_eq_none h]

/-- Corresponding objects in corresponding worlds are the same to every depth. -/
theorem sameDeep_shift {n0 k : Nat} {w1 w2 : World} (hrel : WorldRel n0 k w1 w2) :
    ∀ (d : Nat) (x : Object), sameDeep w1 w2 d x (shiftObj n0 k x) := by
  intro d
  induction d with
  | zero => intro x; simp [sameDeep]
  | succ d ih =>
    intro x
    cases x <;> try (simp [sameDeep, shiftObj]; done)
    rename_i el r
    obtain ⟨h1, h2, h3, h4, h5, _, _⟩ := hrel
    simp only [shiftObj, sameDeep, true_and]
    by_cases hr : r < n0
    · simp only [shiftRef, hr, if_true, h3 r hr]
      rw [List.forall₂_same]
      intro y hy
      have := ih y
      rw [h5 r hr y hy] at this
      exact this
    · simp only [shiftRef, hr, if_false]
      by_cases hr2 : r < w1.cells.length
      · rw [h4 r (by omega) hr2, List.forall₂_map_right_iff, List.forall₂_same]
        intro y _
        exact ih y
      · rw [World.elems_high w1 r (by omega), World.elems_high w2 (r + k) (by omega)]
        exact List.Forall₂.nil

/-- A world that extends a well-formed one corresponds to it, the arrays of the
well-formed world being the common part. -/
theorem WorldRel.of_extends {s : State} {w w1 : World} (hwf : WellFormed s w)
    (hext : Extends w w1) :
    WorldRel w.cells.length (w1.cells.length - w.cells.length) w w1 := by
  obtain ⟨extra, hc, hr, ho⟩ := hext
  have hlen : w1.cells.length = w.cells.length + extra.length := by rw [hc, List.length_append]
  refine ⟨le_refl _, by omega, ?_, ?_, ?_, hr, ho⟩
  · intro r hr'
    simp [World.elems, hc, List.getElem?_append_left hr']
  · intro r h1 h2
    omega
  · intro r hr' x hx
    cases x <;> try rfl
    rename_i el r'
    exact shiftObj_low _ _ el r' (hwf.2 r hr' el r' hx)

/-! ## C22: idempotence of pure expressions -/

/-- C22. Idempotence of pure expressions: when the evaluation of an expression
built only from literals, identifiers, prefix operators, infix operators, array
literals and index reads returns, on a well-formed store and world, it hands back
the store as it was and has only allocated arrays; evaluating it a second time on
what the first evaluation left returns as well, hands back the same store, and
yields an identical result: the same object when the first result is no array (the
same value or the same error), and in any case an object that is the same to every
depth (for an array, which each evaluation allocates anew: the same element-type
name and the same elements). -/
theorem C22_pure_idempotent (H : Host) (fuel : Nat) (e : Expr) (s : State) (w : World)
    (o1 : Out) (hp : isPure e = true) (hwf : WellFormed s w)
    (h1 : Eval H fuel (Node.expr e) s w = Res.ok o1) :
    o1.s = s ∧ Extends w o1.w ∧
    ∃ o2, Eval H fuel (Node.expr e) o1.s o1.w = Res.ok o2 ∧ o2.s = s ∧ Extends o1.w o2.w ∧
      ((∀ el r, o1.val ≠ Object.Array el r) → o2.val = o1.val) ∧
      (∀ d, sameDeep o1.w o2.w d o1.val o2.val) := by
  obtain ⟨hs, hext⟩ := pure_extends H fuel e hp s w hwf.1 o1 h1
  have hrel := WorldRel.of_extends hwf hext
  obtain ⟨_, _, wb', hb, hrel'⟩ := Eval_pure H _ _ s hwf.1 fuel e hp w o1.w o1 hrel h1
  simp only at hb
  have hlow1 : StoreLow o1.w.cells.length s := by
    obtain ⟨extra, hc, _, _⟩ := hext
    exact hwf.1.monoL (by rw [hc, List.length_append]; omega)
  obtain ⟨_, hext2⟩ := pure_extends H fuel e hp s o1.w hlow1 _ hb
  refine ⟨hs, hext, ⟨_, s, wb'⟩, by rw [hs]; exact hb, rfl, hext2, ?_, ?_⟩
  · intro hna
    exact shiftObj_not_array _ _ _ hna
  · intro d
    exact sameDeep_shift hrel' d o1.val
theorem wellFormed_storeA : WellFormed storeA worldA2 := by
  constructor
  · intro x el r h
    by_cases hx : x = "a"
    · subst hx
      cases h
      decide
    · have : storeA.Get x = none := by
        have hb : (x == "a") = false := by simpa using hx
        simp [storeA, State.Get, List.lookup, hb]
      rw [this] at h
      cases h
  · intro r hr el r' hmem
    have hr0 : r = 0 := by
      simp [worldA2] at hr
      exact hr
    subst hr0
    simp [worldA2, World.elems] at hmem

/-- C22, witness: with `a` the array `{1, 2}`, the literal `{a[0], 1 + 1}` evaluates
to a fresh array `{1, 2}`, and a second time to another fresh array with the same
element-type name and elements; the store is the same after both. -/
theorem C22_pure_idempotent_witness :
    Eval sampleHost 4 (Node.expr pureLit) storeA worldA2
      = Res.ok ⟨Object.Array "" 1, storeA,
          ⟨[[Object.Int 1, Object.Int 2], [Object.Int 1, Object.Int 2]], 0, []⟩⟩ ∧
    Eval sampleHost 4 (Node.expr pureLit) storeA
        ⟨[[Object.Int 1, Object.Int 2], [Object.Int 1, Object.Int 2]], 0, []⟩
      = Res.ok ⟨Object.Array "" 2, storeA,
          ⟨[[Object.Int 1, Object.Int 2], [Object.Int 1, Object.Int 2],
            [Object.Int 1, Object.Int 2]], 0, []⟩⟩ ∧
    ∃ o2, Eval sampleHost 4 (Node.expr pureLit) storeA
        ⟨[[Object.Int 1, Object.Int 2], [Object.Int 1, Object.Int 2]], 0, []⟩ = Res.ok o2 ∧
      o2.s = storeA ∧
      ∀ d, sameDeep ⟨[[Object.Int 1, Object.Int 2], [Object.Int 1, Object.Int 2]], 0, []⟩ o2.w d
        (Object.Array "" 1) o2.val := by
  refine ⟨rfl, rfl, ?_⟩
  obtain ⟨_, _, o2, h2, hs2, _, _, hd⟩ :=
    C22_pure_idempotent sampleHost 4 pureLit storeA worldA2
      ⟨Object.Array "" 1, storeA,
        ⟨[[Object.Int 1, Object.Int 2], [Object.Int 1, Object.Int 2]], 0, []⟩⟩
      rfl wellFormed_storeA rfl
  exact ⟨o2, h2, hs2, hd⟩

/-! ## C31: plain assignment and new names -/

/-- C31 (amended). Plain assignment `x = e` to a name `x` that is not the name of a
built-in function. When `x` is not bound, the assignment yields the
undeclared-identifier error without evaluating `e`, and hands back store and world
as they were. When the assignment succeeds (yields nothing), `x` was bound, to an
object `u`; `e` has evaluated to an object `v` that is no error and has the type tag
of `u`, which is also the tag of the value `x` has in the store `s1` that the
evaluation of `e` left; and the store handed back is `s1` with `x` rebound to `v`:
every other name is bound as in `s1`, and `s1` is the store `s` itself when `e` is an
identifier or a literal. -/
theorem C31_assignment (H : Host) (fuel : Nat) (x : String) (e : Expr) (s : State)
    (w : World) (hb : builtins x = none) :
    (s.Get x = none →
      Eval H (fuel + 2) (Node.expr (Expr.Assign x e)) s w
        = Res.ok ⟨errorObj H ("identifier " ++ x ++ " undeclared"), s, w⟩) ∧
    (∀ o, Eval H (fuel + 2) (Node.expr (Expr.Assign x e)) s w = Res.ok o →
      o.val = Object.nil →
      ∃ u v s1 w1, s.Get x = some u ∧
        Eval H (fuel + 1) (Node.expr e) s w = Res.ok ⟨v, s1, w1⟩ ∧
        IsError v = false ∧ v.Type = u.Type ∧
        (∃ u1, s1.Get x = some u1 ∧ u1.Type = u.Type) ∧
        o.s = s1.Set x v ∧ o.w = w1 ∧ o.s.Get x = some v ∧
        (∀ k, k ≠ x → o.s.Get k = s1.Get k) ∧
        (isIdentOrLit e = true → s1 = s ∧ w1 = w)) := by
  have e1 : Eval H (fuel + 2) (Node.expr (Expr.Assign x e)) s w
      = evalAssign H (Eval H (fuel + 1)) x e s w := rfl
  refine ⟨?_, ?_⟩
  · intro hs
    rw [e1]
    unfold evalAssign
    simp only [Eval_ident, Res.ok_bind]
    have hid : evalIdent H x s = errorObj H ("identifier " ++ x ++ " undeclared") := by
      simp [evalIdent, hs, hb]
    rw [hid]
    rfl
  · intro o h hnil
    rw [e1] at h
    unfold evalAssign at h
    simp only [Eval_ident, Res.ok_bind] at h
    by_cases hid : IsError (evalIdent H x s) = true
    · rw [if_pos hid] at h
      cases h
      simp only at hnil
      rw [hnil] at hid
      cases hid
    · rw [if_neg hid] at h
      have hbound : (s.Get x).isSome := by
        rcases bound_of_evalIdent H x s hid with hb1 | hb1
        · exact hb1
        · rw [hb] at hb1; cases hb1
      obtain ⟨u, hu⟩ := Option.isSome_iff_exists.1 hbound
      have hidu : evalIdent H x s = u := evalIdent_of_Get H x s u hu
      obtain ⟨r, hr, h1⟩ := Res.bind_eq_ok h
      clear h
      obtain ⟨v, s1, w1⟩ := r
      simp only at h1
      by_cases herr : IsError v = true
      · rw [if_pos herr] at h1
        cases h1
        simp only at hnil
        rw [hnil] at herr
        cases herr
      · rw [if_neg herr] at h1
        obtain ⟨ti, hti, h2⟩ := Res.bind_eq_ok h1
        obtain ⟨tv, htv, h3⟩ := Res.bind_eq_ok h2
        by_cases hty : ti ≠ tv
        · rw [if_pos hty] at h3
          cases h3
          cases hnil
        · rw [if_neg hty] at h3
          cases h3
          have heq : ti = tv := not_not.1 hty
          rw [hidu] at hti
          obtain ⟨u1, hu1, hu1t⟩ := (Eval_types H (fuel + 1)).1 _ s w _ hr x u hu
          refine ⟨u, v, s1, w1, hu, hr, by simpa using herr, by rw [htv, hti, heq],
            ⟨u1, hu1, hu1t⟩, rfl, rfl,
            State.Get_Set_self _ _ _, fun k hk => State.Get_Set_other _ _ _ _ hk, ?_⟩
          intro hlit
          exact Eval_identOrLit H (fuel + 1) e hlit s w _ hr

/-- C31, witness: with `x` bound to 1, `x = 2` yields nothing and rebinds `x`; in
the empty store `z = 2` yields the undeclared-identifier error. -/
theorem C31_assignment_witness :
    Eval sampleHost 2 (Node.expr (Expr.Assign "z" (Expr.IntCon 2))) NewState emptyWorld
      = Res.ok ⟨errorObj sampleHost ("identifier " ++ "z" ++ " undeclared"), NewState,
          emptyWorld⟩ ∧
    ∃ u v s1 w1, storeX1.Get "x" = some u ∧
      Eval sampleHost 1 (Node.expr (Expr.IntCon 2)) storeX1 emptyWorld
        = Res.ok ⟨v, s1, w1⟩ ∧
      IsError v = false ∧ v.Type = u.Type ∧
      (∃ u1, s1.Get "x" = some u1 ∧ u1.Type = u.Type) ∧
      (⟨Object.nil, storeX1.Set "x" (Object.Int 2), emptyWorld⟩ : Out).s = s1.Set "x" v ∧
      (⟨Object.nil, storeX1.Set "x" (Object.Int 2), emptyWorld⟩ : Out).w = w1 ∧
      (⟨Object.nil, storeX1.Set "x" (Object.Int 2), emptyWorld⟩ : Out).s.Get "x" = some v ∧
      (∀ k, k ≠ "x" →
        (⟨Object.nil, storeX1.Set "x" (Object.Int 2), emptyWorld⟩ : Out).s.Get k = s1.Get k) ∧
      (isIdentOrLit (Expr.IntCon 2) = true → s1 = storeX1 ∧ w1 = emptyWorld) :=
  ⟨(C31_assignment sampleHost 0 "z" (Expr.IntCon 2) NewState emptyWorld rfl).1 rfl,
    (C31_assignment sampleHost 0 "x" (Expr.IntCon 2) storeX1 emptyWorld rfl).2
      ⟨Object.nil, storeX1.Set "x" (Object.Int 2), emptyWorld⟩ rfl rfl⟩

/-- C31, counterexample: in the empty store `print` is not bound, and `print = println`
yields nothing and binds `print`. And with `a` an array and `y` bound to 1, the
assignment `a = {y = 5}` succeeds, rebinds `a`, and leaves `y` bound to 5. -/
theorem C31_counterexample :
    NewState.Get "print" = none ∧
    (∃ o, Eval sampleHost 2 (Node.expr (Expr.Assign "print" (Expr.Identifier "println")))
        NewState emptyWorld = Res.ok o ∧
      o.val = Object.nil ∧
      o.s.Get "print" = some (Object.BuiltIn BuiltInFunc.println)) ∧
    storeAY.Get "y" = some (Object.Int 1) ∧
    (∃ o, Eval sampleHost 4
        (Node.expr (Expr.Assign "a" (Expr.Array [Expr.Assign "y" (Expr.IntCon 5)])))
        storeAY worldA2 = Res.ok o ∧
      o.val = Object.nil ∧
      o.s.Get "a" = some (Object.Array "" 1) ∧
      o.s.Get "y" = some (Object.Int 5)) :=
  ⟨rfl,
    ⟨⟨Object.nil, NewState.Set "print" (Object.BuiltIn BuiltInFunc.println), emptyWorld⟩,
      rfl, rfl, rfl⟩,
    rfl,
    ⟨⟨Object.nil, ⟨[("a", Object.Array "" 1), ("y", Object.Int 5)]⟩,
      ⟨[[Object.Int 1, Object.Int 2], [Object.nil]], 0, []⟩⟩, rfl, rfl, rfl, rfl⟩⟩

/-! ## C6: array homogeneity on declaration, with the declared name -/

/-- C6 (amended). Array homogeneity on declaration: for an array declared type
with element type name `el` and element tag `tag`, a fresh name `x` and an
initializer (an array literal in particular) whose first evaluation is not an error
and whose second evaluation, the one whose result the declaration uses, is an array
with the elements `e0 :: rest`, none of them the nil interface: if every element
has the tag `tag` the declaration yields no error and binds `x` to that array with
the element type name `el`; if some element has another tag than the first one, it
yields the heterogeneous-array error; if all elements share a tag that is not `tag`,
it yields the illegal-element-type error; in the two error cases nothing is
declared: store and world are those that the second evaluation left. Evaluating the
initializer binds no new name but names of built-in functions, so `x` is unbound in
that store when `x` is not such a name. -/
theorem C6_array_homogeneity (H : Host) (fuel : Nat) (T x : String) (value : Expr) (s : State)
    (w : World) (el : String) (tag : ObjectType) (r1 : Out) (et : String) (ref : Nat)
    (s2 : State) (w2 : World) (e0 : Object) (rest : List Object) (t0 : ObjectType)
    (hx : s.Get x = none)
    (hT : arrayElem T = some (el, tag))
    (h1 : Eval H fuel (Node.expr value) s w = Res.ok r1) (hne : IsError r1.val = false)
    (h2 : Eval H fuel (Node.expr value) r1.s r1.w = Res.ok ⟨Object.Array et ref, s2, w2⟩)
    (hel : w2.elems ref = e0 :: rest)
    (hnn : ∀ v ∈ e0 :: rest, v ≠ Object.nil)
    (ht0 : e0.Type = Res.ok t0) :
    ((∀ v ∈ e0 :: rest, v.Type = Res.ok tag) →
      Eval H (fuel + 1) (Node.stmt (Stmt.VarDecl T x value true)) s w
        = Res.ok ⟨Object.nil, s2.Set x (Object.Array el ref), w2⟩) ∧
    ((∃ v ∈ e0 :: rest, v.Type ≠ Res.ok t0) →
      Eval H (fuel + 1) (Node.stmt (Stmt.VarDecl T x value true)) s w
        = Res.ok ⟨errorObj H ("heterogeneous array typings: " ++ x), s2, w2⟩) ∧
    ((∀ v ∈ e0 :: rest, v.Type = Res.ok t0) → t0 ≠ tag →
      Eval H (fuel + 1) (Node.stmt (Stmt.VarDecl T x value true)) s w
        = Res.ok ⟨errorObj H ("illegal type in " ++ el ++ " array: " ++ ObjString e0),
            s2, w2⟩) ∧
    (builtins x = none → s2.Get x = none) := by
  obtain ⟨c1, c2, c3⟩ := arrayDecl_cases H fuel T x value s w el tag r1 et ref s2 w2 e0 rest t0
    hx hT h1 hne h2 hel hnn ht0
  refine ⟨c1, c2, c3, ?_⟩
  intro hb
  have hbi := ((Eval_bi H fuel).1 value s w r1 h1).transB
    ((Eval_bi H fuel).1 value r1.s r1.w _ h2)
  cases hs : s2.Get x with
  | none => rfl
  | some u =>
    have := hbi x (by simp only [hs]; rfl)
    rw [hx, hb] at this
    rcases this with h | h <;> cases h

/-- C6, witness: `intarr a = {1, 2, 3};` succeeds and `intarr b = {1, "x"};` fails
with the heterogeneous-array error, both in the empty store. -/
theorem C6_array_homogeneity_witness :
    Eval sampleHost 3 (Node.stmt declA123) NewState emptyWorld
      = Res.ok ⟨Object.nil, NewState.Set "a" (Object.Array "int" 1),
          ⟨[[Object.Int 1, Object.Int 2, Object.Int 3],
            [Object.Int 1, Object.Int 2, Object.Int 3]], 0, []⟩⟩ ∧
    Eval sampleHost 3 (Node.stmt declB1x) NewState emptyWorld
      = Res.ok ⟨errorObj sampleHost ("heterogeneous array typings: " ++ "b"), NewState,
          ⟨[[Object.Int 1, Object.String "x"], [Object.Int 1, Object.String "x"]], 0, []⟩⟩ ∧
    NewState.Get "b" = none :=
  ⟨(C6_array_homogeneity sampleHost 2 "intarr" "a"
      (Expr.Array [Expr.IntCon 1, Expr.IntCon 2, Expr.IntCon 3]) NewState emptyWorld "int"
      ObjectType.IntObj
      ⟨Object.Array "" 0, NewState, ⟨[[Object.Int 1, Object.Int 2, Object.Int 3]], 0, []⟩⟩
      "" 1 NewState
      ⟨[[Object.Int 1, Object.Int 2, Object.Int 3],
        [Object.Int 1, Object.Int 2, Object.Int 3]], 0, []⟩
      (Object.Int 1) [Object.Int 2, Object.Int 3] ObjectType.IntObj
      rfl rfl rfl rfl rfl rfl (by simp) rfl).1 (by simp [Object.Type]),
   (C6_array_homogeneity sampleHost 2 "intarr" "b"
      (Expr.Array [Expr.IntCon 1, Expr.StringCon "x"]) NewState emptyWorld "int"
      ObjectType.IntObj
      ⟨Object.Array "" 0, NewState, ⟨[[Object.Int 1, Object.String "x"]], 0, []⟩⟩
      "" 1 NewState
      ⟨[[Object.Int 1, Object.String "x"], [Object.Int 1, Object.String "x"]], 0, []⟩
      (Object.Int 1) [Object.String "x"] ObjectType.IntObj
      rfl rfl rfl rfl rfl rfl (by simp) rfl).2.1 ⟨Object.String "x", by simp, by simp [Object.Type]⟩,
   (C6_array_homogeneity sampleHost 2 "intarr" "b"
      (Expr.Array [Expr.IntCon 1, Expr.StringCon "x"]) NewState emptyWorld "int"
      ObjectType.IntObj
      ⟨Object.Array "" 0, NewState, ⟨[[Object.Int 1, Object.String "x"]], 0, []⟩⟩
      "" 1 NewState
      ⟨[[Object.Int 1, Object.String "x"], [Object.Int 1, Object.String "x"]], 0, []⟩
      (Object.Int 1) [Object.String "x"] ObjectType.IntObj
      rfl rfl rfl rfl rfl rfl (by simp) rfl).2.2.2 rfl⟩

/-! ## C3: what a call can reach -/

theorem HandlesIn.of_scalar (P : Nat → Prop) (x : Object)
    (ha : ∀ el r, x ≠ Object.Array el r) (hr : ∀ v, x ≠ Object.Return v) : HandlesIn P x := by
  cases x <;> first | trivial | exact absurd rfl (ha _ _) | exact absurd rfl (hr _)

theorem HandlesIn.mono {P Q : Nat → Prop} (hPQ : ∀ r, P r → Q r) :
    ∀ x : Object, HandlesIn P x → HandlesIn Q x := by
  intro x
  induction x with
  | Array el r => exact hPQ r
  | Return v ih => exact ih
  | _ => intro _; trivial

theorem StoreIn.setIn {P : Nat → Prop} {s : State} (h : StoreIn P s) (k : String) (v : Object)
    (hv : HandlesIn P v) : StoreIn P (s.Set k v) := by
  intro k' v' hk
  rw [State.Get_Set] at hk
  split at hk
  · cases hk; exact hv
  · exact h k' v' hk

theorem StoreIn.newIn (P : Nat → Prop) : StoreIn P NewState := by
  intro k v h
  cases h

theorem StoreIn.updateIn {P : Nat → Prop} {s t : State} (ht : StoreIn P t) :
    StoreIn P (UpdateState s t) := by
  intro k v h
  rw [Get_UpdateState] at h
  cases hs : s.Get k with
  | none => rw [hs] at h; cases h
  | some u =>
    rw [hs] at h
    simp at h
    cases hg : t.Get k with
    | none => rw [hg] at h; simp at h; subst h; trivial
    | some v' =>
      rw [hg] at h
      simp at h
      subst h
      exact ht k _ hg

theorem StoreIn.copied {P : Nat → Prop} {s : State} (h : StoreIn P s) :
    StoreIn P (NewCopiedState s) := h

theorem evalIdent_handles (P : Nat → Prop) (H : Host) (name : String) (s : State)
    (hs : StoreIn P s) : HandlesIn P (evalIdent H name s) := by
  unfold evalIdent
  cases hg : s.Get name with
  | some v => exact hs name v hg
  | none =>
    cases hb : builtins name with
    | some f => trivial
    | none => trivial

theorem zeroValue_handles (P : Nat → Prop) (tag : ObjectType) : HandlesIn P (zeroValue tag) := by
  cases tag <;> trivial

theorem infixInt_handles (P : Nat → Prop) (H : Host) (op : String) (a b : Int) (x : Object)
    (h : evalInfixExprInt H op a b = Res.ok x) : HandlesIn P x := by
  rcases infixInt_kind H op a b x h with ⟨v, rfl⟩ | ⟨v, rfl⟩ | ⟨m, rfl⟩ <;> trivial

theorem infixFloat_handles (P : Nat → Prop) (H : Host) (op : String) (a b : F64) :
    HandlesIn P (evalInfixExprFloat H op a b) := by
  rcases infixFloat_kind H op a b with ⟨v, e⟩ | ⟨v, e⟩ | ⟨m, e⟩ <;> rw [e] <;> trivial

theorem infixString_handles (P : Nat → Prop) (H : Host) (op : String) (a b : String) :
    HandlesIn P (evalInfixExprString H op a b) := by
  rcases infixString_kind H op a b with ⟨v, e⟩ | ⟨v, e⟩ | ⟨m, e⟩ <;> rw [e] <;> trivial

theorem infixVal_handles (P : Nat → Prop) (H : Host) (op : String) (l r x : Object)
    (hx : infixVal H op l r = Res.ok x) : HandlesIn P x := by
  cases l <;> cases r <;> simp [infixVal, Object.Type, errorObj] at hx
  all_goals first
    | (subst hx; trivial)
    | (rename_i a b
       first
       | exact infixInt_handles P H op a b x hx
       | (subst hx; exact infixFloat_handles P H op a b)
       | (subst hx; exact infixString_handles P H op a b)
       | (subst hx
          rcases infixChar_kind H op a b with ⟨v, e⟩ | ⟨v, e⟩ | ⟨v, e⟩ <;> rw [e] <;> trivial)
       | (subst hx
          rcases infixBool_kind H op a b with ⟨v, e⟩ | ⟨v, e⟩ <;> rw [e] <;> trivial))

theorem prefixVal_handles (P : Nat → Prop) (H : Host) (op : String) (v x : Object)
    (hx : prefixVal H op v = Res.ok x) : HandlesIn P x := by
  unfold prefixVal at hx
  split at hx
  · cases v <;> simp [evalNotOp, Object.Type, errorObj] at hx
    all_goals first
      | (subst hx; trivial)
      | (split at hx <;> first | (cases hx; trivial) | (simp at hx))
  split at hx
  · cases hx; cases v <;> trivial
  split at hx
  · cases hx; cases v <;> trivial
  split at hx
  · cases hx; cases v <;> trivial
  cases hx; trivial

theorem Framed.sameF {P : Nat → Prop} {w : World} (hP : ∀ r, w.cells.length ≤ r → P r)
    (hc : ∀ r, P r → ∀ x ∈ w.elems r, HandlesIn P x) : Framed P w w :=
  ⟨hP, le_refl _, hc, fun _ _ => rfl, fun _ _ => rfl⟩

theorem Framed.of_cells {P : Nat → Prop} {w0 w w1 : World} (h : Framed P w0 w)
    (hc : w1.cells = w.cells) : Framed P w0 w1 := by
  have he : ∀ r, w1.elems r = w.elems r := fun r => by simp [World.elems, hc]
  obtain ⟨h1, h2, h3, h4, h5⟩ := h
  refine ⟨h1, by rw [hc]; exact h2, ?_, ?_, ?_⟩
  · intro r hr x hx; rw [he] at hx; exact h3 r hr x hx
  · intro r hr; rw [he]; exact h4 r hr
  · intro r hr; rw [he]; exact h5 r hr

theorem Framed.allocF {P : Nat → Prop} {w0 w : World} (h : Framed P w0 w) (es : List Object)
    (hes : ∀ x ∈ es, HandlesIn P x) :
    Framed P w0 (w.alloc es).2 ∧ P (w.alloc es).1 := by
  obtain ⟨h1, h2, h3, h4, h5⟩ := h
  have hnew : P w.cells.length := h1 _ h2
  refine ⟨⟨h1, by rw [World.length_alloc]; omega, ?_, ?_, ?_⟩, hnew⟩
  · intro r hr x hx
    rcases Nat.lt_trichotomy r w.cells.length with hlt | heq | hgt
    · rw [World.elems_alloc_old _ _ _ hlt] at hx; exact h3 r hr x hx
    · subst heq; rw [World.elems_alloc_new] at hx; exact hes x hx
    · rw [World.elems_high _ _ (by rw [World.length_alloc]; omega)] at hx; cases hx
  · intro r hr
    have hlt : r < w.cells.length := by
      by_contra hc
      exact hr (h1 r (by omega))
    rw [World.elems_alloc_old _ _ _ hlt]; exact h4 r hr
  · intro r hr
    rw [World.elems_alloc_old _ _ _ (by omega)]; exact h5 r hr

theorem World.length_write (w : World) (ref idx : Nat) (v : Object) :
    (w.write ref idx v).cells.length = w.cells.length := by
  simp [World.write]

theorem World.elems_write_length (w : World) (ref idx : Nat) (v : Object) (r : Nat) :
    ((w.write ref idx v).elems r).length = (w.elems r).length := by
  by_cases h : r = ref
  · subst h
    by_cases hl : r < w.cells.length
    · rw [World.elems_write_same _ _ _ _ hl, List.length_set]
    · rw [World.elems_high _ _ (by rw [World.length_write]; omega),
        World.elems_high _ _ (by omega)]
  · rw [World.elems_write_other _ _ _ _ _ h]

theorem World.mem_elems_write (w : World) (ref idx : Nat) (v x : Object)
    (hx : x ∈ (w.write ref idx v).elems ref) : x ∈ w.elems ref ∨ x = v := by
  by_cases hl : ref < w.cells.length
  · rw [World.elems_write_same _ _ _ _ hl] at hx
    exact List.mem_or_eq_of_mem_set hx
  · rw [World.elems_high _ _ (by rw [World.length_write]; omega)] at hx
    cases hx

theorem Framed.writeF {P : Nat → Prop} {w0 w : World} (h : Framed P w0 w) (ref idx : Nat)
    (v : Object) (href : P ref) (hv : HandlesIn P v) : Framed P w0 (w.write ref idx v) := by
  obtain ⟨h1, h2, h3, h4, h5⟩ := h
  refine ⟨h1, by rw [World.length_write]; exact h2, ?_, ?_, ?_⟩
  · intro r hr x hx
    by_cases he : r = ref
    · subst he
      rcases World.mem_elems_write _ _ _ _ _ hx with hm | rfl
      · exact h3 r hr x hm
      · exact hv
    · rw [World.elems_write_other _ _ _ _ _ he] at hx; exact h3 r hr x hx
  · intro r hr
    have he : r ≠ ref := fun e => hr (e ▸ href)
    rw [World.elems_write_other _ _ _ _ _ he]; exact h4 r hr
  · intro r hr
    rw [World.elems_write_length]; exact h5 r hr

theorem Framed.elemF {P : Nat → Prop} {w0 w : World} (h : Framed P w0 w) (ref idx : Nat)
    (href : P ref) : HandlesIn P ((w.elems ref).getD idx Object.nil) := by
  by_cases hi : idx < (w.elems ref).length
  · rw [List.getD_eq_getElem _ _ hi]
    exact h.2.2.1 ref href _ (List.getElem_mem _)
  · rw [List.getD_eq_default _ _ (by omega)]
    trivial

theorem printArgs_cells (fuel : Nat) :
    ∀ (args : List Object) (w w1 : World), printArgs fuel args w = Res.ok w1 →
      w1.cells = w.cells := by
  intro args
  induction args with
  | nil => intro w w1 h; cases h; rfl
  | cons a rest ih =>
    intro w w1 h
    simp only [printArgs] at h
    obtain ⟨t, _, h⟩ := Res.bind_eq_ok h
    have e := ih _ _ h
    exact e

theorem builtin_call_frame (P : Nat → Prop) (H : Host) (fuel : Nat) (b : BuiltInFunc)
    (args : List Object) (w : World) (v : Object) (w2 : World)
    (h : b.call H fuel args w = Res.ok (v, w2)) : w2.cells = w.cells ∧ HandlesIn P v := by
  cases b with
  | println =>
    simp only [BuiltInFunc.call] at h
    obtain ⟨w1, hw1, h⟩ := Res.bind_eq_ok h
    have e := printArgs_cells fuel args w w1 hw1
    cases h
    exact ⟨e, trivial⟩
  | print =>
    simp only [BuiltInFunc.call] at h
    obtain ⟨w1, hw1, h⟩ := Res.bind_eq_ok h
    have e := printArgs_cells fuel args w w1 hw1
    cases h
    exact ⟨e, trivial⟩
  | rand =>
    simp only [BuiltInFunc.call] at h
    split at h <;> cases h <;> exact ⟨rfl, trivial⟩

theorem bindParams_storeIn (P : Nat → Prop) :
    ∀ (ps : List Param) (args : List Object) (s b : State), StoreIn P s →
      (∀ a ∈ args, HandlesIn P a) → bindParams ps args s = Res.ok b → StoreIn P b := by
  intro ps
  induction ps with
  | nil =>
    intro args s b hs _ h
    cases h
    exact hs
  | cons p ps ih =>
    intro args s b hs hargs h
    cases args with
    | nil => cases h
    | cons a rest =>
      simp only [bindParams] at h
      exact ih rest _ b (hs.setIn _ _ (hargs a (List.mem_cons_self _ _)))
        (fun x hx => hargs x (List.mem_cons_of_mem _ hx)) h

theorem copyFunctionsLoop_storeIn (P : Nat → Prop) (t : State) :
    ∀ (l : List (String × Object)) (s s' : State), StoreIn P s →
      copyFunctionsLoop t l s = Res.ok s' → StoreIn P s' := by
  intro l
  induction l with
  | nil =>
    intro s s' hs h
    cases h
    exact hs
  | cons kv rest ih =>
    intro s s' hs h
    simp only [copyFunctionsLoop] at h
    obtain ⟨ty, hty, h⟩ := Res.bind_eq_ok h
    split at h
    · rename_i hfd
      subst hfd
      refine ih _ s' (hs.setIn _ _ ?_) h
      generalize (t.Get kv.1).getD Object.nil = val at hty
      cases val <;> simp [Object.Type] at hty
      trivial
    · exact ih _ s' hs h

theorem Framed.alloc_zero {P : Nat → Prop} {w0 w : World} (h : Framed P w0 w) (n : Nat)
    (tag : ObjectType) :
    Framed P w0 (w.alloc (List.replicate n (zeroValue tag))).2 ∧
      P (w.alloc (List.replicate n (zeroValue tag))).1 :=
  h.allocF _ (fun x hx => by rw [List.eq_of_mem_replicate hx]; exact zeroValue_handles P tag)

theorem unwrapReturn_handles (P : Nat → Prop) (x : Object) (h : HandlesIn P x) :
    HandlesIn P (unwrapReturn x) := by
  cases x <;> exact h

theorem singleError_handles (P : Nat → Prop) (es : List Object) (err : Object)
    (h : singleError es = some err) : HandlesIn P err := by
  cases es with
  | nil => cases h
  | cons x rest =>
    cases rest with
    | nil =>
      simp only [singleError] at h
      split at h
      · cases h
        rename_i hx
        cases err <;> first | trivial | (simp [IsError] at hx)
      · cases h
    | cons _ _ => cases h

theorem infixFloat_handlesR (P : Nat → Prop) (H : Host) (op : String) (a b : F64) (x : Object)
    (h : (pure (evalInfixExprFloat H op a b) : Res Object) = Res.ok x) : HandlesIn P x := by
  cases h
  exact infixFloat_handles P H op a b

theorem infixString_handlesR (P : Nat → Prop) (H : Host) (op : String) (a b : String)
    (x : Object) (h : (pure (evalInfixExprString H op a b) : Res Object) = Res.ok x) :
    HandlesIn P x := by
  cases h
  exact infixString_handles P H op a b

theorem indexVal_handles (P : Nat → Prop) (w0 : World) (H : Host) (ident : String)
    (s : State) (x : Object) (w : World) (hs : StoreIn P s) (hw : Framed P w0 w) (y : Object)
    (h : indexVal H ident s x w = Res.ok y) : HandlesIn P y := by
  unfold indexVal at h
  obtain ⟨tx, _, h⟩ := Res.bind_eq_ok h
  split at h
  · cases h; trivial
  · split at h
    · cases h; trivial
    · rename_i array hg
      obtain ⟨ta, _, h⟩ := Res.bind_eq_ok h
      split at h
      · cases h; trivial
      · split at h
        · split at h
          · cases h; trivial
          · cases h
            exact hw.elemF _ _ (hs _ _ hg)
        · cases h

theorem frame_evalProgramLoop {P : Nat → Prop} {w0 : World} {ev : Node → State → World → Res Out}
    (hev : EvFrame P w0 ev) :
    ∀ (p : List Stmt) (res : Object) (s : State) (w : World) (o : Out), StoreIn P s →
      Framed P w0 w → HandlesIn P res → evalProgramLoop ev p res s w = Res.ok o →
      StoreIn P o.s ∧ Framed P w0 o.w ∧ HandlesIn P o.val := by
  intro p
  induction p with
  | nil =>
    intro res s w o hs hw hres h
    simp [evalProgramLoop] at h
    subst h
    exact ⟨hs, hw, hres⟩
  | cons st rest ih =>
    intro res s w o hs hw _ h
    have hk : StoreIn P s ∧ Framed P w0 w ∧ True := ⟨hs, hw, trivial⟩
    simp only [evalProgramLoop] at h
    iterate 6 (
      all_goals try (first
          | (cases h; done)
          | (obtain ⟨r, hr, h'⟩ := Res.bind_eq_ok h; clear h; rename' h' => h; try beta_reduce at h;
             first | (replace hk := hev _ _ _ _ hk.1 hk.2.1 hr) | skip)
          | (split at h)
          | (simp at h; subst h;
             first
             | (refine ⟨?_, hk.2.1, ?_⟩ <;> first
               | exact hk.1 | exact hs
               | exact StoreIn.updateIn hk.1
               | (refine StoreIn.setIn hk.1 _ _ ?_; first
               | exact hk.2.2
               | exact trivial
               | exact zeroValue_handles _ _
               | exact evalIdent_handles _ _ _ _ (by assumption)
               | exact infixVal_handles _ _ _ _ _ _ (by assumption)
               | exact prefixVal_handles _ _ _ _ _ (by assumption)
               | exact indexVal_handles _ _ _ _ _ _ _ hk.1 hk.2.1 _ (by assumption)
               | (apply infixInt_handles; assumption)
               | (apply infixFloat_handlesR; assumption)
               | (apply infixString_handlesR; assumption)
               | (cases hr; exact trivial)
               | (have hv := hk.2.2; simp only [*] at hv; exact hv)
               | exact hk.1 _ _ (by assumption)
               | (subst_vars; exact hk.1 _ _ (by assumption)))
               | (first
               | exact hk.2.2
               | exact trivial
               | exact zeroValue_handles _ _
               | exact evalIdent_handles _ _ _ _ (by assumption)
               | exact infixVal_handles _ _ _ _ _ _ (by assumption)
               | exact prefixVal_handles _ _ _ _ _ (by assumption)
               | exact indexVal_handles _ _ _ _ _ _ _ hk.1 hk.2.1 _ (by assumption)
               | (apply infixInt_handles; assumption)
               | (apply infixFloat_handlesR; assumption)
               | (apply infixString_handlesR; assumption)
               | (cases hr; exact trivial)
               | (have hv := hk.2.2; simp only [*] at hv; exact hv)
               | exact hk.1 _ _ (by assumption)
               | (subst_vars; exact hk.1 _ _ (by assumption))))
             | exact ⟨StoreIn.setIn hk.1 _ _ (Framed.alloc_zero hk.2.1 _ _).2,
                 (Framed.alloc_zero hk.2.1 _ _).1, trivial⟩)
          | (exact ih _ _ _ _ hk.1 hk.2.1 hk.2.2 h)))

theorem frame_evalFuncDecl {P : Nat → Prop} {w0 : World} (H : Host) (t i : String)
    (ps : List Param) (b : List Stmt) (s : State) (w : World) (o : Out) (hs : StoreIn P s)
    (hw : Framed P w0 w) (h : evalFuncDecl H t i ps b s w = Res.ok o) :
    StoreIn P o.s ∧ Framed P w0 o.w ∧ HandlesIn P o.val := by
  unfold evalFuncDecl at h
  split at h
  · simp at h; subst h; exact ⟨hs, hw, trivial⟩
  · simp at h; subst h; exact ⟨hs.setIn _ _ trivial, hw, trivial⟩

theorem frame_evalIfElse {P : Nat → Prop} {w0 : World} {ev : Node → State → World → Res Out}
    (hev : EvFrame P w0 ev)
    (H : Host) (c : Expr) (a b : Stmt) (ha : Bool) (s : State) (w : World) (o : Out) (hs : StoreIn P s) (hw : Framed P w0 w)
    (h : evalIfElse H ev c a b ha s w = Res.ok o) : StoreIn P o.s ∧ Framed P w0 o.w ∧ HandlesIn P o.val := by
  have hk : StoreIn P s ∧ Framed P w0 w ∧ True := ⟨hs, hw, trivial⟩
  unfold evalIfElse at h
  iterate 10 (
    all_goals try (first
        | (cases h; done)
        | (obtain ⟨r, hr, h'⟩ := Res.bind_eq_ok h; clear h; rename' h' => h; try beta_reduce at h;
           first | (replace hk := hev _ _ _ _ hk.1 hk.2.1 hr) | skip)
        | (split at h)
        | (simp at h; subst h;
           first
           | (refine ⟨?_, hk.2.1, ?_⟩ <;> first
             | exact hk.1 | exact hs
             | exact StoreIn.updateIn hk.1
             | (refine StoreIn.setIn hk.1 _ _ ?_; first
             | exact hk.2.2
             | exact trivial
             | exact zeroValue_handles _ _
             | exact evalIdent_handles _ _ _ _ (by assumption)
             | exact infixVal_handles _ _ _ _ _ _ (by assumption)
             | exact prefixVal_handles _ _ _ _ _ (by assumption)
             | exact indexVal_handles _ _ _ _ _ _ _ hk.1 hk.2.1 _ (by assumption)
             | (apply infixInt_handles; assumption)
             | (apply infixFloat_handlesR; assumption)
             | (apply infixString_handlesR; assumption)
             | (cases hr; exact trivial)
             | (have hv := hk.2.2; simp only [*] at hv; exact hv)
             | exact hk.1 _ _ (by assumption)
             | (subst_vars; exact hk.1 _ _ (by assumption)))
             | (first
             | exact hk.2.2
             | exact trivial
             | exact zeroValue_handles _ _
             | exact evalIdent_handles _ _ _ _ (by assumption)
             | exact infixVal_handles _ _ _ _ _ _ (by assumption)
             | exact prefixVal_handles _ _ _ _ _ (by assumption)
             | exact indexVal_handles _ _ _ _ _ _ _ hk.1 hk.2.1 _ (by assumption)
             | (apply infixInt_handles; assumption)
             | (apply infixFloat_handlesR; assumption)
             | (apply infixString_handlesR; assumption)
             | (cases hr; exact trivial)
             | (have hv := hk.2.2; simp only [*] at hv; exact hv)
             | exact hk.1 _ _ (by assumption)
             | (subst_vars; exact hk.1 _ _ (by assumption))))
           | exact ⟨StoreIn.setIn hk.1 _ _ (Framed.alloc_zero hk.2.1 _ _).2,
               (Framed.alloc_zero hk.2.1 _ _).1, trivial⟩)
        | (exact hev _ _ _ _ hk.1 hk.2.1 h)))

theorem frame_evalReturn {P : Nat → Prop} {w0 : World} {ev : Node → State → World → Res Out}
    (hev : EvFrame P w0 ev)
    (v : Expr) (vd : Bool) (s : State) (w : World) (o : Out) (hs : StoreIn P s) (hw : Framed P w0 w)
    (h : evalReturn ev v vd s w = Res.ok o) : StoreIn P o.s ∧ Framed P w0 o.w ∧ HandlesIn P o.val := by
  have hk : StoreIn P s ∧ Framed P w0 w ∧ True := ⟨hs, hw, trivial⟩
  unfold evalReturn at h
  iterate 6 (
    all_goals try (first
        | (cases h; done)
        | (obtain ⟨r, hr, h'⟩ := Res.bind_eq_ok h; clear h; rename' h' => h; try beta_reduce at h;
           first | (replace hk := hev _ _ _ _ hk.1 hk.2.1 hr) | skip)
        | (split at h)
        | (simp at h; subst h;
           first
           | (refine ⟨?_, hk.2.1, ?_⟩ <;> first
             | exact hk.1 | exact hs
             | exact StoreIn.updateIn hk.1
             | (refine StoreIn.setIn hk.1 _ _ ?_; first
             | exact hk.2.2
             | exact trivial
             | exact zeroValue_handles _ _
             | exact evalIdent_handles _ _ _ _ (by assumption)
             | exact infixVal_handles _ _ _ _ _ _ (by assumption)
             | exact prefixVal_handles _ _ _ _ _ (by assumption)
             | exact indexVal_handles _ _ _ _ _ _ _ hk.1 hk.2.1 _ (by assumption)
             | (apply infixInt_handles; assumption)
             | (apply infixFloat_handlesR; assumption)
             | (apply infixString_handlesR; assumption)
             | (cases hr; exact trivial)
             | (have hv := hk.2.2; simp only [*] at hv; exact hv)
             | exact hk.1 _ _ (by assumption)
             | (subst_vars; exact hk.1 _ _ (by assumption)))
             | (first
             | exact hk.2.2
             | exact trivial
             | exact zeroValue_handles _ _
             | exact evalIdent_handles _ _ _ _ (by assumption)
             | exact infixVal_handles _ _ _ _ _ _ (by assumption)
             | exact prefixVal_handles _ _ _ _ _ (by assumption)
             | exact indexVal_handles _ _ _ _ _ _ _ hk.1 hk.2.1 _ (by assumption)
             | (apply infixInt_handles; assumption)
             | (apply infixFloat_handlesR; assumption)
             | (apply infixString_handlesR; assumption)
             | (cases hr; exact trivial)
             | (have hv := hk.2.2; simp only [*] at hv; exact hv)
             | exact hk.1 _ _ (by assumption)
             | (subst_vars; exact hk.1 _ _ (by assumption))))
           | exact ⟨StoreIn.setIn hk.1 _ _ (Framed.alloc_zero hk.2.1 _ _).2,
               (Framed.alloc_zero hk.2.1 _ _).1, trivial⟩)
        | (exact hev _ _ _ _ hk.1 hk.2.1 h)))

theorem frame_evalPrefixExpr {P : Nat → Prop} {w0 : World} {ev : Node → State → World → Res Out}
    (hev : EvFrame P w0 ev)
    (H : Host) (op : String) (e : Expr) (s : State) (w : World) (o : Out) (hs : StoreIn P s) (hw : Framed P w0 w)
    (h : evalPrefixExpr H ev op e s w = Res.ok o) : StoreIn P o.s ∧ Framed P w0 o.w ∧ HandlesIn P o.val := by
  have hk : StoreIn P s ∧ Framed P w0 w ∧ True := ⟨hs, hw, trivial⟩
  rw [evalPrefixExpr_eq] at h
  iterate 8 (
    all_goals try (first
        | (cases h; done)
        | (obtain ⟨r, hr, h'⟩ := Res.bind_eq_ok h; clear h; rename' h' => h; try beta_reduce at h;
           first | (replace hk := hev _ _ _ _ hk.1 hk.2.1 hr) | skip)
        | (split at h)
        | (simp at h; subst h;
           first
           | (refine ⟨?_, hk.2.1, ?_⟩ <;> first
             | exact hk.1 | exact hs
             | exact StoreIn.updateIn hk.1
             | (refine StoreIn.setIn hk.1 _ _ ?_; first
             | exact hk.2.2
             | exact trivial
             | exact zeroValue_handles _ _
             | exact evalIdent_handles _ _ _ _ (by assumption)
             | exact infixVal_handles _ _ _ _ _ _ (by assumption)
             | exact prefixVal_handles _ _ _ _ _ (by assumption)
             | exact indexVal_handles _ _ _ _ _ _ _ hk.1 hk.2.1 _ (by assumption)
             | (apply infixInt_handles; assumption)
             | (apply infixFloat_handlesR; assumption)
             | (apply infixString_handlesR; assumption)
             | (cases hr; exact trivial)
             | (have hv := hk.2.2; simp only [*] at hv; exact hv)
             | exact hk.1 _ _ (by assumption)
             | (subst_vars; exact hk.1 _ _ (by assumption)))
             | (first
             | exact hk.2.2
             | exact trivial
             | exact zeroValue_handles _ _
             | exact evalIdent_handles _ _ _ _ (by assumption)
             | exact infixVal_handles _ _ _ _ _ _ (by assumption)
             | exact prefixVal_handles _ _ _ _ _ (by assumption)
             | exact indexVal_handles _ _ _ _ _ _ _ hk.1 hk.2.1 _ (by assumption)
             | (apply infixInt_handles; assumption)
             | (apply infixFloat_handlesR; assumption)
             | (apply infixString_handlesR; assumption)
             | (cases hr; exact trivial)
             | (have hv := hk.2.2; simp only [*] at hv; exact hv)
             | exact hk.1 _ _ (by assumption)
             | (subst_vars; exact hk.1 _ _ (by assumption))))
           | exact ⟨StoreIn.setIn hk.1 _ _ (Framed.alloc_zero hk.2.1 _ _).2,
               (Framed.alloc_zero hk.2.1 _ _).1, trivial⟩)
        | (exact hev _ _ _ _ hk.1 hk.2.1 h)))

theorem frame_evalInfixExpr {P : Nat → Prop} {w0 : World} {ev : Node → State → World → Res Out}
    (hev : EvFrame P w0 ev)
    (H : Host) (l : Expr) (op : String) (e : Expr) (s : State) (w : World) (o : Out) (hs : StoreIn P s) (hw : Framed P w0 w)
    (h : evalInfixExpr H ev l op e s w = Res.ok o) : StoreIn P o.s ∧ Framed P w0 o.w ∧ HandlesIn P o.val := by
  have hk : StoreIn P s ∧ Framed P w0 w ∧ True := ⟨hs, hw, trivial⟩
  rw [evalInfixExpr_eq] at h
  iterate 10 (
    all_goals try (first
        | (cases h; done)
        | (obtain ⟨r, hr, h'⟩ := Res.bind_eq_ok h; clear h; rename' h' => h; try beta_reduce at h;
           first | (replace hk := hev _ _ _ _ hk.1 hk.2.1 hr) | skip)
        | (split at h)
        | (simp at h; subst h;
           first
           | (refine ⟨?_, hk.2.1, ?_⟩ <;> first
             | exact hk.1 | exact hs
             | exact StoreIn.updateIn hk.1
             | (refine StoreIn.setIn hk.1 _ _ ?_; first
             | exact hk.2.2
             | exact trivial
             | exact zeroValue_handles _ _
             | exact evalIdent_handles _ _ _ _ (by assumption)
             | exact infixVal_handles _ _ _ _ _ _ (by assumption)
             | exact prefixVal_handles _ _ _ _ _ (by assumption)
             | exact indexVal_handles _ _ _ _ _ _ _ hk.1 hk.2.1 _ (by assumption)
             | (apply infixInt_handles; assumption)
             | (apply infixFloat_handlesR; assumption)
             | (apply infixString_handlesR; assumption)
             | (cases hr; exact trivial)
             | (have hv := hk.2.2; simp only [*] at hv; exact hv)
             | exact hk.1 _ _ (by assumption)
             | (subst_vars; exact hk.1 _ _ (by assumption)))
             | (first
             | exact hk.2.2
             | exact trivial
             | exact zeroValue_handles _ _
             | exact evalIdent_handles _ _ _ _ (by assumption)
             | exact infixVal_handles _ _ _ _ _ _ (by assumption)
             | exact prefixVal_handles _ _ _ _ _ (by assumption)
             | exact indexVal_handles _ _ _ _ _ _ _ hk.1 hk.2.1 _ (by assumption)
             | (apply infixInt_handles; assumption)
             | (apply infixFloat_handlesR; assumption)
             | (apply infixString_handlesR; assumption)
             | (cases hr; exact trivial)
             | (have hv := hk.2.2; simp only [*] at hv; exact hv)
             | exact hk.1 _ _ (by assumption)
             | (subst_vars; exact hk.1 _ _ (by assumption))))
           | exact ⟨StoreIn.setIn hk.1 _ _ (Framed.alloc_zero hk.2.1 _ _).2,
               (Framed.alloc_zero hk.2.1 _ _).1, trivial⟩)
        | (exact hev _ _ _ _ hk.1 hk.2.1 h)))

theorem frame_evalIndexExpr {P : Nat → Prop} {w0 : World} {ev : Node → State → World → Res Out}
    (hev : EvFrame P w0 ev)
    (H : Host) (i : String) (x : Expr) (s : State) (w : World) (o : Out) (hs : StoreIn P s) (hw : Framed P w0 w)
    (h : evalIndexExpr H ev i x s w = Res.ok o) : StoreIn P o.s ∧ Framed P w0 o.w ∧ HandlesIn P o.val := by
  have hk : StoreIn P s ∧ Framed P w0 w ∧ True := ⟨hs, hw, trivial⟩
  rw [evalIndexExpr_eq] at h
  iterate 10 (
    all_goals try (first
        | (cases h; done)
        | (obtain ⟨r, hr, h'⟩ := Res.bind_eq_ok h; clear h; rename' h' => h; try beta_reduce at h;
           first | (replace hk := hev _ _ _ _ hk.1 hk.2.1 hr) | skip)
        | (split at h)
        | (simp at h; subst h;
           first
           | (refine ⟨?_, hk.2.1, ?_⟩ <;> first
             | exact hk.1 | exact hs
             | exact StoreIn.updateIn hk.1
             | (refine StoreIn.setIn hk.1 _ _ ?_; first
             | exact hk.2.2
             | exact trivial
             | exact zeroValue_handles _ _
             | exact evalIdent_handles _ _ _ _ (by assumption)
             | exact infixVal_handles _ _ _ _ _ _ (by assumption)
             | exact prefixVal_handles _ _ _ _ _ (by assumption)
             | exact indexVal_handles _ _ _ _ _ _ _ hk.1 hk.2.1 _ (by assumption)
             | (apply infixInt_handles; assumption)
             | (apply infixFloat_handlesR; assumption)
             | (apply infixString_handlesR; assumption)
             | (cases hr; exact trivial)
             | (have hv := hk.2.2; simp only [*] at hv; exact hv)
             | exact hk.1 _ _ (by assumption)
             | (subst_vars; exact hk.1 _ _ (by assumption)))
             | (first
             | exact hk.2.2
             | exact trivial
             | exact zeroValue_handles _ _
             | exact evalIdent_handles _ _ _ _ (by assumption)
             | exact infixVal_handles _ _ _ _ _ _ (by assumption)
             | exact prefixVal_handles _ _ _ _ _ (by assumption)
             | exact indexVal_handles _ _ _ _ _ _ _ hk.1 hk.2.1 _ (by assumption)
             | (apply infixInt_handles; assumption)
             | (apply infixFloat_handlesR; assumption)
             | (apply infixString_handlesR; assumption)
             | (cases hr; exact trivial)
             | (have hv := hk.2.2; simp only [*] at hv; exact hv)
             | exact hk.1 _ _ (by assumption)
             | (subst_vars; exact hk.1 _ _ (by assumption))))
           | exact ⟨StoreIn.setIn hk.1 _ _ (Framed.alloc_zero hk.2.1 _ _).2,
               (Framed.alloc_zero hk.2.1 _ _).1, trivial⟩)
        | (exact hev _ _ _ _ hk.1 hk.2.1 h)))

theorem frame_evalAssign {P : Nat → Prop} {w0 : World} {ev : Node → State → World → Res Out}
    (hev : EvFrame P w0 ev)
    (H : Host) (i : String) (e : Expr) (s : State) (w : World) (o : Out) (hs : StoreIn P s) (hw : Framed P w0 w)
    (h : evalAssign H ev i e s w = Res.ok o) : StoreIn P o.s ∧ Framed P w0 o.w ∧ HandlesIn P o.val := by
  have hk : StoreIn P s ∧ Framed P w0 w ∧ True := ⟨hs, hw, trivial⟩
  unfold evalAssign at h
  iterate 12 (
    all_goals try (first
        | (cases h; done)
        | (obtain ⟨r, hr, h'⟩ := Res.bind_eq_ok h; clear h; rename' h' => h; try beta_reduce at h;
           first | (replace hk := hev _ _ _ _ hk.1 hk.2.1 hr) | skip)
        | (split at h)
        | (simp at h; subst h;
           first
           | (refine ⟨?_, hk.2.1, ?_⟩ <;> first
             | exact hk.1 | exact hs
             | exact StoreIn.updateIn hk.1
             | (refine StoreIn.setIn hk.1 _ _ ?_; first
             | exact hk.2.2
             | exact trivial
             | exact zeroValue_handles _ _
             | exact evalIdent_handles _ _ _ _ (by assumption)
             | exact infixVal_handles _ _ _ _ _ _ (by assumption)
             | exact prefixVal_handles _ _ _ _ _ (by assumption)
             | exact indexVal_handles _ _ _ _ _ _ _ hk.1 hk.2.1 _ (by assumption)
             | (apply infixInt_handles; assumption)
             | (apply infixFloat_handlesR; assumption)
             | (apply infixString_handlesR; assumption)
             | (cases hr; exact trivial)
             | (have hv := hk.2.2; simp only [*] at hv; exact hv)
             | exact hk.1 _ _ (by assumption)
             | (subst_vars; exact hk.1 _ _ (by assumption)))
             | (first
             | exact hk.2.2
             | exact trivial
             | exact zeroValue_handles _ _
             | exact evalIdent_handles _ _ _ _ (by assumption)
             | exact infixVal_handles _ _ _ _ _ _ (by assumption)
             | exact prefixVal_handles _ _ _ _ _ (by assumption)
             | exact indexVal_handles _ _ _ _ _ _ _ hk.1 hk.2.1 _ (by assumption)
             | (apply infixInt_handles; assumption)
             | (apply infixFloat_handlesR; assumption)
             | (apply infixString_handlesR; assumption)
             | (cases hr; exact trivial)
             | (have hv := hk.2.2; simp only [*] at hv; exact hv)
             | exact hk.1 _ _ (by assumption)
             | (subst_vars; exact hk.1 _ _ (by assumption))))
           | exact ⟨StoreIn.setIn hk.1 _ _ (Framed.alloc_zero hk.2.1 _ _).2,
               (Framed.alloc_zero hk.2.1 _ _).1, trivial⟩)
        | (exact hev _ _ _ _ hk.1 hk.2.1 h)))

theorem frame_evalAssignExpr {P : Nat → Prop} {w0 : World} {ev : Node → State → World → Res Out}
    (hev : EvFrame P w0 ev)
    (H : Host) (i op : String) (e : Expr) (s : State) (w : World) (o : Out) (hs : StoreIn P s) (hw : Framed P w0 w)
    (h : evalAssignExpr H ev i op e s w = Res.ok o) : StoreIn P o.s ∧ Framed P w0 o.w ∧ HandlesIn P o.val := by
  have hk : StoreIn P s ∧ Framed P w0 w ∧ True := ⟨hs, hw, trivial⟩
  unfold evalAssignExpr at h
  iterate 14 (
    all_goals try (first
        | (cases h; done)
        | (obtain ⟨r, hr, h'⟩ := Res.bind_eq_ok h; clear h; rename' h' => h; try beta_reduce at h;
           first | (replace hk := hev _ _ _ _ hk.1 hk.2.1 hr) | skip)
        | (split at h)
        | (simp at h; subst h;
           first
           | (refine ⟨?_, hk.2.1, ?_⟩ <;> first
             | exact hk.1 | exact hs
             | exact StoreIn.updateIn hk.1
             | (refine StoreIn.setIn hk.1 _ _ ?_; first
             | exact hk.2.2
             | exact trivial
             | exact zeroValue_handles _ _
             | exact evalIdent_handles _ _ _ _ (by assumption)
             | exact infixVal_handles _ _ _ _ _ _ (by assumption)
             | exact prefixVal_handles _ _ _ _ _ (by assumption)
             | exact indexVal_handles _ _ _ _ _ _ _ hk.1 hk.2.1 _ (by assumption)
             | (apply infixInt_handles; assumption)
             | (apply infixFloat_handlesR; assumption)
             | (apply infixString_handlesR; assumption)
             | (cases hr; exact trivial)
             | (have hv := hk.2.2; simp only [*] at hv; exact hv)
             | exact hk.1 _ _ (by assumption)
             | (subst_vars; exact hk.1 _ _ (by assumption)))
             | (first
             | exact hk.2.2
             | exact trivial
             | exact zeroValue_handles _ _
             | exact evalIdent_handles _ _ _ _ (by assumption)
             | exact infixVal_handles _ _ _ _ _ _ (by assumption)
             | exact prefixVal_handles _ _ _ _ _ (by assumption)
             | exact indexVal_handles _ _ _ _ _ _ _ hk.1 hk.2.1 _ (by assumption)
             | (apply infixInt_handles; assumption)
             | (apply infixFloat_handlesR; assumption)
             | (apply infixString_handlesR; assumption)
             | (cases hr; exact trivial)
             | (have hv := hk.2.2; simp only [*] at hv; exact hv)
             | exact hk.1 _ _ (by assumption)
             | (subst_vars; exact hk.1 _ _ (by assumption))))
           | exact ⟨StoreIn.setIn hk.1 _ _ (Framed.alloc_zero hk.2.1 _ _).2,
               (Framed.alloc_zero hk.2.1 _ _).1, trivial⟩)
        | (exact hev _ _ _ _ hk.1 hk.2.1 h)))

theorem frame_evalVarDecl {P : Nat → Prop} {w0 : World} {ev : Node → State → World → Res Out}
    (hev : EvFrame P w0 ev)
    (H : Host) (t i : String) (v : Expr) (ini : Bool) (s : State) (w : World) (o : Out) (hs : StoreIn P s) (hw : Framed P w0 w)
    (h : evalVarDecl H ev t i v ini s w = Res.ok o) : StoreIn P o.s ∧ Framed P w0 o.w ∧ HandlesIn P o.val := by
  have hk : StoreIn P s ∧ Framed P w0 w ∧ True := ⟨hs, hw, trivial⟩
  unfold evalVarDecl at h
  iterate 16 (
    all_goals try (first
        | (cases h; done)
        | (obtain ⟨r, hr, h'⟩ := Res.bind_eq_ok h; clear h; rename' h' => h; try beta_reduce at h;
           first | (replace hk := hev _ _ _ _ hk.1 hk.2.1 hr) | skip)
        | (split at h)
        | (simp at h; subst h;
           first
           | (refine ⟨?_, hk.2.1, ?_⟩ <;> first
             | exact hk.1 | exact hs
             | exact StoreIn.updateIn hk.1
             | (refine StoreIn.setIn hk.1 _ _ ?_; first
             | exact hk.2.2
             | exact trivial
             | exact zeroValue_handles _ _
             | exact evalIdent_handles _ _ _ _ (by assumption)
             | exact infixVal_handles _ _ _ _ _ _ (by assumption)
             | exact prefixVal_handles _ _ _ _ _ (by assumption)
             | exact indexVal_handles _ _ _ _ _ _ _ hk.1 hk.2.1 _ (by assumption)
             | (apply infixInt_handles; assumption)
             | (apply infixFloat_handlesR; assumption)
             | (apply infixString_handlesR; assumption)
             | (cases hr; exact trivial)
             | (have hv := hk.2.2; simp only [*] at hv; exact hv)
             | exact hk.1 _ _ (by assumption)
             | (subst_vars; exact hk.1 _ _ (by assumption)))
             | (first
             | exact hk.2.2
             | exact trivial
             | exact zeroValue_handles _ _
             | exact evalIdent_handles _ _ _ _ (by assumption)
             | exact infixVal_handles _ _ _ _ _ _ (by assumption)
             | exact prefixVal_handles _ _ _ _ _ (by assumption)
             | exact indexVal_handles _ _ _ _ _ _ _ hk.1 hk.2.1 _ (by assumption)
             | (apply infixInt_handles; assumption)
             | (apply infixFloat_handlesR; assumption)
             | (apply infixString_handlesR; assumption)
             | (cases hr; exact trivial)
             | (have hv := hk.2.2; simp only [*] at hv; exact hv)
             | exact hk.1 _ _ (by assumption)
             | (subst_vars; exact hk.1 _ _ (by assumption))))
           | exact ⟨StoreIn.setIn hk.1 _ _ (Framed.alloc_zero hk.2.1 _ _).2,
               (Framed.alloc_zero hk.2.1 _ _).1, trivial⟩)
        | (exact hev _ _ _ _ hk.1 hk.2.1 h)))

theorem frame_evalBlockLoop {P : Nat → Prop} {w0 : World} {ev : Node → State → World → Res Out}
    (hev : EvFrame P w0 ev) (s : State) :
    ∀ (b : List Stmt) (res : Object) (copied : State) (w : World) (o : Out), StoreIn P s →
      StoreIn P copied → Framed P w0 w → HandlesIn P res →
      evalBlockLoop ev s b res copied w = Res.ok o →
      StoreIn P o.s ∧ Framed P w0 o.w ∧ HandlesIn P o.val := by
  intro b
  induction b with
  | nil =>
    intro res copied w o hs hc hw hres h
    simp [evalBlockLoop] at h
    subst h
    exact ⟨StoreIn.updateIn hc, hw, hres⟩
  | cons st rest ih =>
    intro res copied w o hs hc hw _ h
    have hk : StoreIn P copied ∧ Framed P w0 w ∧ True := ⟨hc, hw, trivial⟩
    simp only [evalBlockLoop] at h
    iterate 6 (
      all_goals try (first
          | (cases h; done)
          | (obtain ⟨r, hr, h'⟩ := Res.bind_eq_ok h; clear h; rename' h' => h; try beta_reduce at h;
             first | (replace hk := hev _ _ _ _ hk.1 hk.2.1 hr) | skip)
          | (split at h)
          | (simp at h; subst h;
             first
             | (refine ⟨?_, hk.2.1, ?_⟩ <;> first
               | exact hk.1 | exact hs
               | exact StoreIn.updateIn hk.1
               | (refine StoreIn.setIn hk.1 _ _ ?_; first
               | exact hk.2.2
               | exact trivial
               | exact zeroValue_handles _ _
               | exact evalIdent_handles _ _ _ _ (by assumption)
               | exact infixVal_handles _ _ _ _ _ _ (by assumption)
               | exact prefixVal_handles _ _ _ _ _ (by assumption)
               | exact indexVal_handles _ _ _ _ _ _ _ hk.1 hk.2.1 _ (by assumption)
               | (apply infixInt_handles; assumption)
               | (apply infixFloat_handlesR; assumption)
               | (apply infixString_handlesR; assumption)
               | (cases hr; exact trivial)
               | (have hv := hk.2.2; simp only [*] at hv; exact hv)
               | exact hk.1 _ _ (by assumption)
               | (subst_vars; exact hk.1 _ _ (by assumption)))
               | (first
               | exact hk.2.2
               | exact trivial
               | exact zeroValue_handles _ _
               | exact evalIdent_handles _ _ _ _ (by assumption)
               | exact infixVal_handles _ _ _ _ _ _ (by assumption)
               | exact prefixVal_handles _ _ _ _ _ (by assumption)
               | exact indexVal_handles _ _ _ _ _ _ _ hk.1 hk.2.1 _ (by assumption)
               | (apply infixInt_handles; assumption)
               | (apply infixFloat_handlesR; assumption)
               | (apply infixString_handlesR; assumption)
               | (cases hr; exact trivial)
               | (have hv := hk.2.2; simp only [*] at hv; exact hv)
               | exact hk.1 _ _ (by assumption)
               | (subst_vars; exact hk.1 _ _ (by assumption))))
             | exact ⟨StoreIn.setIn hk.1 _ _ (Framed.alloc_zero hk.2.1 _ _).2,
                 (Framed.alloc_zero hk.2.1 _ _).1, trivial⟩)
          | (exact ih _ _ _ _ hs hk.1 hk.2.1 hk.2.2 h)))

theorem frame_evalBlock {P : Nat → Prop} {w0 : World} {ev : Node → State → World → Res Out}
    (hev : EvFrame P w0 ev)
    (b : List Stmt) (s : State) (w : World) (o : Out) (hs : StoreIn P s) (hw : Framed P w0 w)
    (h : evalBlock ev b s w = Res.ok o) :
    StoreIn P o.s ∧ Framed P w0 o.w ∧ HandlesIn P o.val :=
  frame_evalBlockLoop hev s b Object.nil (NewCopiedState s) w o hs hs hw trivial h

theorem frame_evalWhileLoop {P : Nat → Prop} {w0 : World} {ev : Node → State → World → Res Out}
    (hev : EvFrame P w0 ev) (c : Expr) (b : Stmt) :
    ∀ (n : Nat) (cond : Object) (s : State) (w : World) (o : Out), StoreIn P s →
      Framed P w0 w → evalWhileLoop ev c b n cond s w = Res.ok o →
      StoreIn P o.s ∧ Framed P w0 o.w ∧ HandlesIn P o.val := by
  intro n
  induction n with
  | zero => intro cond s w o _ _ h; cases h
  | succ n ih =>
    intro cond s w o hs hw h
    have hk : StoreIn P s ∧ Framed P w0 w ∧ True := ⟨hs, hw, trivial⟩
    simp only [evalWhileLoop] at h
    iterate 8 (
      all_goals try (first
          | (cases h; done)
          | (obtain ⟨r, hr, h'⟩ := Res.bind_eq_ok h; clear h; rename' h' => h; try beta_reduce at h;
             first | (replace hk := hev _ _ _ _ hk.1 hk.2.1 hr) | skip)
          | (split at h)
          | (simp at h; subst h;
             first
             | (refine ⟨?_, hk.2.1, ?_⟩ <;> first
               | exact hk.1 | exact hs
               | exact StoreIn.updateIn hk.1
               | (refine StoreIn.setIn hk.1 _ _ ?_; first
               | exact hk.2.2
               | exact trivial
               | exact zeroValue_handles _ _
               | exact evalIdent_handles _ _ _ _ (by assumption)
               | exact infixVal_handles _ _ _ _ _ _ (by assumption)
               | exact prefixVal_handles _ _ _ _ _ (by assumption)
               | exact indexVal_handles _ _ _ _ _ _ _ hk.1 hk.2.1 _ (by assumption)
               | (apply infixInt_handles; assumption)
               | (apply infixFloat_handlesR; assumption)
               | (apply infixString_handlesR; assumption)
               | (cases hr; exact trivial)
               | (have hv := hk.2.2; simp only [*] at hv; exact hv)
               | exact hk.1 _ _ (by assumption)
               | (subst_vars; exact hk.1 _ _ (by assumption)))
               | (first
               | exact hk.2.2
               | exact trivial
               | exact zeroValue_handles _ _
               | exact evalIdent_handles _ _ _ _ (by assumption)
               | exact infixVal_handles _ _ _ _ _ _ (by assumption)
               | exact prefixVal_handles _ _ _ _ _ (by assumption)
               | exact indexVal_handles _ _ _ _ _ _ _ hk.1 hk.2.1 _ (by assumption)
               | (apply infixInt_handles; assumption)
               | (apply infixFloat_handlesR; assumption)
               | (apply infixString_handlesR; assumption)
               | (cases hr; exact trivial)
               | (have hv := hk.2.2; simp only [*] at hv; exact hv)
               | exact hk.1 _ _ (by assumption)
               | (subst_vars; exact hk.1 _ _ (by assumption))))
             | exact ⟨StoreIn.setIn hk.1 _ _ (Framed.alloc_zero hk.2.1 _ _).2,
                 (Framed.alloc_zero hk.2.1 _ _).1, trivial⟩)
          | (exact ih _ _ _ _ hk.1 hk.2.1 h)))

theorem frame_evalWhile {P : Nat → Prop} {w0 : World} {ev : Node → State → World → Res Out}
    (hev : EvFrame P w0 ev)
    (H : Host) (fuel : Nat) (c : Expr) (b : Stmt) (s : State) (w : World) (o : Out) (hs : StoreIn P s) (hw : Framed P w0 w)
    (h : evalWhile H ev fuel c b s w = Res.ok o) : StoreIn P o.s ∧ Framed P w0 o.w ∧ HandlesIn P o.val := by
  have hk : StoreIn P s ∧ Framed P w0 w ∧ True := ⟨hs, hw, trivial⟩
  unfold evalWhile at h
  iterate 8 (
    all_goals try (first
        | (cases h; done)
        | (obtain ⟨r, hr, h'⟩ := Res.bind_eq_ok h; clear h; rename' h' => h; try beta_reduce at h;
           first | (replace hk := hev _ _ _ _ hk.1 hk.2.1 hr) | skip)
        | (split at h)
        | (simp at h; subst h;
           first
           | (refine ⟨?_, hk.2.1, ?_⟩ <;> first
             | exact hk.1 | exact hs
             | exact StoreIn.updateIn hk.1
             | (refine StoreIn.setIn hk.1 _ _ ?_; first
             | exact hk.2.2
             | exact trivial
             | exact zeroValue_handles _ _
             | exact evalIdent_handles _ _ _ _ (by assumption)
             | exact infixVal_handles _ _ _ _ _ _ (by assumption)
             | exact prefixVal_handles _ _ _ _ _ (by assumption)
             | exact indexVal_handles _ _ _ _ _ _ _ hk.1 hk.2.1 _ (by assumption)
             | (apply infixInt_handles; assumption)
             | (apply infixFloat_handlesR; assumption)
             | (apply infixString_handlesR; assumption)
             | (cases hr; exact trivial)
             | (have hv := hk.2.2; simp only [*] at hv; exact hv)
             | exact hk.1 _ _ (by assumption)
             | (subst_vars; exact hk.1 _ _ (by assumption)))
             | (first
             | exact hk.2.2
             | exact trivial
             | exact zeroValue_handles _ _
             | exact evalIdent_handles _ _ _ _ (by assumption)
             | exact infixVal_handles _ _ _ _ _ _ (by assumption)
             | exact prefixVal_handles _ _ _ _ _ (by assumption)
             | exact indexVal_handles _ _ _ _ _ _ _ hk.1 hk.2.1 _ (by assumption)
             | (apply infixInt_handles; assumption)
             | (apply infixFloat_handlesR; assumption)
             | (apply infixString_handlesR; assumption)
             | (cases hr; exact trivial)
             | (have hv := hk.2.2; simp only [*] at hv; exact hv)
             | exact hk.1 _ _ (by assumption)
             | (subst_vars; exact hk.1 _ _ (by assumption))))
           | exact ⟨StoreIn.setIn hk.1 _ _ (Framed.alloc_zero hk.2.1 _ _).2,
               (Framed.alloc_zero hk.2.1 _ _).1, trivial⟩)
        | (exact frame_evalWhileLoop hev c b fuel _ _ _ _ hk.1 hk.2.1 h)))

theorem frame_evalForLoop {P : Nat → Prop} {w0 : World} {ev : Node → State → World → Res Out}
    (hev : EvFrame P w0 ev) (c inc : Expr) (b : Stmt) (s : State) :
    ∀ (n : Nat) (cond : Object) (copied : State) (w : World) (o : Out), StoreIn P s →
      StoreIn P copied → Framed P w0 w → evalForLoop ev c inc b s n cond copied w = Res.ok o →
      StoreIn P o.s ∧ Framed P w0 o.w ∧ HandlesIn P o.val := by
  intro n
  induction n with
  | zero => intro cond copied w o _ _ _ h; cases h
  | succ n ih =>
    intro cond copied w o hs hc hw h
    have hk : StoreIn P copied ∧ Framed P w0 w ∧ True := ⟨hc, hw, trivial⟩
    simp only [evalForLoop] at h
    iterate 12 (
      all_goals try (first
          | (cases h; done)
          | (obtain ⟨r, hr, h'⟩ := Res.bind_eq_ok h; clear h; rename' h' => h; try beta_reduce at h;
             first | (replace hk := hev _ _ _ _ hk.1 hk.2.1 hr) | skip)
          | (split at h)
          | (simp at h; subst h;
             first
             | (refine ⟨?_, hk.2.1, ?_⟩ <;> first
               | exact hk.1 | exact hs
               | exact StoreIn.updateIn hk.1
               | (refine StoreIn.setIn hk.1 _ _ ?_; first
               | exact hk.2.2
               | exact trivial
               | exact zeroValue_handles _ _
               | exact evalIdent_handles _ _ _ _ (by assumption)
               | exact infixVal_handles _ _ _ _ _ _ (by assumption)
               | exact prefixVal_handles _ _ _ _ _ (by assumption)
               | exact indexVal_handles _ _ _ _ _ _ _ hk.1 hk.2.1 _ (by assumption)
               | (apply infixInt_handles; assumption)
               | (apply infixFloat_handlesR; assumption)
               | (apply infixString_handlesR; assumption)
               | (cases hr; exact trivial)
               | (have hv := hk.2.2; simp only [*] at hv; exact hv)
               | exact hk.1 _ _ (by assumption)
               | (subst_vars; exact hk.1 _ _ (by assumption)))
               | (first
               | exact hk.2.2
               | exact trivial
               | exact zeroValue_handles _ _
               | exact evalIdent_handles _ _ _ _ (by assumption)
               | exact infixVal_handles _ _ _ _ _ _ (by assumption)
               | exact prefixVal_handles _ _ _ _ _ (by assumption)
               | exact indexVal_handles _ _ _ _ _ _ _ hk.1 hk.2.1 _ (by assumption)
               | (apply infixInt_handles; assumption)
               | (apply infixFloat_handlesR; assumption)
               | (apply infixString_handlesR; assumption)
               | (cases hr; exact trivial)
               | (have hv := hk.2.2; simp only [*] at hv; exact hv)
               | exact hk.1 _ _ (by assumption)
               | (subst_vars; exact hk.1 _ _ (by assumption))))
             | exact ⟨StoreIn.setIn hk.1 _ _ (Framed.alloc_zero hk.2.1 _ _).2,
                 (Framed.alloc_zero hk.2.1 _ _).1, trivial⟩)
          | (exact ih _ _ _ _ hs hk.1 hk.2.1 h)))

theorem frame_evalFor {P : Nat → Prop} {w0 : World} {ev : Node → State → World → Res Out}
    (hev : EvFrame P w0 ev) (H : Host) (fuel : Nat) (i c inc : Expr) (b : Stmt)
    (vd : Bool) (t id : String) (v : Expr) (s : State) (w : World) (o : Out)
    (hs : StoreIn P s) (hw : Framed P w0 w)
    (h : evalFor H ev fuel i c inc b vd t id v s w = Res.ok o) :
    StoreIn P o.s ∧ Framed P w0 o.w ∧ HandlesIn P o.val := by
  have hk : StoreIn P s ∧ Framed P w0 w ∧ True := ⟨hs, hw, trivial⟩
  unfold evalFor at h
  simp only [NewCopiedState_eq] at h
  split at h
  iterate 12 (
    all_goals try (first
        | (cases h; done)
        | (obtain ⟨r, hr, h'⟩ := Res.bind_eq_ok h; clear h; rename' h' => h; try beta_reduce at h;
           first | (replace hk := hev _ _ _ _ hk.1 hk.2.1 hr) | skip)
        | (split at h)
        | (simp at h; subst h;
           first
           | (refine ⟨?_, hk.2.1, ?_⟩ <;> first
             | exact hk.1 | exact hs
             | exact StoreIn.updateIn hk.1
             | (refine StoreIn.setIn hk.1 _ _ ?_; first
             | exact hk.2.2
             | exact trivial
             | exact zeroValue_handles _ _
             | exact evalIdent_handles _ _ _ _ (by assumption)
             | exact infixVal_handles _ _ _ _ _ _ (by assumption)
             | exact prefixVal_handles _ _ _ _ _ (by assumption)
             | exact indexVal_handles _ _ _ _ _ _ _ hk.1 hk.2.1 _ (by assumption)
             | (apply infixInt_handles; assumption)
             | (apply infixFloat_handlesR; assumption)
             | (apply infixString_handlesR; assumption)
             | (cases hr; exact trivial)
             | (have hv := hk.2.2; simp only [*] at hv; exact hv)
             | exact hk.1 _ _ (by assumption)
             | (subst_vars; exact hk.1 _ _ (by assumption)))
             | (first
             | exact hk.2.2
             | exact trivial
             | exact zeroValue_handles _ _
             | exact evalIdent_handles _ _ _ _ (by assumption)
             | exact infixVal_handles _ _ _ _ _ _ (by assumption)
             | exact prefixVal_handles _ _ _ _ _ (by assumption)
             | exact indexVal_handles _ _ _ _ _ _ _ hk.1 hk.2.1 _ (by assumption)
             | (apply infixInt_handles; assumption)
             | (apply infixFloat_handlesR; assumption)
             | (apply infixString_handlesR; assumption)
             | (cases hr; exact trivial)
             | (have hv := hk.2.2; simp only [*] at hv; exact hv)
             | exact hk.1 _ _ (by assumption)
             | (subst_vars; exact hk.1 _ _ (by assumption))))
           | exact ⟨StoreIn.setIn hk.1 _ _ (Framed.alloc_zero hk.2.1 _ _).2,
               (Framed.alloc_zero hk.2.1 _ _).1, trivial⟩)
        | (exact frame_evalForLoop hev c inc b s fuel _ _ _ _ hs hk.1 hk.2.1 h)))

theorem frame_indexTarget {P : Nat → Prop} {w0 : World} {ev : Node → State → World → Res Out}
    (hev : EvFrame P w0 ev) (H : Host) (i : String) (x : Expr) (s : State) (w : World)
    (t : Out ⊕ (String × Nat × Nat × State × World)) (hs : StoreIn P s) (hw : Framed P w0 w)
    (h : indexTarget H ev i x s w = Res.ok t) :
    match t with
    | Sum.inl o => StoreIn P o.s ∧ Framed P w0 o.w ∧ HandlesIn P o.val
    | Sum.inr (_, arr, _, s1, w1) => StoreIn P s1 ∧ Framed P w0 w1 ∧ P arr := by
  have hk : StoreIn P s ∧ Framed P w0 w ∧ True := ⟨hs, hw, trivial⟩
  unfold indexTarget at h
  dsimp only at h
  iterate 14 (
    all_goals try (first
        | (cases h; done)
        | (obtain ⟨r, hr, h'⟩ := Res.bind_eq_ok h; clear h; rename' h' => h; try beta_reduce at h;
           first | (replace hk := hev _ _ _ _ hk.1 hk.2.1 hr) | skip)
        | (split at h)
        | (simp at h; subst h;
           first
           | (refine ⟨?_, hk.2.1, ?_⟩ <;> first
             | exact hk.1 | exact hs
             | exact StoreIn.updateIn hk.1
             | (refine StoreIn.setIn hk.1 _ _ ?_; first
             | exact hk.2.2
             | exact trivial
             | exact zeroValue_handles _ _
             | exact evalIdent_handles _ _ _ _ (by assumption)
             | exact infixVal_handles _ _ _ _ _ _ (by assumption)
             | exact prefixVal_handles _ _ _ _ _ (by assumption)
             | exact indexVal_handles _ _ _ _ _ _ _ hk.1 hk.2.1 _ (by assumption)
             | (apply infixInt_handles; assumption)
             | (apply infixFloat_handlesR; assumption)
             | (apply infixString_handlesR; assumption)
             | (cases hr; exact trivial)
             | (have hv := hk.2.2; simp only [*] at hv; exact hv)
             | exact hk.1 _ _ (by assumption)
             | (subst_vars; exact hk.1 _ _ (by assumption)))
             | (first
             | exact hk.2.2
             | exact trivial
             | exact zeroValue_handles _ _
             | exact evalIdent_handles _ _ _ _ (by assumption)
             | exact infixVal_handles _ _ _ _ _ _ (by assumption)
             | exact prefixVal_handles _ _ _ _ _ (by assumption)
             | exact indexVal_handles _ _ _ _ _ _ _ hk.1 hk.2.1 _ (by assumption)
             | (apply infixInt_handles; assumption)
             | (apply infixFloat_handlesR; assumption)
             | (apply infixString_handlesR; assumption)
             | (cases hr; exact trivial)
             | (have hv := hk.2.2; simp only [*] at hv; exact hv)
             | exact hk.1 _ _ (by assumption)
             | (subst_vars; exact hk.1 _ _ (by assumption))))
           | exact ⟨StoreIn.setIn hk.1 _ _ (Framed.alloc_zero hk.2.1 _ _).2,
               (Framed.alloc_zero hk.2.1 _ _).1, trivial⟩)
        | (exact hev _ _ _ _ hk.1 hk.2.1 h)))

theorem frame_evalAssignIndexExpr {P : Nat → Prop} {w0 : World} {ev : Node → State → World → Res Out}
    (hev : EvFrame P w0 ev) (H : Host) (i : String) (x v : Expr) (s : State)
    (w : World) (o : Out) (hs : StoreIn P s) (hw : Framed P w0 w)
    (h : evalAssignIndexExpr H ev i x v s w = Res.ok o) :
    StoreIn P o.s ∧ Framed P w0 o.w ∧ HandlesIn P o.val := by
  unfold evalAssignIndexExpr at h
  obtain ⟨t, ht, h⟩ := Res.bind_eq_ok h
  have hk0 := frame_indexTarget hev H i x s w t hs hw ht
  cases t with
  | inl out => simp at h; subst h; exact hk0
  | inr p =>
    obtain ⟨et, arr, idx, s1, w1⟩ := p
    simp only [] at h hk0
    obtain ⟨hs1, hw1, harr⟩ := hk0
    obtain ⟨r, hr, h⟩ := Res.bind_eq_ok h
    have hk := hev _ _ _ _ hs1 hw1 hr
    split at h
    · simp at h; subst h; exact hk
    · obtain ⟨te, _, h⟩ := Res.bind_eq_ok h
      obtain ⟨tv, _, h⟩ := Res.bind_eq_ok h
      split at h
      · simp at h; subst h; exact ⟨hk.1, hk.2.1, trivial⟩
      · simp at h; subst h
        exact ⟨hk.1.setIn _ _ harr, hk.2.1.writeF _ _ _ harr hk.2.2, trivial⟩

theorem frame_evalAssignExprIndexExpr {P : Nat → Prop} {w0 : World} {ev : Node → State → World → Res Out}
    (hev : EvFrame P w0 ev) (H : Host) (i : String) (x : Expr)
    (op : String) (v : Expr) (s : State) (w : World) (o : Out) (hs : StoreIn P s)
    (hw : Framed P w0 w) (h : evalAssignExprIndexExpr H ev i x op v s w = Res.ok o) :
    StoreIn P o.s ∧ Framed P w0 o.w ∧ HandlesIn P o.val := by
  unfold evalAssignExprIndexExpr at h
  obtain ⟨t, ht, h⟩ := Res.bind_eq_ok h
  have hk0 := frame_indexTarget hev H i x s w t hs hw ht
  cases t with
  | inl out => simp at h; subst h; exact hk0
  | inr p =>
    obtain ⟨et, arr, idx, s1, w1⟩ := p
    simp only [] at h hk0
    obtain ⟨hs1, hw1, harr⟩ := hk0
    obtain ⟨r, hr, h⟩ := Res.bind_eq_ok h
    have hk := hev _ _ _ _ hs1 hw1 hr
    split at h
    · simp at h; subst h; exact hk
    · obtain ⟨te, _, h⟩ := Res.bind_eq_ok h
      obtain ⟨tv, _, h⟩ := Res.bind_eq_ok h
      split at h
      · simp at h; subst h; exact ⟨hk.1, hk.2.1, trivial⟩
      · split at h
        · simp at h; subst h; exact ⟨hk.1, hk.2.1, trivial⟩
        · split at h
          · simp at h; subst h
            exact ⟨hk.1.setIn _ _ harr, hk.2.1.writeF _ _ _ harr hk.2.2, trivial⟩
          · split at h
            · obtain ⟨z, hz, h⟩ := Res.bind_eq_ok h
              simp at h; subst h
              exact ⟨hk.1.setIn _ _ harr,
                hk.2.1.writeF _ _ _ harr (infixInt_handles P H _ _ _ _ hz), trivial⟩
            · simp at h; subst h
              exact ⟨hk.1.setIn _ _ harr,
                hk.2.1.writeF _ _ _ harr (infixFloat_handles P H _ _ _), trivial⟩
            · simp at h; subst h
              exact ⟨hk.1.setIn _ _ harr,
                hk.2.1.writeF _ _ _ harr (infixString_handles P H _ _ _), trivial⟩
            · simp at h; subst h; exact ⟨hk.1, hk.2.1, trivial⟩

theorem frame_evalExpressions {P : Nat → Prop} {w0 : World} {ev : Node → State → World → Res Out}
    (hev : EvFrame P w0 ev) :
    ∀ (args : List Expr) (acc : List Object) (s : State) (w : World)
      (res : List Object × State × World), StoreIn P s → Framed P w0 w →
      (∀ a ∈ acc, HandlesIn P a) → evalExpressions ev args acc s w = Res.ok res →
      StoreIn P res.2.1 ∧ Framed P w0 res.2.2 ∧ ∀ a ∈ res.1, HandlesIn P a := by
  intro args
  induction args with
  | nil =>
    intro acc s w res hs hw hacc h
    simp [evalExpressions] at h
    subst h
    exact ⟨hs, hw, hacc⟩
  | cons a rest ih =>
    intro acc s w res hs hw hacc h
    simp only [evalExpressions] at h
    obtain ⟨e, he, h⟩ := Res.bind_eq_ok h
    have hk := hev _ _ _ _ hs hw he
    split at h
    · simp at h; subst h
      refine ⟨hk.1, hk.2.1, ?_⟩
      intro a ha
      simp at ha
      subst ha
      exact hk.2.2
    · refine ih _ _ _ _ hk.1 hk.2.1 ?_ h
      intro a ha
      rcases List.mem_append.1 ha with hm | hm
      · exact hacc a hm
      · simp at hm; subst hm; exact hk.2.2

theorem frame_evalArray {P : Nat → Prop} {w0 : World} {ev : Node → State → World → Res Out}
    (hev : EvFrame P w0 ev) (es : List Expr) (s : State) (w : World) (o : Out)
    (hs : StoreIn P s) (hw : Framed P w0 w) (h : evalArray ev es s w = Res.ok o) :
    StoreIn P o.s ∧ Framed P w0 o.w ∧ HandlesIn P o.val := by
  unfold evalArray at h
  obtain ⟨t, ht, h⟩ := Res.bind_eq_ok h
  have hk := frame_evalExpressions hev es [] s w t hs hw (fun a ha => by cases ha) ht
  obtain ⟨args, s1, w1⟩ := t
  simp only [] at h hk
  split at h
  · rename_i err herr
    simp at h; subst h
    exact ⟨hk.1, hk.2.1, singleError_handles P _ _ herr⟩
  · simp at h; subst h
    exact ⟨hk.1, (hk.2.1.allocF _ hk.2.2).1, (hk.2.1.allocF _ hk.2.2).2⟩

theorem checkArgs_handles (P : Nat → Prop) (H : Host) :
    ∀ (ps : List Param) (i : Nat) (args : List Object) (e : Object),
      checkArgs H i ps args = Res.ok (some e) → HandlesIn P e := by
  intro ps
  induction ps with
  | nil =>
    intro i args e h
    cases h
  | cons p ps ih =>
    intro i args e h
    cases args with
    | nil => cases h
    | cons a rest =>
      simp only [checkArgs] at h
      obtain ⟨ty, _, h⟩ := Res.bind_eq_ok h
      iterate 12 (
        all_goals try (first
          | (cases h; done)
          | (cases h; exact trivial)
          | (exact ih _ _ _ h)
          | (split at h)))

theorem checkCall_handles (P : Nat → Prop) (H : Host) (f : String) (ps : List Param)
    (args : List Object) (e : Object) (h : checkCall H f ps args = Res.ok (some e)) :
    HandlesIn P e := by
  unfold checkCall at h
  split at h
  · cases h; trivial
  · split at h
    · cases h; trivial
    · exact checkArgs_handles P H ps 0 args e h

/-- What a call does: it stops after the callee identifier, or it evaluates the
arguments and then either leaves every array as it is and yields an object without
array handle, or runs the body on the store that binds the parameters and the
functions of the caller. -/
theorem evalCall_world (H : Host) (ev : Node → State → World → Res Out) (fuel : Nat)
    (f : String) (args : List Expr) (s : State) (w : World) (o : Out)
    (h : evalCall H ev fuel f args s w = Res.ok o) :
    ∃ fo, ev (Node.expr (Expr.Identifier f)) s w = Res.ok fo ∧
      ((o.s = fo.s ∧ o.w = fo.w ∧ ∀ P, HandlesIn P o.val) ∨
       ∃ vals s1 w1, evalExpressions ev args [] fo.s fo.w = Res.ok (vals, s1, w1) ∧ o.s = s1 ∧
         ((o.w.cells = w1.cells ∧ ∀ P, HandlesIn P o.val) ∨
          ∃ ps body bound callState r, bindParams ps vals NewState = Res.ok bound ∧
            CopyFunctions bound s1 = Res.ok callState ∧
            ev (Node.stmt (Stmt.Block body)) callState w1 = Res.ok r ∧
            o.w = r.w ∧ o.val = unwrapReturn r.val)) := by
  unfold evalCall at h
  obtain ⟨fo, hfo, h⟩ := Res.bind_eq_ok h
  refine ⟨fo, hfo, ?_⟩
  split at h
  · rename_i herr
    simp at h; subst h
    refine Or.inl ⟨rfl, rfl, fun P => ?_⟩
    cases hv : fo.val <;> rw [hv] at herr <;> first | trivial | (simp [IsError] at herr)
  · obtain ⟨tf, _, h⟩ := Res.bind_eq_ok h
    split at h
    · simp at h; subst h; exact Or.inl ⟨rfl, rfl, fun _ => trivial⟩
    · obtain ⟨t, ht, h⟩ := Res.bind_eq_ok h
      obtain ⟨vals, s1, w1⟩ := t
      refine Or.inr ⟨vals, s1, w1, ht, ?_⟩
      simp only [] at h
      split at h
      · rename_i err herr
        simp at h; subst h
        exact ⟨rfl, Or.inl ⟨rfl, fun P => singleError_handles P _ _ herr⟩⟩
      · split at h
        · split at h
          · obtain ⟨y, hy, h⟩ := Res.bind_eq_ok h
            have hyP : ∀ e, y = some e → ∀ P, HandlesIn P e := fun e he P =>
              checkCall_handles P H _ _ _ e (he ▸ hy)
            split at h
            · simp at h; subst h
              exact ⟨rfl, Or.inl ⟨rfl, hyP _ rfl⟩⟩
            · split at h
              · obtain ⟨bound, hb, h⟩ := Res.bind_eq_ok h
                obtain ⟨callState, hc, h⟩ := Res.bind_eq_ok h
                obtain ⟨r, hr, h⟩ := Res.bind_eq_ok h
                split at h
                · rename_i v hv
                  simp at h; subst h
                  refine ⟨rfl, Or.inr ⟨_, _, bound, callState, r, hb, hc, hr, rfl, ?_⟩⟩
                  simp only [hv, unwrapReturn]
                · rename_i hv
                  simp at h; subst h
                  refine ⟨rfl, Or.inr ⟨_, _, bound, callState, r, hb, hc, hr, rfl, ?_⟩⟩
                  cases hr' : r.val <;> first | rfl | exact absurd hr' (hv _)
              · obtain ⟨p, hp, h⟩ := Res.bind_eq_ok h
                simp at h; subst h
                exact ⟨rfl, Or.inl ⟨(builtin_call_frame (fun _ => True) H fuel _ vals w1 _ _ hp).1,
                  fun P => (builtin_call_frame P H fuel _ vals w1 _ _ hp).2⟩⟩
              · simp at h; subst h
                exact ⟨rfl, Or.inl ⟨rfl, fun _ => trivial⟩⟩
          · obtain ⟨y, hy, h⟩ := Res.bind_eq_ok h
            cases hy
        · obtain ⟨y, hy, h⟩ := Res.bind_eq_ok h
          have hyP : ∀ e, y = some e → ∀ P, HandlesIn P e := by
            intro e he
            rw [he] at hy
            cases hy
          split at h
          · simp at h; subst h
            exact ⟨rfl, Or.inl ⟨rfl, hyP _ rfl⟩⟩
          · split at h
            · obtain ⟨bound, hb, h⟩ := Res.bind_eq_ok h
              obtain ⟨callState, hc, h⟩ := Res.bind_eq_ok h
              obtain ⟨r, hr, h⟩ := Res.bind_eq_ok h
              split at h
              · rename_i v hv
                simp at h; subst h
                refine ⟨rfl, Or.inr ⟨_, _, bound, callState, r, hb, hc, hr, rfl, ?_⟩⟩
                simp only [hv, unwrapReturn]
              · rename_i hv
                simp at h; subst h
                refine ⟨rfl, Or.inr ⟨_, _, bound, callState, r, hb, hc, hr, rfl, ?_⟩⟩
                cases hr' : r.val <;> first | rfl | exact absurd hr' (hv _)
            · obtain ⟨p, hp, h⟩ := Res.bind_eq_ok h
              simp at h; subst h
              exact ⟨rfl, Or.inl ⟨(builtin_call_frame (fun _ => True) H fuel _ vals w1 _ _ hp).1,
                fun P => (builtin_call_frame P H fuel _ vals w1 _ _ hp).2⟩⟩
            · simp at h; subst h
              exact ⟨rfl, Or.inl ⟨rfl, fun _ => trivial⟩⟩

theorem frame_evalCall {P : Nat → Prop} {w0 : World} {ev : Node → State → World → Res Out}
    (hev : EvFrame P w0 ev) (H : Host) (fuel : Nat) (f : String) (args : List Expr)
    (s : State) (w : World) (o : Out) (hs : StoreIn P s) (hw : Framed P w0 w)
    (h : evalCall H ev fuel f args s w = Res.ok o) :
    StoreIn P o.s ∧ Framed P w0 o.w ∧ HandlesIn P o.val := by
  obtain ⟨fo, hfo, hc⟩ := evalCall_world H ev fuel f args s w o h
  have hkf := hev _ _ _ _ hs hw hfo
  rcases hc with ⟨e1, e2, hv⟩ | ⟨vals, s1, w1, hex, e1, hc⟩
  · rw [e1, e2]; exact ⟨hkf.1, hkf.2.1, hv P⟩
  · have hka := frame_evalExpressions hev args [] _ _ _ hkf.1 hkf.2.1
      (fun a ha => by cases ha) hex
    simp only [] at hka
    rcases hc with ⟨e2, hv⟩ | ⟨ps, body, bound, cs, r, hb, hcs, hr, e2, e3⟩
    · rw [e1]; exact ⟨hka.1, hka.2.1.of_cells e2, hv P⟩
    · have hbs := bindParams_storeIn P ps vals NewState bound (StoreIn.newIn P) hka.2.2 hb
      have hcs' := copyFunctionsLoop_storeIn P s1 _ _ _ hbs hcs
      have hkr := hev _ _ _ _ hcs' hka.2.1 hr
      rw [e1, e2, e3]
      exact ⟨hka.1, hkr.2.1, unwrapReturn_handles P _ hkr.2.2⟩

/-- Evaluation from a store and a world that reach only arrays within `P` changes no
array outside `P`, and yields an object, a store and a world that reach only arrays
within `P`. -/
theorem Eval_frame (H : Host) (P : Nat → Prop) (w0 : World) :
    ∀ fuel : Nat, EvFrame P w0 (Eval H fuel) := by
  intro fuel
  induction fuel with
  | zero => exact fun n s w o _ _ h => by simp [Eval] at h
  | succ fuel ih =>
    intro n s w o hs hw h
    cases n with
    | Program p => exact frame_evalProgramLoop ih p Object.nil s w o hs hw trivial h
    | stmt st =>
      cases st with
      | nil => simp [Eval] at h; subst h; exact ⟨hs, hw, trivial⟩
      | FuncDecl t i ps b => exact frame_evalFuncDecl H t i ps b s w o hs hw h
      | VarDecl t i v ini => exact frame_evalVarDecl ih H t i v ini s w o hs hw h
      | Block b => exact frame_evalBlock ih b s w o hs hw h
      | While c b => exact frame_evalWhile ih H fuel c b s w o hs hw h
      | For i c inc b vd t id v => exact frame_evalFor ih H fuel i c inc b vd t id v s w o hs hw h
      | IfElse c a b ha => exact frame_evalIfElse ih H c a b ha s w o hs hw h
      | Return v vd => exact frame_evalReturn ih v vd s w o hs hw h
      | ExprStmt e => exact ih _ s w o hs hw h
    | expr e =>
      cases e with
      | nil => simp [Eval] at h; subst h; exact ⟨hs, hw, trivial⟩
      | PrefixExpr op r => exact frame_evalPrefixExpr ih H op r s w o hs hw h
      | InfixExpr l op r => exact frame_evalInfixExpr ih H l op r s w o hs hw h
      | Assign i v => exact frame_evalAssign ih H i v s w o hs hw h
      | AssignExpr i op v => exact frame_evalAssignExpr ih H i op v s w o hs hw h
      | Call f args vd => exact frame_evalCall ih H fuel f args s w o hs hw h
      | Identifier name =>
        simp [Eval] at h; subst h; exact ⟨hs, hw, evalIdent_handles P H name s hs⟩
      | CharCon v => simp [Eval] at h; subst h; exact ⟨hs, hw, trivial⟩
      | IntCon v => simp [Eval] at h; subst h; exact ⟨hs, hw, trivial⟩
      | FloatCon v => simp [Eval] at h; subst h; exact ⟨hs, hw, trivial⟩
      | StringCon v => simp [Eval] at h; subst h; exact ⟨hs, hw, trivial⟩
      | Bool v => simp [Eval] at h; subst h; exact ⟨hs, hw, trivial⟩
      | Array es => exact frame_evalArray ih es s w o hs hw h
      | IndexExpr i x => exact frame_evalIndexExpr ih H i x s w o hs hw h
      | AssignIndexExpr i x v => exact frame_evalAssignIndexExpr ih H i x v s w o hs hw h
      | AssignExprIndexExpr i x op v =>
        exact frame_evalAssignExprIndexExpr ih H i x op v s w o hs hw h

theorem Eval_identOrLit_handles (P : Nat → Prop) (H : Host) (n : Nat) (a : Expr) (s : State)
    (w : World) (e : Out) (ha : isIdentOrLit a = true)
    (hid : ∀ x v, a = Expr.Identifier x → s.Get x = some v → HandlesIn P v)
    (he : Eval H n (Node.expr a) s w = Res.ok e) : HandlesIn P e.val := by
  cases n with
  | zero => simp [Eval] at he
  | succ m =>
    cases a with
    | Identifier x =>
      rw [Eval_ident] at he
      cases he
      show HandlesIn P (evalIdent H x s)
      unfold evalIdent
      cases hg : s.Get x with
      | some v => exact hid x v rfl hg
      | none => cases builtins x <;> trivial
    | _ =>
      first
      | (simp [isIdentOrLit] at ha; done)
      | (simp [Eval] at he; subst he; exact trivial)

/-- The values of arguments that are identifiers or literals carry only the array
handles that the store binds to the identifiers among them. -/
theorem evalExpressions_identOrLit_handles (P : Nat → Prop) (H : Host) (n : Nat) (s : State)
    (w : World) :
    ∀ (args : List Expr) (acc : List Object) (res : List Object × State × World),
      (∀ a ∈ args, isIdentOrLit a = true) →
      (∀ x v, Expr.Identifier x ∈ args → s.Get x = some v → HandlesIn P v) →
      (∀ a ∈ acc, HandlesIn P a) →
      evalExpressions (Eval H n) args acc s w = Res.ok res → ∀ a ∈ res.1, HandlesIn P a := by
  intro args
  induction args with
  | nil =>
    intro acc res _ _ hacc h
    simp [evalExpressions] at h
    subst h
    exact hacc
  | cons a rest ih =>
    intro acc res hall hid hacc h
    simp only [evalExpressions] at h
    obtain ⟨e, he, h⟩ := Res.bind_eq_ok h
    obtain ⟨h1, h2⟩ := Eval_identOrLit H n a (hall a (List.mem_cons_self _ _)) s w e he
    have hv : HandlesIn P e.val :=
      Eval_identOrLit_handles P H n a s w e (hall a (List.mem_cons_self _ _))
        (fun x v hx hg => hid x v (hx ▸ List.mem_cons_self _ _) hg) he
    split at h
    · simp at h; subst h
      intro b hb
      simp at hb
      subst hb
      exact hv
    · rw [h1, h2] at h
      refine ih _ _ (fun x hx => hall x (List.mem_cons_of_mem _ hx))
        (fun x v hx => hid x v (List.mem_cons_of_mem _ hx)) ?_ h
      intro b hb
      rcases List.mem_append.1 hb with hm | hm
      · exact hacc b hm
      · simp at hm; subst hm; exact hv

/-- C3 (amended). A call whose argument expressions are identifiers or literals
hands the caller's store back as it was: every name is bound to the same object as
before the call (for an array: the same handle and element-type tag). Every array
that existed before the call keeps its length, and every such array that the callee
cannot reach keeps its contents: for every set `A` of handles that holds the handles
which the arguments carry and, with each of its arrays, the handles stored in that
array, an array outside `A` holds after the call what it held before. -/
theorem C3_call_keeps_caller_store (H : Host) (fuel : Nat) (f : String) (args : List Expr)
    (vd : Bool) (s : State) (w : World) (o : Out)
    (hargs : ∀ a ∈ args, isIdentOrLit a = true)
    (h : Eval H fuel (Node.expr (Expr.Call f args vd)) s w = Res.ok o) :
    o.s = s ∧
    ∀ A : Nat → Prop,
      (∀ x v, Expr.Identifier x ∈ args → s.Get x = some v → HandlesIn A v) →
      (∀ r, A r → ∀ x ∈ w.elems r, HandlesIn A x) →
      ∀ r, r < w.cells.length →
        (o.w.elems r).length = (w.elems r).length ∧ (¬ A r → o.w.elems r = w.elems r) := by
  cases fuel with
  | zero => simp [Eval] at h
  | succ n =>
    have h' : evalCall H (Eval H n) n f args s w = Res.ok o := h
    obtain ⟨fo, hfo, hc⟩ := evalCall_world H (Eval H n) n f args s w o h'
    obtain ⟨h1, h2⟩ := Eval_identOrLit H n (Expr.Identifier f) rfl s w fo hfo
    rcases hc with ⟨e1, e2, _⟩ | ⟨vals, s1, w1, hex, e1, hc⟩
    · refine ⟨by rw [e1, h1], fun A _ _ r _ => ?_⟩
      rw [e2, h2]
      exact ⟨rfl, fun _ => rfl⟩
    · rw [h1, h2] at hex
      obtain ⟨e3, e4⟩ := evalExpressions_identOrLit H n args [] s w _ hargs hex
      simp only [] at e3 e4
      subst e3
      subst e4
      refine ⟨e1, fun A hA hcl r hr => ?_⟩
      rcases hc with ⟨e2, _⟩ | ⟨ps, body, bound, cs, rr, hb, hcs, hrr, e2, _⟩
      · have e : o.w.elems r = w1.elems r := by simp [World.elems, e2]
        rw [e]
        exact ⟨rfl, fun _ => rfl⟩
      · have hmono : ∀ x, HandlesIn A x → HandlesIn (fun r => A r ∨ w1.cells.length ≤ r) x :=
          HandlesIn.mono (fun _ ha => Or.inl ha)
        have hw : Framed (fun r => A r ∨ w1.cells.length ≤ r) w1 w1 :=
          Framed.sameF (fun r hr => Or.inr hr) (by
            intro r0 hr0 x hx
            rcases hr0 with ha | hl
            · exact hmono x (hcl r0 ha x hx)
            · rw [World.elems_high _ _ hl] at hx; cases hx)
        have hvals : ∀ a ∈ vals, HandlesIn (fun r => A r ∨ w1.cells.length ≤ r) a :=
          evalExpressions_identOrLit_handles _ H n s1 w1 args [] _ hargs
            (fun x v hx hg => hmono v (hA x v hx hg)) (fun a ha => by cases ha) hex
        have hbs := bindParams_storeIn _ ps vals NewState bound (StoreIn.newIn _) hvals hb
        have hcs1 := copyFunctionsLoop_storeIn _ s1 _ _ _ hbs hcs
        have hkr := Eval_frame H _ w1 n _ _ _ _ hcs1 hw hrr
        rw [e2]
        refine ⟨hkr.2.1.2.2.2.2 r hr, fun hna => hkr.2.1.2.2.2.1 r ?_⟩
        rintro (ha | hl)
        · exact hna ha
        · omega

/-- C3, witness: in a store with the arrays `a` and `b`, the call `f(a)` of
`void f(int p[]) { p[0] = 9; }` hands the store back, changes `a[0]` from 1 to 9 and
leaves the array `b` as it was. -/
theorem C3_call_keeps_caller_store_witness :
    (∀ a ∈ [Expr.Identifier "a"], isIdentOrLit a = true) ∧
    ∃ o, Eval sampleHost 6 (Node.expr (Expr.Call "f" [Expr.Identifier "a"] true))
        storeABF worldAB = Res.ok o ∧
      o.s = storeABF ∧ o.w.elems 0 = [Object.Int 9] ∧
      (o.w.elems 0).length = (worldAB.elems 0).length ∧
      o.w.elems 1 = worldAB.elems 1 := by
  have hargs : ∀ a ∈ [Expr.Identifier "a"], isIdentOrLit a = true := by simp [isIdentOrLit]
  have hrun : Eval sampleHost 6 (Node.expr (Expr.Call "f" [Expr.Identifier "a"] true))
      storeABF worldAB
      = Res.ok ⟨Object.nil, storeABF, ⟨[[Object.Int 9], [Object.Int 2]], 0, []⟩⟩ := rfl
  have hc := C3_call_keeps_caller_store sampleHost 6 "f" [Expr.Identifier "a"] true storeABF
    worldAB _ hargs hrun
  have hA : ∀ x v, Expr.Identifier x ∈ [Expr.Identifier "a"] → storeABF.Get x = some v →
      HandlesIn (fun r => r = 0) v := by
    intro x v hx hg
    simp at hx
    subst hx
    have e : storeABF.Get "a" = some (Object.Array "int" 0) := rfl
    rw [e] at hg
    cases hg
    rfl
  have hcl : ∀ r, (fun r => r = 0) r → ∀ x ∈ worldAB.elems r, HandlesIn (fun r => r = 0) x := by
    intro r hr x hx
    have e : r = 0 := hr
    subst e
    have e1 : worldAB.elems 0 = [Object.Int 1] := rfl
    rw [e1] at hx
    simp at hx
    subst hx
    trivial
  exact ⟨hargs, _, hrun, hc.1, rfl,
    (hc.2 (fun r => r = 0) hA hcl 0 (by decide)).1,
    (hc.2 (fun r => r = 0) hA hcl 1 (by decide)).2 (by decide)⟩

-- (end of theorems)

end Ariel
